import Mathlib

/-!
# motan-go: the mesh codec (`serialize/mesh/mesh.go`) and the legacy codec
(`serialize/motan.go`), the access-log formatter (`filter/layout.go`), the
HTTP endpoint (`endpoint/httpEndpoint.go`), the reverse-proxy provider
(`provider/reverseProxyProvider.go`), the HTTP proxy server
(`server/httpProxyServer.go`) and the resolver (`http/dns.go`)

A shallow embedding of the two serializers over a model of the byte buffer
they share, of the formatter, and of the control flow of the endpoint, the
provider, the proxy server and the resolver, followed by theorems about them.

Representation choices, used throughout:

* a byte is a `Nat`: `WriteByte` reduces its argument modulo 256, the contents
  of strings and byte slices are copied as they are;
* in the codecs a Go string is the list of its bytes, so that `[]byte(s)` and `string(b)`
  are the identity;
* a signed integer of width `w` is an `Int`; the conversions `uintN(i)` and
  `intN(u)` are `toUnsigned w` and `toSigned w`;
* a float is its IEEE-754 bit pattern: `math.Float32bits`,
  `math.Float32frombits` and the 64-bit pair are the identity on patterns; the
  conversion `float32(rv.Float())` of the encoders is `convFloat32`, which is
  exact on every number and infinity and sets the quiet bit of a NaN, as amd64
  and arm64 do;
* a Go map is the list of its entries in iteration order; the order is
  arbitrary, the keys are pairwise different; a key that is a NaN differs from
  itself, so that `v.MapIndex` does not find it;
* a nil slice or map and an empty one are the same value: the code only ever
  takes their length or ranges over them;
* in the formatter, the endpoint, the provider, the proxy server and the
  resolver a Go string is the list of its runes (`List Char`): the formatter
  ranges over the runes of its layout, the resolver tests bytes of the ASCII
  range only, and the others only compare and concatenate strings;
* what these five call outside the sources (the HTTP client, the cluster, the
  location matcher, the translation between RPC and HTTP messages, the clock,
  the file system, the DNS client) is a parameter of the definition that calls
  it; the health-check loop of the endpoint is a function of the answers its
  attempts get.
-/

namespace Motan

/-! ## Errors -/

/-- The error values the codec can return.  `EOF` is `io.EOF`, `ErrNotEnough`
is `motan.ErrNotEnough`; `tagExpected what tag` is the message
`what ++ " tag expected, but actual tag is " ++ tag` built by the typed
decoders; `goPanic` stands for a run-time panic (a nil pointer target, an
unhashable map key); `outOfFuel` is the model running out of recursion fuel
and corresponds to no behaviour of the program. -/
inductive Err where
  | EOF
  | ErrNotEnough
  | ErrTypeUnsupported
  | ErrWrongSize
  | MotanSerializationErrNotSupport
  | tagExpected (what : String) (tag : Nat)
  | goPanic
  | outOfFuel
  deriving DecidableEq

/-! ## core.BytesBuffer -/

/-- Modelled from the spec: `core.BytesBuffer` (the ByteBuffer of §3, the
ByteCursor of §4.1), whose source file, in package `core`, is not among the
sources at hand.  A byte
vector with independent read and write positions. -/
structure BytesBuffer where
  buf : List Nat
  rpos : Nat
  wpos : Nat
  deriving DecidableEq

/-- Modelled from the spec: overwrite `bs` into `buf` starting at `pos`,
growing the vector (with zero bytes) when it is too short: "writes never fail
in-memory (grow the buffer)". -/
def writeAt (buf : List Nat) (pos : Nat) (bs : List Nat) : List Nat :=
  buf.take pos ++ List.replicate (pos - buf.length) 0 ++ bs ++ buf.drop (pos + bs.length)

/-- Modelled from the spec: `NewBytesBuffer(initsize)`, an empty buffer; the
initial capacity is not observable. -/
def NewBytesBuffer (_initsize : Nat) : BytesBuffer := ⟨[], 0, 0⟩

/-- Modelled from the spec: `CreateBytesBuffer(data)`, a buffer holding
`data`, to be read from the start. -/
def CreateBytesBuffer (data : List Nat) : BytesBuffer := ⟨data, 0, data.length⟩

namespace BytesBuffer

/-- Modelled from the spec: `Bytes()`, the bytes written so far. -/
def Bytes (b : BytesBuffer) : List Nat := b.buf.take b.wpos

/-- Modelled from the spec: `remain`. -/
def Remain (b : BytesBuffer) : Nat := b.wpos - b.rpos

/-- Modelled from the spec: `get_rpos`. -/
def GetRPos (b : BytesBuffer) : Nat := b.rpos

/-- Modelled from the spec: `get_wpos`. -/
def GetWPos (b : BytesBuffer) : Nat := b.wpos

/-- Modelled from the spec: `set_rpos`. -/
def SetRPos (b : BytesBuffer) (pos : Nat) : BytesBuffer := { b with rpos := pos }

/-- Modelled from the spec: `set_wpos`; seeking past the end grows the
vector. -/
def SetWPos (b : BytesBuffer) (pos : Nat) : BytesBuffer :=
  { b with buf := b.buf ++ List.replicate (pos - b.buf.length) 0, wpos := pos }

/-- Modelled from the spec: `write_bytes`. -/
def Write (b : BytesBuffer) (bs : List Nat) : BytesBuffer :=
  { b with buf := writeAt b.buf b.wpos bs, wpos := b.wpos + bs.length }

/-- Modelled from the spec: `write_byte`. -/
def WriteByte (b : BytesBuffer) (c : Nat) : BytesBuffer := b.Write [c % 256]

end BytesBuffer

/-- Modelled from the spec: the big-endian bytes of the low `8 * n` bits of
`u`, most significant byte first. -/
def bigEndian : Nat → Nat → List Nat
  | 0, _ => []
  | n + 1, u => bigEndian n (u / 256) ++ [u % 256]

/-- Modelled from the spec: the value of a big-endian byte string. -/
def fromBigEndian (bs : List Nat) : Nat := bs.foldl (fun acc b => acc * 256 + b) 0

/-- Modelled from the spec: a base-128 varint, least significant group first,
continuation bit in the most significant bit of each byte but the last.  The
first argument bounds the number of continuation bytes. -/
def varintAux : Nat → Nat → List Nat
  | 0, u => [u]
  | f + 1, u => if u < 128 then [u] else (u % 128 + 128) :: varintAux f (u / 128)

/-- Modelled from the spec: the varint of a 64-bit value, which has at most
nine continuation bytes. -/
def varintBytes (u : Nat) : List Nat := varintAux 9 u

/-- Modelled from the spec: the zig-zag transform `(n << 1) XOR (n >> k-1)` of
a `k`-bit signed integer given by its unsigned representation `u`: the
arithmetic shift yields all ones for a negative `n` and zero otherwise. -/
def zigzag (k : Nat) (u : Nat) : Nat :=
  ((u <<< 1) % 2 ^ k) ^^^ (if 2 ^ (k - 1) ≤ u % 2 ^ k then 2 ^ k - 1 else 0)

/-- Modelled from the spec: the inverse zig-zag transform on `k` bits,
`(x >> 1) XOR -(x & 1)`. -/
def unzigzag (k : Nat) (x : Nat) : Nat :=
  ((x % 2 ^ k) >>> 1) ^^^ (if x % 2 = 1 then 2 ^ k - 1 else 0)

/-- Modelled from the spec: read a varint from a byte list; the result is the
value (truncated to 64 bits by the caller) and the number of bytes taken, or
`none` when the bytes run out before a byte without continuation bit. -/
def readVarintList : List Nat → Option (Nat × Nat)
  | [] => none
  | b :: rest =>
    if b < 128 then some (b, 1)
    else match readVarintList rest with
      | none => none
      | some (x, n) => some (b % 128 + 128 * x, n + 1)

namespace BytesBuffer

/-- Modelled from the spec: `write_u16_be`. -/
def WriteUint16 (b : BytesBuffer) (u : Nat) : BytesBuffer := b.Write (bigEndian 2 u)

/-- Modelled from the spec: `write_u32_be`. -/
def WriteUint32 (b : BytesBuffer) (u : Nat) : BytesBuffer := b.Write (bigEndian 4 u)

/-- Modelled from the spec: `write_u64_be`. -/
def WriteUint64 (b : BytesBuffer) (u : Nat) : BytesBuffer := b.Write (bigEndian 8 u)

/-- Modelled from the spec: write a varint. -/
def WriteVarint (b : BytesBuffer) (u : Nat) : BytesBuffer := b.Write (varintBytes (u % 2 ^ 64))

/-- Modelled from the spec: `write_zigzag32`, of the unsigned representation
of a 32-bit integer. -/
def WriteZigzag32 (b : BytesBuffer) (u : Nat) : BytesBuffer := b.WriteVarint (zigzag 32 u)

/-- Modelled from the spec: `write_zigzag64`. -/
def WriteZigzag64 (b : BytesBuffer) (u : Nat) : BytesBuffer := b.WriteVarint (zigzag 64 u)

/-- The bytes between the read and the write position. -/
def unread (b : BytesBuffer) : List Nat := (b.buf.take b.wpos).drop b.rpos

/-- Modelled from the spec: `read_byte`; past `wpos` it fails with the
end-of-input error that `DeSerializeMulti` tests for. -/
def ReadByte (b : BytesBuffer) : Except Err (Nat × BytesBuffer) :=
  if b.rpos < b.wpos then .ok (b.buf.getD b.rpos 0, { b with rpos := b.rpos + 1 })
  else .error .EOF

/-- Modelled from the spec: `read_n(size)`; past `wpos` it fails. -/
def Next (b : BytesBuffer) (n : Nat) : Except Err (List Nat × BytesBuffer) :=
  if n ≤ b.Remain then .ok ((b.buf.drop b.rpos).take n, { b with rpos := b.rpos + n })
  else .error .ErrNotEnough

/-- Modelled from the spec: `read_u16_be`. -/
def ReadUint16 (b : BytesBuffer) : Except Err (Nat × BytesBuffer) :=
  match b.Next 2 with
  | .ok (bs, b1) => .ok (fromBigEndian bs, b1)
  | .error e => .error e

/-- Modelled from the spec: `read_u32_be`. -/
def ReadUint32 (b : BytesBuffer) : Except Err (Nat × BytesBuffer) :=
  match b.Next 4 with
  | .ok (bs, b1) => .ok (fromBigEndian bs, b1)
  | .error e => .error e

/-- Modelled from the spec: `read_u64_be`. -/
def ReadUint64 (b : BytesBuffer) : Except Err (Nat × BytesBuffer) :=
  match b.Next 8 with
  | .ok (bs, b1) => .ok (fromBigEndian bs, b1)
  | .error e => .error e

/-- Modelled from the spec: read a varint, byte by byte; running out of bytes
is the end-of-input error of `read_byte`. -/
def ReadVarint (b : BytesBuffer) : Except Err (Nat × BytesBuffer) :=
  match readVarintList b.unread with
  | some (x, n) => .ok (x % 2 ^ 64, { b with rpos := b.rpos + n })
  | none => .error .EOF

/-- Modelled from the spec: `read_zigzag32`; the 32-bit result is returned in
a `uint64`, as the callers in `mesh.go` require. -/
def ReadZigzag32 (b : BytesBuffer) : Except Err (Nat × BytesBuffer) :=
  match b.ReadVarint with
  | .ok (x, b1) => .ok (unzigzag 32 x, b1)
  | .error e => .error e

/-- Modelled from the spec: `read_zigzag64`. -/
def ReadZigzag64 (b : BytesBuffer) : Except Err (Nat × BytesBuffer) :=
  match b.ReadVarint with
  | .ok (x, b1) => .ok (unzigzag 64 x, b1)
  | .error e => .error e

end BytesBuffer

/-! ## Machine integers -/

/-- The conversion `uintN(i)` of a signed integer: its value modulo `2 ^ w`. -/
def toUnsigned (w : Nat) (i : Int) : Nat := (i % (2 ^ w : Int)).toNat

/-- The conversion `intN(u)` of an unsigned integer: the value modulo `2 ^ w`
read in two's complement. -/
def toSigned (w : Nat) (u : Nat) : Int :=
  if u % 2 ^ w < 2 ^ (w - 1) then ((u % 2 ^ w : Nat) : Int) else ((u % 2 ^ w : Nat) : Int) - (2 ^ w : Int)

/-! ## serialize/mesh/mesh.go: tags and values -/

def TFalse : Nat := 0
def TTrue : Nat := 1
def TNull : Nat := 2
def TByte : Nat := 3
def TString : Nat := 4
def TByteArray : Nat := 5
def TInt16 : Nat := 6
def TInt32 : Nat := 7
def TInt64 : Nat := 8
def TFloat32 : Nat := 9
def TFloat64 : Nat := 10
def TArray : Nat := 20
def TArrayEnd : Nat := 21
def TMap : Nat := 22
def TMapEnd : Nat := 23
def TPackedArray : Nat := 24
def TPackedMap : Nat := 25
def TMessage : Nat := 26

def MotanSerializationDefaultBufferSize : Nat := 2048

/-- A Go value as the codec sees it through `interface{}`.

`null` is the nil interface; `int` is the platform `int` (64 bits); `seq` is a
slice whose element type is not `uint8` (a `[]T` or a `[]interface{}`: the
encoder treats their elements alike, and only a `[]interface{}` can hold
`null`); `bytes` is a `[]uint8`; `msg` is a `*GenericMessage` with its `fields`
map; `other` is a value of any kind the codec has no case for (an unsigned
integer wider than a byte, a struct, a pointer, ...). -/
inductive Value where
  | null
  | bool (b : Bool)
  | byte (n : Nat)
  | int16 (i : Int)
  | int32 (i : Int)
  | int64 (i : Int)
  | int (i : Int)
  | float32 (bits : Nat)
  | float64 (bits : Nat)
  | str (s : List Nat)
  | bytes (b : List Nat)
  | seq (xs : List Value)
  | map (kvs : List (Value × Value))
  | msg (fields : List (Nat × Value))
  | other

/-! ## serialize/mesh/mesh.go: the encoder -/

/-- Whether a float32 bit pattern is a NaN. -/
def isNaN32 (b : Nat) : Bool := b / 2 ^ 23 % 2 ^ 8 = 255 ∧ b % 2 ^ 23 ≠ 0

/-- Whether a float64 bit pattern is a NaN. -/
def isNaN64 (b : Nat) : Bool := b / 2 ^ 52 % 2 ^ 11 = 2047 ∧ b % 2 ^ 52 ≠ 0

/-- Go's `==` on two map keys held in `interface{}`: same dynamic type and
equal values; floats compare as IEEE-754 numbers (a NaN differs from itself,
the two zeros are equal).  Values that cannot be keys compare unequal. -/
def keyEq : Value → Value → Bool
  | .null, .null => true
  | .bool a, .bool b => a = b
  | .byte a, .byte b => a = b
  | .int16 a, .int16 b => a = b
  | .int32 a, .int32 b => a = b
  | .int64 a, .int64 b => a = b
  | .int a, .int b => a = b
  | .float32 a, .float32 b => !isNaN32 a && !isNaN32 b && (a = b || (a % 2 ^ 31 = 0 && b % 2 ^ 31 = 0))
  | .float64 a, .float64 b => !isNaN64 a && !isNaN64 b && (a = b || (a % 2 ^ 63 = 0 && b % 2 ^ 63 = 0))
  | .str a, .str b => a = b
  | _, _ => false

/-- The conversion `float32(rv.Float())` of a `float32`, on bit patterns:
`rv.Float()` widens the `float32` to a `float64` and the conversion narrows it
again.  Both steps are exact on every number and infinity.  On a NaN the
widening sets the quiet bit (bit 22) and both steps keep the sign and the rest
of the pattern (amd64 and arm64): the signalling NaN `0x7FA00000` becomes
`0x7FE00000`, a quiet NaN is unchanged. -/
def convFloat32 (b : Nat) : Nat :=
  if isNaN32 b && b / 2 ^ 22 % 2 = 0 then b + 2 ^ 22 else b

def EncodeStringNoTag (str : List Nat) (buf : BytesBuffer) : BytesBuffer :=
  (buf.WriteZigzag32 (str.length % 2 ^ 32)).Write str

def EncodeString (str : List Nat) (buf : BytesBuffer) : BytesBuffer :=
  EncodeStringNoTag str (buf.WriteByte TString)

def EncodeBytes (b : List Nat) (buf : BytesBuffer) : BytesBuffer :=
  ((buf.WriteByte TByteArray).WriteZigzag32 (b.length % 2 ^ 32)).Write b

def EncodeBool (b : Bool) (buf : BytesBuffer) : BytesBuffer :=
  if b then buf.WriteByte TTrue else buf.WriteByte TFalse

def EncodeByte (i : Nat) (buf : BytesBuffer) : BytesBuffer :=
  (buf.WriteByte TByte).WriteByte i

def EncodeInt16 (i : Int) (buf : BytesBuffer) : BytesBuffer :=
  (buf.WriteByte TInt16).WriteUint16 (toUnsigned 16 i)

def EncodeInt32 (i : Int) (buf : BytesBuffer) : BytesBuffer :=
  (buf.WriteByte TInt32).WriteZigzag32 (toUnsigned 32 i)

def EncodeInt64 (i : Int) (buf : BytesBuffer) : BytesBuffer :=
  (buf.WriteByte TInt64).WriteZigzag64 (toUnsigned 64 i)

def EncodeFloat32 (f : Nat) (buf : BytesBuffer) : BytesBuffer :=
  (buf.WriteByte TFloat32).WriteUint32 f

def EncodeFloat64 (f : Nat) (buf : BytesBuffer) : BytesBuffer :=
  (buf.WriteByte TFloat64).WriteUint64 f

/-- Method `(*GenericMessage).Marshal`, given its loop over the fields: the tag, four
bytes kept for the length, the fields, and the length written back at the
position kept for it. -/
def GenericMessage.MarshalWith (loop : BytesBuffer → BytesBuffer × Option Err) (buf : BytesBuffer) :
    BytesBuffer × Option Err :=
  let buf1 := buf.WriteByte TMessage
  let pos := buf1.GetWPos
  let buf2 := buf1.SetWPos (pos + 4)
  match loop buf2 with
  | (buf3, some err) => (buf3, some err)
  | (buf3, none) =>
    let nPos := buf3.GetWPos
    let buf4 := buf3.SetWPos pos
    let buf5 := buf4.WriteUint32 ((nPos - pos - 4) % 2 ^ 32)
    (buf5.SetWPos nPos, none)

mutual

/-- Function `SerializeBuf(v, buf)`.  The flag `reflected` tells how `v` reaches the
function: `false` for a plain `interface{}` argument (the callers
`Serialize`, `SerializeMulti` and `GenericMessage.Marshal`), `true` for the
`reflect.Value` of a slice element, a map key or a map value (the callers
`EncodeArray` and `EncodeMap`).  A `reflect.Value` is never `== nil` and never
a `Message`, so for it the two first tests fail; its kind is then `Interface`
for an element of interface type, unwrapped once, which gives kind `Invalid`
for a nil element and `Ptr` for a message: both end in `default`.
The result is the buffer after the call and the error returned, if any. -/
def SerializeBuf (reflected : Bool) (v : Value) (buf : BytesBuffer) : BytesBuffer × Option Err :=
  match v with
  | .null => if reflected then (buf, some .ErrTypeUnsupported) else (buf.WriteByte TNull, none)
  | .msg fields =>
    if reflected then (buf, some .ErrTypeUnsupported)
    else GenericMessage.MarshalWith (marshalFields fields) buf
  | .str s => (EncodeString s buf, none)
  | .bool b => (EncodeBool b buf, none)
  | .byte n => (EncodeByte n buf, none)
  | .int16 i => (EncodeInt16 i buf, none)
  | .int32 i => (EncodeInt32 i buf, none)
  | .int i => (EncodeInt64 i buf, none)
  | .int64 i => (EncodeInt64 i buf, none)
  | .float32 f => (EncodeFloat32 (convFloat32 f) buf, none)
  | .float64 f => (EncodeFloat64 f buf, none)
  | .bytes b => (EncodeBytes b buf, none)
  | .seq xs =>
    -- EncodeArray
    match encodeElems xs (buf.WriteByte TArray) with
    | (buf1, some err) => (buf1, some err)
    | (buf1, none) => (buf1.WriteByte TArrayEnd, none)
  | .map kvs =>
    -- EncodeMap
    match encodeEntries kvs (buf.WriteByte TMap) with
    | (buf1, some err) => (buf1, some err)
    | (buf1, none) => (buf1.WriteByte TMapEnd, none)
  | .other => (buf, some .ErrTypeUnsupported)

/-- The loop of `EncodeArray`: `SerializeBuf(v.Index(i), buf)` for each
element in turn, stopping at the first error. -/
def encodeElems (xs : List Value) (buf : BytesBuffer) : BytesBuffer × Option Err :=
  match xs with
  | [] => (buf, none)
  | x :: rest =>
    match SerializeBuf true x buf with
    | (buf1, some err) => (buf1, some err)
    | (buf1, none) => encodeElems rest buf1

/-- The loop of `EncodeMap`: for each key `mk` of `v.MapKeys()`, the key and
then `v.MapIndex(mk)`, stopping at the first error.  The keys of a map being
pairwise different, `v.MapIndex(mk)` is the value of the entry at hand when
`mk == mk`; when `mk` differs from itself (a NaN) the lookup finds nothing and
gives the zero `reflect.Value`, of kind `Invalid`, on which `SerializeBuf` ends
in `default`, after the key was written. -/
def encodeEntries (kvs : List (Value × Value)) (buf : BytesBuffer) : BytesBuffer × Option Err :=
  match kvs with
  | [] => (buf, none)
  | (k, v) :: rest =>
    match SerializeBuf true k buf with
    | (buf1, some err) => (buf1, some err)
    | (buf1, none) =>
      if keyEq k k then
        match SerializeBuf true v buf1 with
        | (buf2, some err) => (buf2, some err)
        | (buf2, none) => encodeEntries rest buf2
      else (buf1, some .ErrTypeUnsupported)

/-- The loop of `GenericMessage.Marshal`: for each field of `m.fields` that is
not nil, the field number and then `SerializeBuf(v, buf)`. -/
def marshalFields (fields : List (Nat × Value)) (buf : BytesBuffer) : BytesBuffer × Option Err :=
  match fields with
  | [] => (buf, none)
  | (k, v) :: rest =>
    match v with
    | .null => marshalFields rest buf
    | v =>
      match SerializeBuf false v (buf.WriteZigzag32 k) with
      | (buf1, some err) => (buf1, some err)
      | (buf1, none) => marshalFields rest buf1

end

/-- Method `(*GenericMessage).Marshal` of a message with the given `fields`. -/
def GenericMessage.Marshal (fields : List (Nat × Value)) (buf : BytesBuffer) : BytesBuffer × Option Err :=
  GenericMessage.MarshalWith (marshalFields fields) buf

/-- Method `(*Serialization).Serialize`: the bytes of the buffer and the error. -/
def Serialization.Serialize (v : Value) : List Nat × Option Err :=
  let buf := NewBytesBuffer MotanSerializationDefaultBufferSize
  let r := SerializeBuf false v buf
  (r.1.Bytes, r.2)

/-- The loop of `SerializeMulti`. -/
def serializeMultiLoop (v : List Value) (buf : BytesBuffer) : BytesBuffer × Option Err :=
  match v with
  | [] => (buf, none)
  | o :: rest =>
    match SerializeBuf false o buf with
    | (buf1, some err) => (buf1, some err)
    | (buf1, none) => serializeMultiLoop rest buf1

/-- Method `(*Serialization).SerializeMulti`: `(nil, nil)` for an empty list,
`(nil, err)` at the first error, the bytes of the buffer otherwise. -/
def Serialization.SerializeMulti (v : List Value) : List Nat × Option Err :=
  if v.length = 0 then ([], none)
  else
    match serializeMultiLoop v (NewBytesBuffer MotanSerializationDefaultBufferSize) with
    | (_, some err) => ([], some err)
    | (buf, none) => (buf.Bytes, none)

/-! ## serialize/mesh/mesh.go: decoding targets -/

/-- The Go types a decoding target can describe.  `iface` is `interface{}`;
`other` is any type of another kind (it stands for types that do not implement
`Message`). -/
inductive GoType where
  | bool | uint8 | int16 | int32 | int64 | int | float32 | float64 | string
  | iface
  | slice (elem : GoType)
  | map (key val : GoType)
  | other
  deriving DecidableEq

/-- The argument `v interface{}` of the decoders: untyped `nil`; a
`reflect.Type`; a non-nil pointer to a variable of type `t`; a nil pointer of
type `*t`; a non-pointer value of type `t`; a `*GenericMessage` with its
current fields. -/
inductive Target where
  | nil
  | type (t : GoType)
  | ptr (t : GoType)
  | nilPtr (t : GoType)
  | value (t : GoType)
  | message (fields : List (Nat × Value))

/-- The zero value of a type, held by a variable made with `reflect.New`. -/
def zeroValue : GoType → Value
  | .bool => .bool false
  | .uint8 => .byte 0
  | .int16 => .int16 0
  | .int32 => .int32 0
  | .int64 => .int64 0
  | .int => .int 0
  | .float32 => .float32 0
  | .float64 => .float64 0
  | .string => .str []
  | .iface => .null
  | .slice .uint8 => .bytes []
  | .slice _ => .seq []
  | .map _ _ => .map []
  | .other => .other

/-- The byte held by a `uint8` variable. -/
def byteOf : Value → Nat
  | .byte n => n
  | _ => 0

/-- The slice of type `[]elem` with the given elements: a `[]uint8` is
`bytes`. -/
def mkSlice (elem : GoType) (xs : List Value) : Value :=
  match elem with
  | .uint8 => .bytes (xs.map byteOf)
  | _ => .seq xs

/-- What a decoder that assigns through a `*t` does with target `v` and
decoded value `x`: the assignment (`some x`) when `v` is a non-nil `*t`, a
nil dereference when `v` is a nil `*t`, nothing otherwise. -/
def storeAt (v : Target) (t : GoType) (x : Value) : Except Err (Option Value) :=
  match v with
  | .ptr t1 => if t1 = t then .ok (some x) else .ok none
  | .nilPtr t1 => if t1 = t then .error .goPanic else .ok none
  | _ => .ok none

/-- Whether a value can be a key of a Go map: slices and maps cannot. -/
def hashable : Value → Bool
  | .bytes _ => false
  | .seq _ => false
  | .map _ => false
  | .other => false
  | _ => true

/-- The effect of `resultMap.SetMapIndex(key, value)` on the entries of a map:
an existing entry with an equal key gets the new value, a new key adds an
entry. -/
def setMapIndex : List (Value × Value) → Value → Value → List (Value × Value)
  | [], k, v => [(k, v)]
  | (k1, v1) :: rest, k, v =>
    if keyEq k1 k then (k1, v) :: rest else (k1, v1) :: setMapIndex rest k v

/-- The effect of `m.fields[field] = v` on the fields of a message. -/
def SetField : List (Nat × Value) → Nat → Value → List (Nat × Value)
  | [], k, v => [(k, v)]
  | (k1, v1) :: rest, k, v =>
    if k1 = k then (k1, v) :: rest else (k1, v1) :: SetField rest k v

/-- The outcome of a decoder.  Without error: the value returned, the value
assigned through the target when there is an assignment, and the buffer
afterwards.  With an error: the error and the value returned along with it
(the zero value of the decoder's result type, `null` for a nil interface);
what happened to the target and to the buffer before the error is not
recorded. -/
abbrev Decoded := Except (Err × Value) (Value × Option Value × BytesBuffer)

/-! ## serialize/mesh/mesh.go: the decoders of scalars -/

def DecodeBool (buf : BytesBuffer) (v : Target) : Decoded :=
  match buf.ReadByte with
  | .error err => .error (err, .bool false)
  | .ok (b, buf1) =>
    let ret : Except Err Bool :=
      if b = TTrue then .ok true
      else if b = TFalse then .ok false
      else .error (.tagExpected "byte" b)
    match ret with
    | .error err => .error (err, .bool false)
    | .ok ret =>
      match storeAt v .bool (.bool ret) with
      | .error err => .error (err, .bool false)
      | .ok st => .ok (.bool ret, st, buf1)

def DecodeString (buf : BytesBuffer) (v : Target) : Decoded :=
  match buf.ReadByte with
  | .error err => .error (err, .str [])
  | .ok (tag, buf1) =>
    if tag = TNull then .ok (.str [], none, buf1)
    else if tag ≠ TString then .error (.tagExpected "string" tag, .str [])
    else
      match buf1.ReadZigzag32 with
      | .error err => .error (err, .str [])
      | .ok (size, buf2) =>
        match buf2.Next size with
        | .error _ => .error (.ErrNotEnough, .str [])
        | .ok (b, buf3) =>
          match storeAt v .string (.str b) with
          | .error err => .error (err, .str [])
          | .ok st => .ok (.str b, st, buf3)

def DecodeBytes (buf : BytesBuffer) (v : Target) : Decoded :=
  match buf.ReadByte with
  | .error err => .error (err, .bytes [])
  | .ok (tag, buf1) =>
    if tag = TNull then .ok (.bytes [], none, buf1)
    else if tag ≠ TByteArray then .error (.tagExpected "byteArray" tag, .bytes [])
    else
      match buf1.ReadZigzag32 with
      | .error err => .error (err, .bytes [])
      | .ok (size, buf2) =>
        match buf2.Next size with
        | .error _ => .error (.ErrNotEnough, .bytes [])
        | .ok (b, buf3) =>
          match storeAt v (.slice .uint8) (.bytes b) with
          | .error err => .error (err, .bytes [])
          | .ok st => .ok (.bytes b, st, buf3)

/-- The assignments at the end of `decodeInteger`: through a `*byte`, a
`*int16`, a `*int32` or a `*int64`, each with its own conversion. -/
def storeInteger (v : Target) (u64 : Nat) : Except Err (Option Value) :=
  match v with
  | .ptr .uint8 => .ok (some (.byte (u64 % 2 ^ 8)))
  | .ptr .int16 => .ok (some (.int16 (toSigned 16 u64)))
  | .ptr .int32 => .ok (some (.int32 (toSigned 32 u64)))
  | .ptr .int64 => .ok (some (.int64 (toSigned 64 u64)))
  | .nilPtr .uint8 => .error .goPanic
  | .nilPtr .int16 => .error .goPanic
  | .nilPtr .int32 => .error .goPanic
  | .nilPtr .int64 => .error .goPanic
  | _ => .ok none

/-- Function `decodeInteger`: the `uint64` read according to the tag, what was assigned
through the target, and the buffer. -/
def decodeInteger (buf : BytesBuffer) (v : Target) : Except Err (Nat × Option Value × BytesBuffer) :=
  match buf.ReadByte with
  | .error err => .error err
  | .ok (tag, buf1) =>
    let read : Except Err (Nat × BytesBuffer) :=
      if tag = TByte then buf1.ReadByte
      else if tag = TInt16 then buf1.ReadUint16
      else if tag = TInt32 then buf1.ReadZigzag32
      else if tag = TInt64 then buf1.ReadZigzag64
      else .error (.tagExpected "byte|int16|int32|int64" tag)
    match read with
    | .error err => .error err
    | .ok (u64, buf2) =>
      match storeInteger v u64 with
      | .error err => .error err
      | .ok st => .ok (u64, st, buf2)

def DecodeByte (buf : BytesBuffer) (v : Target) : Decoded :=
  match decodeInteger buf v with
  | .error err => .error (err, .byte 0)
  | .ok (integer, st, buf1) => .ok (.byte (integer % 2 ^ 8), st, buf1)

def DecodeInt16 (buf : BytesBuffer) (v : Target) : Decoded :=
  match decodeInteger buf v with
  | .error err => .error (err, .int16 0)
  | .ok (integer, st, buf1) => .ok (.int16 (toSigned 16 integer), st, buf1)

def DecodeInt32 (buf : BytesBuffer) (v : Target) : Decoded :=
  match decodeInteger buf v with
  | .error err => .error (err, .int32 0)
  | .ok (integer, st, buf1) => .ok (.int32 (toSigned 32 integer), st, buf1)

def DecodeInt64 (buf : BytesBuffer) (v : Target) : Decoded :=
  match decodeInteger buf v with
  | .error err => .error (err, .int64 0)
  | .ok (integer, st, buf1) => .ok (.int64 (toSigned 64 integer), st, buf1)

def DecodeFloat32 (buf : BytesBuffer) (v : Target) : Decoded :=
  match buf.ReadByte with
  | .error err => .error (err, .float32 0)
  | .ok (tag, buf1) =>
    if tag ≠ TFloat32 then .error (.tagExpected "float32" tag, .float32 0)
    else
      match buf1.ReadUint32 with
      | .error err => .error (err, .float32 0)
      | .ok (i, buf2) =>
        match storeAt v .float32 (.float32 i) with
        | .error err => .error (err, .float32 0)
        | .ok st => .ok (.float32 i, st, buf2)

def DecodeFloat64 (buf : BytesBuffer) (v : Target) : Decoded :=
  match buf.ReadByte with
  | .error err => .error (err, .float64 0)
  | .ok (tag, buf1) =>
    if tag ≠ TFloat64 then .error (.tagExpected "float64" tag, .float64 0)
    else
      match buf1.ReadUint64 with
      | .error err => .error (err, .float64 0)
      | .ok (i, buf2) =>
        match storeAt v .float64 (.float64 i) with
        | .error err => .error (err, .float64 0)
        | .ok st => .ok (.float64 i, st, buf2)

/-! ## serialize/mesh/mesh.go: the decoders of containers and `DeSerializeBuf` -/

/-- The reflection preamble shared by `DecodeMap` and `DecodeArray`: the type
`typeOfV` to build and whether `pointerV` is valid.  `dflt` is the dynamic
container type used for a nil target.  For a nil pointer `t.Elem()` is the
zero `reflect.Value`, on which `Type()` panics; a `*GenericMessage` points to
a struct. -/
def targetType (v : Target) (dflt : GoType) : Except Err (GoType × Bool) :=
  match v with
  | .type t => .ok (t, false)
  | .ptr t => .ok (t, true)
  | .nilPtr _ => .error .goPanic
  | .message _ => .ok (.other, true)
  | .nil => .ok (dflt, false)
  | .value t => .ok (t, false)

/-- Variable `interfaceSliceType`. -/
def interfaceSliceType : GoType := .slice .iface

/-- Variable `interfaceMapType`. -/
def interfaceMapType : GoType := .map .iface .iface

/-- Function `DecodeArray`, given its loop. -/
def DecodeArrayWith (loop : BytesBuffer → GoType → List Value → Except Err (List Value × BytesBuffer))
    (buf : BytesBuffer) (v : Target) : Decoded :=
  match buf.ReadByte with
  | .error err => .error (err, .null)
  | .ok (tag, buf1) =>
    if tag = TNull then .ok (.null, none, buf1)
    else if tag ≠ TArray then .error (.tagExpected "array" tag, .null)
    else
      match targetType v interfaceSliceType with
      | .error err => .error (err, .null)
      | .ok (typeOfV, pointerV) =>
        match typeOfV with
        | .slice elem =>
          match loop buf1 elem [] with
          | .error err => .error (err, .null)
          | .ok (xs, buf2) =>
            let resultSlice := mkSlice elem xs
            .ok (resultSlice, if pointerV then some resultSlice else none, buf2)
        | _ => .error (.ErrTypeUnsupported, .null)

/-- Function `DecodeMap`, given its loop. -/
def DecodeMapWith (loop : BytesBuffer → GoType → GoType → List (Value × Value) →
      Except Err (List (Value × Value) × BytesBuffer))
    (buf : BytesBuffer) (v : Target) : Decoded :=
  match buf.ReadByte with
  | .error err => .error (err, .null)
  | .ok (tag, buf1) =>
    if tag = TNull then .ok (.null, none, buf1)
    else if tag ≠ TMap then .error (.tagExpected "map" tag, .null)
    else
      match targetType v interfaceMapType with
      | .error err => .error (err, .null)
      | .ok (typeOfV, pointerV) =>
        match typeOfV with
        | .map keyType valueType =>
          match loop buf1 keyType valueType [] with
          | .error err => .error (err, .null)
          | .ok (kvs, buf2) =>
            let resultMap := Value.map kvs
            .ok (resultMap, if pointerV then some resultMap else none, buf2)
        | _ => .error (.ErrTypeUnsupported, .null)

/-- Method `(*GenericMessage).Unmarshal`, given its loop; `fields` are the fields the
message has before the call, the result holds those it has afterwards. -/
def UnmarshalWith (loop : BytesBuffer → Nat → List (Nat × Value) → Except Err (List (Nat × Value) × BytesBuffer))
    (fields : List (Nat × Value)) (buf : BytesBuffer) : Except Err (List (Nat × Value) × BytesBuffer) :=
  match buf.ReadUint32 with
  | .error err => .error err
  | .ok (total, buf1) =>
    if total ≤ 0 then .ok (fields, buf1)
    else
      let pos := buf1.GetRPos
      let endPos := pos + total
      match loop buf1 endPos fields with
      | .error err => .error err
      | .ok (fields1, buf2) =>
        if buf2.GetRPos ≠ endPos then .error .ErrWrongSize
        else .ok (fields1, buf2)

/-- The test `rv, ok := v.(*interface{})` of `DeSerializeBuf`: whether `rv` is
then a non-nil pointer, through which the result is assigned at the end. -/
def ifacePtr (v : Target) : Bool :=
  match v with
  | .ptr .iface => true
  | _ => false

/-- The statement `if ok { v = nil }` of `DeSerializeBuf`: a `*interface{}`
target is replaced by nil. -/
def dropIface (v : Target) : Target :=
  match v with
  | .ptr .iface => .nil
  | .nilPtr .iface => .nil
  | v => v

mutual

/-- Function `DeSerializeBuf(buf, v)`.  The first argument is recursion fuel: each
nested value and each loop iteration uses one unit. -/
def DeSerializeBuf (fuel : Nat) (buf : BytesBuffer) (v : Target) : Decoded :=
  match fuel with
  | 0 => .error (.outOfFuel, .null)
  | fuel + 1 =>
    match buf.ReadByte with
    | .error err => .error (err, .null)
    | .ok (tag, buf1) =>
      let rv := ifacePtr v
      let v := dropIface v
      if tag = TNull then .ok (.null, none, buf1)
      else
        let buf2 := buf1.SetRPos (buf1.GetRPos - 1)
        let r : Decoded :=
          if tag = TFalse then DecodeBool buf2 v
          else if tag = TTrue then DecodeBool buf2 v
          else if tag = TByte then DecodeByte buf2 v
          else if tag = TString then DecodeString buf2 v
          else if tag = TByteArray then DecodeBytes buf2 v
          else if tag = TInt16 then DecodeInt16 buf2 v
          else if tag = TInt32 then DecodeInt32 buf2 v
          else if tag = TInt64 then DecodeInt64 buf2 v
          else if tag = TFloat32 then DecodeFloat32 buf2 v
          else if tag = TFloat64 then DecodeFloat64 buf2 v
          else if tag = TArray then DecodeArrayWith (decodeArrayLoop fuel) buf2 v
          else if tag = TMap then DecodeMapWith (decodeMapLoop fuel) buf2 v
          else if tag = TMessage then
            match v with
            | .message fields =>
              match UnmarshalWith (unmarshalLoop fuel) fields buf2 with
              | .error err => .error (err, .null)
              | .ok (fields1, buf3) => .ok (.msg fields1, some (.msg fields1), buf3)
            | .nil =>
              match UnmarshalWith (unmarshalLoop fuel) [] buf2 with
              | .error err => .error (err, .null)
              | .ok (_, buf3) => .ok (.null, none, buf3)
            | _ => .error (.ErrTypeUnsupported, .null)
          else .error (.ErrTypeUnsupported, .null)
        match r with
        | .error e => .error e
        | .ok (result, st, buf3) => .ok (result, if rv then some result else st, buf3)

/-- The loop of `DecodeArray`: until the end tag, decode an element into a new
variable of the element type and append what the variable then holds. -/
def decodeArrayLoop (fuel : Nat) (buf : BytesBuffer) (elem : GoType) (acc : List Value) :
    Except Err (List Value × BytesBuffer) :=
  match fuel with
  | 0 => .error .outOfFuel
  | fuel + 1 =>
    match buf.ReadByte with
    | .error err => .error err
    | .ok (t, buf1) =>
      if t = TArrayEnd then .ok (acc, buf1)
      else
        match DeSerializeBuf fuel (buf1.SetRPos (buf1.GetRPos - 1)) (.ptr elem) with
        | .error e => .error e.1
        | .ok (_, st, buf2) => decodeArrayLoop fuel buf2 elem (acc ++ [st.getD (zeroValue elem)])

/-- The loop of `DecodeMap`: until the end tag, decode a key and a value into
new variables of the key and value types and set the entry; an unhashable key
makes `SetMapIndex` panic. -/
def decodeMapLoop (fuel : Nat) (buf : BytesBuffer) (keyType valueType : GoType)
    (acc : List (Value × Value)) : Except Err (List (Value × Value) × BytesBuffer) :=
  match fuel with
  | 0 => .error .outOfFuel
  | fuel + 1 =>
    match buf.ReadByte with
    | .error err => .error err
    | .ok (t, buf1) =>
      if t = TMapEnd then .ok (acc, buf1)
      else
        match DeSerializeBuf fuel (buf1.SetRPos (buf1.GetRPos - 1)) (.ptr keyType) with
        | .error e => .error e.1
        | .ok (_, kst, buf2) =>
          match DeSerializeBuf fuel buf2 (.ptr valueType) with
          | .error e => .error e.1
          | .ok (_, vst, buf3) =>
            let key := kst.getD (zeroValue keyType)
            let value := vst.getD (zeroValue valueType)
            if hashable key then decodeMapLoop fuel buf3 keyType valueType (setMapIndex acc key value)
            else .error .goPanic

/-- The loop of `(*GenericMessage).Unmarshal`: while the read position is
before `endPos`, a field number and a value decoded without target. -/
def unmarshalLoop (fuel : Nat) (buf : BytesBuffer) (endPos : Nat) (fields : List (Nat × Value)) :
    Except Err (List (Nat × Value) × BytesBuffer) :=
  match fuel with
  | 0 => .error .outOfFuel
  | fuel + 1 =>
    if buf.GetRPos < endPos then
      match buf.ReadZigzag32 with
      | .error err => .error err
      | .ok (filedNumber, buf1) =>
        match DeSerializeBuf fuel buf1 .nil with
        | .error e => .error e.1
        | .ok (value, _, buf2) => unmarshalLoop fuel buf2 endPos (SetField fields (filedNumber % 2 ^ 32) value)
    else .ok (fields, buf)

end

def DecodeArray (fuel : Nat) (buf : BytesBuffer) (v : Target) : Decoded :=
  DecodeArrayWith (decodeArrayLoop fuel) buf v

def DecodeMap (fuel : Nat) (buf : BytesBuffer) (v : Target) : Decoded :=
  DecodeMapWith (decodeMapLoop fuel) buf v

/-- Method `(*GenericMessage).Unmarshal` on a message holding `fields`. -/
def GenericMessage.Unmarshal (fuel : Nat) (fields : List (Nat × Value)) (buf : BytesBuffer) :
    Except Err (List (Nat × Value) × BytesBuffer) :=
  UnmarshalWith (unmarshalLoop fuel) fields buf

/-- Fuel that is enough to decode any buffer of `n` bytes: every nested value
and every loop iteration reads at least one byte. -/
def fuelFor (n : Nat) : Nat := 2 * n + 2

/-- Method `(*Serialization).DeSerialize`: the value returned and the value assigned
through the target, or the error and the value returned along with it. -/
def Serialization.DeSerialize (b : List Nat) (v : Target) :
    Except (Err × Value) (Value × Option Value) :=
  if b.length = 0 then .ok (.null, none)
  else
    match DeSerializeBuf (fuelFor b.length) (CreateBytesBuffer b) v with
    | .error e => .error e
    | .ok (result, st, _) => .ok (result, st)

/-- The loop of `DeSerializeMulti` over the targets. -/
def deSerializeTargets (fuel : Nat) (buf : BytesBuffer) (v : List Target)
    (ret : List (Value × Option Value)) : Except Err (List (Value × Option Value)) :=
  match v with
  | [] => .ok ret
  | o :: rest =>
    match DeSerializeBuf fuel buf o with
    | .error e => .error e.1
    | .ok (rv, st, buf1) => deSerializeTargets fuel buf1 rest (ret ++ [(rv, st)])

/-- The loop of `DeSerializeMulti` without targets: while bytes remain, decode
a value; `io.EOF` ends the loop, any other error is returned.  The first
argument bounds the number of iterations. -/
def deSerializeAll (n : Nat) (fuel : Nat) (buf : BytesBuffer) (ret : List Value) :
    Except Err (List Value) :=
  match n with
  | 0 => if buf.Remain > 0 then .error .outOfFuel else .ok ret
  | n + 1 =>
    if buf.Remain > 0 then
      match DeSerializeBuf fuel buf .nil with
      | .error e => if e.1 = .EOF then .ok ret else .error e.1
      | .ok (rv, _, buf1) => deSerializeAll n fuel buf1 (ret ++ [rv])
    else .ok ret

/-- Method `(*Serialization).DeSerializeMulti`; `v` is `none` for a nil slice of
targets.  The result lists, for each value decoded, the value returned and
the value assigned through its target. -/
def Serialization.DeSerializeMulti (b : List Nat) (v : Option (List Target)) :
    Except Err (List (Value × Option Value)) :=
  let buf := CreateBytesBuffer b
  match v with
  | some targets => deSerializeTargets (fuelFor b.length) buf targets []
  | none =>
    match deSerializeAll b.length (fuelFor b.length) buf [] with
    | .error err => .error err
    | .ok ret => .ok (ret.map fun rv => (rv, none))

/-! ## serialize/motan.go: the encoder of the legacy dialect -/

def mstFalse : Nat := 0
def mstTrue : Nat := 1
def mstNull : Nat := 2
def mstByte : Nat := 3
def mstString : Nat := 4
def mstByteArray : Nat := 5
def mstInt16 : Nat := 6
def mstInt32 : Nat := 7
def mstInt64 : Nat := 8
def mstFloat32 : Nat := 9
def mstFloat64 : Nat := 10
def mstUnpackedArray : Nat := 20
def mstUnpackedArrayEnd : Nat := 21
def mstUnpackedMap : Nat := 22
def mstUnpackedMapEnd : Nat := 23
def mstPackedArray : Nat := 24
def mstPackedMap : Nat := 25
def mstMessage : Nat := 26

def motanEncodeStringNoTag (s : List Nat) (buf : BytesBuffer) : BytesBuffer :=
  (buf.WriteZigzag32 (s.length % 2 ^ 32)).Write s

def motanEncodeString (s : List Nat) (buf : BytesBuffer) : BytesBuffer :=
  motanEncodeStringNoTag s (buf.WriteByte mstString)

def motanEncodeBytes (b : List Nat) (buf : BytesBuffer) : BytesBuffer :=
  ((buf.WriteByte mstByteArray).WriteZigzag32 (b.length % 2 ^ 32)).Write b

def motanEncodeBool (b : Bool) (buf : BytesBuffer) : BytesBuffer :=
  if b then buf.WriteByte 1 else buf.WriteByte 0

def motanEncodeByte (i : Nat) (buf : BytesBuffer) : BytesBuffer :=
  (buf.WriteByte mstByte).WriteByte i

def motanEncodeInt16 (i : Int) (buf : BytesBuffer) : BytesBuffer :=
  (buf.WriteByte mstInt16).WriteUint16 (toUnsigned 16 i)

def motanEncodeInt32 (i : Int) (buf : BytesBuffer) : BytesBuffer :=
  (buf.WriteByte mstInt32).WriteZigzag32 (toUnsigned 32 i)

def motanEncodeInt64 (i : Int) (buf : BytesBuffer) : BytesBuffer :=
  (buf.WriteByte mstInt64).WriteZigzag64 (toUnsigned 64 i)

/-- Function `motanEncodeFloat32(f, buf)` on `f = rv.Float()`, the widening of a
`float32` of pattern `b`: it writes `math.Float32bits(float32(f))`, the pattern
`b` after the two conversions. -/
def motanEncodeFloat32 (b : Nat) (buf : BytesBuffer) : BytesBuffer :=
  (buf.WriteByte mstFloat32).WriteUint32 (convFloat32 b)

def motanEncodeFloat64 (f : Nat) (buf : BytesBuffer) : BytesBuffer :=
  (buf.WriteByte mstFloat64).WriteUint64 f

mutual

/-- Function `motanSerializeBuf(v, buf)`.  `sNull` is the constant written for a nil
value; it is declared in a file of the package that is not among the sources
at hand, so it is a parameter.  `reflected` is as for `SerializeBuf`.  A
message is a pointer, which has no case. -/
def motanSerializeBuf (sNull : Nat) (reflected : Bool) (v : Value) (buf : BytesBuffer) :
    BytesBuffer × Option Err :=
  match v with
  | .null =>
    if reflected then (buf, some .MotanSerializationErrNotSupport) else (buf.WriteByte sNull, none)
  | .str s => (motanEncodeString s buf, none)
  | .bool b => (motanEncodeBool b buf, none)
  | .byte n => (motanEncodeByte n buf, none)
  | .int16 i => (motanEncodeInt16 i buf, none)
  | .int32 i => (motanEncodeInt32 i buf, none)
  | .int i => (motanEncodeInt64 i buf, none)
  | .int64 i => (motanEncodeInt64 i buf, none)
  | .float32 f => (motanEncodeFloat32 f buf, none)
  | .float64 f => (motanEncodeFloat64 f buf, none)
  | .bytes b => (motanEncodeBytes b buf, none)
  | .seq xs =>
    -- motanEncodeArray
    match motanEncodeElems sNull xs (buf.WriteByte mstUnpackedArray) with
    | (buf1, some err) => (buf1, some err)
    | (buf1, none) => (buf1.WriteByte mstUnpackedArrayEnd, none)
  | .map kvs =>
    -- motanEncodeMap
    match motanEncodeEntries sNull kvs (buf.WriteByte mstUnpackedMap) with
    | (buf1, some err) => (buf1, some err)
    | (buf1, none) => (buf1.WriteByte mstUnpackedMapEnd, none)
  | .msg _ => (buf, some .MotanSerializationErrNotSupport)
  | .other => (buf, some .MotanSerializationErrNotSupport)

/-- The loop of `motanEncodeArray`. -/
def motanEncodeElems (sNull : Nat) (xs : List Value) (buf : BytesBuffer) : BytesBuffer × Option Err :=
  match xs with
  | [] => (buf, none)
  | x :: rest =>
    match motanSerializeBuf sNull true x buf with
    | (buf1, some err) => (buf1, some err)
    | (buf1, none) => motanEncodeElems sNull rest buf1

/-- The loop of `motanEncodeMap`: for each key `mk` of `v.MapKeys()`, the key
and then `v.MapIndex(mk)`, which is the value of the entry at hand when
`mk == mk` and the zero `reflect.Value` when `mk` differs from itself (a NaN):
`motanSerializeBuf` then ends in `default`, after the key was written. -/
def motanEncodeEntries (sNull : Nat) (kvs : List (Value × Value)) (buf : BytesBuffer) :
    BytesBuffer × Option Err :=
  match kvs with
  | [] => (buf, none)
  | (k, v) :: rest =>
    match motanSerializeBuf sNull true k buf with
    | (buf1, some err) => (buf1, some err)
    | (buf1, none) =>
      if keyEq k k then
        match motanSerializeBuf sNull true v buf1 with
        | (buf2, some err) => (buf2, some err)
        | (buf2, none) => motanEncodeEntries sNull rest buf2
      else (buf1, some .MotanSerializationErrNotSupport)

end

/-- Method `(*MotanSerialization).Serialize`. -/
def MotanSerialization.Serialize (sNull : Nat) (v : Value) : List Nat × Option Err :=
  let buf := NewBytesBuffer MotanSerializationDefaultBufferSize
  let r := motanSerializeBuf sNull false v buf
  (r.1.Bytes, r.2)

/-! ## serialize/motan.go: the decoder of the legacy dialect -/

def motanDecodeBool (b : Nat) (v : Target) (buf : BytesBuffer) : Decoded :=
  let ret : Bool := decide (b = 1)
  match storeAt v .bool (.bool ret) with
  | .error err => .error (err, .bool false)
  | .ok st => .ok (.bool ret, st, buf)

def motanDecodeString (buf : BytesBuffer) (v : Target) : Decoded :=
  match buf.ReadZigzag32 with
  | .error err => .error (err, .str [])
  | .ok (size, buf1) =>
    match buf1.Next size with
    | .error _ => .error (.ErrNotEnough, .str [])
    | .ok (b, buf2) =>
      match storeAt v .string (.str b) with
      | .error err => .error (err, .str [])
      | .ok st => .ok (.str b, st, buf2)

def motanDecodeBytes (buf : BytesBuffer) (v : Target) : Decoded :=
  match buf.ReadZigzag32 with
  | .error err => .error (err, .bytes [])
  | .ok (size, buf1) =>
    match buf1.Next size with
    | .error _ => .error (.ErrNotEnough, .bytes [])
    | .ok (b, buf2) =>
      match storeAt v (.slice .uint8) (.bytes b) with
      | .error err => .error (err, .bytes [])
      | .ok st => .ok (.bytes b, st, buf2)

def motanDecodeByte (buf : BytesBuffer) (v : Target) : Decoded :=
  match buf.ReadByte with
  | .error err => .error (err, .byte 0)
  | .ok (b, buf1) =>
    match storeAt v .uint8 (.byte (b % 2 ^ 8)) with
    | .error err => .error (err, .byte 0)
    | .ok st => .ok (.byte (b % 2 ^ 8), st, buf1)

def motanDecodeInt16 (buf : BytesBuffer) (v : Target) : Decoded :=
  match buf.ReadUint16 with
  | .error err => .error (err, .int16 0)
  | .ok (i, buf1) =>
    match storeAt v .int16 (.int16 (toSigned 16 i)) with
    | .error err => .error (err, .int16 0)
    | .ok st => .ok (.int16 (toSigned 16 i), st, buf1)

def motanDecodeInt32 (buf : BytesBuffer) (v : Target) : Decoded :=
  match buf.ReadZigzag32 with
  | .error err => .error (err, .int32 0)
  | .ok (i, buf1) =>
    match storeAt v .int32 (.int32 (toSigned 32 i)) with
    | .error err => .error (err, .int32 0)
    | .ok st => .ok (.int32 (toSigned 32 i), st, buf1)

/-- The assignments of `motanDecodeInt64`: through a `*int64` or a `*int`. -/
def motanStoreInt64 (v : Target) (i : Nat) : Except Err (Option Value) :=
  match v with
  | .ptr .int64 => .ok (some (.int64 (toSigned 64 i)))
  | .ptr .int => .ok (some (.int (toSigned 64 i)))
  | .nilPtr .int64 => .error .goPanic
  | .nilPtr .int => .error .goPanic
  | _ => .ok none

def motanDecodeInt64 (buf : BytesBuffer) (v : Target) : Decoded :=
  match buf.ReadZigzag64 with
  | .error err => .error (err, .int64 0)
  | .ok (i, buf1) =>
    match motanStoreInt64 v i with
    | .error err => .error (err, .int64 0)
    | .ok st => .ok (.int64 (toSigned 64 i), st, buf1)

def motanDecodeFloat32 (buf : BytesBuffer) (v : Target) : Decoded :=
  match buf.ReadUint32 with
  | .error err => .error (err, .float32 0)
  | .ok (i, buf1) =>
    match storeAt v .float32 (.float32 i) with
    | .error err => .error (err, .float32 0)
    | .ok st => .ok (.float32 i, st, buf1)

def motanDecodeFloat64 (buf : BytesBuffer) (v : Target) : Decoded :=
  match buf.ReadUint64 with
  | .error err => .error (err, .float64 0)
  | .ok (i, buf1) =>
    match storeAt v .float64 (.float64 i) with
    | .error err => .error (err, .float64 0)
    | .ok st => .ok (.float64 i, st, buf1)

/-- Function `motanDecodeMessage`: it reads nothing and returns `nil, nil`. -/
def motanDecodeMessage (buf : BytesBuffer) (_i : Target) : Decoded :=
  .ok (.null, none, buf)

/-- Function `motanDecodeMap`, given its loop: the map built by the loop is
assigned only through a `*map[interface{}]interface{}`.  With an error the nil
map is returned. -/
def motanDecodeMapWith (loop : BytesBuffer → List (Value × Value) →
      Except Err (List (Value × Value) × BytesBuffer))
    (buf : BytesBuffer) (v : Target) : Decoded :=
  match loop buf [] with
  | .error err => .error (err, .map [])
  | .ok (m, buf1) =>
    match storeAt v (.map .iface .iface) (.map m) with
    | .error err => .error (err, .map [])
    | .ok st => .ok (.map m, st, buf1)

/-- Function `motanDecodeArray`, given its loop: the slice built by the loop is
assigned only through a `*[]interface{}`.  With an error the nil slice is
returned. -/
def motanDecodeArrayWith (loop : BytesBuffer → List Value → Except Err (List Value × BytesBuffer))
    (buf : BytesBuffer) (v : Target) : Decoded :=
  match loop buf [] with
  | .error err => .error (err, .seq [])
  | .ok (a, buf1) =>
    match storeAt v (.slice .iface) (.seq a) with
    | .error err => .error (err, .seq [])
    | .ok st => .ok (.seq a, st, buf1)

mutual

/-- Function `motanDeSerializeBuf(buf, v)`.  The first argument is recursion
fuel, as for `DeSerializeBuf`. -/
def motanDeSerializeBuf (fuel : Nat) (buf : BytesBuffer) (v : Target) : Decoded :=
  match fuel with
  | 0 => .error (.outOfFuel, .null)
  | fuel + 1 =>
    match buf.ReadByte with
    | .error err => .error (err, .null)
    | .ok (tp, buf1) =>
      if tp = mstFalse then motanDecodeBool tp v buf1
      else if tp = mstTrue then motanDecodeBool tp v buf1
      else if tp = mstNull then .ok (.null, none, buf1)
      else if tp = mstByte then motanDecodeByte buf1 v
      else if tp = mstString then motanDecodeString buf1 v
      else if tp = mstByteArray then motanDecodeBytes buf1 v
      else if tp = mstInt16 then motanDecodeInt16 buf1 v
      else if tp = mstInt32 then motanDecodeInt32 buf1 v
      else if tp = mstInt64 then motanDecodeInt64 buf1 v
      else if tp = mstFloat32 then motanDecodeFloat32 buf1 v
      else if tp = mstFloat64 then motanDecodeFloat64 buf1 v
      else if tp = mstUnpackedArray then motanDecodeArrayWith (motanDecodeArrayLoop fuel) buf1 v
      else if tp = mstUnpackedMap then motanDecodeMapWith (motanDecodeMapLoop fuel) buf1 v
      else if tp = mstMessage then motanDecodeMessage buf1 v
      else .error (.MotanSerializationErrNotSupport, .null)

/-- The loop of `motanDecodeArray`: until the end tag, decode an element
without target and append it. -/
def motanDecodeArrayLoop (fuel : Nat) (buf : BytesBuffer) (a : List Value) :
    Except Err (List Value × BytesBuffer) :=
  match fuel with
  | 0 => .error .outOfFuel
  | fuel + 1 =>
    match buf.ReadByte with
    | .error err => .error err
    | .ok (t, buf1) =>
      if t = mstUnpackedArrayEnd then .ok (a, buf1)
      else
        match motanDeSerializeBuf fuel (buf1.SetRPos (buf1.GetRPos - 1)) .nil with
        | .error e => .error e.1
        | .ok (tv, _, buf2) => motanDecodeArrayLoop fuel buf2 (a ++ [tv])

/-- The loop of `motanDecodeMap`: until the end tag, decode a key and a value
without target and set `m[k] = tv`; an unhashable key makes the assignment
panic. -/
def motanDecodeMapLoop (fuel : Nat) (buf : BytesBuffer) (m : List (Value × Value)) :
    Except Err (List (Value × Value) × BytesBuffer) :=
  match fuel with
  | 0 => .error .outOfFuel
  | fuel + 1 =>
    match buf.ReadByte with
    | .error err => .error err
    | .ok (t, buf1) =>
      if t = mstUnpackedMapEnd then .ok (m, buf1)
      else
        match motanDeSerializeBuf fuel (buf1.SetRPos (buf1.GetRPos - 1)) .nil with
        | .error e => .error e.1
        | .ok (k, _, buf2) =>
          match motanDeSerializeBuf fuel buf2 .nil with
          | .error e => .error e.1
          | .ok (tv, _, buf3) =>
            if hashable k then motanDecodeMapLoop fuel buf3 (setMapIndex m k tv)
            else .error .goPanic

end

def motanDecodeMap (fuel : Nat) (buf : BytesBuffer) (v : Target) : Decoded :=
  motanDecodeMapWith (motanDecodeMapLoop fuel) buf v

def motanDecodeArray (fuel : Nat) (buf : BytesBuffer) (v : Target) : Decoded :=
  motanDecodeArrayWith (motanDecodeArrayLoop fuel) buf v

/-- Method `(*MotanSerialization).DeSerialize`. -/
def MotanSerialization.DeSerialize (b : List Nat) (v : Target) :
    Except (Err × Value) (Value × Option Value) :=
  if b.length = 0 then .ok (.null, none)
  else
    match motanDeSerializeBuf (fuelFor b.length) (CreateBytesBuffer b) v with
    | .error e => .error e
    | .ok (result, st, _) => .ok (result, st)

/-! ## serialize/motan.go: `SerializeMulti` and `DeSerializeMulti` -/

/-- The loop of `(*MotanSerialization).SerializeMulti`. -/
def motanSerializeMultiLoop (sNull : Nat) (v : List Value) (buf : BytesBuffer) :
    BytesBuffer × Option Err :=
  match v with
  | [] => (buf, none)
  | o :: rest =>
    match motanSerializeBuf sNull false o buf with
    | (buf1, some err) => (buf1, some err)
    | (buf1, none) => motanSerializeMultiLoop sNull rest buf1

/-- Method `(*MotanSerialization).SerializeMulti`: `(nil, nil)` for an empty list,
`(nil, err)` at the first error, the bytes of the buffer otherwise. -/
def MotanSerialization.SerializeMulti (sNull : Nat) (v : List Value) : List Nat × Option Err :=
  if v.length = 0 then ([], none)
  else
    match motanSerializeMultiLoop sNull v (NewBytesBuffer MotanSerializationDefaultBufferSize) with
    | (_, some err) => ([], some err)
    | (buf, none) => (buf.Bytes, none)

/-- The loop of `(*MotanSerialization).DeSerializeMulti` over the targets. -/
def motanDeSerializeTargets (fuel : Nat) (buf : BytesBuffer) (v : List Target)
    (ret : List (Value × Option Value)) : Except Err (List (Value × Option Value)) :=
  match v with
  | [] => .ok ret
  | o :: rest =>
    match motanDeSerializeBuf fuel buf o with
    | .error e => .error e.1
    | .ok (rv, st, buf1) => motanDeSerializeTargets fuel buf1 rest (ret ++ [(rv, st)])

/-- The loop of `(*MotanSerialization).DeSerializeMulti` without targets: while bytes
remain, decode a value; `io.EOF` ends the loop, any other error is returned.
The first argument bounds the number of iterations. -/
def motanDeSerializeAll (n : Nat) (fuel : Nat) (buf : BytesBuffer) (ret : List Value) :
    Except Err (List Value) :=
  match n with
  | 0 => if buf.Remain > 0 then .error .outOfFuel else .ok ret
  | n + 1 =>
    if buf.Remain > 0 then
      match motanDeSerializeBuf fuel buf .nil with
      | .error e => if e.1 = .EOF then .ok ret else .error e.1
      | .ok (rv, _, buf1) => motanDeSerializeAll n fuel buf1 (ret ++ [rv])
    else .ok ret

/-- Method `(*MotanSerialization).DeSerializeMulti`; `v` is `none` for a nil slice of
targets.  The result lists, for each value decoded, the value returned and
the value assigned through its target. -/
def MotanSerialization.DeSerializeMulti (b : List Nat) (v : Option (List Target)) :
    Except Err (List (Value × Option Value)) :=
  let buf := CreateBytesBuffer b
  match v with
  | some targets => motanDeSerializeTargets (fuelFor b.length) buf targets []
  | none =>
    match motanDeSerializeAll b.length (fuelFor b.length) buf [] with
    | .error err => .error err
    | .ok ret => .ok (ret.map fun rv => (rv, none))

/-! ## core: requests, responses and URLs

The package `core` is not among the sources at hand.  Its requests and
responses are records of the fields that the code of this development reads
and writes; their accessors are modelled from the spec (section 6: an
attachment is a string-keyed metadata entry, a URL provides the options
through `GetParam(key, default)`).  In this part of the development a Go
string is the list of its runes: the text handled is valid Unicode, and the
formatter itself works on `[]rune(layout)`. -/

/-- Modelled from the spec: the exception of a response, with its HTTP-family
code and its message. -/
structure Exception where
  ErrCode : Int
  ErrMsg : List Char

/-- Modelled from the spec: the per-call context of a request or response, as
`GetRPCContext(true)` returns it (a context with zero values when none was
set). -/
structure RPCContext where
  RemoteAddress : List Char
  BodySize : Int
  RequestTime : Int

/-- Modelled from the spec: an RPC request.  `Attachment` lists the entries of
the attachment map in iteration order; `Arguments` are the arguments after
`ProcessDeserializable`. -/
structure MotanRequest where
  RequestID : Nat
  ServiceName : List Char
  Method : List Char
  MethodDesc : List Char
  Attachment : List (List Char × List Char)
  Arguments : List Value
  Context : RPCContext

/-- Modelled from the spec: an RPC response. -/
structure MotanResponse where
  RequestID : Nat
  Value : Option Value
  Exception : Option Exception
  ProcessTime : Int
  Attachment : List (List Char × List Char)
  Context : RPCContext

/-- Modelled from the spec: `Load` on an attachment map. -/
def loadAttachment (m : List (List Char × List Char)) (key : List Char) : Option (List Char) :=
  (m.find? fun kv => kv.1 = key).map fun kv => kv.2

/-- Modelled from the spec: `GetAttachment(key)`, the empty string when there is
no such attachment. -/
def getAttachment (m : List (List Char × List Char)) (key : List Char) : List Char :=
  (loadAttachment m key).getD []

/-- Modelled from the spec: `Store` on an attachment map: the value of an
existing key is replaced, a new key is added. -/
def storeAttachment (m : List (List Char × List Char)) (key value : List Char) :
    List (List Char × List Char) :=
  match m with
  | [] => [(key, value)]
  | (k, v) :: rest => if k = key then (k, value) :: rest else (k, v) :: storeAttachment rest key value

def MotanRequest.GetAttachment (r : MotanRequest) (key : List Char) : List Char :=
  getAttachment r.Attachment key

def MotanRequest.SetAttachment (r : MotanRequest) (key value : List Char) : MotanRequest :=
  { r with Attachment := storeAttachment r.Attachment key value }

def MotanResponse.GetAttachment (r : MotanResponse) (key : List Char) : List Char :=
  getAttachment r.Attachment key

/-- Modelled from the spec: `strconv.FormatUint(n, 10)`. -/
def formatUint (n : Nat) : List Char := Nat.toDigits 10 n

/-- Modelled from the spec: `strconv.FormatInt(i, 10)` and `strconv.Itoa(i)`. -/
def formatInt (i : Int) : List Char :=
  if i < 0 then '-' :: Nat.toDigits 10 (-i).toNat else Nat.toDigits 10 i.toNat

/-- Modelled from the spec: `strconv.FormatBool(b)`. -/
def formatBool (b : Bool) : List Char := if b then "true".toList else "false".toList

/-! ## filter/layout.go: the access-log formatter -/

/-- The implementations of the interface `layoutValueFinder`: the eleven finders
of the `var` block, the two attachment finders and the string finder. -/
inductive layoutValueFinder where
  | requestIDFinder
  | requestTimeFinder
  | serviceFinder
  | methodFinder
  | descFinder
  | remoteAddressFinder
  | requestSizeFinder
  | responseSizeFinder
  | businessTimeFinder
  | statusFinder
  | exceptionFinder
  | requestAttachmentFinder (attachmentName : List Char)
  | responseAttachmentFinder (attachmentName : List Char)
  | stringFinder (s : List Char)

/-- Method `find` of each finder.  `jsonMarshal` is `json.Marshal` on an
exception followed by `string(bytes)`; it belongs to the standard library and
is a parameter. -/
def layoutValueFinder.find (jsonMarshal : Exception → List Char) (f : layoutValueFinder)
    (req : MotanRequest) (res : MotanResponse) : List Char :=
  match f with
  | .requestIDFinder => formatUint res.RequestID
  | .requestTimeFinder => formatInt req.Context.RequestTime
  | .serviceFinder => req.ServiceName
  | .methodFinder => req.Method
  | .descFinder => req.MethodDesc
  | .remoteAddressFinder => req.Context.RemoteAddress
  | .requestSizeFinder => formatInt req.Context.BodySize
  | .responseSizeFinder => formatInt res.Context.BodySize
  | .businessTimeFinder => formatInt res.ProcessTime
  | .statusFinder => formatBool res.Exception.isNone
  | .exceptionFinder =>
    match res.Exception with
    | some ex => jsonMarshal ex
    | none => []
  | .requestAttachmentFinder attachmentName => req.GetAttachment attachmentName
  | .responseAttachmentFinder attachmentName => res.GetAttachment attachmentName
  | .stringFinder s => s

def requestAttachmentPrefix : List Char := "req_header.".toList

def responseAttachmentPrefix : List Char := "res_header.".toList

def getVariableFinder (varName : List Char) : layoutValueFinder :=
  if varName = "request_id".toList then .requestIDFinder
  else if varName = "request_time".toList then .requestTimeFinder
  else if varName = "service".toList then .serviceFinder
  else if varName = "method".toList then .methodFinder
  else if varName = "desc".toList then .descFinder
  else if varName = "remote_addr".toList then .remoteAddressFinder
  else if varName = "request_size".toList then .requestSizeFinder
  else if varName = "response_size".toList then .responseSizeFinder
  else if varName = "business_time".toList then .businessTimeFinder
  else if varName = "status".toList then .statusFinder
  else if varName = "exception".toList then .exceptionFinder
  else if requestAttachmentPrefix.isPrefixOf varName then
    .requestAttachmentFinder (varName.drop requestAttachmentPrefix.length)
  else if responseAttachmentPrefix.isPrefixOf varName then
    .responseAttachmentFinder (varName.drop responseAttachmentPrefix.length)
  else .stringFinder ("$\x7b".toList ++ varName ++ "\x7d".toList)

/-- The statement that flushes `val` into a string finder when it is not
empty. -/
def flushVal (val : List Char) (valueFinders : List layoutValueFinder) : List layoutValueFinder :=
  if val ≠ [] then valueFinders ++ [.stringFinder val] else valueFinders

/-- The loop of `getValueFindersFromLayout` over the runes still to read,
followed by the statements after the loop.  Reading `$` followed by an opening
brace takes two runes (the `i++` of the source). -/
def layoutLoop (paringVariable : Bool) (val : List Char) (valueFinders : List layoutValueFinder) :
    List Char → List layoutValueFinder
  | [] =>
    if paringVariable then valueFinders ++ [.stringFinder ("$\x7b".toList ++ val)]
    else flushVal val valueFinders
  | c :: rest =>
    if c = '$' then
      if paringVariable then layoutLoop true (val ++ [c]) valueFinders rest
      else
        match rest with
        | d :: rest1 =>
          if d = '\x7b' then layoutLoop true [] (flushVal val valueFinders) rest1
          else layoutLoop false (val ++ [c]) valueFinders (d :: rest1)
        | [] => layoutLoop false (val ++ [c]) valueFinders []
    else if c = '\x7d' then
      if !paringVariable then layoutLoop false (val ++ [c]) valueFinders rest
      else
        layoutLoop false []
          (if val ≠ [] then valueFinders ++ [getVariableFinder val] else valueFinders) rest
    else layoutLoop paringVariable (val ++ [c]) valueFinders rest

def getValueFindersFromLayout (layout : List Char) : List layoutValueFinder :=
  layoutLoop false [] [] layout

structure DefaultAccessLogFormatter where
  layout : List Char
  valueFinders : List layoutValueFinder

def DefaultAccessLogFormatter.Format (jsonMarshal : Exception → List Char)
    (f : DefaultAccessLogFormatter) (req : MotanRequest) (res : MotanResponse) : List Char :=
  (f.valueFinders.map fun g => g.find jsonMarshal req res).flatten

def NewDefaultAccessLogFormatter (layout : List Char) : DefaultAccessLogFormatter :=
  { layout := layout, valueFinders := getValueFindersFromLayout layout }

/-! ## filter/accessLog.go: the layouts -/

def defaultRole : List Char := "server".toList

def clientAgentRole : List Char := "client-agent".toList

def serverAgentRole : List Char := "server-agent".toList

def commonFormatLayout : List Char :=
  ("$\x7brequest_id\x7d|$\x7bservice\x7d|$\x7bmethod\x7d|$\x7bdesc\x7d|$\x7bremote_addr\x7d|"
    ++ "$\x7brequest_size\x7d|$\x7bresponse_size\x7d|$\x7bbusiness_time\x7d|$\x7brequest_time\x7d|"
    ++ "$\x7bres_header.HTTP_Status\x7d|$\x7bstatus\x7d|$\x7bexception\x7d").toList

/-- Variable `defaultRoleAccessLogFormatter`.  The constant `AccessLog` is declared in
a file of the package that is not among the sources, so it is a parameter. -/
def defaultRoleAccessLogFormatter (AccessLog : List Char) : DefaultAccessLogFormatter :=
  NewDefaultAccessLogFormatter (AccessLog ++ "|".toList ++ defaultRole ++ "|".toList ++ commonFormatLayout)

/-! ## core.URL -/

/-- Modelled from the spec: the URL-like structure that provides the options.
`NodeTypeIsService` records whether `GetString(core.NodeTypeKey)` equals
`core.NodeTypeService`: the key and the constant are declared outside the
sources. -/
structure URL where
  Host : List Char
  Port : Nat
  Parameters : List (List Char × List Char)
  NodeTypeIsService : Bool

/-- Modelled from the spec: `GetParam(key, default)`. -/
def URL.GetParam (u : URL) (key defaultValue : List Char) : List Char :=
  (loadAttachment u.Parameters key).getD defaultValue

/-- Modelled from the spec: `GetPortStr()`. -/
def URL.GetPortStr (u : URL) : List Char := formatUint u.Port

/-- Modelled from the spec: the number written in decimal digits, if the text
is such a number. -/
def parseUint (s : List Char) : Option Nat :=
  if s ≠ [] ∧ s.all Char.isDigit then some (s.foldl (fun n c => 10 * n + (c.toNat - 48)) 0) else none

/-- Modelled from the spec: `GetPositiveIntValue(key, default)`, the default
when the option is absent, is no number or is not positive. -/
def URL.GetPositiveIntValue (u : URL) (key : List Char) (defaultValue : Int) : Int :=
  match loadAttachment u.Parameters key with
  | none => defaultValue
  | some s =>
    match parseUint s with
    | some n => if 0 < n then (n : Int) else defaultValue
    | none => defaultValue

/-- Modelled from the spec: `GetTimeDuration(key, time.Millisecond, default)`, in
milliseconds. -/
def URL.GetTimeDuration (u : URL) (key : List Char) (defaultValue : Int) : Int :=
  match loadAttachment u.Parameters key with
  | none => defaultValue
  | some s =>
    match parseUint s with
    | some n => (n : Int)
    | none => defaultValue

/-! ## endpoint/httpEndpoint.go -/

def httpHealthCheckURI : List Char := "checkURI".toList
def httpHealthCheckInterval : List Char := "checkInterval".toList
def httpHealthCheckAliveStatus : List Char := "checkAliveStatus".toList
def httpHealthCheckRetryKey : List Char := "checkRetry".toList
def httpHealthCheckTimeout : List Char := "checkTimeout".toList

def XForawrdedFor : List Char := "X-Forwarded-For".toList

/-- Durations are in milliseconds. -/
def httpDefaultRequestTimeout : Int := 1000
def httpHealthCheckDefaultInterval : Int := 1000
def httpHealthCheckDefaultTimeout : Int := 3000
def httpHealthCheckDefaultAliveStatus : Int := 200
def httpHealthCheckDefaultRetry : Int := 3

/-- Modelled from the spec: the option keys of section 4.5 that are declared in
the packages `core` and `mhttp`. -/
def TimeOutKey : List Char := "timeout".toList
/-- Modelled from the spec: see `TimeOutKey`. -/
def KeepaliveTimeoutKey : List Char := "keepaliveTimeout".toList
/-- Modelled from the spec: see `TimeOutKey`. -/
def MaxConnectionsKey : List Char := "maxConnections".toList
/-- Modelled from the spec: see `TimeOutKey`. -/
def DomainKey : List Char := "domain".toList

/-- Modelled from the spec: the attachment `HTTP_PATH` (`mhttp.Path`). -/
def Path : List Char := "HTTP_PATH".toList
/-- Modelled from the spec: the attachment `HTTP_PROXY` (`mhttp.Proxy`). -/
def Proxy : List Char := "HTTP_PROXY".toList

/-- The configuration of the `fasthttp.HostClient` built by `Initialize`. -/
structure HostClient where
  Name : List Char
  Addr : List Char
  MaxIdleConnDuration : Int
  MaxConns : Int
  ReadTimeout : Int
  WriteTimeout : Int

/-- Struct `HTTPEndpoint`.  `available` is the `atomic.Value`, empty until the first
`Store`; `checking` records that the goroutine `checkStatus` was started. -/
structure HTTPEndpoint where
  url : URL
  available : Option Bool
  httpClient : Option HostClient
  defaultHTTPMethod : List Char
  domain : List Char
  reverseProxy : Bool
  healthCheckURL : List Char
  healthCheckInterval : Int
  healthCheckTimeout : Int
  healthCheckAliveStatus : Int
  healthCheckRetry : Int
  checking : Bool

/-- The literal `HTTPEndpoint{url: url}`. -/
def HTTPEndpoint.new (url : URL) : HTTPEndpoint :=
  { url := url, available := none, httpClient := none, defaultHTTPMethod := [], domain := [],
    reverseProxy := false, healthCheckURL := [], healthCheckInterval := 0, healthCheckTimeout := 0,
    healthCheckAliveStatus := 0, healthCheckRetry := 0, checking := false }

def HTTPEndpoint.setAvailable (h : HTTPEndpoint) (status : Bool) : HTTPEndpoint :=
  { h with available := some status }

/-- Method `IsAvailable`: the type assertion panics on an empty `atomic.Value`. -/
def HTTPEndpoint.IsAvailable (h : HTTPEndpoint) : Except Err Bool :=
  match h.available with
  | some b => .ok b
  | none => .error .goPanic

def HTTPEndpoint.Initialize (h : HTTPEndpoint) : HTTPEndpoint :=
  let timeout := h.url.GetTimeDuration TimeOutKey httpDefaultRequestTimeout
  let keepaliveTimeout := h.url.GetTimeDuration KeepaliveTimeoutKey 5000
  let maxConnections := h.url.GetPositiveIntValue MaxConnectionsKey 50
  let h := { h with domain := h.url.GetParam DomainKey [] }
  let h := { h with reverseProxy := h.url.NodeTypeIsService }
  let h := { h with defaultHTTPMethod :=
    match loadAttachment h.url.Parameters "HTTP_REQUEST_METHOD".toList with
    | some getHTTPReqMethod => getHTTPReqMethod
    | none => "GET".toList }
  let httpClient : HostClient :=
    { Name := "motan".toList, Addr := h.url.Host ++ ":".toList ++ h.url.GetPortStr,
      MaxIdleConnDuration := keepaliveTimeout, MaxConns := maxConnections,
      ReadTimeout := timeout, WriteTimeout := timeout }
  let h := { h with httpClient := some httpClient }
  let checkURI := h.url.GetParam httpHealthCheckURI []
  let h : HTTPEndpoint :=
    if checkURI ≠ [] then
      let checkURI := if !"/".toList.isPrefixOf checkURI then "/".toList ++ checkURI else checkURI
      let h := h.setAvailable false
      { h with
        healthCheckURL := "http://".toList ++ h.url.Host ++ ":".toList ++ h.url.GetPortStr ++ checkURI,
        healthCheckInterval := h.url.GetTimeDuration httpHealthCheckInterval httpHealthCheckDefaultInterval,
        healthCheckTimeout := h.url.GetTimeDuration httpHealthCheckTimeout httpHealthCheckDefaultTimeout,
        healthCheckAliveStatus :=
          h.url.GetPositiveIntValue httpHealthCheckAliveStatus httpHealthCheckDefaultAliveStatus,
        healthCheckRetry := h.url.GetPositiveIntValue httpHealthCheckRetryKey httpHealthCheckDefaultRetry }
    else h.setAvailable true
  if h.healthCheckURL ≠ [] then { h with checking := true } else h

/-- The outcome of one `http.Get(h.healthCheckURL)`: an error, or a response with
its status code. -/
inductive Attempt where
  | err
  | resp (StatusCode : Int)

/-- The loop `for i := 0; i < h.healthCheckRetry; i++` of a tick, with `remaining`
iterations to go from attempt `i` on; `get i` is the outcome of attempt `i`.
The result is `alive` and the number of attempts made. -/
def attemptLoop (healthCheckAliveStatus : Int) (get : Nat → Attempt) :
    (remaining : Nat) → (i : Nat) → Bool × Nat
  | 0, i => (false, i)
  | remaining + 1, i =>
    match get i with
    | .err => attemptLoop healthCheckAliveStatus get remaining (i + 1)
    | .resp StatusCode => (decide (StatusCode = healthCheckAliveStatus), i + 1)

/-- What a tick logs: that the endpoint is disabled or enabled. -/
inductive HealthLog where
  | disable
  | enable

/-- The result of a tick: the endpoint afterwards, the number of attempts made
and what was logged. -/
structure TickResult where
  endpoint : HTTPEndpoint
  attempts : Nat
  logged : Option HealthLog

/-- The case `<-ticker.C` of `checkStatus`: one tick. -/
def HTTPEndpoint.tick (h : HTTPEndpoint) (get : Nat → Attempt) : Except Err TickResult :=
  let r := attemptLoop h.healthCheckAliveStatus get h.healthCheckRetry.toNat 0
  let alive := r.1
  match h.IsAvailable with
  | .error e => .error e
  | .ok av =>
    let logged : Option HealthLog :=
      if av then (if !alive then some .disable else none)
      else (if alive then some .enable else none)
    .ok { endpoint := h.setAvailable alive, attempts := r.2, logged := logged }

/-- Method `checkStatus` up to the destruction of the endpoint: the ticks that
happen before, each with the outcomes of its attempts. -/
def HTTPEndpoint.checkStatus (h : HTTPEndpoint) : List (Nat → Attempt) → Except Err HTTPEndpoint
  | [] => .ok h
  | get :: ticks =>
    match h.tick get with
    | .error e => .error e
    | .ok r => r.endpoint.checkStatus ticks

/-- Modelled from the spec: `core.BuildExceptionResponseWithCode(request, errcode,
startTime, err)`, an exception response carrying the code and the message of
the error.  The third argument stands for the time elapsed since `startTime`:
the clock is outside the model. -/
def BuildExceptionResponseWithCode (request : MotanRequest) (errcode : Int) (processTime : Int)
    (err : List Char) : MotanResponse :=
  { RequestID := request.RequestID, Value := none,
    Exception := some { ErrCode := errcode, ErrMsg := err },
    ProcessTime := processTime, Attachment := [],
    Context := { RemoteAddress := [], BodySize := 0, RequestTime := 0 } }

/-- Modelled from the spec: a `fasthttp.Request` as the endpoint fills it; header
normalizing is disabled, so header names are compared as they are. -/
structure HTTPRequest where
  Method : List Char
  Path : List Char
  Host : List Char
  Header : List (List Char × List Char)
  Body : List Nat

/-- Modelled from the spec: a `fasthttp.Response`. -/
structure HTTPResponse where
  StatusCode : Int
  Header : List (List Char × List Char)
  Body : List Nat

/-- Modelled from the spec: `fasthttp.AcquireRequest()`, an empty request. -/
def AcquireRequest : HTTPRequest := { Method := [], Path := [], Host := [], Header := [], Body := [] }

/-- Modelled from the spec: `Header.Set(key, value)`, which replaces the value of
the header or adds the header. -/
def HTTPRequest.HeaderSet (r : HTTPRequest) (key value : List Char) : HTTPRequest :=
  { r with Header := storeAttachment r.Header key value }

/-- Modelled from the spec: `Header.Del(key)`. -/
def HTTPRequest.HeaderDel (r : HTTPRequest) (key : List Char) : HTTPRequest :=
  { r with Header := r.Header.filter fun kv => kv.1 ≠ key }

/-- Modelled from the spec: the value of a header of the request. -/
def HTTPRequest.HeaderPeek (r : HTTPRequest) (key : List Char) : Option (List Char) :=
  loadAttachment r.Header key

/-- Modelled from the spec: `Header.Del(key)` on a response. -/
def HTTPResponse.HeaderDel (r : HTTPResponse) (key : List Char) : HTTPResponse :=
  { r with Header := r.Header.filter fun kv => kv.1 ≠ key }

/-- Modelled from the spec: `strings.EqualFold`, equality ignoring case.  The only
use compares with `X-Forwarded-For`, whose letters have no other case variants
than the ASCII ones. -/
def EqualFold (s t : List Char) : Bool := s.map Char.toLower = t.map Char.toLower

/-- Modelled from the spec: `strconv.ParseBool` with its error ignored. -/
def ParseBool (s : List Char) : Bool :=
  s = "1".toList ∨ s = "t".toList ∨ s = "T".toList ∨ s = "TRUE".toList ∨ s = "true".toList
    ∨ s = "True".toList

/-- What `HTTPEndpoint.Call` uses and the sources do not hold: the deserialization
of the arguments (the error, or the arguments the request then has), the
parser of a header block, the translation between RPC and HTTP messages, the
HTTP client, the clock, and two attachment keys of package `core`. -/
structure CallEnv where
  ProcessDeserializable : MotanRequest → Except (List Char) (List Value)
  HeaderRead : HTTPRequest → List Nat → HTTPRequest
  MotanRequestToFasthttpRequest : MotanRequest → HTTPRequest → List Char → HTTPRequest × Option (List Char)
  Do : HTTPRequest → Except (List Char) HTTPResponse
  HeaderWriteTo : HTTPResponse → List Nat
  FasthttpResponseToMotanResponse : MotanResponse → HTTPResponse → MotanResponse
  elapsed : Int
  RemoteIPKey : List Char
  HostKey : List Char

/-- The `Range` over the attachments in `Call`: the value of the first attachment
whose key equals `X-Forwarded-For` ignoring case, the empty string when there is
none. -/
def rangeXForwardedFor : List (List Char × List Char) → List Char
  | [] => []
  | (k, v) :: rest => if EqualFold k XForawrdedFor then v else rangeXForwardedFor rest

/-- The block of `Call` that computes `xForwardedForIP`. -/
def HTTPEndpoint.xForwardedForIP (env : CallEnv) (h : HTTPEndpoint) (request : MotanRequest) :
    List Char :=
  if h.reverseProxy then
    let ip :=
      match loadAttachment request.Attachment env.RemoteIPKey with
      | some remoteIP => remoteIP
      | none => request.GetAttachment env.HostKey
    let xForwardedForIP := rangeXForwardedFor request.Attachment
    if xForwardedForIP ≠ [] then xForwardedForIP ++ ",".toList ++ ip else ip
  else []

/-- The expression `request.GetArguments()[i]` followed by the conversion to
`[]byte` of a non-nil argument: a missing argument and an argument of
another type make the program panic. -/
def argumentBytes (args : List Value) (i : Nat) : Except Err (List Nat) :=
  match args.get? i with
  | none => .error .goPanic
  | some .null => .ok []
  | some (.bytes b) => .ok b
  | some _ => .error .goPanic

/-- The result of `Call`: the response returned and the request handed to
`h.httpClient.Do`, if the call got that far. -/
structure CallResult where
  response : MotanResponse
  sent : Option HTTPRequest

/-- Method `HTTPEndpoint.Call`.  The results of the three calls of
`core.BuildExceptionResponseWithCode` are discarded by the source, which goes
on with `resp`. -/
def HTTPEndpoint.Call (env : CallEnv) (h : HTTPEndpoint) (request : MotanRequest) :
    Except Err CallResult :=
  let path := if request.GetAttachment Path = [] then request.Method else request.GetAttachment Path
  let resp : MotanResponse :=
    { RequestID := request.RequestID, Value := none, Exception := none, ProcessTime := 0,
      Attachment := [], Context := { RemoteAddress := [], BodySize := 0, RequestTime := 0 } }
  match env.ProcessDeserializable request with
  | .error err =>
    let _discarded := BuildExceptionResponseWithCode request 400 env.elapsed err
    .ok { response := resp, sent := none }
  | .ok arguments =>
    let request := { request with Arguments := arguments }
    let doTransparentProxy := ParseBool (request.GetAttachment Proxy)
    let xForwardedForIP := h.xForwardedForIP env request
    let httpReq := AcquireRequest
    if doTransparentProxy then
      match argumentBytes request.Arguments 0 with
      | .error e => .error e
      | .ok headerBytes =>
        match argumentBytes request.Arguments 1 with
        | .error e => .error e
        | .ok bodyBytes =>
          let httpReq := env.HeaderRead httpReq headerBytes
          let httpReq := { httpReq with Path := path }
          let httpReq := httpReq.HeaderDel "Connection".toList
          let httpReq := if h.reverseProxy then httpReq.HeaderSet XForawrdedFor xForwardedForIP else httpReq
          let httpReq := if bodyBytes.length > 0 then { httpReq with Body := httpReq.Body ++ bodyBytes } else httpReq
          match env.Do httpReq with
          | .error err =>
            let _discarded := BuildExceptionResponseWithCode request 503 env.elapsed err
            .ok { response := resp, sent := some httpReq }
          | .ok httpRes =>
            let httpRes := httpRes.HeaderDel "Connection".toList
            let resp := { resp with Value := some (.seq [.bytes (env.HeaderWriteTo httpRes), .bytes httpRes.Body]) }
            .ok { response := resp, sent := some httpReq }
    else
      let (httpReq, err) := env.MotanRequestToFasthttpRequest request httpReq h.defaultHTTPMethod
      let _discarded :=
        match err with
        | some err => some (BuildExceptionResponseWithCode request 400 env.elapsed err)
        | none => none
      let httpReq := { httpReq with Path := path }
      let httpReq := if httpReq.Host.length = 0 then { httpReq with Host := h.domain } else httpReq
      let httpReq := if h.reverseProxy then httpReq.HeaderSet XForawrdedFor xForwardedForIP else httpReq
      match env.Do httpReq with
      | .error err =>
        let _discarded := BuildExceptionResponseWithCode request 503 env.elapsed err
        .ok { response := resp, sent := some httpReq }
      | .ok httpRes =>
        .ok { response := env.FasthttpResponseToMotanResponse resp httpRes, sent := some httpReq }

/-! ## provider/reverseProxyProvider.go -/

/-- Struct `ReverseProxyProvider`, as `Call` uses it.  `Pick` is
`h.locationMatcher.Pick(method, true)` without its first result: the rewrite
path and whether a location matched.  `motanCluster` is the `Call` of the
cluster.  Both belong to packages that are not among the sources. -/
structure ReverseProxyProvider where
  upstreamIsHTTP : Bool
  Pick : List Char → List Char × Bool
  motanCluster : MotanRequest → MotanResponse

/-- The result of the provider's `Call`: the response returned and the request
handed to the cluster, if the cluster was called. -/
structure ProviderResult where
  response : MotanResponse
  called : Option MotanRequest

/-- Method `ReverseProxyProvider.Call`; `elapsed` stands for the clock, as in
`BuildExceptionResponseWithCode`. -/
def ReverseProxyProvider.Call (elapsed : Int) (h : ReverseProxyProvider) (request : MotanRequest) :
    ProviderResult :=
  if h.upstreamIsHTTP then
    let (rewritePath, ok) := h.Pick request.Method
    if !ok then
      { response := BuildExceptionResponseWithCode request 503 elapsed "service not found".toList,
        called := none }
    else
      let request := request.SetAttachment Path rewritePath
      { response := h.motanCluster request, called := some request }
  else { response := h.motanCluster request, called := some request }

/-! ## server/httpProxyServer.go -/

def HTTPProxyDefaultDomainKey : List Char := "httpProxyDefaultDomain".toList

def HTTPProxyKeepaliveKey : List Char := "httpProxyKeepalive".toList

/-- A `cluster.HTTPCluster` as the handler uses it: `CanServe(path)` gives the
service when the cluster serves the path.  The package is not among the
sources. -/
structure HTTPCluster where
  CanServe : List Char → Option (List Char)

/-- Struct `HTTPProxyServer`, as the handler uses it. -/
structure HTTPProxyServer where
  url : URL
  clusterGetter : List Char → Option HTTPCluster
  deny : List (List Char)
  keepalive : Bool
  defaultDomain : List Char

/-- The literal of `NewHTTPProxyServer`; the cluster getter is set by `Open`. -/
def NewHTTPProxyServer (url : URL) : HTTPProxyServer :=
  { url := url, clusterGetter := fun _ => none, deny := [], keepalive := false, defaultDomain := [] }

/-- The statements of `Open` that set the fields of the server the handler reads.
`localIP` is `core.GetLocalIP()`. -/
def HTTPProxyServer.Open (s : HTTPProxyServer) (localIP : List Char)
    (clusterGetter : List Char → Option HTTPCluster) : HTTPProxyServer :=
  let s := { s with clusterGetter := clusterGetter }
  let s := { s with keepalive := ParseBool (s.url.GetParam HTTPProxyKeepaliveKey "true".toList) }
  let s := { s with defaultDomain := s.url.GetParam HTTPProxyDefaultDomainKey [] }
  let s := { s with deny := s.deny ++ ["127.0.0.1:".toList ++ s.url.GetPortStr] }
  let s := { s with deny := s.deny ++ ["localhost:".toList ++ s.url.GetPortStr] }
  { s with deny := s.deny ++ [localIP ++ ":".toList ++ s.url.GetPortStr] }

/-- A request as the handler reads it: whether its method is CONNECT, its `Host`
header, its request URI and the path of that URI. -/
structure RequestCtx where
  IsConnect : Bool
  Host : List Char
  RequestURI : List Char
  Path : List Char

/-- What the handler does with a request: the CONNECT tunnel to `proxyHost` (or
502 when the dial fails), the call of `doHTTPRpcProxy` for a service with the
`Host` header the request then has, the answer 400, or the call of
`doHTTPProxy` with the `Host` header the request then has. -/
inductive Handled where
  | connect (proxyHost : List Char)
  | doHTTPRpcProxy (service : List Char) (Host : List Char)
  | StatusBadRequest
  | doHTTPProxy (Host : List Char)

/-- The handler `s.httpHandler` built by `Open`.  `SplitHostPort` is
`net.SplitHostPort` with its error ignored.  The expression
`httpReq.RequestURI()[0]` panics on an empty request URI; the deferred
`HandlePanic` then ends the handler. -/
def HTTPProxyServer.httpHandler (SplitHostPort : List Char → List Char) (s : HTTPProxyServer)
    (ctx : RequestCtx) : Except Err Handled :=
  if ctx.IsConnect then .ok (.connect ctx.Host)
  else
    let hostAndPort := ctx.Host
    let hostAndPort := if ':' ∉ hostAndPort then hostAndPort ++ ":80".toList else hostAndPort
    let host := SplitHostPort hostAndPort
    let httpCluster := s.clusterGetter host
    let (reqHost, httpCluster) :=
      if httpCluster.isNone ∧ s.defaultDomain ≠ [] then (s.defaultDomain, s.clusterGetter s.defaultDomain)
      else (ctx.Host, httpCluster)
    let served : Option (List Char) :=
      match httpCluster with
      | some c => c.CanServe ctx.Path
      | none => none
    match served with
    | some service => .ok (.doHTTPRpcProxy service reqHost)
    | none =>
      match ctx.RequestURI with
      | [] => .error .goPanic
      | c :: _ =>
        if c = '/' ∧ hostAndPort ∈ s.deny then .ok .StatusBadRequest
        else .ok (.doHTTPProxy reqHost)

/-! ## http/dns.go: the resolver -/

/-- A `dns.ClientConfig` of package `github.com/miekg/dns`, of which the resolver
reads the list of name servers. -/
structure ClientConfig where
  Servers : List (List Char)

/-- Struct `resolveConfig`.  A `time.Time` is its instant, in nanoseconds since the
zero `time.Time`; `ch` is the number of elements in the channel, whose
capacity is 1; the mutex is left out: the model runs one call at a time. -/
structure resolveConfig where
  modifyTime : Int
  dnsConfig : ClientConfig
  lastChecked : Int
  resolveConf : List Char
  ch : Nat

/-- What the resolver uses and the sources do not hold, as it is at the time of a
call: the clock, the file system (`os.Stat(name)` followed by `ModTime()`, and
`dns.ClientConfigFromFile(name)`, each with its error), `net.ParseIP` (`none`
for the nil address), `dns.IsDomainName`, `rand.Intn`, and the exchange of
`dns.Client`: for a question name and a server address, the error or the
answer records, each given as the text `A.String()` of its address when it is
an A record and as `none` when it is of another type. -/
structure ResolverEnv where
  Now : Int
  Stat : List Char → Except (List Char) Int
  ClientConfigFromFile : List Char → Except (List Char) ClientConfig
  ParseIP : List Char → Option (List Nat)
  IsDomainName : List Char → Bool
  Intn : Nat → Nat
  Exchange : List Char → List Char → Except (List Char) (List (Option (List Char)))

/-- The duration `time.Second`, in nanoseconds. -/
def Second : Int := 1000000000

def newResolveConfig (env : ResolverEnv) (resolveConf : List Char) :
    Except (List Char) resolveConfig :=
  match env.Stat resolveConf with
  | .error err => .error err
  | .ok confInfo =>
    match env.ClientConfigFromFile resolveConf with
    | .error err => .error err
    | .ok dnsConfig =>
      .ok { dnsConfig := dnsConfig, modifyTime := confInfo, lastChecked := env.Now,
            resolveConf := resolveConf, ch := 0 }

/-- Method `tryAcquireSema`: a send on the channel that does not block. -/
def resolveConfig.tryAcquireSema (conf : resolveConfig) : Bool × resolveConfig :=
  if conf.ch < 1 then (true, { conf with ch := conf.ch + 1 }) else (false, conf)

/-- Method `releaseSema`: a receive from the channel. -/
def resolveConfig.releaseSema (conf : resolveConfig) : resolveConfig :=
  { conf with ch := conf.ch - 1 }

/-- The outcome of `tryUpdateConfig`: the configuration afterwards, and whether
the call parsed the file (called `dns.ClientConfigFromFile`). -/
structure UpdateResult where
  conf : resolveConfig
  parsed : Bool

/-- Method `tryUpdateConfig`.  The deferred `releaseSema` runs at each return after
the semaphore was acquired. -/
def resolveConfig.tryUpdateConfig (env : ResolverEnv) (conf : resolveConfig) : UpdateResult :=
  match conf.tryAcquireSema with
  | (false, conf) => { conf := conf, parsed := false }
  | (true, conf) =>
    let now := env.Now
    if conf.lastChecked > now + (-5) * Second then { conf := conf.releaseSema, parsed := false }
    else
      let conf : resolveConfig := { conf with lastChecked := now }
      let mtime : Int :=
        match env.Stat conf.resolveConf with
        | .ok fi => fi
        | .error _ => 0
      if mtime = conf.modifyTime then { conf := conf.releaseSema, parsed := false }
      else
        match env.ClientConfigFromFile conf.resolveConf with
        | .ok config =>
          { conf := resolveConfig.releaseSema { conf with dnsConfig := config }, parsed := true }
        | .error _ => { conf := conf.releaseSema, parsed := true }

/-- Struct `Resolver`; its `dns.Client` is part of the environment. -/
structure Resolver where
  config : resolveConfig

def NewResolver (env : ResolverEnv) (resolveConf : List Char) : Except (List Char) Resolver :=
  let resolveConf := if resolveConf = [] then "/etc/resolv.conf".toList else resolveConf
  match newResolveConfig env resolveConf with
  | .error err => .error err
  | .ok config => .ok { config := config }

/-- The outcome of a lookup: the pair `(addrs, err)` that Go returns, the resolver
afterwards, and the question name and server address handed to
`r.client.Exchange`, if the lookup sent a query. -/
structure LookupResult where
  addrs : Except (List Char) (List (List Char))
  resolver : Resolver
  exchanged : Option (List Char × List Char)

/-- Method `lookupHost`.  `rand.Intn(0)` panics, and so does an index outside
`servers`. -/
def Resolver.lookupHost (env : ResolverEnv) (r : Resolver) (host : List Char) :
    Except Err LookupResult :=
  if !env.IsDomainName host then
    .ok { addrs := .error ("no such host ".toList ++ host), resolver := r, exchanged := none }
  else
    let r : Resolver := { config := (r.config.tryUpdateConfig env).conf }
    let servers := r.config.dnsConfig.Servers
    match servers.get? (env.Intn servers.length) with
    | none => .error .goPanic
    | some server =>
      let server :=
        if ':' ∉ server ∨ (server.head? = some '[' ∧ server.getLast? = some ']') then
          server ++ ":53".toList
        else server
      match env.Exchange (host ++ ".".toList) server with
      | .error err =>
        .ok { addrs := .error err, resolver := r, exchanged := some (host ++ ".".toList, server) }
      | .ok answer =>
        .ok { addrs := .ok (answer.filterMap id), resolver := r,
              exchanged := some (host ++ ".".toList, server) }

def Resolver.LookupHost (env : ResolverEnv) (r : Resolver) (host : List Char) :
    Except Err LookupResult :=
  if host = [] then
    .ok { addrs := .error "no such host".toList, resolver := r, exchanged := none }
  else if (env.ParseIP host).isSome then
    .ok { addrs := .ok [host], resolver := r, exchanged := none }
  else r.lookupHost env host

/-- The outcome of `LookupIP`: the pair `(ips, err)`, a `net.IP` being its bytes
and `none` the nil address, with the resolver and the query as for
`LookupHost`. -/
structure LookupIPResult where
  ips : Except (List Char) (List (Option (List Nat)))
  resolver : Resolver
  exchanged : Option (List Char × List Char)

def Resolver.LookupIP (env : ResolverEnv) (r : Resolver) (host : List Char) :
    Except Err LookupIPResult :=
  match r.LookupHost env host with
  | .error e => .error e
  | .ok res =>
    match res.addrs with
    | .error err => .ok { ips := .error err, resolver := res.resolver, exchanged := res.exchanged }
    | .ok addrs =>
      .ok { ips := .ok (addrs.map env.ParseIP), resolver := res.resolver,
            exchanged := res.exchanged }

/-! ## Vocabulary of the theorems -/

/-- A buffer over `data` with every byte of it readable, positioned at `pos`.
`CreateBytesBuffer data` is `bufAt data 0`; so is, up to the unobservable
capacity, a buffer into which `data` was written. -/
def bufAt (data : List Nat) (pos : Nat) : BytesBuffer := ⟨data, pos, data.length⟩

/-- The bytes `SerializeBuf` writes for `v` (all of them when it succeeds, those
written before the error when it fails). -/
def encoding (reflected : Bool) (v : Value) : List Nat :=
  (SerializeBuf reflected v (NewBytesBuffer 0)).1.Bytes

/-- The error `SerializeBuf` returns for `v`, if any. -/
def failure (reflected : Bool) (v : Value) : Option Err :=
  (SerializeBuf reflected v (NewBytesBuffer 0)).2

/-- The bytes the loop of `EncodeArray` writes for the elements `xs`. -/
def encodingElems (xs : List Value) : List Nat :=
  (encodeElems xs (NewBytesBuffer 0)).1.Bytes

/-- The bytes the loop of `EncodeMap` writes for the entries `kvs`. -/
def encodingEntries (kvs : List (Value × Value)) : List Nat :=
  (encodeEntries kvs (NewBytesBuffer 0)).1.Bytes

/-- The result of `reflect.TypeOf` on a scalar, a string or a byte slice. -/
def typeOf : Value → GoType
  | .bool _ => .bool
  | .byte _ => .uint8
  | .int16 _ => .int16
  | .int32 _ => .int32
  | .int64 _ => .int64
  | .int _ => .int
  | .float32 _ => .float32
  | .float64 _ => .float64
  | .str _ => .string
  | .bytes _ => .slice .uint8
  | .null => .iface
  | .seq _ => .slice .iface
  | .map _ => .map .iface .iface
  | .msg _ => .other
  | .other => .other

/-- The `map[string]string` with the given entries. -/
def stringMap (m : List (List Nat × List Nat)) : Value :=
  .map (m.map fun kv => (.str kv.1, .str kv.2))

/-- Whether an error reports that the bytes ran out: `io.EOF` of a byte read or
`ErrNotEnough` of a read of several bytes. -/
def isUnderflow : Err → Bool
  | .EOF => true
  | .ErrNotEnough => true
  | _ => false

/-- Whether a value is nil or the zero value of a scalar, string or byte-slice
type: what a decoder returns when it has no value to return. -/
def isZero : Value → Bool
  | .null => true
  | .bool b => !b
  | .byte n => n = 0
  | .int16 i => i = 0
  | .int32 i => i = 0
  | .int64 i => i = 0
  | .float32 b => b = 0
  | .float64 b => b = 0
  | .str s => s = []
  | .bytes b => b = []
  | _ => false

/-- Whether a decoder failed because the bytes ran out, returning no value
along with the error. -/
def underflows (d : Decoded) : Bool :=
  match d with
  | .error (e, z) => isUnderflow e && isZero z
  | .ok _ => false

/-- Whether a decoding loop failed because the bytes ran out. -/
def loopUnderflows {α : Type} (r : Except Err α) : Bool :=
  match r with
  | .error e => isUnderflow e
  | .ok _ => false

/-- Whether a decoder, if it succeeded, assigned nothing through its target. -/
def assignsNothing : Decoded → Bool
  | .ok (_, some _, _) => false
  | _ => true

/-- Whether a field value is nil, the test `v == nil` of `Marshal`. -/
def isNull : Value → Bool
  | .null => true
  | _ => false

/-- The bytes `Marshal` writes for one field: the zigzag32 field number and the
encoding of the value. -/
def fieldBytes (kv : Nat × Value) : List Nat :=
  ((NewBytesBuffer 0).WriteZigzag32 kv.1).Bytes ++ (Serialization.Serialize kv.2).1

/-- The body of a message with the given fields: the bytes of its non-nil
fields, in order. -/
def messageBody (fields : List (Nat × Value)) : List Nat :=
  ((fields.filter fun kv => !isNull kv.2).map fieldBytes).flatten

/-- The tag of a value's kind, as in the tag table. -/
def tagOf : Value → Nat
  | .null => TNull
  | .bool b => if b then TTrue else TFalse
  | .byte _ => TByte
  | .int16 _ => TInt16
  | .int32 _ => TInt32
  | .int64 _ => TInt64
  | .int _ => TInt64
  | .float32 _ => TFloat32
  | .float64 _ => TFloat64
  | .str _ => TString
  | .bytes _ => TByteArray
  | .seq _ => TArray
  | .map _ => TMap
  | .msg _ => TMessage
  | .other => 0

/-- Whether a value is a bool, a byte, an int16, an int32, an int64 or a
float within the range of its type. -/
def isScalar : Value → Bool
  | .bool _ => true
  | .byte n => n < 2 ^ 8
  | .int16 i => -(2 ^ 15) ≤ i ∧ i < 2 ^ 15
  | .int32 i => -(2 ^ 31) ≤ i ∧ i < 2 ^ 31
  | .int64 i => -(2 ^ 63) ≤ i ∧ i < 2 ^ 63
  | .float32 b => b < 2 ^ 32
  | .float64 b => b < 2 ^ 64
  | _ => false

/-- Whether a value can be the key of a map of dynamic values that the encoder
accepts: a string whose length fits the 32-bit length prefix, or a scalar
other than a NaN, the key `v.MapIndex` does not find. -/
def isKey : Value → Bool
  | .str s => s.length < 2 ^ 32
  | .float32 b => b < 2 ^ 32 && !isNaN32 b
  | .float64 b => b < 2 ^ 64 && !isNaN64 b
  | v => isScalar v

/-- Whether `k` differs (for Go's `==`) from every key of the entries. -/
def freshKeyIn (k : Value) : List (Value × Value) → Bool
  | [] => true
  | (k1, _) :: rest => !keyEq k k1 && freshKeyIn k rest

mutual

/-- Whether a value is built from bools, bytes, int16/int32/int64, floats,
strings, byte slices, and sequences and mappings of such values: the values of
§3 other than Null and Message.  Numbers are within the range of their type,
strings and byte slices are shorter than `2 ^ 32` bytes (their length is sent
as a 32-bit integer), and a mapping is a Go map that the encoder accepts: its
keys are strings or scalars other than NaN, pairwise different. -/
def isDynamic : Value → Bool
  | .str s => s.length < 2 ^ 32
  | .bytes b => b.length < 2 ^ 32
  | .seq xs => allDynamic xs
  | .map kvs => entriesDynamic kvs
  | .bool _ => true
  | .byte n => n < 2 ^ 8
  | .int16 i => -(2 ^ 15) ≤ i ∧ i < 2 ^ 15
  | .int32 i => -(2 ^ 31) ≤ i ∧ i < 2 ^ 31
  | .int64 i => -(2 ^ 63) ≤ i ∧ i < 2 ^ 63
  | .float32 b => b < 2 ^ 32
  | .float64 b => b < 2 ^ 64
  | .null => false
  | .int _ => false
  | .msg _ => false
  | .other => false

/-- Whether every element is dynamic. -/
def allDynamic : List Value → Bool
  | [] => true
  | x :: rest => isDynamic x && allDynamic rest

/-- Whether every value of a map is dynamic and its keys are proper keys, each
different from all the keys after it. -/
def entriesDynamic : List (Value × Value) → Bool
  | [] => true
  | (k, v) :: rest => isKey k && isDynamic v && freshKeyIn k rest && entriesDynamic rest

end

/-- Whether a value is a platform `int` within the range of its type. -/
def isPlatformInt : Value → Bool
  | .int i => -(2 ^ 63) ≤ i ∧ i < 2 ^ 63
  | _ => false

/-- Whether a float32 bit pattern is a signalling NaN: a NaN whose quiet bit
(bit 22) is not set. -/
def isSignalling32 (b : Nat) : Bool := isNaN32 b && b / 2 ^ 22 % 2 = 0

mutual

/-- The value a peer reads back for `v`: `v` with every `float32` in it after
the conversion of the encoder (a signalling NaN has become quiet); a platform
int has become the int64 of the same value. -/
def readBack : Value → Value
  | .float32 b => .float32 (convFloat32 b)
  | .int i => .int64 i
  | .seq xs => .seq (readBackAll xs)
  | .map kvs => .map (readBackEntries kvs)
  | .null => .null
  | .bool b => .bool b
  | .byte n => .byte n
  | .int16 i => .int16 i
  | .int32 i => .int32 i
  | .int64 i => .int64 i
  | .float64 b => .float64 b
  | .str s => .str s
  | .bytes b => .bytes b
  | .msg fields => .msg fields
  | .other => .other

/-- What is read back for each element. -/
def readBackAll : List Value → List Value
  | [] => []
  | x :: rest => readBack x :: readBackAll rest

/-- What is read back for each entry. -/
def readBackEntries : List (Value × Value) → List (Value × Value)
  | [] => []
  | (k, v) :: rest => (readBack k, readBack v) :: readBackEntries rest

end

mutual

/-- Whether no `float32` of a dynamic value is a signalling NaN. -/
def isQuiet : Value → Bool
  | .float32 b => !isSignalling32 b
  | .seq xs => allQuiet xs
  | .map kvs => entriesQuiet kvs
  | _ => true

/-- Whether no `float32` of the elements is a signalling NaN. -/
def allQuiet : List Value → Bool
  | [] => true
  | x :: rest => isQuiet x && allQuiet rest

/-- Whether no `float32` of the entries is a signalling NaN. -/
def entriesQuiet : List (Value × Value) → Bool
  | [] => true
  | (k, v) :: rest => isQuiet k && isQuiet v && entriesQuiet rest

end

/-- A piece of a template: literal text, or a placeholder with its name. -/
inductive Segment where
  | lit (s : List Char)
  | var (name : List Char)

/-- The text of a piece: the literal itself, or the name between the opening
`$` and brace and the closing brace. -/
def Segment.text : Segment → List Char
  | .lit s => s
  | .var name => "$\x7b".toList ++ name ++ "\x7d".toList

/-- The template made of the pieces, in order. -/
def templateOf (segs : List Segment) : List Char := (segs.map Segment.text).flatten

/-- Whether a piece is what it claims to be: literal text holds no `$`, so that
it opens no placeholder, and a name holds no closing brace. -/
def Segment.wellFormed : Segment → Bool
  | .lit s => !s.contains '$'
  | .var name => !name.contains '\x7d'

/-- The names of the variables of `getVariableFinder`. -/
def knownVariables : List (List Char) :=
  ["request_id".toList, "request_time".toList, "service".toList, "method".toList, "desc".toList,
    "remote_addr".toList, "request_size".toList, "response_size".toList, "business_time".toList,
    "status".toList, "exception".toList]

/-- The value of a known variable, as the spec names them: the request id (of
the response), the request time, the service, the method and its description,
the remote address, the body sizes of request and response, the processing
time, the status (whether the response has no exception) and the exception;
`none` for another name. -/
def variableValue (jsonMarshal : Exception → List Char) (name : List Char)
    (req : MotanRequest) (res : MotanResponse) : Option (List Char) :=
  if name = "request_id".toList then some (formatUint res.RequestID)
  else if name = "request_time".toList then some (formatInt req.Context.RequestTime)
  else if name = "service".toList then some req.ServiceName
  else if name = "method".toList then some req.Method
  else if name = "desc".toList then some req.MethodDesc
  else if name = "remote_addr".toList then some req.Context.RemoteAddress
  else if name = "request_size".toList then some (formatInt req.Context.BodySize)
  else if name = "response_size".toList then some (formatInt res.Context.BodySize)
  else if name = "business_time".toList then some (formatInt res.ProcessTime)
  else if name = "status".toList then some (formatBool res.Exception.isNone)
  else if name = "exception".toList then
    some (match res.Exception with
      | some ex => jsonMarshal ex
      | none => [])
  else if "req_header.".toList.isPrefixOf name then
    some (getAttachment req.Attachment (name.drop 11))
  else if "res_header.".toList.isPrefixOf name then
    some (getAttachment res.Attachment (name.drop 11))
  else none

/-- What a piece of a template stands for in the output: the literal, the value
of the variable, the placeholder itself for a name that is no variable, and
nothing for the empty name. -/
def Segment.value (jsonMarshal : Exception → List Char) (req : MotanRequest) (res : MotanResponse) :
    Segment → List Char
  | .lit s => s
  | .var name =>
    if name = [] then []
    else (variableValue jsonMarshal name req res).getD (Segment.var name).text

/-- The output for the pieces, in order. -/
def valuesOf (jsonMarshal : Exception → List Char) (req : MotanRequest) (res : MotanResponse)
    (segs : List Segment) : List Char :=
  (segs.map (Segment.value jsonMarshal req res)).flatten

/-- The output of a list of finders. -/
def findAll (jsonMarshal : Exception → List Char) (req : MotanRequest) (res : MotanResponse)
    (valueFinders : List layoutValueFinder) : List Char :=
  (valueFinders.map fun g => g.find jsonMarshal req res).flatten

/-- Whether a name is the name of a variable: one of the eleven known names, or
a name that starts with `req_header.` or with `res_header.`. -/
def isVariable (name : List Char) : Bool :=
  knownVariables.contains name || "req_header.".toList.isPrefixOf name
    || "res_header.".toList.isPrefixOf name

/-- Whether a piece is literal text or a placeholder that names a variable. -/
def Segment.namesVariable : Segment → Bool
  | .lit _ => true
  | .var name => isVariable name

/-- The pieces of `commonFormatLayout`. -/
def commonFormatSegments : List Segment :=
  [.var "request_id".toList, .lit "|".toList, .var "service".toList, .lit "|".toList,
    .var "method".toList, .lit "|".toList, .var "desc".toList, .lit "|".toList,
    .var "remote_addr".toList, .lit "|".toList, .var "request_size".toList, .lit "|".toList,
    .var "response_size".toList, .lit "|".toList, .var "business_time".toList, .lit "|".toList,
    .var "request_time".toList, .lit "|".toList, .var "res_header.HTTP_Status".toList,
    .lit "|".toList, .var "status".toList, .lit "|".toList, .var "exception".toList]

/-- The response `resp` that `HTTPEndpoint.Call` builds at its start: the id of the
request, no value, no exception, no attachment. -/
def emptyResponse (request : MotanRequest) : MotanResponse :=
  { RequestID := request.RequestID, Value := none, Exception := none, ProcessTime := 0,
    Attachment := [], Context := { RemoteAddress := [], BodySize := 0, RequestTime := 0 } }

/-- The caller IP that `HTTPEndpoint.Call` appends: the attachment `core.RemoteIPKey`
when there is one, the attachment `core.HostKey` otherwise. -/
def callerIP (env : CallEnv) (request : MotanRequest) : List Char :=
  match loadAttachment request.Attachment env.RemoteIPKey with
  | some remoteIP => remoteIP
  | none => request.GetAttachment env.HostKey

/-- An environment for the examples: the arguments deserialize to themselves,
the header block read is empty, the translation sets the method, the upstream
answers 200 with an empty body. -/
def exampleEnv : CallEnv :=
  { ProcessDeserializable := fun r => .ok r.Arguments,
    HeaderRead := fun q _ => q,
    MotanRequestToFasthttpRequest := fun _ q m => ({ q with Method := m }, none),
    Do := fun _ => .ok { StatusCode := 200, Header := [], Body := [] },
    HeaderWriteTo := fun _ => [],
    FasthttpResponseToMotanResponse := fun r _ => r,
    elapsed := 0,
    RemoteIPKey := "remoteIP".toList,
    HostKey := "host".toList }

/-- An endpoint for the examples: a reverse proxy without health check. -/
def exampleEndpoint : HTTPEndpoint :=
  { url := { Host := "localhost".toList, Port := 9090, Parameters := [], NodeTypeIsService := true },
    available := some true, httpClient := none, defaultHTTPMethod := "GET".toList, domain := [],
    reverseProxy := true, healthCheckURL := [], healthCheckInterval := 0, healthCheckTimeout := 0,
    healthCheckAliveStatus := 0, healthCheckRetry := 0, checking := false }

/-- A request for the examples, with the given method and attachments. -/
def exampleRequest (method : List Char) (attachment : List (List Char × List Char)) : MotanRequest :=
  { RequestID := 7, ServiceName := "test".toList, Method := method, MethodDesc := [],
    Attachment := attachment, Arguments := [],
    Context := { RemoteAddress := [], BodySize := 0, RequestTime := 0 } }

/-- The text the handler compares with the deny list: the `Host` header, with
`:80` appended when it has no colon. -/
def hostAndPortOf (ctx : RequestCtx) : List Char :=
  if ':' ∉ ctx.Host then ctx.Host ++ ":80".toList else ctx.Host

/-- The service for which the handler calls `doHTTPRpcProxy`, if any: the cluster
found for the host, or for the default domain when there is none for the host
and a default domain is configured, serves the path. -/
def servedBy (SplitHostPort : List Char → List Char) (s : HTTPProxyServer) (ctx : RequestCtx) :
    Option (List Char) :=
  match s.clusterGetter (SplitHostPort (hostAndPortOf ctx)) with
  | some c => c.CanServe ctx.Path
  | none =>
    if s.defaultDomain = [] then none
    else
      match s.clusterGetter s.defaultDomain with
      | some c => c.CanServe ctx.Path
      | none => none

/-- The host that `net.SplitHostPort` gives for a text `host:port` whose host has
no colon and no bracket: the text before the colon. -/
def hostBeforeColon (hostAndPort : List Char) : List Char :=
  hostAndPort.takeWhile (fun c => c ≠ ':')

/-- A URL of a proxy server that listens on port 9983 and has no parameter. -/
def exampleProxyURL : URL := ⟨[], 9983, [], false⟩

/-- A cluster getter that knows one cluster for every host; the cluster serves
every path, with service `svc`. -/
def exampleClusterGetter : List Char → Option HTTPCluster :=
  fun _ => some { CanServe := fun _ => some "svc".toList }

/-- A GET request for `/x` with the given `Host` header. -/
def exampleGet (Host : List Char) : RequestCtx :=
  { IsConnect := false, Host := Host, RequestURI := "/x".toList, Path := "/x".toList }

/-- The error of the legacy dialect that stands for an error of the message
dialect's encoder: `MotanSerializationErrNotSupport`, returned where the
message dialect returns `ErrTypeUnsupported`. -/
def legacyError (e : Option Err) : Option Err :=
  e.map fun _ => Err.MotanSerializationErrNotSupport

/-- Whether a value is neither nil nor a message. -/
def notNilOrMessage : Value → Bool
  | .null => false
  | .msg _ => false
  | _ => true

/-- Whether a value is of an integer kind of the wire: a byte, an int16, an int32
or an int64. -/
def isInteger : Value → Bool
  | .byte _ => true
  | .int16 _ => true
  | .int32 _ => true
  | .int64 _ => true
  | _ => false

/-- The number a value of integer kind holds. -/
def integerOf : Value → Int
  | .byte n => n
  | .int16 i => i
  | .int32 i => i
  | .int64 i => i
  | _ => 0

/-- The width in bits of the wire form of a value of integer kind. -/
def wireWidth : Value → Nat
  | .byte _ => 8
  | .int16 _ => 16
  | .int32 _ => 32
  | .int64 _ => 64
  | _ => 0

/-- The bits of the wire form of a value of integer kind, read as an unsigned
number. -/
def wirePattern (v : Value) : Nat := toUnsigned (wireWidth v) (integerOf v)

/-- The number `i` reduced modulo `2 ^ w` and read in two's complement: the
result of Go's conversion of `i` to the signed type of width `w`. -/
def reduced (w : Nat) (i : Int) : Int := toSigned w (toUnsigned w i)

/-- Whether a decoder, if it succeeded, left the write position as it was and
moved the read position forward by `k` bytes or more. -/
def movesOn (k : Nat) (buf : BytesBuffer) : Decoded → Bool
  | .ok (_, _, buf1) => decide (buf1.wpos = buf.wpos) && decide (buf.rpos + k ≤ buf1.rpos)
  | .error _ => true

/-- Whether a read or a decoding loop, if it succeeded, left the write position
as it was and moved the read position forward by `k` bytes or more. -/
def readsOn {α : Type} (k : Nat) (buf : BytesBuffer) : Except Err (α × BytesBuffer) → Bool
  | .ok (_, buf1) => decide (buf1.wpos = buf.wpos) && decide (buf.rpos + k ≤ buf1.rpos)
  | .error _ => true

/-- The first `k` values of a stream as the loop of `DeSerializeMulti` without
targets reads them with `decode`, the decoder of the dialect without target:
before each value a byte remains, and the decoder succeeds.  The result is
the values with the buffer after them, and `none` when one of the `k` steps
finds no byte or fails. -/
def decodeValues (decode : BytesBuffer → Decoded) :
    Nat → BytesBuffer → Option (List Value × BytesBuffer)
  | 0, buf => some ([], buf)
  | k + 1, buf =>
    if buf.Remain > 0 then
      match decode buf with
      | .ok (rv, _, buf1) =>
        match decodeValues decode k buf1 with
        | some (vs, buf2) => some (rv :: vs, buf2)
        | none => none
      | .error _ => none
    else none

/-- The placeholder names the parser extracts from the rest of a layout: the text
`varName` it holds each time it meets the closing brace of a placeholder, in
order, the empty names included (the parser hands the non-empty ones to
`getVariableFinder` and ignores the empty ones).  The traversal is the one of
the loop of `getValueFindersFromLayout`, with the same two variables. -/
def namesLoop (paringVariable : Bool) (val : List Char) : List Char → List (List Char)
  | [] => []
  | c :: rest =>
    if c = '$' then
      if paringVariable then namesLoop true (val ++ [c]) rest
      else
        match rest with
        | d :: rest1 =>
          if d = '\x7b' then namesLoop true [] rest1
          else namesLoop false (val ++ [c]) (d :: rest1)
        | [] => namesLoop false (val ++ [c]) []
    else if c = '\x7d' then
      if !paringVariable then namesLoop false (val ++ [c]) rest
      else val :: namesLoop false [] rest
    else namesLoop paringVariable (val ++ [c]) rest

/-- The placeholder names the parser extracts from a layout. -/
def extractedNames (layout : List Char) : List (List Char) := namesLoop false [] layout

/-- An environment for the examples of the resolver: the file was modified at
instant 100 and names the given servers, `net.ParseIP` knows `127.0.0.1`,
every name is a domain name, `rand.Intn` gives 0, and every query is answered
with one A record, `10.0.0.1`. -/
def exampleResolverEnv (now : Int) (mtime : Int) (servers : List (List Char)) : ResolverEnv :=
  { Now := now, Stat := fun _ => .ok mtime, ClientConfigFromFile := fun _ => .ok ⟨servers⟩,
    ParseIP := fun s =>
      if s = "127.0.0.1".toList then some [0, 0, 0, 0, 0, 0, 0, 0, 0, 0, 255, 255, 127, 0, 0, 1]
      else none,
    IsDomainName := fun _ => true, Intn := fun _ => 0,
    Exchange := fun _ _ => .ok [some "10.0.0.1".toList] }

/-- A resolver whose configuration was read at instant 0 from a file modified at
instant 100 that names the given servers. -/
def exampleResolver (servers : List (List Char)) : Resolver :=
  { config := { modifyTime := 100, dnsConfig := ⟨servers⟩, lastChecked := 0,
                resolveConf := "/etc/resolv.conf".toList, ch := 0 } }

/-! ## The byte buffer: writing -/

theorem NewBytesBuffer_eq (n : Nat) : NewBytesBuffer n = bufAt [] 0 := rfl

theorem CreateBytesBuffer_eq (data : List Nat) : CreateBytesBuffer data = bufAt data 0 := rfl

@[simp] theorem bufAt_Bytes (data : List Nat) (pos : Nat) : (bufAt data pos).Bytes = data := by
  simp [bufAt, BytesBuffer.Bytes]

@[simp] theorem bufAt_GetWPos (data : List Nat) (pos : Nat) : (bufAt data pos).GetWPos = data.length := rfl

@[simp] theorem bufAt_GetRPos (data : List Nat) (pos : Nat) : (bufAt data pos).GetRPos = pos := rfl

@[simp] theorem bufAt_SetRPos (data : List Nat) (pos q : Nat) : (bufAt data pos).SetRPos q = bufAt data q := rfl

theorem writeAt_end (data bs : List Nat) : writeAt data data.length bs = data ++ bs := by
  simp [writeAt]

@[simp] theorem bufAt_Write (data bs : List Nat) (pos : Nat) :
    (bufAt data pos).Write bs = bufAt (data ++ bs) pos := by
  simp [bufAt, BytesBuffer.Write, writeAt_end]

@[simp] theorem bufAt_WriteByte (data : List Nat) (pos c : Nat) :
    (bufAt data pos).WriteByte c = bufAt (data ++ [c % 256]) pos := by
  simp [BytesBuffer.WriteByte]

@[simp] theorem bufAt_WriteUint16 (data : List Nat) (pos u : Nat) :
    (bufAt data pos).WriteUint16 u = bufAt (data ++ bigEndian 2 u) pos := by
  simp [BytesBuffer.WriteUint16]

@[simp] theorem bufAt_WriteUint32 (data : List Nat) (pos u : Nat) :
    (bufAt data pos).WriteUint32 u = bufAt (data ++ bigEndian 4 u) pos := by
  simp [BytesBuffer.WriteUint32]

@[simp] theorem bufAt_WriteUint64 (data : List Nat) (pos u : Nat) :
    (bufAt data pos).WriteUint64 u = bufAt (data ++ bigEndian 8 u) pos := by
  simp [BytesBuffer.WriteUint64]

@[simp] theorem bufAt_WriteZigzag32 (data : List Nat) (pos u : Nat) :
    (bufAt data pos).WriteZigzag32 u = bufAt (data ++ varintBytes (zigzag 32 u % 2 ^ 64)) pos := by
  simp [BytesBuffer.WriteZigzag32, BytesBuffer.WriteVarint]

@[simp] theorem bufAt_WriteZigzag64 (data : List Nat) (pos u : Nat) :
    (bufAt data pos).WriteZigzag64 u = bufAt (data ++ varintBytes (zigzag 64 u % 2 ^ 64)) pos := by
  simp [BytesBuffer.WriteZigzag64, BytesBuffer.WriteVarint]

theorem bigEndian_length (n u : Nat) : (bigEndian n u).length = n := by
  induction n generalizing u with
  | zero => rfl
  | succ n ih => simp [bigEndian, ih]

/-- Writing four bytes over the four bytes kept after `pre`, then moving the
write position back to the end: the step of `Marshal` that fills in the
length. -/
theorem backpatch (pre hole body : List Nat) (pos u : Nat) (hh : hole.length = 4) :
    ((((bufAt (pre ++ hole ++ body) pos).SetWPos pre.length).WriteUint32 u).SetWPos
      (pre ++ hole ++ body).length) = bufAt (pre ++ bigEndian 4 u ++ body) pos := by
  have hl := bigEndian_length 4 u
  have s1 : (bufAt (pre ++ hole ++ body) pos).SetWPos pre.length
      = ⟨pre ++ hole ++ body, pos, pre.length⟩ := by
    have h0 : pre.length - (pre ++ hole ++ body).length = 0 := by
      simp only [List.length_append]; omega
    simp only [bufAt, BytesBuffer.SetWPos, h0, List.replicate_zero, List.append_nil]
  have h3 : List.take pre.length (pre ++ hole ++ body) = pre := by
    rw [List.append_assoc, List.take_left]
  have h4 : List.drop (pre.length + (bigEndian 4 u).length) (pre ++ hole ++ body) = body := by
    have : pre.length + (bigEndian 4 u).length = (pre ++ hole).length := by simp [hh, hl]
    rw [this, List.drop_left]
  have s2 : (BytesBuffer.mk (pre ++ hole ++ body) pos pre.length).WriteUint32 u
      = ⟨pre ++ bigEndian 4 u ++ body, pos, pre.length + 4⟩ := by
    have h0 : pre.length - (pre ++ hole ++ body).length = 0 := by
      simp only [List.length_append]; omega
    rw [hl] at h4
    simp only [BytesBuffer.WriteUint32, BytesBuffer.Write, writeAt, h3, h0, hl,
      List.replicate_zero, List.append_nil, h4]
  have s3 : (BytesBuffer.mk (pre ++ bigEndian 4 u ++ body) pos (pre.length + 4)).SetWPos
      (pre ++ hole ++ body).length = bufAt (pre ++ bigEndian 4 u ++ body) pos := by
    have h0 : (pre ++ hole ++ body).length - (pre ++ bigEndian 4 u ++ body).length = 0 := by
      simp only [List.length_append, hh, hl]; omega
    have h1 : (pre ++ hole ++ body).length = (pre ++ bigEndian 4 u ++ body).length := by
      simp only [List.length_append, hh, hl]
    simp only [bufAt, BytesBuffer.SetWPos, h1, Nat.sub_self, List.replicate_zero, List.append_nil]
  rw [s1, s2, s3]

/-! ## The encoder appends -/

/-- The method `Marshal` appends the tag, the length of the fields' bytes and those bytes
when its loop appends and succeeds; the tag, four zero bytes and what the loop
wrote when the loop fails. -/
theorem MarshalWith_appends (loop : BytesBuffer → BytesBuffer × Option Err)
    (hloop : ∃ o e, ∀ data pos, loop (bufAt data pos) = (bufAt (data ++ o) pos, e)) :
    ∃ out err, (∃ tl, out = TMessage :: tl) ∧
      ∀ data pos, GenericMessage.MarshalWith loop (bufAt data pos) = (bufAt (data ++ out) pos, err) := by
  obtain ⟨o, e, h⟩ := hloop
  have hset : ∀ data pos, ((bufAt data pos).WriteByte TMessage).SetWPos
      (((bufAt data pos).WriteByte TMessage).GetWPos + 4)
      = bufAt (data ++ [TMessage % 256] ++ [0, 0, 0, 0]) pos := by
    intro data pos
    simp [bufAt, BytesBuffer.SetWPos, BytesBuffer.WriteByte, BytesBuffer.Write, writeAt_end,
      BytesBuffer.GetWPos]
  cases e with
  | some err =>
    refine ⟨[TMessage % 256] ++ [0, 0, 0, 0] ++ o, some err, ⟨_, rfl⟩, fun data pos => ?_⟩
    rw [GenericMessage.MarshalWith]
    simp only [hset, h, List.append_assoc]
  | none =>
    refine ⟨[TMessage % 256] ++ bigEndian 4 (o.length % 2 ^ 32) ++ o, none, ⟨_, rfl⟩, fun data pos => ?_⟩
    rw [GenericMessage.MarshalWith]
    simp only [hset, h]
    have hb := backpatch (data ++ [TMessage % 256]) [0, 0, 0, 0] o pos (o.length % 2 ^ 32) rfl
    have e1 : ((bufAt data pos).WriteByte TMessage).GetWPos = (data ++ [TMessage % 256]).length := by
      simp
    have e2 : (bufAt (data ++ [TMessage % 256] ++ [0, 0, 0, 0] ++ o) pos).GetWPos
        - ((bufAt data pos).WriteByte TMessage).GetWPos - 4 = o.length := by
      simp
      omega
    have e3 : (bufAt (data ++ [TMessage % 256] ++ [0, 0, 0, 0] ++ o) pos).GetWPos
        = (data ++ [TMessage % 256] ++ [0, 0, 0, 0] ++ o).length := rfl
    rw [e2, e1, e3, hb]
    simp

mutual

/-- Whatever the buffer, `SerializeBuf` appends the same bytes to it and
returns the same error. -/
theorem SerializeBuf_appends (r : Bool) : (v : Value) → ∃ out err, ∀ data pos,
    SerializeBuf r v (bufAt data pos) = (bufAt (data ++ out) pos, err)
  | .null => by
    cases r
    · exact ⟨[TNull % 256], none, fun data pos => by simp [SerializeBuf]⟩
    · exact ⟨[], some .ErrTypeUnsupported, fun data pos => by simp [SerializeBuf]⟩
  | .msg fields => by
    cases r
    · obtain ⟨o, e, _, h⟩ := MarshalWith_appends _ (marshalFields_appends fields)
      exact ⟨o, e, fun data pos => by simp [SerializeBuf, h]⟩
    · exact ⟨[], some .ErrTypeUnsupported, fun data pos => by simp [SerializeBuf]⟩
  | .str s => ⟨[TString % 256] ++ (varintBytes (zigzag 32 (s.length % 2 ^ 32) % 2 ^ 64) ++ s), none, fun data pos => by
      simp only [SerializeBuf, EncodeString, EncodeStringNoTag, bufAt_WriteByte, bufAt_WriteZigzag32,
        bufAt_Write, List.append_assoc]⟩
  | .bool b => by
    cases b
    · exact ⟨[TFalse % 256], none, fun data pos => by simp [SerializeBuf, EncodeBool]⟩
    · exact ⟨[TTrue % 256], none, fun data pos => by simp [SerializeBuf, EncodeBool]⟩
  | .byte n => ⟨[TByte % 256] ++ [n % 256], none, fun data pos => by
      simp only [SerializeBuf, EncodeByte, bufAt_WriteByte, List.append_assoc]⟩
  | .int16 i => ⟨[TInt16 % 256] ++ bigEndian 2 (toUnsigned 16 i), none, fun data pos => by
      simp only [SerializeBuf, EncodeInt16, bufAt_WriteByte, bufAt_WriteUint16, List.append_assoc]⟩
  | .int32 i => ⟨[TInt32 % 256] ++ varintBytes (zigzag 32 (toUnsigned 32 i) % 2 ^ 64), none, fun data pos => by
      simp only [SerializeBuf, EncodeInt32, bufAt_WriteByte, bufAt_WriteZigzag32, List.append_assoc]⟩
  | .int64 i => ⟨[TInt64 % 256] ++ varintBytes (zigzag 64 (toUnsigned 64 i) % 2 ^ 64), none, fun data pos => by
      simp only [SerializeBuf, EncodeInt64, bufAt_WriteByte, bufAt_WriteZigzag64, List.append_assoc]⟩
  | .int i => ⟨[TInt64 % 256] ++ varintBytes (zigzag 64 (toUnsigned 64 i) % 2 ^ 64), none, fun data pos => by
      simp only [SerializeBuf, EncodeInt64, bufAt_WriteByte, bufAt_WriteZigzag64, List.append_assoc]⟩
  | .float32 f => ⟨[TFloat32 % 256] ++ bigEndian 4 (convFloat32 f), none, fun data pos => by
      simp only [SerializeBuf, EncodeFloat32, bufAt_WriteByte, bufAt_WriteUint32, List.append_assoc]⟩
  | .float64 f => ⟨[TFloat64 % 256] ++ bigEndian 8 f, none, fun data pos => by
      simp only [SerializeBuf, EncodeFloat64, bufAt_WriteByte, bufAt_WriteUint64, List.append_assoc]⟩
  | .bytes b => ⟨[TByteArray % 256] ++ (varintBytes (zigzag 32 (b.length % 2 ^ 32) % 2 ^ 64) ++ b), none, fun data pos => by
      simp only [SerializeBuf, EncodeBytes, bufAt_WriteByte, bufAt_WriteZigzag32, bufAt_Write,
        List.append_assoc]⟩
  | .seq xs => by
    obtain ⟨o, e, h⟩ := encodeElems_appends xs
    cases e with
    | none =>
      exact ⟨[TArray % 256] ++ o ++ [TArrayEnd % 256], none, fun data pos => by
        simp [SerializeBuf, h]⟩
    | some err =>
      exact ⟨[TArray % 256] ++ o, some err, fun data pos => by simp [SerializeBuf, h]⟩
  | .map kvs => by
    obtain ⟨o, e, h⟩ := encodeEntries_appends kvs
    cases e with
    | none =>
      exact ⟨[TMap % 256] ++ o ++ [TMapEnd % 256], none, fun data pos => by
        simp [SerializeBuf, h]⟩
    | some err =>
      exact ⟨[TMap % 256] ++ o, some err, fun data pos => by simp [SerializeBuf, h]⟩
  | .other => ⟨[], some .ErrTypeUnsupported, fun data pos => by simp [SerializeBuf]⟩

theorem encodeElems_appends : (xs : List Value) → ∃ out err, ∀ data pos,
    encodeElems xs (bufAt data pos) = (bufAt (data ++ out) pos, err)
  | [] => ⟨[], none, fun data pos => by simp [encodeElems]⟩
  | x :: rest => by
    obtain ⟨o1, e1, h1⟩ := SerializeBuf_appends true x
    obtain ⟨o2, e2, h2⟩ := encodeElems_appends rest
    cases e1 with
    | some err => exact ⟨o1, some err, fun data pos => by simp [encodeElems, h1]⟩
    | none => exact ⟨o1 ++ o2, e2, fun data pos => by simp [encodeElems, h1, h2]⟩

theorem encodeEntries_appends : (kvs : List (Value × Value)) → ∃ out err, ∀ data pos,
    encodeEntries kvs (bufAt data pos) = (bufAt (data ++ out) pos, err)
  | [] => ⟨[], none, fun data pos => by simp [encodeEntries]⟩
  | (k, v) :: rest => by
    obtain ⟨o1, e1, h1⟩ := SerializeBuf_appends true k
    obtain ⟨o2, e2, h2⟩ := SerializeBuf_appends true v
    obtain ⟨o3, e3, h3⟩ := encodeEntries_appends rest
    cases e1 with
    | some err => exact ⟨o1, some err, fun data pos => by simp [encodeEntries, h1]⟩
    | none =>
      cases hkk : keyEq k k with
      | false =>
        exact ⟨o1, some .ErrTypeUnsupported, fun data pos => by simp [encodeEntries, h1, hkk]⟩
      | true =>
        cases e2 with
        | some err =>
          exact ⟨o1 ++ o2, some err, fun data pos => by simp [encodeEntries, h1, h2, hkk]⟩
        | none =>
          exact ⟨o1 ++ o2 ++ o3, e3, fun data pos => by simp [encodeEntries, h1, h2, h3, hkk]⟩

theorem marshalFields_appends : (fields : List (Nat × Value)) → ∃ out err, ∀ data pos,
    marshalFields fields (bufAt data pos) = (bufAt (data ++ out) pos, err)
  | [] => ⟨[], none, fun data pos => by simp [marshalFields]⟩
  | (k, v) :: rest => by
    obtain ⟨o1, e1, h1⟩ := SerializeBuf_appends false v
    obtain ⟨o2, e2, h2⟩ := marshalFields_appends rest
    by_cases hv : v = .null
    · subst hv
      exact ⟨o2, e2, fun data pos => by simp [marshalFields, h2]⟩
    · have hm : ∀ buf, marshalFields ((k, v) :: rest) buf =
          match SerializeBuf false v (buf.WriteZigzag32 k) with
          | (buf1, some err) => (buf1, some err)
          | (buf1, none) => marshalFields rest buf1 := by
        intro buf
        cases v <;> first | exact absurd rfl hv | simp [marshalFields]
      cases e1 with
      | some err =>
        exact ⟨varintBytes (zigzag 32 k % 2 ^ 64) ++ o1, some err, fun data pos => by
          simp [hm, h1]⟩
      | none =>
        exact ⟨varintBytes (zigzag 32 k % 2 ^ 64) ++ o1 ++ o2, e2, fun data pos => by
          simp [hm, h1, h2]⟩

end

/-! ## Integers on the wire -/

/-- XOR with the all-ones word is the complement. -/
theorem xor_ones (k x : Nat) (h : x < 2 ^ k) : x ^^^ (2 ^ k - 1) = 2 ^ k - 1 - x := by
  apply Nat.eq_of_testBit_eq
  intro i
  have h1 : 2 ^ k - 1 - x = 2 ^ k - (x + 1) := by omega
  rw [h1, Nat.testBit_xor, Nat.testBit_two_pow_sub_one, Nat.testBit_two_pow_sub_succ h]
  by_cases hi : i < k
  · simp [hi]
  · have : x.testBit i = false := by
      apply Nat.testBit_lt_two_pow
      exact lt_of_lt_of_le h (Nat.pow_le_pow_right (by decide) (by omega))
    simp [hi, this]

theorem zigzag_eq (k u : Nat) (hk : 0 < k) (hu : u < 2 ^ k) :
    zigzag k u = if u < 2 ^ (k - 1) then 2 * u else 2 ^ (k + 1) - 1 - 2 * u := by
  have hp : 2 ^ k = 2 * 2 ^ (k - 1) := by
    rw [← Nat.pow_succ']
    congr 1
    omega
  have hp1 : 2 ^ (k + 1) = 2 * 2 ^ k := Nat.pow_succ'
  unfold zigzag
  rw [Nat.mod_eq_of_lt hu, Nat.shiftLeft_eq, Nat.pow_one]
  by_cases h : u < 2 ^ (k - 1)
  · have h2 : ¬ 2 ^ (k - 1) ≤ u := by omega
    have h3 : u * 2 % 2 ^ k = 2 * u := by
      rw [Nat.mod_eq_of_lt (by omega)]
      omega
    simp [h, h2, h3]
  · have h2 : 2 ^ (k - 1) ≤ u := by omega
    have h3 : u * 2 % 2 ^ k = 2 * u - 2 ^ k := by
      have : u * 2 = (2 * u - 2 ^ k) + 2 ^ k := by omega
      rw [this, Nat.add_mod_right, Nat.mod_eq_of_lt (by omega)]
    rw [if_pos h2, if_neg h, h3, xor_ones k _ (by omega)]
    omega

theorem zigzag_lt (k u : Nat) (hk : 0 < k) (hu : u < 2 ^ k) : zigzag k u < 2 ^ k := by
  have hp : 2 ^ k = 2 * 2 ^ (k - 1) := by
    rw [← Nat.pow_succ']
    congr 1
    omega
  have hp1 : 2 ^ (k + 1) = 2 * 2 ^ k := Nat.pow_succ'
  rw [zigzag_eq k u hk hu]
  split <;> omega

theorem unzigzag_zigzag (k u : Nat) (hk : 0 < k) (hu : u < 2 ^ k) :
    unzigzag k (zigzag k u) = u := by
  have hp : 2 ^ k = 2 * 2 ^ (k - 1) := by
    rw [← Nat.pow_succ']
    congr 1
    omega
  have hp1 : 2 ^ (k + 1) = 2 * 2 ^ k := Nat.pow_succ'
  have hlt := zigzag_lt k u hk hu
  unfold unzigzag
  rw [Nat.mod_eq_of_lt hlt, Nat.shiftRight_eq_div_pow, Nat.pow_one]
  rw [zigzag_eq k u hk hu] at hlt ⊢
  by_cases h : u < 2 ^ (k - 1)
  · rw [if_pos h] at hlt ⊢
    have h1 : ¬ (2 * u % 2 = 1) := by omega
    rw [if_neg h1, Nat.xor_zero]
    omega
  · rw [if_neg h] at hlt ⊢
    have h1 : (2 ^ (k + 1) - 1 - 2 * u) % 2 = 1 := by omega
    rw [if_pos h1, xor_ones k _ (by omega)]
    omega

theorem readVarintList_varintAux (f u : Nat) (rest : List Nat) (hu : u < 128 ^ (f + 1)) :
    readVarintList (varintAux f u ++ rest) = some (u, (varintAux f u).length) := by
  induction f generalizing u with
  | zero =>
    have : u < 128 := by simpa using hu
    simp [varintAux, readVarintList, this]
  | succ f ih =>
    unfold varintAux
    by_cases h : u < 128
    · simp [h, readVarintList]
    · have hdiv : u / 128 < 128 ^ (f + 1) := by
        rw [Nat.div_lt_iff_lt_mul (by decide)]
        calc u < 128 ^ (f + 1 + 1) := hu
          _ = 128 ^ (f + 1) * 128 := by rw [Nat.pow_succ]
      have h2 : ¬ (u % 128 + 128 < 128) := by omega
      simp only [h, if_false, List.cons_append, readVarintList, h2, ih (u / 128) hdiv,
        List.length_cons]
      congr 2
      omega

theorem readVarintList_varintBytes (u : Nat) (rest : List Nat) (hu : u < 2 ^ 64) :
    readVarintList (varintBytes u ++ rest) = some (u, (varintBytes u).length) := by
  apply readVarintList_varintAux
  calc u < 2 ^ 64 := hu
    _ ≤ 128 ^ (9 + 1) := by norm_num

theorem varintBytes_length_pos (u : Nat) : 0 < (varintBytes u).length := by
  unfold varintBytes varintAux
  split <;> simp

theorem fromBigEndian_append (l : List Nat) (b : Nat) :
    fromBigEndian (l ++ [b]) = fromBigEndian l * 256 + b := by
  simp [fromBigEndian, List.foldl_append]

theorem fromBigEndian_bigEndian (n u : Nat) : fromBigEndian (bigEndian n u) = u % 256 ^ n := by
  induction n generalizing u with
  | zero => simp [bigEndian, fromBigEndian, Nat.mod_one]
  | succ n ih =>
    rw [bigEndian, fromBigEndian_append, ih, Nat.pow_succ', Nat.mod_mul]
    omega

theorem toSigned_toUnsigned (w : Nat) (i : Int) (hw : 0 < w)
    (hlo : -(2 ^ (w - 1) : Int) ≤ i) (hhi : i < (2 ^ (w - 1) : Int)) :
    toSigned w (toUnsigned w i) = i := by
  have hp : (2 : Int) ^ w = 2 * 2 ^ (w - 1) := by
    rw [← pow_succ']
    congr 1
    omega
  have hpn : (2 : Nat) ^ w = 2 * 2 ^ (w - 1) := by
    rw [← Nat.pow_succ']
    congr 1
    omega
  have hpos : (0 : Int) < 2 ^ (w - 1) := by positivity
  have hcast : ((2 ^ w : Nat) : Int) = (2 : Int) ^ w := by push_cast; rfl
  have hcast1 : ((2 ^ (w - 1) : Nat) : Int) = (2 : Int) ^ (w - 1) := by push_cast; rfl
  unfold toSigned toUnsigned
  have hnn : 0 ≤ i % (2 ^ w : Int) := Int.emod_nonneg _ (by positivity)
  have hlt : i % (2 ^ w : Int) < 2 ^ w := Int.emod_lt_of_pos _ (by positivity)
  have hm : ((i % (2 ^ w : Int)).toNat : Int) = i % (2 ^ w : Int) := Int.toNat_of_nonneg hnn
  have hmod : (i % (2 ^ w : Int)).toNat % 2 ^ w = (i % (2 ^ w : Int)).toNat := by
    apply Nat.mod_eq_of_lt
    have : ((i % (2 ^ w : Int)).toNat : Int) < ((2 ^ w : Nat) : Int) := by rw [hm, hcast]; exact hlt
    exact_mod_cast this
  rw [hmod, hm]
  by_cases hi : 0 ≤ i
  · have e : i % (2 ^ w : Int) = i := Int.emod_eq_of_lt hi (by omega)
    have : (i % (2 ^ w : Int)).toNat < 2 ^ (w - 1) := by
      have : ((i % (2 ^ w : Int)).toNat : Int) < ((2 ^ (w - 1) : Nat) : Int) := by
        rw [hm, hcast1, e]; exact hhi
      exact_mod_cast this
    rw [if_pos this, e]
  · have e : i % (2 ^ w : Int) = i + 2 ^ w := by
      have : i % (2 ^ w : Int) = (i + 2 ^ w) % (2 ^ w : Int) := by simp
      rw [this]
      exact Int.emod_eq_of_lt (by omega) (by omega)
    have : ¬ (i % (2 ^ w : Int)).toNat < 2 ^ (w - 1) := by
      intro hcon
      have : ((i % (2 ^ w : Int)).toNat : Int) < ((2 ^ (w - 1) : Nat) : Int) := by exact_mod_cast hcon
      rw [hm, hcast1, e] at this
      omega
    rw [if_neg this, e]
    omega

theorem toUnsigned_lt (w : Nat) (i : Int) : toUnsigned w i < 2 ^ w := by
  unfold toUnsigned
  have hnn : 0 ≤ i % (2 ^ w : Int) := Int.emod_nonneg _ (by positivity)
  have hlt : i % (2 ^ w : Int) < 2 ^ w := Int.emod_lt_of_pos _ (by positivity)
  have hm : ((i % (2 ^ w : Int)).toNat : Int) = i % (2 ^ w : Int) := Int.toNat_of_nonneg hnn
  have : ((i % (2 ^ w : Int)).toNat : Int) < ((2 ^ w : Nat) : Int) := by
    rw [hm]; push_cast; exact hlt
  exact_mod_cast this

/-! ## The byte buffer: reading -/

theorem drop_add_of_drop {data a rest : List Nat} {pos : Nat} (h : data.drop pos = a ++ rest) :
    data.drop (pos + a.length) = rest := by
  rw [← List.drop_drop, h, List.drop_left]

theorem drop_succ_of_drop {data rest : List Nat} {pos c : Nat} (h : data.drop pos = c :: rest) :
    data.drop (pos + 1) = rest :=
  drop_add_of_drop (a := [c]) h

theorem length_of_drop {data bs : List Nat} {pos : Nat} (h : data.drop pos = bs) :
    pos + bs.length = data.length ∨ (bs = [] ∧ data.length ≤ pos) := by
  have := congrArg List.length h
  rw [List.length_drop] at this
  by_cases hp : pos ≤ data.length
  · left; omega
  · right
    refine ⟨?_, by omega⟩
    apply List.eq_nil_of_length_eq_zero
    omega

theorem ReadByte_bufAt {data rest : List Nat} {pos c : Nat} (h : data.drop pos = c :: rest) :
    (bufAt data pos).ReadByte = .ok (c, bufAt data (pos + 1)) := by
  have hl : pos < data.length := by
    rcases length_of_drop h with h1 | ⟨h1, _⟩
    · simp at h1; omega
    · cases h1
  have hc : data[pos] = c := by
    have h1 : (data.drop pos)[0]? = some c := by rw [h]; simp
    rw [List.getElem?_drop] at h1
    simp only [Nat.add_zero] at h1
    rw [List.getElem?_eq_getElem hl] at h1
    exact Option.some.inj h1
  simp [BytesBuffer.ReadByte, bufAt, hl, hc]

theorem Next_bufAt {data bs rest : List Nat} {pos : Nat} (h : data.drop pos = bs ++ rest) :
    (bufAt data pos).Next bs.length = .ok (bs, bufAt data (pos + bs.length)) := by
  have hl : bs.length ≤ data.length - pos := by
    have := congrArg List.length h
    rw [List.length_drop, List.length_append] at this
    omega
  simp [BytesBuffer.Next, BytesBuffer.Remain, bufAt, hl, h]

theorem ReadUint16_bufAt {data rest : List Nat} {pos u : Nat}
    (h : data.drop pos = bigEndian 2 u ++ rest) (hu : u < 2 ^ 16) :
    (bufAt data pos).ReadUint16 = .ok (u, bufAt data (pos + 2)) := by
  have hn := Next_bufAt h
  rw [bigEndian_length] at hn
  simp only [BytesBuffer.ReadUint16, hn, fromBigEndian_bigEndian]
  rw [Nat.mod_eq_of_lt (by norm_num at hu ⊢; exact hu)]

theorem ReadUint32_bufAt {data rest : List Nat} {pos u : Nat}
    (h : data.drop pos = bigEndian 4 u ++ rest) (hu : u < 2 ^ 32) :
    (bufAt data pos).ReadUint32 = .ok (u, bufAt data (pos + 4)) := by
  have hn := Next_bufAt h
  rw [bigEndian_length] at hn
  simp only [BytesBuffer.ReadUint32, hn, fromBigEndian_bigEndian]
  rw [Nat.mod_eq_of_lt (by norm_num at hu ⊢; exact hu)]

theorem ReadUint64_bufAt {data rest : List Nat} {pos u : Nat}
    (h : data.drop pos = bigEndian 8 u ++ rest) (hu : u < 2 ^ 64) :
    (bufAt data pos).ReadUint64 = .ok (u, bufAt data (pos + 8)) := by
  have hn := Next_bufAt h
  rw [bigEndian_length] at hn
  simp only [BytesBuffer.ReadUint64, hn, fromBigEndian_bigEndian]
  rw [Nat.mod_eq_of_lt (by norm_num at hu ⊢; exact hu)]

theorem unread_bufAt (data : List Nat) (pos : Nat) : (bufAt data pos).unread = data.drop pos := by
  simp [BytesBuffer.unread, bufAt]

theorem ReadVarint_bufAt {data rest : List Nat} {pos u : Nat}
    (h : data.drop pos = varintBytes u ++ rest) (hu : u < 2 ^ 64) :
    (bufAt data pos).ReadVarint = .ok (u, bufAt data (pos + (varintBytes u).length)) := by
  simp only [BytesBuffer.ReadVarint, unread_bufAt, h, readVarintList_varintBytes u rest hu,
    Nat.mod_eq_of_lt hu]
  rfl

theorem ReadZigzag32_bufAt {data rest : List Nat} {pos u : Nat}
    (h : data.drop pos = varintBytes (zigzag 32 u % 2 ^ 64) ++ rest) (hu : u < 2 ^ 32) :
    (bufAt data pos).ReadZigzag32 =
      .ok (u, bufAt data (pos + (varintBytes (zigzag 32 u % 2 ^ 64)).length)) := by
  have hz : zigzag 32 u % 2 ^ 64 < 2 ^ 64 := Nat.mod_lt _ (by positivity)
  have hz2 : zigzag 32 u % 2 ^ 64 = zigzag 32 u :=
    Nat.mod_eq_of_lt (lt_trans (zigzag_lt 32 u (by decide) hu) (by norm_num))
  simp only [BytesBuffer.ReadZigzag32, ReadVarint_bufAt h hz]
  rw [hz2, unzigzag_zigzag 32 u (by decide) hu]

theorem ReadZigzag64_bufAt {data rest : List Nat} {pos u : Nat}
    (h : data.drop pos = varintBytes (zigzag 64 u % 2 ^ 64) ++ rest) (hu : u < 2 ^ 64) :
    (bufAt data pos).ReadZigzag64 =
      .ok (u, bufAt data (pos + (varintBytes (zigzag 64 u % 2 ^ 64)).length)) := by
  have hz : zigzag 64 u % 2 ^ 64 < 2 ^ 64 := Nat.mod_lt _ (by positivity)
  have hz2 : zigzag 64 u % 2 ^ 64 = zigzag 64 u :=
    Nat.mod_eq_of_lt (zigzag_lt 64 u (by decide) hu)
  simp only [BytesBuffer.ReadZigzag64, ReadVarint_bufAt h hz]
  rw [hz2, unzigzag_zigzag 64 u (by decide) hu]

/-! ## The encoding of a value -/

theorem SerializeBuf_frame (r : Bool) (v : Value) (data : List Nat) (pos : Nat) :
    SerializeBuf r v (bufAt data pos) = (bufAt (data ++ encoding r v) pos, failure r v) := by
  obtain ⟨o, e, h⟩ := SerializeBuf_appends r v
  have h0 := h [] 0
  simp only [List.nil_append] at h0
  rw [h, encoding, failure, NewBytesBuffer_eq, h0]
  simp

theorem encodeElems_frame (xs : List Value) (data : List Nat) (pos : Nat) :
    encodeElems xs (bufAt data pos)
      = (bufAt (data ++ encodingElems xs) pos, (encodeElems xs (NewBytesBuffer 0)).2) := by
  obtain ⟨o, e, h⟩ := encodeElems_appends xs
  have h0 := h [] 0
  simp only [List.nil_append] at h0
  rw [h, encodingElems, NewBytesBuffer_eq, h0]
  simp

theorem encodeEntries_frame (kvs : List (Value × Value)) (data : List Nat) (pos : Nat) :
    encodeEntries kvs (bufAt data pos)
      = (bufAt (data ++ encodingEntries kvs) pos, (encodeEntries kvs (NewBytesBuffer 0)).2) := by
  obtain ⟨o, e, h⟩ := encodeEntries_appends kvs
  have h0 := h [] 0
  simp only [List.nil_append] at h0
  rw [h, encodingEntries, NewBytesBuffer_eq, h0]
  simp

theorem Serialize_eq (v : Value) : Serialization.Serialize v = (encoding false v, failure false v) := rfl

theorem encodeElems_cons (x : Value) (xs : List Value) (hx : failure true x = none) :
    encodingElems (x :: xs) = encoding true x ++ encodingElems xs
    ∧ (encodeElems (x :: xs) (NewBytesBuffer 0)).2 = (encodeElems xs (NewBytesBuffer 0)).2 := by
  simp only [encodingElems, NewBytesBuffer_eq]
  rw [encodeElems, SerializeBuf_frame, hx]
  simp only [List.nil_append]
  rw [encodeElems_frame]
  simp [encodingElems, NewBytesBuffer_eq]

theorem encodeEntries_cons (k v : Value) (kvs : List (Value × Value))
    (hk : failure true k = none) (hkk : keyEq k k = true) (hv : failure true v = none) :
    encodingEntries ((k, v) :: kvs) = encoding true k ++ encoding true v ++ encodingEntries kvs
    ∧ (encodeEntries ((k, v) :: kvs) (NewBytesBuffer 0)).2 = (encodeEntries kvs (NewBytesBuffer 0)).2 := by
  simp only [encodingEntries, NewBytesBuffer_eq]
  rw [encodeEntries, SerializeBuf_frame, hk]
  simp only [List.nil_append, hkk, if_true]
  rw [SerializeBuf_frame, hv]
  simp only
  rw [encodeEntries_frame]
  simp [encodingEntries, NewBytesBuffer_eq]

theorem encoding_seq (r : Bool) (xs : List Value) (h : (encodeElems xs (NewBytesBuffer 0)).2 = none) :
    encoding r (.seq xs) = [TArray] ++ encodingElems xs ++ [TArrayEnd] ∧ failure r (.seq xs) = none := by
  simp only [encoding, failure, NewBytesBuffer_eq] at *
  rw [SerializeBuf]
  simp only [bufAt_WriteByte, List.nil_append]
  rw [encodeElems_frame, NewBytesBuffer_eq, h]
  simp [TArray, TArrayEnd]

theorem encoding_map (r : Bool) (kvs : List (Value × Value))
    (h : (encodeEntries kvs (NewBytesBuffer 0)).2 = none) :
    encoding r (.map kvs) = [TMap] ++ encodingEntries kvs ++ [TMapEnd] ∧ failure r (.map kvs) = none := by
  simp only [encoding, failure, NewBytesBuffer_eq] at *
  rw [SerializeBuf]
  simp only [bufAt_WriteByte, List.nil_append]
  rw [encodeEntries_frame, NewBytesBuffer_eq, h]
  simp [TMap, TMapEnd]

theorem encoding_bool (r b : Bool) :
    encoding r (.bool b) = [if b then TTrue else TFalse] ∧ failure r (.bool b) = none := by
  cases b <;> simp [encoding, failure, SerializeBuf, EncodeBool, NewBytesBuffer_eq, TTrue, TFalse]

theorem encoding_byte (r : Bool) (n : Nat) :
    encoding r (.byte n) = [TByte, n % 256] ∧ failure r (.byte n) = none := by
  simp [encoding, failure, SerializeBuf, EncodeByte, NewBytesBuffer_eq, TByte]

theorem encoding_int16 (r : Bool) (i : Int) :
    encoding r (.int16 i) = TInt16 :: bigEndian 2 (toUnsigned 16 i) ∧ failure r (.int16 i) = none := by
  simp [encoding, failure, SerializeBuf, EncodeInt16, NewBytesBuffer_eq, TInt16]

theorem encoding_int32 (r : Bool) (i : Int) :
    encoding r (.int32 i) = TInt32 :: varintBytes (zigzag 32 (toUnsigned 32 i) % 2 ^ 64)
    ∧ failure r (.int32 i) = none := by
  simp [encoding, failure, SerializeBuf, EncodeInt32, NewBytesBuffer_eq, TInt32]

theorem encoding_int64 (r : Bool) (i : Int) :
    encoding r (.int64 i) = TInt64 :: varintBytes (zigzag 64 (toUnsigned 64 i) % 2 ^ 64)
    ∧ failure r (.int64 i) = none := by
  simp [encoding, failure, SerializeBuf, EncodeInt64, NewBytesBuffer_eq, TInt64]

theorem encoding_int (r : Bool) (i : Int) :
    encoding r (.int i) = TInt64 :: varintBytes (zigzag 64 (toUnsigned 64 i) % 2 ^ 64)
    ∧ failure r (.int i) = none := by
  simp [encoding, failure, SerializeBuf, EncodeInt64, NewBytesBuffer_eq, TInt64]

theorem encoding_float32 (r : Bool) (f : Nat) :
    encoding r (.float32 f) = TFloat32 :: bigEndian 4 (convFloat32 f)
    ∧ failure r (.float32 f) = none := by
  simp [encoding, failure, SerializeBuf, EncodeFloat32, NewBytesBuffer_eq, TFloat32]

theorem encoding_float64 (r : Bool) (f : Nat) :
    encoding r (.float64 f) = TFloat64 :: bigEndian 8 f ∧ failure r (.float64 f) = none := by
  simp [encoding, failure, SerializeBuf, EncodeFloat64, NewBytesBuffer_eq, TFloat64]

theorem encoding_str (r : Bool) (s : List Nat) :
    encoding r (.str s) = TString :: (varintBytes (zigzag 32 (s.length % 2 ^ 32) % 2 ^ 64) ++ s)
    ∧ failure r (.str s) = none := by
  simp [encoding, failure, SerializeBuf, EncodeString, EncodeStringNoTag, NewBytesBuffer_eq, TString]

theorem encoding_bytes (r : Bool) (b : List Nat) :
    encoding r (.bytes b) = TByteArray :: (varintBytes (zigzag 32 (b.length % 2 ^ 32) % 2 ^ 64) ++ b)
    ∧ failure r (.bytes b) = none := by
  simp [encoding, failure, SerializeBuf, EncodeBytes, NewBytesBuffer_eq, TByteArray]

theorem failure_of_isKey (k : Value) (h : isKey k = true) : failure true k = none := by
  cases k <;> first
    | (simp [isKey, isScalar] at h; done)
    | simp [failure, SerializeBuf]

/-- A proper key equals itself, so that `v.MapIndex` finds it. -/
theorem keyEq_self_of_isKey (k : Value) (h : isKey k = true) : keyEq k k = true := by
  cases k <;> simp_all [isKey, isScalar, keyEq]

/-- The conversion of the encoder leaves a pattern that is not a signalling NaN
as it is. -/
theorem convFloat32_of_not_signalling (b : Nat) (h : isSignalling32 b = false) :
    convFloat32 b = b := by
  unfold convFloat32
  unfold isSignalling32 at h
  rw [h]
  simp

/-- The conversion of the encoder leaves a pattern that is not a NaN as it is. -/
theorem convFloat32_of_not_NaN (b : Nat) (h : isNaN32 b = false) : convFloat32 b = b := by
  unfold convFloat32
  rw [h]
  simp

/-- The conversion of the encoder gives a 32-bit pattern. -/
theorem convFloat32_lt (b : Nat) (h : b < 2 ^ 32) : convFloat32 b < 2 ^ 32 := by
  unfold convFloat32
  split
  · next hs =>
    simp only [isNaN32, Bool.and_eq_true, decide_eq_true_eq] at hs
    omega
  · exact h

mutual

theorem failure_of_isDynamic (r : Bool) : (v : Value) → isDynamic v = true → failure r v = none
  | .seq xs, h => by
    have := elems_ok xs (by simpa [isDynamic] using h)
    exact (encoding_seq r xs this).2
  | .map kvs, h => by
    have := entries_ok kvs (by simpa [isDynamic] using h)
    exact (encoding_map r kvs this).2
  | .str _, _ => by simp [failure, SerializeBuf]
  | .bytes _, _ => by simp [failure, SerializeBuf]
  | .bool _, _ => by simp [failure, SerializeBuf]
  | .byte _, _ => by simp [failure, SerializeBuf]
  | .int16 _, _ => by simp [failure, SerializeBuf]
  | .int32 _, _ => by simp [failure, SerializeBuf]
  | .int64 _, _ => by simp [failure, SerializeBuf]
  | .float32 _, _ => by simp [failure, SerializeBuf]
  | .float64 _, _ => by simp [failure, SerializeBuf]
  | .null, h => by simp [isDynamic] at h
  | .int _, h => by simp [isDynamic] at h
  | .msg _, h => by simp [isDynamic] at h
  | .other, h => by simp [isDynamic] at h

theorem elems_ok : (xs : List Value) → allDynamic xs = true →
    (encodeElems xs (NewBytesBuffer 0)).2 = none
  | [], _ => by simp [encodeElems]
  | x :: rest, h => by
    simp only [allDynamic, Bool.and_eq_true] at h
    rw [(encodeElems_cons x rest (failure_of_isDynamic true x h.1)).2]
    exact elems_ok rest h.2

theorem entries_ok : (kvs : List (Value × Value)) → entriesDynamic kvs = true →
    (encodeEntries kvs (NewBytesBuffer 0)).2 = none
  | [], _ => by simp [encodeEntries]
  | (k, v) :: rest, h => by
    simp only [entriesDynamic, Bool.and_eq_true] at h
    rw [(encodeEntries_cons k v rest (failure_of_isKey k h.1.1.1) (keyEq_self_of_isKey k h.1.1.1)
      (failure_of_isDynamic true v h.1.1.2)).2]
    exact entries_ok rest h.2

end

/-! ## Decoding what the encoder wrote: scalars, strings and byte slices -/

theorem DeSerializeBuf_bool (f : Nat) (b : Bool) (v : Target) (st : Option Value)
    {data rest : List Nat} {pos : Nat}
    (hst : storeAt (dropIface v) .bool (.bool b) = .ok st)
    (h : data.drop pos = encoding true (.bool b) ++ rest) :
    DeSerializeBuf (f + 1) (bufAt data pos) v
      = .ok (.bool b, if ifacePtr v then some (.bool b) else st,
          bufAt data (pos + (encoding true (.bool b)).length)) := by
  rw [(encoding_bool true b).1] at h ⊢
  rw [DeSerializeBuf]
  cases b <;>
    simp [ReadByte_bufAt h, DecodeBool, hst, TTrue, TFalse, TNull]

theorem DeSerializeBuf_byte (f : Nat) (n : Nat) (v : Target) (st : Option Value)
    {data rest : List Nat} {pos : Nat} (hn : n < 2 ^ 8)
    (hst : storeInteger (dropIface v) n = .ok st)
    (h : data.drop pos = encoding true (.byte n) ++ rest) :
    DeSerializeBuf (f + 1) (bufAt data pos) v
      = .ok (.byte n, if ifacePtr v then some (.byte n) else st,
          bufAt data (pos + (encoding true (.byte n)).length)) := by
  have hn' : n % 256 = n := Nat.mod_eq_of_lt hn
  rw [(encoding_byte true n).1, hn'] at h ⊢
  have h1 : data.drop (pos + 1) = n :: rest := drop_succ_of_drop h
  rw [DeSerializeBuf]
  simp [ReadByte_bufAt h, ReadByte_bufAt h1, DecodeByte, decodeInteger, hst, hn', TByte, TTrue,
    TFalse, TNull, Nat.add_assoc]

theorem DeSerializeBuf_int16 (f : Nat) (i : Int) (v : Target) (st : Option Value)
    {data rest : List Nat} {pos : Nat} (hlo : -(2 ^ 15) ≤ i) (hhi : i < 2 ^ 15)
    (hst : storeInteger (dropIface v) (toUnsigned 16 i) = .ok st)
    (h : data.drop pos = encoding true (.int16 i) ++ rest) :
    DeSerializeBuf (f + 1) (bufAt data pos) v
      = .ok (.int16 i, if ifacePtr v then some (.int16 i) else st,
          bufAt data (pos + (encoding true (.int16 i)).length)) := by
  rw [(encoding_int16 true i).1] at h ⊢
  have h1 : data.drop (pos + 1) = bigEndian 2 (toUnsigned 16 i) ++ rest := drop_succ_of_drop h
  have hr := ReadUint16_bufAt h1 (toUnsigned_lt 16 i)
  have hs := toSigned_toUnsigned 16 i (by decide) hlo hhi
  rw [DeSerializeBuf]
  simp [ReadByte_bufAt h, hr, DecodeInt16, decodeInteger, hst, hs, TInt16, TByte, TTrue,
    TFalse, TNull, TString, TByteArray, Nat.add_assoc, bigEndian_length]

theorem bufAt_congr (data : List Nat) {p q : Nat} (h : p = q) : bufAt data p = bufAt data q := by
  rw [h]

theorem DeSerializeBuf_int32 (f : Nat) (i : Int) (v : Target) (st : Option Value)
    {data rest : List Nat} {pos : Nat} (hlo : -(2 ^ 31) ≤ i) (hhi : i < 2 ^ 31)
    (hst : storeInteger (dropIface v) (toUnsigned 32 i) = .ok st)
    (h : data.drop pos = encoding true (.int32 i) ++ rest) :
    DeSerializeBuf (f + 1) (bufAt data pos) v
      = .ok (.int32 i, if ifacePtr v then some (.int32 i) else st,
          bufAt data (pos + (encoding true (.int32 i)).length)) := by
  rw [(encoding_int32 true i).1] at h ⊢
  have h1 : data.drop (pos + 1) = varintBytes (zigzag 32 (toUnsigned 32 i) % 2 ^ 64) ++ rest :=
    drop_succ_of_drop h
  obtain ⟨q, hq, hr⟩ : ∃ q, q = pos + 1 + (varintBytes (zigzag 32 (toUnsigned 32 i) % 2 ^ 64)).length ∧
      (bufAt data (pos + 1)).ReadZigzag32 = .ok (toUnsigned 32 i, bufAt data q) :=
    ⟨_, rfl, ReadZigzag32_bufAt h1 (toUnsigned_lt 32 i)⟩
  have hs := toSigned_toUnsigned 32 i (by decide) hlo hhi
  have hp : bufAt data q
      = bufAt data (pos + (TInt32 :: varintBytes (zigzag 32 (toUnsigned 32 i) % 2 ^ 64)).length) :=
    bufAt_congr data (by rw [hq, List.length_cons]; omega)
  rw [← hp, DeSerializeBuf]
  simp [ReadByte_bufAt h, hr, DecodeInt32, decodeInteger, hst, hs, TInt32, TInt16, TByte, TTrue,
    TFalse, TNull, TString, TByteArray]

theorem DeSerializeBuf_int64 (f : Nat) (i : Int) (v : Target) (st : Option Value)
    {data rest : List Nat} {pos : Nat} (hlo : -(2 ^ 63) ≤ i) (hhi : i < 2 ^ 63)
    (hst : storeInteger (dropIface v) (toUnsigned 64 i) = .ok st)
    (h : data.drop pos = encoding true (.int64 i) ++ rest) :
    DeSerializeBuf (f + 1) (bufAt data pos) v
      = .ok (.int64 i, if ifacePtr v then some (.int64 i) else st,
          bufAt data (pos + (encoding true (.int64 i)).length)) := by
  rw [(encoding_int64 true i).1] at h ⊢
  have h1 : data.drop (pos + 1) = varintBytes (zigzag 64 (toUnsigned 64 i) % 2 ^ 64) ++ rest :=
    drop_succ_of_drop h
  obtain ⟨q, hq, hr⟩ : ∃ q, q = pos + 1 + (varintBytes (zigzag 64 (toUnsigned 64 i) % 2 ^ 64)).length ∧
      (bufAt data (pos + 1)).ReadZigzag64 = .ok (toUnsigned 64 i, bufAt data q) :=
    ⟨_, rfl, ReadZigzag64_bufAt h1 (toUnsigned_lt 64 i)⟩
  have hs := toSigned_toUnsigned 64 i (by decide) hlo hhi
  have hp : bufAt data q
      = bufAt data (pos + (TInt64 :: varintBytes (zigzag 64 (toUnsigned 64 i) % 2 ^ 64)).length) :=
    bufAt_congr data (by rw [hq, List.length_cons]; omega)
  rw [← hp, DeSerializeBuf]
  simp [ReadByte_bufAt h, hr, DecodeInt64, decodeInteger, hst, hs, TInt64, TInt32, TInt16, TByte,
    TTrue, TFalse, TNull, TString, TByteArray]

theorem DeSerializeBuf_float32 (f : Nat) (b : Nat) (v : Target) (st : Option Value)
    {data rest : List Nat} {pos : Nat} (hb : b < 2 ^ 32)
    (hst : storeAt (dropIface v) .float32 (.float32 (convFloat32 b)) = .ok st)
    (h : data.drop pos = encoding true (.float32 b) ++ rest) :
    DeSerializeBuf (f + 1) (bufAt data pos) v
      = .ok (.float32 (convFloat32 b), if ifacePtr v then some (.float32 (convFloat32 b)) else st,
          bufAt data (pos + (encoding true (.float32 b)).length)) := by
  rw [(encoding_float32 true b).1] at h ⊢
  have h1 : data.drop (pos + 1) = bigEndian 4 (convFloat32 b) ++ rest := drop_succ_of_drop h
  have hr := ReadUint32_bufAt h1 (convFloat32_lt b hb)
  rw [DeSerializeBuf]
  simp [ReadByte_bufAt h, hr, DecodeFloat32, hst, TFloat32, TInt64, TInt32, TInt16, TByte,
    TTrue, TFalse, TNull, TString, TByteArray, Nat.add_assoc, bigEndian_length]

theorem DeSerializeBuf_float64 (f : Nat) (b : Nat) (v : Target) (st : Option Value)
    {data rest : List Nat} {pos : Nat} (hb : b < 2 ^ 64)
    (hst : storeAt (dropIface v) .float64 (.float64 b) = .ok st)
    (h : data.drop pos = encoding true (.float64 b) ++ rest) :
    DeSerializeBuf (f + 1) (bufAt data pos) v
      = .ok (.float64 b, if ifacePtr v then some (.float64 b) else st,
          bufAt data (pos + (encoding true (.float64 b)).length)) := by
  rw [(encoding_float64 true b).1] at h ⊢
  have h1 : data.drop (pos + 1) = bigEndian 8 b ++ rest := drop_succ_of_drop h
  have hr := ReadUint64_bufAt h1 hb
  rw [DeSerializeBuf]
  simp [ReadByte_bufAt h, hr, DecodeFloat64, hst, TFloat64, TFloat32, TInt64, TInt32, TInt16,
    TByte, TTrue, TFalse, TNull, TString, TByteArray, Nat.add_assoc, bigEndian_length]

theorem DeSerializeBuf_str (f : Nat) (s : List Nat) (v : Target) (st : Option Value)
    {data rest : List Nat} {pos : Nat} (hs : s.length < 2 ^ 32)
    (hst : storeAt (dropIface v) .string (.str s) = .ok st)
    (h : data.drop pos = encoding true (.str s) ++ rest) :
    DeSerializeBuf (f + 1) (bufAt data pos) v
      = .ok (.str s, if ifacePtr v then some (.str s) else st,
          bufAt data (pos + (encoding true (.str s)).length)) := by
  have hm : s.length % 2 ^ 32 = s.length := Nat.mod_eq_of_lt hs
  rw [(encoding_str true s).1, hm] at h ⊢
  have h1 : data.drop (pos + 1) = varintBytes (zigzag 32 s.length % 2 ^ 64) ++ (s ++ rest) := by
    rw [← List.append_assoc]
    exact drop_succ_of_drop h
  obtain ⟨q, hq, hr⟩ : ∃ q, q = pos + 1 + (varintBytes (zigzag 32 s.length % 2 ^ 64)).length ∧
      (bufAt data (pos + 1)).ReadZigzag32 = .ok (s.length, bufAt data q) :=
    ⟨_, rfl, ReadZigzag32_bufAt h1 hs⟩
  obtain ⟨q2, hq2, h2⟩ : ∃ q2, q2 = q + s.length ∧
      (bufAt data q).Next s.length = .ok (s, bufAt data q2) :=
    ⟨_, rfl, by rw [hq]; exact Next_bufAt (drop_add_of_drop h1)⟩
  have hp : bufAt data q2
      = bufAt data (pos + (TString :: (varintBytes (zigzag 32 s.length % 2 ^ 64) ++ s)).length) :=
    bufAt_congr data (by rw [hq2, hq, List.length_cons, List.length_append]; omega)
  rw [← hp, DeSerializeBuf]
  simp [ReadByte_bufAt h, hr, h2, DecodeString, hst, TTrue, TFalse, TNull, TString, TByte]

theorem DeSerializeBuf_bytes (f : Nat) (s : List Nat) (v : Target) (st : Option Value)
    {data rest : List Nat} {pos : Nat} (hs : s.length < 2 ^ 32)
    (hst : storeAt (dropIface v) (.slice .uint8) (.bytes s) = .ok st)
    (h : data.drop pos = encoding true (.bytes s) ++ rest) :
    DeSerializeBuf (f + 1) (bufAt data pos) v
      = .ok (.bytes s, if ifacePtr v then some (.bytes s) else st,
          bufAt data (pos + (encoding true (.bytes s)).length)) := by
  have hm : s.length % 2 ^ 32 = s.length := Nat.mod_eq_of_lt hs
  rw [(encoding_bytes true s).1, hm] at h ⊢
  have h1 : data.drop (pos + 1) = varintBytes (zigzag 32 s.length % 2 ^ 64) ++ (s ++ rest) := by
    rw [← List.append_assoc]
    exact drop_succ_of_drop h
  obtain ⟨q, hq, hr⟩ : ∃ q, q = pos + 1 + (varintBytes (zigzag 32 s.length % 2 ^ 64)).length ∧
      (bufAt data (pos + 1)).ReadZigzag32 = .ok (s.length, bufAt data q) :=
    ⟨_, rfl, ReadZigzag32_bufAt h1 hs⟩
  obtain ⟨q2, hq2, h2⟩ : ∃ q2, q2 = q + s.length ∧
      (bufAt data q).Next s.length = .ok (s, bufAt data q2) :=
    ⟨_, rfl, by rw [hq]; exact Next_bufAt (drop_add_of_drop h1)⟩
  have hp : bufAt data q2
      = bufAt data (pos + (TByteArray :: (varintBytes (zigzag 32 s.length % 2 ^ 64) ++ s)).length) :=
    bufAt_congr data (by rw [hq2, hq, List.length_cons, List.length_append]; omega)
  rw [← hp, DeSerializeBuf]
  simp [ReadByte_bufAt h, hr, h2, DecodeBytes, hst, TTrue, TFalse, TNull, TString, TByte,
    TByteArray]

/-! ## The first byte of an encoding -/

theorem marshalFields_frame (fields : List (Nat × Value)) (data : List Nat) (pos : Nat) :
    ∃ out, marshalFields fields (bufAt data pos)
      = (bufAt (data ++ out) pos, (marshalFields fields (bufAt data pos)).2) := by
  obtain ⟨o, e, h⟩ := marshalFields_appends fields
  exact ⟨o, by rw [h]⟩

theorem Marshal_head (fields : List (Nat × Value)) :
    ∃ tl, (GenericMessage.Marshal fields (NewBytesBuffer 0)).1.Bytes = TMessage :: tl := by
  obtain ⟨o, e, ⟨tl, htl⟩, h⟩ := MarshalWith_appends _ (marshalFields_appends fields)
  refine ⟨tl, ?_⟩
  rw [NewBytesBuffer_eq, GenericMessage.Marshal, h]
  simp [htl]

/-- The bytes written for a value start with the tag of its kind, whether or
not the encoder then fails on a nested value; nothing is written for a value
of an unsupported kind, nor for a nil or a message reached by reflection. -/
theorem encoding_head (r : Bool) (v : Value) (h : v ≠ .other)
    (h2 : r = true → v ≠ .null ∧ ∀ fs, v ≠ .msg fs) :
    ∃ tl, encoding r v = tagOf v :: tl := by
  cases v with
  | null =>
    cases r
    · exact ⟨[], by simp [encoding, SerializeBuf, NewBytesBuffer_eq, tagOf, TNull]⟩
    · exact absurd rfl (h2 rfl).1
  | msg fields =>
    cases r
    · obtain ⟨tl, htl⟩ := Marshal_head fields
      exact ⟨tl, by
        simp only [encoding, SerializeBuf]
        simpa [tagOf, GenericMessage.Marshal] using htl⟩
    · exact absurd rfl ((h2 rfl).2 fields)
  | other => exact absurd rfl h
  | bool b => exact ⟨[], by rw [(encoding_bool r b).1]; rfl⟩
  | byte n => exact ⟨_, (encoding_byte r n).1⟩
  | int16 i => exact ⟨_, (encoding_int16 r i).1⟩
  | int32 i => exact ⟨_, (encoding_int32 r i).1⟩
  | int64 i => exact ⟨_, (encoding_int64 r i).1⟩
  | int i => exact ⟨_, (encoding_int r i).1⟩
  | float32 f => exact ⟨_, (encoding_float32 r f).1⟩
  | float64 f => exact ⟨_, (encoding_float64 r f).1⟩
  | str s => exact ⟨_, (encoding_str r s).1⟩
  | bytes b => exact ⟨_, (encoding_bytes r b).1⟩
  | seq xs =>
    simp only [encoding, NewBytesBuffer_eq]
    rw [SerializeBuf]
    simp only [bufAt_WriteByte, List.nil_append]
    rw [encodeElems_frame]
    cases (encodeElems xs (NewBytesBuffer 0)).2 <;> simp [tagOf, TArray]
  | map kvs =>
    simp only [encoding, NewBytesBuffer_eq]
    rw [SerializeBuf]
    simp only [bufAt_WriteByte, List.nil_append]
    rw [encodeEntries_frame]
    cases (encodeEntries kvs (NewBytesBuffer 0)).2 <;> simp [tagOf, TMap]

theorem isDynamic_ne (v : Value) (h : isDynamic v = true) :
    v ≠ .other ∧ v ≠ .null ∧ ∀ fs, v ≠ .msg fs := by
  cases v <;> simp [isDynamic] at h <;> simp

theorem tagOf_isDynamic (v : Value) (h : isDynamic v = true) :
    tagOf v ≠ TNull ∧ tagOf v ≠ TArrayEnd ∧ tagOf v ≠ TMapEnd := by
  cases v with
  | bool b => cases b <;> simp [tagOf, TNull, TArrayEnd, TMapEnd, TTrue, TFalse]
  | null => simp [isDynamic] at h
  | int _ => simp [isDynamic] at h
  | msg _ => simp [isDynamic] at h
  | other => simp [isDynamic] at h
  | _ => simp [tagOf, TNull, TArrayEnd, TMapEnd, TByte, TInt16, TInt32, TInt64, TFloat32, TFloat64,
      TString, TByteArray, TArray, TMap]

theorem encoding_isDynamic (v : Value) (h : isDynamic v = true) :
    ∃ tl, encoding true v = tagOf v :: tl :=
  encoding_head true v (isDynamic_ne v h).1 (fun _ => (isDynamic_ne v h).2)

theorem isDynamic_of_isKey (k : Value) (h : isKey k = true) : isDynamic k = true := by
  cases k <;> simp_all [isKey, isScalar, isDynamic]

theorem hashable_of_isKey (k : Value) (h : isKey k = true) : hashable k = true := by
  cases k <;> simp_all [isKey, isScalar, hashable]

theorem setMapIndex_fresh (acc : List (Value × Value)) (k v : Value)
    (h : ∀ a ∈ acc, keyEq a.1 k = false) : setMapIndex acc k v = acc ++ [(k, v)] := by
  induction acc with
  | nil => rfl
  | cons a rest ih =>
    obtain ⟨k1, v1⟩ := a
    have h1 : keyEq k1 k = false := h (k1, v1) (List.mem_cons_self _ _)
    simp only [setMapIndex, h1, Bool.false_eq_true, if_false, List.cons_append]
    rw [ih (fun a ha => h a (List.mem_cons_of_mem _ ha))]

/-! ## Decoding what the encoder wrote: dynamic values -/

theorem unread_tag (data : List Nat) (pos : Nat) :
    (bufAt data (pos + 1)).SetRPos ((bufAt data (pos + 1)).GetRPos - 1) = bufAt data pos := by
  simp [bufAt, BytesBuffer.SetRPos, BytesBuffer.GetRPos]

theorem storeAt_nil (t : GoType) (x : Value) : storeAt .nil t x = .ok none := rfl

theorem storeInteger_nil (u : Nat) : storeInteger .nil u = .ok none := rfl

/-- A proper key is read back as it is. -/
theorem readBack_of_isKey (k : Value) (h : isKey k = true) : readBack k = k := by
  cases k <;> try simp_all [isKey, isScalar, readBack]
  exact convFloat32_of_not_NaN _ (by simpa using h.2)

mutual

/-- A dynamic value without signalling NaN is read back as it is. -/
theorem readBack_of_isQuiet : (v : Value) → isDynamic v = true → isQuiet v = true → readBack v = v
  | .seq xs, hv, hq => by
    rw [readBack, readBackAll_of_allQuiet xs (by simpa [isDynamic] using hv)
      (by simpa [isQuiet] using hq)]
  | .map kvs, hv, hq => by
    rw [readBack, readBackEntries_of_entriesQuiet kvs (by simpa [isDynamic] using hv)
      (by simpa [isQuiet] using hq)]
  | .float32 b, _, hq => by
    rw [readBack, convFloat32_of_not_signalling b (by simpa [isQuiet] using hq)]
  | .str _, _, _ => by rw [readBack]
  | .bytes _, _, _ => by rw [readBack]
  | .bool _, _, _ => by rw [readBack]
  | .byte _, _, _ => by rw [readBack]
  | .int16 _, _, _ => by rw [readBack]
  | .int32 _, _, _ => by rw [readBack]
  | .int64 _, _, _ => by rw [readBack]
  | .float64 _, _, _ => by rw [readBack]
  | .null, _, _ => by rw [readBack]
  | .int _, hv, _ => by simp [isDynamic] at hv
  | .msg _, _, _ => by rw [readBack]
  | .other, _, _ => by rw [readBack]

theorem readBackAll_of_allQuiet : (xs : List Value) → allDynamic xs = true → allQuiet xs = true →
    readBackAll xs = xs
  | [], _, _ => by rw [readBackAll]
  | x :: rest, hv, hq => by
    simp only [allDynamic, allQuiet, Bool.and_eq_true] at hv hq
    rw [readBackAll, readBack_of_isQuiet x hv.1 hq.1, readBackAll_of_allQuiet rest hv.2 hq.2]

theorem readBackEntries_of_entriesQuiet : (kvs : List (Value × Value)) →
    entriesDynamic kvs = true → entriesQuiet kvs = true → readBackEntries kvs = kvs
  | [], _, _ => by rw [readBackEntries]
  | (k, v) :: rest, hv, hq => by
    simp only [entriesDynamic, entriesQuiet, Bool.and_eq_true] at hv hq
    rw [readBackEntries, readBack_of_isKey k hv.1.1.1, readBack_of_isQuiet v hv.1.1.2 hq.1.2,
      readBackEntries_of_entriesQuiet rest hv.2 hq.2]

end

theorem readBackAll_eq_map (xs : List Value) : readBackAll xs = xs.map readBack := by
  induction xs with
  | nil => rw [readBackAll]; rfl
  | cons x rest ih => rw [readBackAll, ih]; rfl

/-- A scalar, a string or a byte slice written by the encoder is read back by
`DeSerializeBuf` without target, or into a `*interface{}`, a float32 after the
conversion of the encoder. -/
theorem roundtrip_leaf (v : Value) (hv : isDynamic v = true)
    (hs : ∀ xs, v ≠ .seq xs) (hm : ∀ kvs, v ≠ .map kvs)
    (f : Nat) (t : Target) (ht : dropIface t = .nil) {data rest : List Nat} {pos : Nat}
    (h : data.drop pos = encoding true v ++ rest) :
    DeSerializeBuf (f + 1) (bufAt data pos) t
      = .ok (readBack v, if ifacePtr t then some (readBack v) else none,
          bufAt data (pos + (encoding true v).length)) := by
  cases v with
  | bool b =>
    simp only [readBack]
    exact DeSerializeBuf_bool f b t none (by rw [ht]; rfl) h
  | byte n =>
    simp only [readBack]
    exact DeSerializeBuf_byte f n t none (by simpa [isDynamic] using hv) (by rw [ht]; rfl) h
  | int16 i =>
    have := hv
    simp only [isDynamic, decide_eq_true_eq] at this
    simp only [readBack]
    exact DeSerializeBuf_int16 f i t none this.1 this.2 (by rw [ht]; rfl) h
  | int32 i =>
    have := hv
    simp only [isDynamic, decide_eq_true_eq] at this
    simp only [readBack]
    exact DeSerializeBuf_int32 f i t none this.1 this.2 (by rw [ht]; rfl) h
  | int64 i =>
    have := hv
    simp only [isDynamic, decide_eq_true_eq] at this
    simp only [readBack]
    exact DeSerializeBuf_int64 f i t none this.1 this.2 (by rw [ht]; rfl) h
  | float32 b =>
    simp only [readBack]
    exact DeSerializeBuf_float32 f b t none (by simpa [isDynamic] using hv) (by rw [ht]; rfl) h
  | float64 b =>
    simp only [readBack]
    exact DeSerializeBuf_float64 f b t none (by simpa [isDynamic] using hv) (by rw [ht]; rfl) h
  | str s =>
    simp only [readBack]
    exact DeSerializeBuf_str f s t none (by simpa [isDynamic] using hv) (by rw [ht]; rfl) h
  | bytes b =>
    simp only [readBack]
    exact DeSerializeBuf_bytes f b t none (by simpa [isDynamic] using hv) (by rw [ht]; rfl) h
  | seq xs => exact absurd rfl (hs xs)
  | map kvs => exact absurd rfl (hm kvs)
  | null => simp [isDynamic] at hv
  | int _ => simp [isDynamic] at hv
  | msg _ => simp [isDynamic] at hv
  | other => simp [isDynamic] at hv

theorem encoding_length_pos (v : Value) (h : isDynamic v = true) : 0 < (encoding true v).length := by
  obtain ⟨tl, htl⟩ := encoding_isDynamic v h
  rw [htl]
  simp

mutual

/-- Every dynamic value written by the encoder is read back by `DeSerializeBuf`
without target, or into a `*interface{}`, given fuel for its bytes: what comes
back is the value after the conversion of the encoder; the read position ends
right after the bytes. -/
theorem roundtrip : (v : Value) → isDynamic v = true → ∀ (f : Nat) (t : Target),
    dropIface t = .nil → ∀ (data rest : List Nat) (pos : Nat),
    (encoding true v).length ≤ f → data.drop pos = encoding true v ++ rest →
    DeSerializeBuf f (bufAt data pos) t
      = .ok (readBack v, if ifacePtr t then some (readBack v) else none,
          bufAt data (pos + (encoding true v).length))
  | .seq xs, hv, f, t, ht, data, rest, pos, hf, h => by
    have hx : allDynamic xs = true := by simpa [isDynamic] using hv
    have henc := (encoding_seq true xs (elems_ok xs hx)).1
    rw [henc] at h hf ⊢
    obtain ⟨g, rfl⟩ : ∃ g, f = g + 1 := ⟨f - 1, by simp at hf; omega⟩
    have h0 : data.drop pos = TArray :: (encodingElems xs ++ TArrayEnd :: rest) := by
      rw [h]; simp
    have h1 : data.drop (pos + 1) = encodingElems xs ++ TArrayEnd :: rest := drop_succ_of_drop h0
    have hl := roundtrip_elems xs hx g data rest (pos + 1) [] (by simp at hf; omega) h1
    have hp : bufAt data (pos + 1 + (encodingElems xs).length + 1)
        = bufAt data (pos + ([TArray] ++ encodingElems xs ++ [TArrayEnd]).length) :=
      bufAt_congr data (by simp; omega)
    rw [hp] at hl
    rw [DeSerializeBuf]
    simp only [ReadByte_bufAt h0, unread_tag, ht, DecodeArrayWith, targetType, interfaceSliceType, hl,
      mkSlice, List.nil_append, readBack]
    simp [TArray, TNull, TFalse, TTrue, TByte, TString, TByteArray, TInt16, TInt32, TInt64,
      TFloat32, TFloat64]
  | .map kvs, hv, f, t, ht, data, rest, pos, hf, h => by
    have hx : entriesDynamic kvs = true := by simpa [isDynamic] using hv
    have henc := (encoding_map true kvs (entries_ok kvs hx)).1
    rw [henc] at h hf ⊢
    obtain ⟨g, rfl⟩ : ∃ g, f = g + 1 := ⟨f - 1, by simp at hf; omega⟩
    have h0 : data.drop pos = TMap :: (encodingEntries kvs ++ TMapEnd :: rest) := by
      rw [h]; simp
    have h1 : data.drop (pos + 1) = encodingEntries kvs ++ TMapEnd :: rest := drop_succ_of_drop h0
    have hl := roundtrip_entries kvs hx g data rest (pos + 1) [] (by simp at hf; omega) h1
      (fun a ha => by cases ha)
    have hp : bufAt data (pos + 1 + (encodingEntries kvs).length + 1)
        = bufAt data (pos + ([TMap] ++ encodingEntries kvs ++ [TMapEnd]).length) :=
      bufAt_congr data (by simp; omega)
    rw [hp] at hl
    rw [DeSerializeBuf]
    simp only [ReadByte_bufAt h0, unread_tag, ht, DecodeMapWith, targetType, interfaceMapType, hl,
      List.nil_append, readBack]
    simp [TArray, TMap, TNull, TFalse, TTrue, TByte, TString, TByteArray, TInt16, TInt32, TInt64,
      TFloat32, TFloat64]
  | .str s, hv, f, t, ht, data, rest, pos, hf, h => by
    obtain ⟨g, rfl⟩ : ∃ g, f = g + 1 := ⟨f - 1, by have := encoding_length_pos _ hv; omega⟩
    exact roundtrip_leaf _ hv (by simp) (by simp) g t ht h
  | .bytes s, hv, f, t, ht, data, rest, pos, hf, h => by
    obtain ⟨g, rfl⟩ : ∃ g, f = g + 1 := ⟨f - 1, by have := encoding_length_pos _ hv; omega⟩
    exact roundtrip_leaf _ hv (by simp) (by simp) g t ht h
  | .bool s, hv, f, t, ht, data, rest, pos, hf, h => by
    obtain ⟨g, rfl⟩ : ∃ g, f = g + 1 := ⟨f - 1, by have := encoding_length_pos _ hv; omega⟩
    exact roundtrip_leaf _ hv (by simp) (by simp) g t ht h
  | .byte s, hv, f, t, ht, data, rest, pos, hf, h => by
    obtain ⟨g, rfl⟩ : ∃ g, f = g + 1 := ⟨f - 1, by have := encoding_length_pos _ hv; omega⟩
    exact roundtrip_leaf _ hv (by simp) (by simp) g t ht h
  | .int16 s, hv, f, t, ht, data, rest, pos, hf, h => by
    obtain ⟨g, rfl⟩ : ∃ g, f = g + 1 := ⟨f - 1, by have := encoding_length_pos _ hv; omega⟩
    exact roundtrip_leaf _ hv (by simp) (by simp) g t ht h
  | .int32 s, hv, f, t, ht, data, rest, pos, hf, h => by
    obtain ⟨g, rfl⟩ : ∃ g, f = g + 1 := ⟨f - 1, by have := encoding_length_pos _ hv; omega⟩
    exact roundtrip_leaf _ hv (by simp) (by simp) g t ht h
  | .int64 s, hv, f, t, ht, data, rest, pos, hf, h => by
    obtain ⟨g, rfl⟩ : ∃ g, f = g + 1 := ⟨f - 1, by have := encoding_length_pos _ hv; omega⟩
    exact roundtrip_leaf _ hv (by simp) (by simp) g t ht h
  | .float32 s, hv, f, t, ht, data, rest, pos, hf, h => by
    obtain ⟨g, rfl⟩ : ∃ g, f = g + 1 := ⟨f - 1, by have := encoding_length_pos _ hv; omega⟩
    exact roundtrip_leaf _ hv (by simp) (by simp) g t ht h
  | .float64 s, hv, f, t, ht, data, rest, pos, hf, h => by
    obtain ⟨g, rfl⟩ : ∃ g, f = g + 1 := ⟨f - 1, by have := encoding_length_pos _ hv; omega⟩
    exact roundtrip_leaf _ hv (by simp) (by simp) g t ht h
  | .null, hv, _, _, _, _, _, _, _, _ => by simp [isDynamic] at hv
  | .int _, hv, _, _, _, _, _, _, _, _ => by simp [isDynamic] at hv
  | .msg _, hv, _, _, _, _, _, _, _, _ => by simp [isDynamic] at hv
  | .other, hv, _, _, _, _, _, _, _, _ => by simp [isDynamic] at hv

/-- The loop of `DecodeArray` reads back the elements the loop of `EncodeArray`
wrote, up to and including the end tag. -/
theorem roundtrip_elems : (xs : List Value) → allDynamic xs = true →
    ∀ (f : Nat) (data rest : List Nat) (pos : Nat) (acc : List Value),
    (encodingElems xs).length + 1 ≤ f → data.drop pos = encodingElems xs ++ TArrayEnd :: rest →
    decodeArrayLoop f (bufAt data pos) .iface acc
      = .ok (acc ++ readBackAll xs, bufAt data (pos + (encodingElems xs).length + 1))
  | [], _, f, data, rest, pos, acc, hf, h => by
    obtain ⟨g, rfl⟩ : ∃ g, f = g + 1 := ⟨f - 1, by omega⟩
    have he : encodingElems [] = [] := by simp [encodingElems, encodeElems, NewBytesBuffer_eq]
    rw [he] at h ⊢
    rw [decodeArrayLoop]
    simp [ReadByte_bufAt h, readBackAll]
  | x :: xs, hv, f, data, rest, pos, acc, hf, h => by
    simp only [allDynamic, Bool.and_eq_true] at hv
    have he := (encodeElems_cons x xs (failure_of_isDynamic true x hv.1)).1
    rw [he] at h hf ⊢
    obtain ⟨tl, htl⟩ := encoding_isDynamic x hv.1
    have hpos := encoding_length_pos x hv.1
    obtain ⟨g, rfl⟩ : ∃ g, f = g + 1 := ⟨f - 1, by omega⟩
    have h0 : data.drop pos = tagOf x :: (tl ++ encodingElems xs ++ TArrayEnd :: rest) := by
      rw [h, htl]; simp
    have hx : data.drop pos = encoding true x ++ (encodingElems xs ++ TArrayEnd :: rest) := by
      rw [h]; simp
    have hd := roundtrip x hv.1 g (.ptr .iface) rfl data _ pos
      (by simp at hf; omega) hx
    have hr := roundtrip_elems xs hv.2 g data rest (pos + (encoding true x).length)
      (acc ++ [readBack x]) (by simp at hf; omega) (drop_add_of_drop hx)
    have hp : bufAt data (pos + (encoding true x).length + (encodingElems xs).length + 1)
        = bufAt data (pos + (encoding true x ++ encodingElems xs).length + 1) :=
      bufAt_congr data (by simp; omega)
    rw [hp] at hr
    rw [decodeArrayLoop]
    simp only [ReadByte_bufAt h0, unread_tag, hd, (tagOf_isDynamic x hv.1).2.1, if_false]
    simpa [ifacePtr, zeroValue, readBackAll] using hr

/-- The loop of `DecodeMap` reads back the entries the loop of `EncodeMap`
wrote, up to and including the end tag, when no key read before equals one
still to come. -/
theorem roundtrip_entries : (kvs : List (Value × Value)) → entriesDynamic kvs = true →
    ∀ (f : Nat) (data rest : List Nat) (pos : Nat) (acc : List (Value × Value)),
    (encodingEntries kvs).length + 1 ≤ f → data.drop pos = encodingEntries kvs ++ TMapEnd :: rest →
    (∀ a ∈ acc, freshKeyIn a.1 kvs = true) →
    decodeMapLoop f (bufAt data pos) .iface .iface acc
      = .ok (acc ++ readBackEntries kvs, bufAt data (pos + (encodingEntries kvs).length + 1))
  | [], _, f, data, rest, pos, acc, hf, h, _ => by
    obtain ⟨g, rfl⟩ : ∃ g, f = g + 1 := ⟨f - 1, by omega⟩
    have he : encodingEntries [] = [] := by simp [encodingEntries, encodeEntries, NewBytesBuffer_eq]
    rw [he] at h ⊢
    rw [decodeMapLoop]
    simp [ReadByte_bufAt h, readBackEntries]
  | (k, v) :: kvs, hv, f, data, rest, pos, acc, hf, h, hacc => by
    simp only [entriesDynamic, Bool.and_eq_true] at hv
    obtain ⟨⟨⟨hk, hvv⟩, hfresh⟩, hrest⟩ := hv
    have hkd := isDynamic_of_isKey k hk
    have hkb := readBack_of_isKey k hk
    have he := (encodeEntries_cons k v kvs (failure_of_isKey k hk) (keyEq_self_of_isKey k hk)
      (failure_of_isDynamic true v hvv)).1
    rw [he] at h hf ⊢
    obtain ⟨tl, htl⟩ := encoding_isDynamic k hkd
    have hposk := encoding_length_pos k hkd
    have hposv := encoding_length_pos v hvv
    obtain ⟨g, rfl⟩ : ∃ g, f = g + 1 := ⟨f - 1, by omega⟩
    have h0 : data.drop pos
        = tagOf k :: (tl ++ encoding true v ++ encodingEntries kvs ++ TMapEnd :: rest) := by
      rw [h, htl]; simp
    have hx : data.drop pos
        = encoding true k ++ (encoding true v ++ (encodingEntries kvs ++ TMapEnd :: rest)) := by
      rw [h]; simp
    have hdk := roundtrip k hkd g (.ptr .iface) rfl data _ pos (by simp at hf; omega) hx
    rw [hkb] at hdk
    have hdv := roundtrip v hvv g (.ptr .iface) rfl data _ (pos + (encoding true k).length)
      (by simp at hf; omega) (drop_add_of_drop hx)
    have hset : setMapIndex acc k (readBack v) = acc ++ [(k, readBack v)] := by
      apply setMapIndex_fresh
      intro a ha
      have := hacc a ha
      simp only [freshKeyIn, Bool.and_eq_true, Bool.not_eq_true'] at this
      exact this.1
    have hacc' : ∀ a ∈ acc ++ [(k, readBack v)], freshKeyIn a.1 kvs = true := by
      intro a ha
      rcases List.mem_append.mp ha with ha | ha
      · have := hacc a ha
        simp only [freshKeyIn, Bool.and_eq_true] at this
        exact this.2
      · simp only [List.mem_singleton] at ha
        subst ha
        exact hfresh
    have hr := roundtrip_entries kvs hrest g data rest
      (pos + (encoding true k).length + (encoding true v).length) (acc ++ [(k, readBack v)])
      (by simp at hf; omega) (drop_add_of_drop (drop_add_of_drop hx)) hacc'
    have hp : bufAt data (pos + (encoding true k).length + (encoding true v).length
          + (encodingEntries kvs).length + 1)
        = bufAt data (pos + (encoding true k ++ encoding true v ++ encodingEntries kvs).length + 1) :=
      bufAt_congr data (by simp; omega)
    rw [hp] at hr
    rw [decodeMapLoop]
    simp only [ReadByte_bufAt h0, unread_tag, hdk, hdv, (tagOf_isDynamic k hkd).2.2, if_false]
    simpa [ifacePtr, zeroValue, hashable_of_isKey k hk, hset, readBackEntries, hkb] using hr

end

/-! ## `SerializeMulti` and `DeSerializeMulti` -/

theorem encoding_reflected (v : Value) (h : v ≠ .null) (hm : ∀ fs, v ≠ .msg fs) :
    encoding false v = encoding true v ∧ failure false v = failure true v := by
  cases v with
  | null => exact absurd rfl h
  | msg fs => exact absurd rfl (hm fs)
  | _ => constructor <;> simp [encoding, failure, SerializeBuf]

theorem encoding_false_isDynamic (v : Value) (h : isDynamic v = true) :
    encoding false v = encoding true v :=
  (encoding_reflected v (isDynamic_ne v h).2.1 (isDynamic_ne v h).2.2).1

/-- The loop of `SerializeMulti` appends the encodings in order while no value
fails. -/
theorem serializeMultiLoop_ok (vs : List Value) (h : ∀ v ∈ vs, failure false v = none)
    (data : List Nat) (pos : Nat) :
    serializeMultiLoop vs (bufAt data pos)
      = (bufAt (data ++ (vs.map (encoding false)).flatten) pos, none) := by
  induction vs generalizing data with
  | nil => simp [serializeMultiLoop]
  | cons v rest ih =>
    rw [serializeMultiLoop, SerializeBuf_frame, h v (List.mem_cons_self _ _)]
    simp only
    rw [ih (fun w hw => h w (List.mem_cons_of_mem _ hw))]
    simp

theorem SerializeMulti_ok (vs : List Value) (h : ∀ v ∈ vs, failure false v = none) :
    Serialization.SerializeMulti vs = ((vs.map (encoding false)).flatten, none) := by
  unfold Serialization.SerializeMulti
  cases vs with
  | nil => simp
  | cons v rest =>
    rw [NewBytesBuffer_eq, serializeMultiLoop_ok (v :: rest) h]
    simp

/-- The loop of `DeSerializeMulti` without targets reads back, one after the
other, the dynamic values whose encodings fill the rest of the buffer. -/
theorem deSerializeAll_roundtrip (vs : List Value) (h : ∀ v ∈ vs, isDynamic v = true)
    (n F : Nat) (hn : vs.length ≤ n) (hF : ∀ v ∈ vs, (encoding true v).length ≤ F)
    (data : List Nat) (pos : Nat) (acc : List Value)
    (hd : data.drop pos = (vs.map (encoding true)).flatten) :
    deSerializeAll n F (bufAt data pos) acc = .ok (acc ++ vs.map readBack) := by
  induction vs generalizing n pos acc with
  | nil =>
    have hr : (bufAt data pos).Remain = 0 := by
      have := congrArg List.length hd
      simp only [List.map_nil, List.flatten_nil, List.length_nil, List.length_drop] at this
      simpa [BytesBuffer.Remain, bufAt] using this
    cases n <;> simp [deSerializeAll, hr]
  | cons v rest ih =>
    obtain ⟨m, rfl⟩ : ∃ m, n = m + 1 := ⟨n - 1, by simp at hn; omega⟩
    have hv := h v (List.mem_cons_self _ _)
    have hd' : data.drop pos = encoding true v ++ (rest.map (encoding true)).flatten := by
      rw [hd]; simp
    have hpos := encoding_length_pos v hv
    have hr : (bufAt data pos).Remain > 0 := by
      have := congrArg List.length hd'
      simp only [List.length_append, List.length_drop] at this
      simp only [BytesBuffer.Remain, bufAt]
      omega
    have hdec := roundtrip v hv F .nil rfl data _ pos (hF v (List.mem_cons_self _ _)) hd'
    rw [deSerializeAll]
    simp only [hr, if_true, hdec]
    rw [ih (fun w hw => h w (List.mem_cons_of_mem _ hw)) m (by simp at hn; omega)
      (fun w hw => hF w (List.mem_cons_of_mem _ hw)) _ _ (drop_add_of_drop hd')]
    simp

theorem length_le_join (vs : List Value) (h : ∀ v ∈ vs, isDynamic v = true) :
    vs.length ≤ ((vs.map (encoding true)).flatten).length
    ∧ ∀ v ∈ vs, (encoding true v).length ≤ ((vs.map (encoding true)).flatten).length := by
  induction vs with
  | nil => simp
  | cons v rest ih =>
    have hv := encoding_length_pos v (h v (List.mem_cons_self _ _))
    obtain ⟨h1, h2⟩ := ih (fun w hw => h w (List.mem_cons_of_mem _ hw))
    simp only [List.map_cons, List.flatten_cons, List.length_append, List.length_cons]
    constructor
    · omega
    · intro w hw
      rcases List.mem_cons.mp hw with rfl | hw
      · omega
      · have := h2 w hw
        omega

/-- C1 as stated fails on two kinds of float: a mapping with a NaN key is a
mapping of floats, yet `SerializeMulti` (like `Serialize`) fails on it with
`ErrTypeUnsupported`, the key written and its value not found by
`v.MapIndex`; and a float32 signalling NaN comes back as another bit pattern,
with its quiet bit set. -/
theorem C1_nan_counterexample :
    Serialization.SerializeMulti [.map [(.float64 9221120237041090561, .bool true)]]
        = ([], some .ErrTypeUnsupported)
    ∧ Serialization.Serialize (.map [(.float64 9221120237041090561, .bool true)])
        = ([22, 10, 127, 248, 0, 0, 0, 0, 0, 1], some .ErrTypeUnsupported)
    ∧ Serialization.SerializeMulti [.float32 2141192192] = ([9, 127, 224, 0, 0], none)
    ∧ Serialization.DeSerializeMulti (Serialization.SerializeMulti [.float32 2141192192]).1 none
        = .ok [(.float32 2145386496, none)] := by
  refine ⟨rfl, rfl, rfl, rfl⟩

/-- C1 (message dialect, dynamic round trip), amended: for every list `vs` of
dynamic values (bools, bytes, int16/int32/int64, floats as bit patterns,
strings, byte slices, sequences and mappings of such values, no key of a
mapping being a NaN), `SerializeMulti` succeeds and `DeSerializeMulti` of its
bytes without targets succeeds and returns, in order and with nothing
assigned, the values of `vs` with every float32 after the conversion of the
encoder: the values of `vs` themselves when no float32 in them is a signalling
NaN.  In this model a sequence carries no element type and a mapping is its
list of entries, so a typed sequence and the sequence-of-dynamic that comes
back are the same value, and equal lists of entries are in particular equal
sets of pairs. -/
theorem C1_dynamic_roundtrip (vs : List Value) (h : ∀ v ∈ vs, isDynamic v = true) :
    (Serialization.SerializeMulti vs).2 = none
    ∧ Serialization.DeSerializeMulti (Serialization.SerializeMulti vs).1 none
        = .ok (vs.map fun v => (readBack v, none))
    ∧ ((∀ v ∈ vs, isQuiet v = true) →
        Serialization.DeSerializeMulti (Serialization.SerializeMulti vs).1 none
          = .ok (vs.map fun v => (v, none))) := by
  have hok : ∀ v ∈ vs, failure false v = none := fun v hv => failure_of_isDynamic false v (h v hv)
  have henc : vs.map (encoding false) = vs.map (encoding true) :=
    List.map_congr_left (fun v hv => encoding_false_isDynamic v (h v hv))
  rw [SerializeMulti_ok vs hok, henc]
  obtain ⟨h1, h2⟩ := length_le_join vs h
  have := deSerializeAll_roundtrip vs h _ (fuelFor ((vs.map (encoding true)).flatten).length) h1
    (fun v hv => le_trans (h2 v hv) (by unfold fuelFor; omega)) _ 0 [] rfl
  have hmain : Serialization.DeSerializeMulti ((vs.map (encoding true)).flatten) none
      = .ok (vs.map fun v => (readBack v, none)) := by
    simp only [Serialization.DeSerializeMulti, CreateBytesBuffer_eq, this, List.nil_append,
      List.map_map]
    rfl
  refine ⟨rfl, hmain, fun hq => ?_⟩
  rw [hmain]
  congr 1
  exact List.map_congr_left (fun v hv => by rw [readBack_of_isQuiet v (h v hv) (hq v hv)])

theorem C1_dynamic_roundtrip_witness :
    (∀ v ∈ [Value.map [(.str [107], .seq [.bool true, .int32 (-16)]), (.int64 5, .bytes [1, 2])],
        .float32 2141192192], isDynamic v = true)
    ∧ (Serialization.SerializeMulti
        [Value.map [(.str [107], .seq [.bool true, .int32 (-16)]), (.int64 5, .bytes [1, 2])],
          .float32 2141192192]).2 = none
    ∧ Serialization.DeSerializeMulti (Serialization.SerializeMulti
        [Value.map [(.str [107], .seq [.bool true, .int32 (-16)]), (.int64 5, .bytes [1, 2])],
          .float32 2141192192]).1 none
        = .ok ([Value.map [(.str [107], .seq [.bool true, .int32 (-16)]), (.int64 5, .bytes [1, 2])],
          .float32 2141192192].map fun v => (readBack v, none))
    ∧ ((∀ v ∈ [Value.map [(.str [107], .seq [.bool true, .int32 (-16)]), (.int64 5, .bytes [1, 2])],
          .float32 2141192192], isQuiet v = true) →
        Serialization.DeSerializeMulti (Serialization.SerializeMulti
          [Value.map [(.str [107], .seq [.bool true, .int32 (-16)]), (.int64 5, .bytes [1, 2])],
            .float32 2141192192]).1 none
          = .ok ([Value.map [(.str [107], .seq [.bool true, .int32 (-16)]), (.int64 5, .bytes [1, 2])],
            .float32 2141192192].map fun v => (v, none))) :=
  ⟨by decide, C1_dynamic_roundtrip _ (by decide)⟩

/-! ## Scalars, strings and byte slices into typed targets -/

theorem DeSerialize_of_DeSerializeBuf (b : List Nat) (t : Target) (r st : _) (buf : BytesBuffer)
    (hb : b ≠ [])
    (h : DeSerializeBuf (fuelFor b.length) (bufAt b 0) t = .ok (r, st, buf)) :
    Serialization.DeSerialize b t = .ok (r, st) := by
  have : b.length ≠ 0 := fun h0 => hb (List.eq_nil_of_length_eq_zero h0)
  simp [Serialization.DeSerialize, this, CreateBytesBuffer_eq, h]

theorem fuelFor_succ (n : Nat) : fuelFor n = (2 * n + 1) + 1 := rfl

theorem isScalar_isDynamic (v : Value) (h : isScalar v = true) : isDynamic v = true := by
  cases v <;> simp_all [isScalar, isDynamic]

/-- A scalar decodes into a `reflect.Type` target as it does without target,
a float32 after the conversion of the encoder: the typed decoders assign only
through pointers. -/
theorem scalar_into_type (v : Value) (hv : isScalar v = true) (ty : GoType) (f : Nat)
    {data rest : List Nat} {pos : Nat} (h : data.drop pos = encoding true v ++ rest) :
    DeSerializeBuf (f + 1) (bufAt data pos) (.type ty)
      = .ok (readBack v, none, bufAt data (pos + (encoding true v).length)) := by
  cases v with
  | bool b =>
    simp only [readBack]
    exact DeSerializeBuf_bool f b (.type ty) none rfl h
  | byte n =>
    simp only [readBack]
    exact DeSerializeBuf_byte f n (.type ty) none (by simpa [isScalar] using hv) rfl h
  | int16 i =>
    simp only [isScalar, decide_eq_true_eq] at hv
    simp only [readBack]
    exact DeSerializeBuf_int16 f i (.type ty) none hv.1 hv.2 rfl h
  | int32 i =>
    simp only [isScalar, decide_eq_true_eq] at hv
    simp only [readBack]
    exact DeSerializeBuf_int32 f i (.type ty) none hv.1 hv.2 rfl h
  | int64 i =>
    simp only [isScalar, decide_eq_true_eq] at hv
    simp only [readBack]
    exact DeSerializeBuf_int64 f i (.type ty) none hv.1 hv.2 rfl h
  | float32 b =>
    simp only [readBack]
    exact DeSerializeBuf_float32 f b (.type ty) none (by simpa [isScalar] using hv) rfl h
  | float64 b =>
    simp only [readBack]
    exact DeSerializeBuf_float64 f b (.type ty) none (by simpa [isScalar] using hv) rfl h
  | _ => simp [isScalar] at hv

/-- C2 as stated fails on a float32 bit pattern: the signalling NaN
`0x7FA00000` is written as `0x7FE00000`, the pattern after the conversion
`float32(rv.Float())`, and that is the pattern `DeSerialize` returns. -/
theorem C2_signalling_nan_counterexample :
    isScalar (.float32 2141192192) = true
    ∧ Serialization.Serialize (.float32 2141192192) = ([9, 127, 224, 0, 0], none)
    ∧ Serialization.DeSerialize (Serialization.Serialize (.float32 2141192192)).1
        (.type (typeOf (.float32 2141192192))) = .ok (.float32 2145386496, none)
    ∧ Serialization.DeSerialize (Serialization.Serialize (.float32 2141192192)).1
        (.type (typeOf (.float32 2141192192))) ≠ .ok (.float32 2141192192, none) := by
  refine ⟨rfl, rfl, rfl, ?_⟩
  have h : Serialization.DeSerialize (Serialization.Serialize (.float32 2141192192)).1
      (.type (typeOf (.float32 2141192192))) = .ok (.float32 2145386496, none) := rfl
  rw [h]
  simp

/-- C2 (message dialect, primitive round trip), amended: for every bool, byte,
int16, int32, int64 `v` within the range of its type (the minimum and the
maximum included) and every float32/float64 bit pattern, `Serialize` succeeds
and `DeSerialize` of its bytes with the type descriptor of `v` returns no
error and `v` after the conversion of the encoder: exactly `v` unless `v` is a
float32 signalling NaN, which comes back with its quiet bit set; a platform
int `n` is written as the INT64 encoding of `n` and read back, with its type
descriptor, as the int64 of the same value. -/
theorem C2_primitive_roundtrip (v : Value) (hv : isScalar v = true)
    (n : Int) (hn : -(2 ^ 63) ≤ n ∧ n < 2 ^ 63) :
    ((Serialization.Serialize v).2 = none
      ∧ Serialization.DeSerialize (Serialization.Serialize v).1 (.type (typeOf v))
          = .ok (readBack v, none)
      ∧ (isQuiet v = true →
          Serialization.DeSerialize (Serialization.Serialize v).1 (.type (typeOf v)) = .ok (v, none))
      ∧ (∀ b, v = .float32 b → isSignalling32 b = true → readBack v = .float32 (b + 2 ^ 22)))
    ∧ (Serialization.Serialize (.int n) = Serialization.Serialize (.int64 n)
      ∧ (Serialization.Serialize (.int n)).1.head? = some TInt64
      ∧ (Serialization.Serialize (.int n)).2 = none
      ∧ Serialization.DeSerialize (Serialization.Serialize (.int n)).1 (.type (typeOf (.int n)))
          = .ok (.int64 n, none)) := by
  have hd := isScalar_isDynamic v hv
  have key : ∀ (w : Value), isScalar w = true → ∀ ty,
      Serialization.DeSerialize (encoding false w) (.type ty) = .ok (readBack w, none) := by
    intro w hw ty
    have hwd := isScalar_isDynamic w hw
    have hne : encoding false w ≠ [] := by
      rw [encoding_false_isDynamic w hwd]
      intro h0
      have := encoding_length_pos w hwd
      rw [h0] at this
      simp at this
    have hdec := @scalar_into_type w hw ty (2 * (encoding false w).length + 1)
      (encoding false w) [] 0 (by rw [encoding_false_isDynamic w hwd]; simp)
    rw [← fuelFor_succ] at hdec
    exact DeSerialize_of_DeSerializeBuf _ _ _ _ _ hne hdec
  have hint : Serialization.Serialize (.int n) = Serialization.Serialize (.int64 n) := by
    simp [Serialize_eq, encoding, failure, SerializeBuf]
  refine ⟨⟨?_, ?_, ?_, ?_⟩, hint, ?_, ?_, ?_⟩
  · exact failure_of_isDynamic false v hd
  · exact key v hv _
  · intro hq
    have := key v hv (typeOf v)
    rw [readBack_of_isQuiet v hd hq] at this
    exact this
  · intro b hb hsig
    subst hb
    simp only [readBack, convFloat32]
    simp only [isSignalling32] at hsig
    rw [hsig]
    rfl
  · rw [hint, Serialize_eq, (encoding_int64 false n).1]
    rfl
  · rw [hint, Serialize_eq]
    exact (encoding_int64 false n).2
  · rw [hint]
    have := key (.int64 n) (by simpa [isScalar] using hn) (typeOf (.int n))
    simpa only [readBack] using this

theorem C2_primitive_roundtrip_witness :
    isScalar (.float32 2141192192) = true ∧ (-(2 ^ 63) ≤ (-16 : Int) ∧ (-16 : Int) < 2 ^ 63)
    ∧ ((Serialization.Serialize (.float32 2141192192)).2 = none
      ∧ Serialization.DeSerialize (Serialization.Serialize (.float32 2141192192)).1
          (.type (typeOf (.float32 2141192192))) = .ok (readBack (.float32 2141192192), none)
      ∧ (isQuiet (.float32 2141192192) = true →
          Serialization.DeSerialize (Serialization.Serialize (.float32 2141192192)).1
            (.type (typeOf (.float32 2141192192))) = .ok (.float32 2141192192, none))
      ∧ (∀ b, Value.float32 2141192192 = .float32 b → isSignalling32 b = true →
          readBack (.float32 2141192192) = .float32 (b + 2 ^ 22)))
    ∧ (Serialization.Serialize (.int (-16)) = Serialization.Serialize (.int64 (-16))
      ∧ (Serialization.Serialize (.int (-16))).1.head? = some TInt64
      ∧ (Serialization.Serialize (.int (-16))).2 = none
      ∧ Serialization.DeSerialize (Serialization.Serialize (.int (-16))).1 (.type (typeOf (.int (-16))))
          = .ok (.int64 (-16), none)) :=
  ⟨by decide, by decide, C2_primitive_roundtrip (.float32 2141192192) (by decide) (-16) (by decide)⟩

/-- C3 (message dialect, string round trip): for every string `s` (the empty
string included) shorter than `2 ^ 32` bytes, the bound of the 32-bit length
prefix, `Serialize` succeeds, the first byte is the STRING tag 4, and
`DeSerialize` of the bytes into a `*string` returns no error and sets the
target to `s`. -/
theorem C3_string_roundtrip (s : List Nat) (hs : s.length < 2 ^ 32) :
    (Serialization.Serialize (.str s)).2 = none
    ∧ (Serialization.Serialize (.str s)).1.head? = some 4
    ∧ Serialization.DeSerialize (Serialization.Serialize (.str s)).1 (.ptr .string)
        = .ok (.str s, some (.str s)) := by
  rw [Serialize_eq]
  refine ⟨(encoding_str false s).2, by rw [(encoding_str false s).1]; rfl, ?_⟩
  have hne : encoding false (.str s) ≠ [] := by rw [(encoding_str false s).1]; simp
  have hdec := @DeSerializeBuf_str (2 * (encoding false (.str s)).length + 1) s (.ptr .string)
    (some (.str s)) (encoding false (.str s)) [] 0 hs
    (by simp [dropIface, storeAt])
    (by rw [(encoding_str false s).1, (encoding_str true s).1]; simp)
  rw [← fuelFor_succ] at hdec
  simp only [ifacePtr, Bool.false_eq_true, if_false] at hdec
  exact DeSerialize_of_DeSerializeBuf _ _ _ _ _ hne hdec

theorem C3_string_roundtrip_witness :
    ([] : List Nat).length < 2 ^ 32
    ∧ (Serialization.Serialize (.str [])).2 = none
    ∧ (Serialization.Serialize (.str [])).1.head? = some 4
    ∧ Serialization.DeSerialize (Serialization.Serialize (.str [])).1 (.ptr .string)
        = .ok (.str [], some (.str [])) :=
  ⟨by decide, C3_string_roundtrip [] (by decide)⟩

/-- C4 (message dialect, byte-slice round trip): for every byte slice `b` (nil
and empty are the empty list, or non-empty) shorter than `2 ^ 32` bytes,
`Serialize` succeeds with the BYTE_ARRAY encoding: the byte 5, the zigzag32
length, the bytes; the first byte is not the SEQUENCE tag; `DeSerialize` of it
into a `*[]byte` returns no error and sets the target to a slice with the
length and contents of `b`. -/
theorem C4_bytes_roundtrip (b : List Nat) (hb : b.length < 2 ^ 32) :
    Serialization.Serialize (.bytes b) = (5 :: (varintBytes (zigzag 32 b.length) ++ b), none)
    ∧ (Serialization.Serialize (.bytes b)).1.head? ≠ some TArray
    ∧ Serialization.DeSerialize (Serialization.Serialize (.bytes b)).1 (.ptr (.slice .uint8))
        = .ok (.bytes b, some (.bytes b)) := by
  have hm : b.length % 2 ^ 32 = b.length := Nat.mod_eq_of_lt hb
  have hz : zigzag 32 b.length % 2 ^ 64 = zigzag 32 b.length :=
    Nat.mod_eq_of_lt (lt_trans (zigzag_lt 32 _ (by decide) hb) (by norm_num))
  have he : encoding false (.bytes b) = 5 :: (varintBytes (zigzag 32 b.length) ++ b) := by
    rw [(encoding_bytes false b).1, hm, hz]; rfl
  rw [Serialize_eq]
  refine ⟨by rw [he, (encoding_bytes false b).2], by rw [he]; simp [TArray], ?_⟩
  have hne : encoding false (.bytes b) ≠ [] := by rw [he]; simp
  have hdec := @DeSerializeBuf_bytes (2 * (encoding false (.bytes b)).length + 1) b
    (.ptr (.slice .uint8)) (some (.bytes b)) (encoding false (.bytes b)) []
    0 hb (by simp [dropIface, storeAt])
    (by rw [(encoding_bytes false b).1, (encoding_bytes true b).1]; simp)
  rw [← fuelFor_succ] at hdec
  simp only [ifacePtr, Bool.false_eq_true, if_false] at hdec
  exact DeSerialize_of_DeSerializeBuf _ _ _ _ _ hne hdec

theorem C4_bytes_roundtrip_witness :
    [3, 51, 120, 18].length < 2 ^ 32
    ∧ Serialization.Serialize (.bytes [3, 51, 120, 18])
        = (5 :: (varintBytes (zigzag 32 [3, 51, 120, 18].length) ++ [3, 51, 120, 18]), none)
    ∧ (Serialization.Serialize (.bytes [3, 51, 120, 18])).1.head? ≠ some TArray
    ∧ Serialization.DeSerialize (Serialization.Serialize (.bytes [3, 51, 120, 18])).1
        (.ptr (.slice .uint8)) = .ok (.bytes [3, 51, 120, 18], some (.bytes [3, 51, 120, 18])) :=
  ⟨by decide, C4_bytes_roundtrip [3, 51, 120, 18] (by decide)⟩

/-! ## A string-to-string map into a typed target -/

theorem stringEntries_ok (m : List (List Nat × List Nat)) :
    (encodeEntries (m.map fun kv => (Value.str kv.1, Value.str kv.2)) (NewBytesBuffer 0)).2 = none := by
  induction m with
  | nil => simp [encodeEntries]
  | cons kv rest ih =>
    rw [List.map_cons, (encodeEntries_cons _ _ _ (encoding_str true kv.1).2 (by simp [keyEq])
      (encoding_str true kv.2).2).2]
    exact ih

/-- The loop of `DecodeMap` for a `map[string]string` reads back the entries the
loop of `EncodeMap` wrote, when no key read before equals one still to come. -/
theorem roundtrip_stringEntries (m : List (List Nat × List Nat))
    (hlen : ∀ kv ∈ m, kv.1.length < 2 ^ 32 ∧ kv.2.length < 2 ^ 32)
    (hnd : (m.map Prod.fst).Nodup)
    (f : Nat) (data rest : List Nat) (pos : Nat) (acc : List (Value × Value))
    (hf : (encodingEntries (m.map fun kv => (Value.str kv.1, Value.str kv.2))).length + 2 ≤ f)
    (h : data.drop pos
      = encodingEntries (m.map fun kv => (Value.str kv.1, Value.str kv.2)) ++ TMapEnd :: rest)
    (hacc : ∀ a ∈ acc, ∀ kv ∈ m, keyEq a.1 (.str kv.1) = false) :
    decodeMapLoop f (bufAt data pos) .string .string acc
      = .ok (acc ++ m.map (fun kv => (Value.str kv.1, Value.str kv.2)),
          bufAt data (pos
            + (encodingEntries (m.map fun kv => (Value.str kv.1, Value.str kv.2))).length + 1)) := by
  induction m generalizing f pos acc with
  | nil =>
    obtain ⟨g, rfl⟩ : ∃ g, f = g + 1 := ⟨f - 1, by omega⟩
    have he : encodingEntries [] = [] := by simp [encodingEntries, encodeEntries, NewBytesBuffer_eq]
    simp only [List.map_nil] at h ⊢
    rw [he] at h ⊢
    rw [decodeMapLoop]
    simp [ReadByte_bufAt h]
  | cons kv m ih =>
    obtain ⟨k, v⟩ := kv
    have hk := (hlen (k, v) (List.mem_cons_self _ _)).1
    have hv := (hlen (k, v) (List.mem_cons_self _ _)).2
    have he := (encodeEntries_cons (.str k) (.str v)
      (m.map fun kv => (Value.str kv.1, Value.str kv.2))
      (encoding_str true k).2 (by simp [keyEq]) (encoding_str true v).2).1
    simp only [List.map_cons] at h hf ⊢
    rw [he] at h hf ⊢
    obtain ⟨g, rfl⟩ : ∃ g, f = g + 2 := ⟨f - 2, by omega⟩
    have hx : data.drop pos = encoding true (.str k) ++ (encoding true (.str v)
        ++ (encodingEntries (m.map fun kv => (Value.str kv.1, Value.str kv.2)) ++ TMapEnd :: rest)) := by
      rw [h]; simp
    have h0 : data.drop pos = TString :: ((varintBytes (zigzag 32 (k.length % 2 ^ 32) % 2 ^ 64) ++ k)
        ++ (encoding true (.str v)
        ++ (encodingEntries (m.map fun kv => (Value.str kv.1, Value.str kv.2)) ++ TMapEnd :: rest))) := by
      rw [hx, (encoding_str true k).1]; simp
    have hdk := DeSerializeBuf_str g k (.ptr .string) (some (.str k)) hk
      (by simp [dropIface, storeAt]) hx
    have hdv := DeSerializeBuf_str g v (.ptr .string) (some (.str v)) hv
      (by simp [dropIface, storeAt]) (drop_add_of_drop hx)
    have hset : setMapIndex acc (.str k) (.str v) = acc ++ [(.str k, .str v)] :=
      setMapIndex_fresh acc _ _ (fun a ha => hacc a ha (k, v) (List.mem_cons_self _ _))
    have hnd' : k ∉ m.map Prod.fst ∧ (m.map Prod.fst).Nodup := by
      simpa [List.nodup_cons] using hnd
    have hacc' : ∀ a ∈ acc ++ [(Value.str k, Value.str v)], ∀ kv ∈ m,
        keyEq a.1 (.str kv.1) = false := by
      intro a ha kv hkv
      rcases List.mem_append.mp ha with ha | ha
      · exact hacc a ha kv (List.mem_cons_of_mem _ hkv)
      · simp only [List.mem_singleton] at ha
        subst ha
        have : k ≠ kv.1 := fun e => hnd'.1 (e ▸ List.mem_map_of_mem Prod.fst hkv)
        simp [keyEq, this]
    have hpk := (encoding_str true k).1
    have hpv := (encoding_str true v).1
    have hr := ih (fun kv hkv => hlen kv (List.mem_cons_of_mem _ hkv)) hnd'.2 (g + 1)
      (pos + (encoding true (.str k)).length + (encoding true (.str v)).length)
      (acc ++ [(.str k, .str v)])
      (by rw [hpk, hpv] at hf; simp at hf; omega)
      (drop_add_of_drop (drop_add_of_drop hx)) hacc'
    have hp : bufAt data (pos + (encoding true (.str k)).length + (encoding true (.str v)).length
          + (encodingEntries (m.map fun kv => (Value.str kv.1, Value.str kv.2))).length + 1)
        = bufAt data (pos + (encoding true (.str k) ++ encoding true (.str v)
            ++ encodingEntries (m.map fun kv => (Value.str kv.1, Value.str kv.2))).length + 1) :=
      bufAt_congr data (by simp; omega)
    rw [hp] at hr
    rw [decodeMapLoop]
    simp only [ReadByte_bufAt h0, unread_tag, hdk, hdv]
    simpa [ifacePtr, hashable, hset, TString, TMapEnd] using hr

/-- C5 (message dialect, typed mapping round trip): for every string-to-string
mapping `m` (nil and empty are the empty list of entries, or non-empty; keys
pairwise different, as in any Go map; keys and values shorter than `2 ^ 32`
bytes), `Serialize` succeeds, its bytes start with the MAPPING tag 22, and
`DeSerialize` of them into a pointer to a string-to-string map succeeds and
leaves the target with exactly the entries of `m`. -/
theorem C5_string_map_roundtrip (m : List (List Nat × List Nat))
    (hnd : (m.map Prod.fst).Nodup)
    (hlen : ∀ kv ∈ m, kv.1.length < 2 ^ 32 ∧ kv.2.length < 2 ^ 32) :
    (Serialization.Serialize (stringMap m)).2 = none
    ∧ (Serialization.Serialize (stringMap m)).1.head? = some 22
    ∧ Serialization.DeSerialize (Serialization.Serialize (stringMap m)).1
        (.ptr (.map .string .string)) = .ok (stringMap m, some (stringMap m)) := by
  have hok := stringEntries_ok m
  obtain ⟨henc, hfail⟩ := encoding_map false _ hok
  rw [Serialize_eq]
  unfold stringMap
  simp only [henc, hfail]
  refine ⟨trivial, rfl, ?_⟩
  have hne : [TMap] ++ encodingEntries (m.map fun kv => (Value.str kv.1, Value.str kv.2))
      ++ [TMapEnd] ≠ [] := by simp
  have h0 : ([TMap] ++ encodingEntries (m.map fun kv => (Value.str kv.1, Value.str kv.2))
      ++ [TMapEnd]).drop 0
      = TMap :: (encodingEntries (m.map fun kv => (Value.str kv.1, Value.str kv.2))
        ++ TMapEnd :: []) := by simp
  have hl := roundtrip_stringEntries m hlen hnd
    (2 * ([TMap] ++ encodingEntries (m.map fun kv => (Value.str kv.1, Value.str kv.2))
      ++ [TMapEnd]).length + 1) _ [] (0 + 1) [] (by simp; omega) (drop_succ_of_drop h0)
    (fun a ha => by cases ha)
  have hdec : DeSerializeBuf (fuelFor ([TMap] ++ encodingEntries
        (m.map fun kv => (Value.str kv.1, Value.str kv.2)) ++ [TMapEnd]).length)
      (bufAt ([TMap] ++ encodingEntries (m.map fun kv => (Value.str kv.1, Value.str kv.2))
        ++ [TMapEnd]) 0) (.ptr (.map .string .string))
      = .ok (.map (m.map fun kv => (Value.str kv.1, Value.str kv.2)),
          some (.map (m.map fun kv => (Value.str kv.1, Value.str kv.2))),
          bufAt ([TMap] ++ encodingEntries (m.map fun kv => (Value.str kv.1, Value.str kv.2))
            ++ [TMapEnd]) (0 + 1 + (encodingEntries
              (m.map fun kv => (Value.str kv.1, Value.str kv.2))).length + 1)) := by
    rw [fuelFor_succ, DeSerializeBuf]
    simp only [ReadByte_bufAt h0, unread_tag, dropIface, DecodeMapWith, targetType, hl,
      List.nil_append, ifacePtr]
    simp [TArray, TMap, TNull, TFalse, TTrue, TByte, TString, TByteArray, TInt16, TInt32, TInt64,
      TFloat32, TFloat64]
  exact DeSerialize_of_DeSerializeBuf _ _ _ _ _ hne hdec

theorem C5_string_map_roundtrip_witness :
    ([([107, 49], [118, 49]), ([107, 50], [])].map Prod.fst).Nodup
    ∧ (∀ kv ∈ [([107, 49], [118, 49]), ([107, 50], ([] : List Nat))],
        kv.1.length < 2 ^ 32 ∧ kv.2.length < 2 ^ 32)
    ∧ (Serialization.Serialize (stringMap [([107, 49], [118, 49]), ([107, 50], [])])).2 = none
    ∧ (Serialization.Serialize (stringMap [([107, 49], [118, 49]), ([107, 50], [])])).1.head? = some 22
    ∧ Serialization.DeSerialize
        (Serialization.Serialize (stringMap [([107, 49], [118, 49]), ([107, 50], [])])).1
        (.ptr (.map .string .string))
        = .ok (stringMap [([107, 49], [118, 49]), ([107, 50], [])],
            some (stringMap [([107, 49], [118, 49]), ([107, 50], [])])) :=
  ⟨by decide, by decide, C5_string_map_roundtrip _ (by decide) (by decide)⟩

/-! ## Concatenation, consumption, tags, framing and Null -/

/-- C6 (concatenation): for every list of values that each serialize without
error, `SerializeMulti` returns no error and the concatenation, in order, of
the bytes `Serialize` returns for each value; the empty list gives no
bytes. -/
theorem C6_concatenation (vs : List Value) (h : ∀ v ∈ vs, (Serialization.Serialize v).2 = none) :
    Serialization.SerializeMulti vs
      = ((vs.map fun v => (Serialization.Serialize v).1).flatten, none) :=
  SerializeMulti_ok vs h

theorem C6_concatenation_witness :
    (∀ v ∈ [Value.str [97], .null, .msg [(1, .bool true)]], (Serialization.Serialize v).2 = none)
    ∧ Serialization.SerializeMulti [Value.str [97], .null, .msg [(1, .bool true)]]
      = (([Value.str [97], .null, .msg [(1, .bool true)]].map
          fun v => (Serialization.Serialize v).1).flatten, none) :=
  ⟨by decide, C6_concatenation _ (by decide)⟩

/-- C7 as stated fails on a platform int: `int(5)` is not a message and
serializes without error, as the INT64 encoding `[8, 10]`, and decoding
`Serialize(v) ++ [1, 2, 3]` returns the `int64` 5, a value of another type,
not `v`; the read position is right. -/
theorem C7_platform_int_counterexample :
    Serialization.Serialize (.int 5) = ([8, 10], none)
    ∧ DeSerializeBuf (fuelFor ((Serialization.Serialize (.int 5)).1 ++ [1, 2, 3]).length)
          (CreateBytesBuffer ((Serialization.Serialize (.int 5)).1 ++ [1, 2, 3])) .nil
        = .ok (.int64 5, none, ⟨[8, 10, 1, 2, 3], 2, 5⟩) := by
  refine ⟨rfl, rfl⟩

/-- C7 (exactly-one consumption), amended: for Null, every dynamic value and
every platform int `v` (values other than a message that serialize without
error) and every byte string `t`, `DeSerializeBuf` without target on the
buffer `Serialize(v) ++ t` succeeds and leaves the read position at
`len(Serialize(v))`, so that precisely `t` remains unread; the value returned
is `v` after the conversions of the encoder: a platform int comes back as the
int64 of the same value, a float32 signalling NaN with its quiet bit set, and
every other value as itself. -/
theorem C7_exactly_one (v : Value) (t : List Nat)
    (hv : v = .null ∨ isDynamic v = true ∨ isPlatformInt v = true) :
    (Serialization.Serialize v).2 = none
    ∧ (∃ buf, DeSerializeBuf (fuelFor ((Serialization.Serialize v).1 ++ t).length)
          (CreateBytesBuffer ((Serialization.Serialize v).1 ++ t)) .nil = .ok (readBack v, none, buf)
      ∧ buf.GetRPos = (Serialization.Serialize v).1.length
      ∧ buf.unread = t)
    ∧ (isPlatformInt v = false → isQuiet v = true → readBack v = v)
    ∧ (∀ n, v = .int n → readBack v = .int64 n) := by
  have dyn : ∀ w : Value, isDynamic w = true →
      (Serialization.Serialize w).2 = none
      ∧ (∃ buf, DeSerializeBuf (fuelFor ((Serialization.Serialize w).1 ++ t).length)
            (CreateBytesBuffer ((Serialization.Serialize w).1 ++ t)) .nil
              = .ok (readBack w, none, buf)
        ∧ buf.GetRPos = (Serialization.Serialize w).1.length
        ∧ buf.unread = t) := by
    intro w hw
    rw [Serialize_eq, CreateBytesBuffer_eq]
    refine ⟨failure_of_isDynamic false w hw,
      bufAt (encoding false w ++ t) (0 + (encoding true w).length), ?_, ?_, ?_⟩
    · simp only
      rw [encoding_false_isDynamic w hw]
      exact roundtrip w hw _ .nil rfl _ t 0 (by unfold fuelFor; simp; omega) rfl
    · simp [encoding_false_isDynamic w hw]
    · rw [unread_bufAt, encoding_false_isDynamic w hw]
      simp
  rcases hv with rfl | hv | hv
  · refine ⟨rfl, ?_, fun _ _ => by rw [readBack], fun n h => by cases h⟩
    rw [Serialize_eq, CreateBytesBuffer_eq]
    refine ⟨bufAt (encoding false .null ++ t) 1, ?_, rfl, ?_⟩
    · have h0 : (encoding false .null ++ t).drop 0 = TNull :: t := rfl
      rw [fuelFor_succ, DeSerializeBuf]
      simp [ReadByte_bufAt h0, readBack]
    · rw [unread_bufAt]
      rfl
  · refine ⟨(dyn v hv).1, (dyn v hv).2, fun _ hq => readBack_of_isQuiet v hv hq, ?_⟩
    intro n hn
    subst hn
    simp [isDynamic] at hv
  · cases v with
    | int n =>
      have hr : isDynamic (.int64 n) = true := by simpa [isPlatformInt, isDynamic] using hv
      have hint : Serialization.Serialize (.int n) = Serialization.Serialize (.int64 n) := by
        simp [Serialize_eq, encoding, failure, SerializeBuf]
      have h64 := dyn (.int64 n) hr
      simp only [readBack] at h64
      rw [hint]
      refine ⟨h64.1, ?_, fun h => ?_, fun m hm => ?_⟩
      · simpa only [readBack] using h64.2
      · rw [hv] at h
        cases h
      · rw [readBack]
        cases hm
        rfl
    | _ => simp [isPlatformInt] at hv

theorem C7_exactly_one_witness :
    (Value.seq [.str [104, 105], .map [(.bool true, .float32 2141192192)]] = .null
      ∨ isDynamic (.seq [.str [104, 105], .map [(.bool true, .float32 2141192192)]]) = true
      ∨ isPlatformInt (.seq [.str [104, 105], .map [(.bool true, .float32 2141192192)]]) = true)
    ∧ (Serialization.Serialize (.seq [.str [104, 105], .map [(.bool true, .float32 2141192192)]])).2
        = none
    ∧ (∃ buf, DeSerializeBuf (fuelFor ((Serialization.Serialize
            (.seq [.str [104, 105], .map [(.bool true, .float32 2141192192)]])).1 ++ [1, 2, 3]).length)
          (CreateBytesBuffer ((Serialization.Serialize
            (.seq [.str [104, 105], .map [(.bool true, .float32 2141192192)]])).1 ++ [1, 2, 3])) .nil
          = .ok (readBack (.seq [.str [104, 105], .map [(.bool true, .float32 2141192192)]]), none, buf)
      ∧ buf.GetRPos = (Serialization.Serialize
            (.seq [.str [104, 105], .map [(.bool true, .float32 2141192192)]])).1.length
      ∧ buf.unread = [1, 2, 3])
    ∧ (isPlatformInt (.seq [.str [104, 105], .map [(.bool true, .float32 2141192192)]]) = false →
        isQuiet (.seq [.str [104, 105], .map [(.bool true, .float32 2141192192)]]) = true →
        readBack (.seq [.str [104, 105], .map [(.bool true, .float32 2141192192)]])
          = .seq [.str [104, 105], .map [(.bool true, .float32 2141192192)]])
    ∧ (∀ n, Value.seq [.str [104, 105], .map [(.bool true, .float32 2141192192)]] = .int n →
        readBack (.seq [.str [104, 105], .map [(.bool true, .float32 2141192192)]]) = .int64 n) :=
  ⟨Or.inr (Or.inl (by decide)), C7_exactly_one _ [1, 2, 3] (Or.inr (Or.inl (by decide)))⟩

/-- C8 (tag prefix): for every value `v` of a supported kind, the first byte
of `Serialize(v)` is the tag of the kind of `v` (0 false, 1 true, 2 null,
3 byte, 4 string, 5 byte slice, 6 int16, 7 int32, 8 int64 and platform int,
9 float32, 10 float64, 20 sequence, 22 mapping, 26 message); for a boolean,
in the message dialect and in the legacy dialect alike, the whole encoding is
that single byte, 1 for true and 0 for false. -/
theorem C8_first_byte_is_tag (v : Value) (hv : v ≠ .other) (b : Bool) (sNull : Nat) :
    (Serialization.Serialize v).1.head? = some (tagOf v)
    ∧ Serialization.Serialize (.bool b) = ([if b then 1 else 0], none)
    ∧ MotanSerialization.Serialize sNull (.bool b) = ([if b then 1 else 0], none) := by
  obtain ⟨tl, htl⟩ := encoding_head false v hv (fun h => by cases h)
  refine ⟨by rw [Serialize_eq]; simp [htl], ?_, ?_⟩
  · cases b <;> rfl
  · cases b <;> rfl

theorem C8_first_byte_is_tag_witness :
    Value.msg [(1, .seq [.null])] ≠ .other
    ∧ (Serialization.Serialize (.msg [(1, .seq [.null])])).1.head? = some (tagOf (.msg [(1, .seq [.null])]))
    ∧ Serialization.Serialize (.bool true) = ([if true then 1 else 0], none)
    ∧ MotanSerialization.Serialize 0 (.bool true) = ([if true then 1 else 0], none) :=
  ⟨by simp, C8_first_byte_is_tag (.msg [(1, .seq [.null])]) (by simp) true 0⟩

/-- The loop of `EncodeArray` concatenates the top-level encodings of the
elements when none of them is nil or a message and each serializes without
error. -/
theorem encodingElems_flatten (xs : List Value)
    (h : ∀ x ∈ xs, x ≠ .null ∧ (∀ fs, x ≠ .msg fs) ∧ (Serialization.Serialize x).2 = none) :
    encodingElems xs = (xs.map fun x => (Serialization.Serialize x).1).flatten
    ∧ (encodeElems xs (NewBytesBuffer 0)).2 = none := by
  induction xs with
  | nil => simp [encodingElems, encodeElems, NewBytesBuffer_eq]
  | cons x rest ih =>
    obtain ⟨hn, hm, hok⟩ := h x (List.mem_cons_self _ _)
    obtain ⟨he, hf⟩ := encoding_reflected x hn hm
    have hx : failure true x = none := by rw [← hf]; exact hok
    obtain ⟨h1, h2⟩ := encodeElems_cons x rest hx
    obtain ⟨i1, i2⟩ := ih (fun y hy => h y (List.mem_cons_of_mem _ hy))
    refine ⟨?_, by rw [h2]; exact i2⟩
    rw [h1, i1, ← he]
    simp [Serialize_eq]

/-- Sequence framing where the encoder implements it: for every sequence whose
elements are neither nil nor a message and each serialize without error,
`Serialize` succeeds with the SEQUENCE tag, the top-level encodings of the
elements in order, and the end tag. -/
theorem Serialize_seq_framing (xs : List Value)
    (h : ∀ x ∈ xs, x ≠ .null ∧ (∀ fs, x ≠ .msg fs) ∧ (Serialization.Serialize x).2 = none) :
    Serialization.Serialize (.seq xs)
      = ([20] ++ (xs.map fun x => (Serialization.Serialize x).1).flatten ++ [21], none) := by
  obtain ⟨h1, h2⟩ := encodingElems_flatten xs h
  obtain ⟨e1, e2⟩ := encoding_seq false xs h2
  rw [Serialize_eq, e1, e2, h1]
  rfl

/-- C9 (sequence framing), the failing input: `Serialize` of the sequence
`[]interface{}{nil}` writes the SEQUENCE tag and then returns the
unsupported-type error, although `Serialize(nil)` alone succeeds with the
byte 2: the claim promises `[20, 2, 21]`. -/
theorem C9_null_element_fails :
    Serialization.Serialize (.seq [.null]) = ([20], some .ErrTypeUnsupported)
    ∧ Serialization.Serialize .null = ([2], none) := by
  constructor <;> rfl

/-- C10 (Null): `Serialize(nil)` succeeds and yields exactly the byte 2, and
`DeSerialize` of that byte, whatever the target, returns the nil value and no
error and assigns nothing, so that a nil target stays nil. -/
theorem C10_null (t : Target) :
    Serialization.Serialize .null = ([2], none)
    ∧ Serialization.DeSerialize [2] t = .ok (.null, none) := by
  refine ⟨rfl, ?_⟩
  simp [Serialization.DeSerialize, fuelFor, DeSerializeBuf, CreateBytesBuffer, BytesBuffer.ReadByte,
    TNull]

/-! ## Messages: `Marshal` -/

/-- When its loop appends `o` and succeeds, `Marshal` appends the tag, the
length of `o` as four big-endian bytes, and `o`. -/
theorem MarshalWith_ok (loop : BytesBuffer → BytesBuffer × Option Err) (o : List Nat)
    (h : ∀ data pos, loop (bufAt data pos) = (bufAt (data ++ o) pos, none))
    (data : List Nat) (pos : Nat) :
    GenericMessage.MarshalWith loop (bufAt data pos)
      = (bufAt (data ++ ([TMessage] ++ bigEndian 4 (o.length % 2 ^ 32) ++ o)) pos, none) := by
  have hset : ((bufAt data pos).WriteByte TMessage).SetWPos
      (((bufAt data pos).WriteByte TMessage).GetWPos + 4)
      = bufAt (data ++ [TMessage % 256] ++ [0, 0, 0, 0]) pos := by
    simp [bufAt, BytesBuffer.SetWPos, BytesBuffer.WriteByte, BytesBuffer.Write, writeAt_end,
      BytesBuffer.GetWPos]
  rw [GenericMessage.MarshalWith]
  simp only [hset, h]
  have hb := backpatch (data ++ [TMessage % 256]) [0, 0, 0, 0] o pos (o.length % 2 ^ 32) rfl
  have e1 : ((bufAt data pos).WriteByte TMessage).GetWPos = (data ++ [TMessage % 256]).length := by
    simp
  have e2 : (bufAt (data ++ [TMessage % 256] ++ [0, 0, 0, 0] ++ o) pos).GetWPos
      - ((bufAt data pos).WriteByte TMessage).GetWPos - 4 = o.length := by
    simp
    omega
  have e3 : (bufAt (data ++ [TMessage % 256] ++ [0, 0, 0, 0] ++ o) pos).GetWPos
      = (data ++ [TMessage % 256] ++ [0, 0, 0, 0] ++ o).length := rfl
  rw [e2, e1, e3, hb]
  simp [TMessage]

theorem fieldBytes_eq (k : Nat) (v : Value) :
    fieldBytes (k, v) = varintBytes (zigzag 32 k % 2 ^ 64) ++ encoding false v := by
  simp [fieldBytes, NewBytesBuffer_eq, Serialize_eq]

/-- The loop of `Marshal` appends the body of the message while the field values
serialize without error. -/
theorem marshalFields_ok (fields : List (Nat × Value))
    (h : ∀ kv ∈ fields, failure false kv.2 = none) (data : List Nat) (pos : Nat) :
    marshalFields fields (bufAt data pos) = (bufAt (data ++ messageBody fields) pos, none) := by
  induction fields generalizing data with
  | nil => simp [marshalFields, messageBody]
  | cons kv rest ih =>
    obtain ⟨k, v⟩ := kv
    have hrest := ih (fun kv hkv => h kv (List.mem_cons_of_mem _ hkv))
    have hv : failure false v = none := h (k, v) (List.mem_cons_self _ _)
    by_cases hn : v = .null
    · subst hn
      rw [marshalFields, hrest]
      simp [messageBody, isNull]
    · have hm : marshalFields ((k, v) :: rest) (bufAt data pos) =
          match SerializeBuf false v ((bufAt data pos).WriteZigzag32 k) with
          | (buf1, some err) => (buf1, some err)
          | (buf1, none) => marshalFields rest buf1 := by
        cases v <;> first | exact absurd rfl hn | simp [marshalFields]
      have hnn : isNull v = false := by cases v <;> first | exact absurd rfl hn | rfl
      rw [hm, bufAt_WriteZigzag32, SerializeBuf_frame, hv]
      simp only
      rw [hrest]
      simp [messageBody, hnn, fieldBytes_eq]

theorem Marshal_ok (fields : List (Nat × Value))
    (h : ∀ kv ∈ fields, (Serialization.Serialize kv.2).2 = none) (data : List Nat) (pos : Nat) :
    GenericMessage.Marshal fields (bufAt data pos)
      = (bufAt (data ++ ([TMessage] ++ bigEndian 4 ((messageBody fields).length % 2 ^ 32)
          ++ messageBody fields)) pos, none) :=
  MarshalWith_ok _ _ (marshalFields_ok fields h) data pos

/-- C11 (message length prefix): for every GenericMessage whose field values
serialize without error and whose encoding is shorter than `2 ^ 32 + 5` bytes
(the length is written as a `uint32`), `Marshal` into an empty buffer succeeds
and yields at least five bytes, the first of which is 26, the next four of
which, read as a big-endian unsigned integer, equal the number of bytes that
follow them. -/
theorem C11_message_length (fields : List (Nat × Value))
    (h : ∀ kv ∈ fields, (Serialization.Serialize kv.2).2 = none)
    (hlen : (GenericMessage.Marshal fields (NewBytesBuffer 0)).1.Bytes.length < 2 ^ 32 + 5) :
    (GenericMessage.Marshal fields (NewBytesBuffer 0)).2 = none
    ∧ (GenericMessage.Marshal fields (NewBytesBuffer 0)).1.Bytes.head? = some 26
    ∧ 5 ≤ (GenericMessage.Marshal fields (NewBytesBuffer 0)).1.Bytes.length
    ∧ fromBigEndian (((GenericMessage.Marshal fields (NewBytesBuffer 0)).1.Bytes.drop 1).take 4)
        = (GenericMessage.Marshal fields (NewBytesBuffer 0)).1.Bytes.length - 5 := by
  rw [NewBytesBuffer_eq, Marshal_ok fields h] at hlen ⊢
  have hl := bigEndian_length 4 ((messageBody fields).length % 2 ^ 32)
  simp only [bufAt_Bytes, List.nil_append, List.length_append, hl, List.length_singleton] at hlen ⊢
  have hb : (messageBody fields).length < 2 ^ 32 := by omega
  refine ⟨trivial, rfl, by omega, ?_⟩
  have ht : List.take 4 (List.drop 1 ([TMessage] ++ bigEndian 4 ((messageBody fields).length % 2 ^ 32)
      ++ messageBody fields)) = bigEndian 4 ((messageBody fields).length % 2 ^ 32) := by
    have : List.drop 1 ([TMessage] ++ bigEndian 4 ((messageBody fields).length % 2 ^ 32)
        ++ messageBody fields)
        = bigEndian 4 ((messageBody fields).length % 2 ^ 32) ++ messageBody fields := by simp
    rw [this]
    exact List.take_left' hl
  rw [ht, fromBigEndian_bigEndian, Nat.mod_eq_of_lt hb]
  have : (256 : Nat) ^ 4 = 2 ^ 32 := by norm_num
  rw [this, Nat.mod_eq_of_lt hb]
  omega

theorem C11_message_length_witness :
    (∀ kv ∈ [(1, Value.str [120]), (2, .bool true), (5, .int32 256)],
        (Serialization.Serialize kv.2).2 = none)
    ∧ (GenericMessage.Marshal [(1, Value.str [120]), (2, .bool true), (5, .int32 256)]
        (NewBytesBuffer 0)).1.Bytes.length < 2 ^ 32 + 5
    ∧ (GenericMessage.Marshal [(1, Value.str [120]), (2, .bool true), (5, .int32 256)]
        (NewBytesBuffer 0)).2 = none
    ∧ (GenericMessage.Marshal [(1, Value.str [120]), (2, .bool true), (5, .int32 256)]
        (NewBytesBuffer 0)).1.Bytes.head? = some 26
    ∧ 5 ≤ (GenericMessage.Marshal [(1, Value.str [120]), (2, .bool true), (5, .int32 256)]
        (NewBytesBuffer 0)).1.Bytes.length
    ∧ fromBigEndian (((GenericMessage.Marshal [(1, Value.str [120]), (2, .bool true), (5, .int32 256)]
        (NewBytesBuffer 0)).1.Bytes.drop 1).take 4)
        = (GenericMessage.Marshal [(1, Value.str [120]), (2, .bool true), (5, .int32 256)]
        (NewBytesBuffer 0)).1.Bytes.length - 5 :=
  ⟨by decide, by decide, C11_message_length _ (by decide) (by decide)⟩

theorem marshalFields_skip_null (pre post : List (Nat × Value)) (k : Nat) (buf : BytesBuffer) :
    marshalFields (pre ++ (k, .null) :: post) buf = marshalFields (pre ++ post) buf := by
  induction pre generalizing buf with
  | nil => simp [marshalFields]
  | cons kv rest ih =>
    obtain ⟨k1, v⟩ := kv
    have ih2 : marshalFields (rest.append ((k, .null) :: post)) = marshalFields (rest.append post) :=
      funext ih
    cases v <;> simp only [List.cons_append, marshalFields] <;> rw [ih2]

/-- C14 (null fields are not encoded): `Marshal` of a message with field `k`
set to nil gives the same result as `Marshal` of the message without that
field, in every buffer; and when the field values serialize without error the
bytes are the tag 26, the four length bytes and, for each non-null field in
turn, the zig-zag varint of its number followed by the encoding of its
value. -/
theorem C14_null_fields (pre post : List (Nat × Value)) (k : Nat) :
    (∀ buf, GenericMessage.Marshal (pre ++ (k, .null) :: post) buf
        = GenericMessage.Marshal (pre ++ post) buf)
    ∧ ((∀ kv ∈ pre ++ post, (Serialization.Serialize kv.2).2 = none) →
        (GenericMessage.Marshal (pre ++ (k, .null) :: post) (NewBytesBuffer 0)).2 = none
        ∧ ∃ body, body = (((pre ++ post).filter fun kv => !isNull kv.2).map fun kv =>
              ((NewBytesBuffer 0).WriteZigzag32 kv.1).Bytes ++ (Serialization.Serialize kv.2).1).flatten
          ∧ (GenericMessage.Marshal (pre ++ (k, .null) :: post) (NewBytesBuffer 0)).1.Bytes
              = [26] ++ bigEndian 4 (body.length % 2 ^ 32) ++ body) := by
  have h1 : ∀ buf, GenericMessage.Marshal (pre ++ (k, .null) :: post) buf
      = GenericMessage.Marshal (pre ++ post) buf := by
    intro buf
    simp only [GenericMessage.Marshal]
    congr 1
    funext b
    exact marshalFields_skip_null pre post k b
  refine ⟨h1, fun h => ?_⟩
  rw [h1, NewBytesBuffer_eq, Marshal_ok _ h]
  exact ⟨rfl, messageBody (pre ++ post), rfl, by simp [TMessage]⟩

theorem C14_null_fields_witness :
    (∀ buf, GenericMessage.Marshal ([(1, Value.str [120])] ++ (3, Value.null) :: [(2, Value.bool true)]) buf
        = GenericMessage.Marshal ([(1, Value.str [120])] ++ [(2, Value.bool true)]) buf)
    ∧ ((∀ kv ∈ [(1, Value.str [120])] ++ [(2, Value.bool true)], (Serialization.Serialize kv.2).2 = none) →
        (GenericMessage.Marshal ([(1, Value.str [120])] ++ (3, Value.null) :: [(2, Value.bool true)])
            (NewBytesBuffer 0)).2 = none
        ∧ ∃ body, body = ((([(1, Value.str [120])] ++ [(2, Value.bool true)]).filter
              fun (kv : Nat × Value) => !isNull kv.2).map fun (kv : Nat × Value) =>
              ((NewBytesBuffer 0).WriteZigzag32 kv.1).Bytes ++ (Serialization.Serialize kv.2).1).flatten
          ∧ (GenericMessage.Marshal ([(1, Value.str [120])] ++ (3, Value.null) :: [(2, Value.bool true)])
              (NewBytesBuffer 0)).1.Bytes
              = [26] ++ bigEndian 4 (body.length % 2 ^ 32) ++ body) :=
  C14_null_fields [(1, Value.str [120])] [(2, Value.bool true)] 3

/-! ## Messages: `Unmarshal` -/

theorem Next_GetRPos {b b1 : BytesBuffer} {n : Nat} {bs : List Nat}
    (h : b.Next n = .ok (bs, b1)) : b1.GetRPos = b.GetRPos + n := by
  unfold BytesBuffer.Next at h
  split at h
  · cases h
    rfl
  · cases h

theorem ReadUint32_GetRPos {b b1 : BytesBuffer} {u : Nat}
    (h : b.ReadUint32 = .ok (u, b1)) : b1.GetRPos = b.GetRPos + 4 := by
  unfold BytesBuffer.ReadUint32 at h
  split at h
  · next bs b2 hn =>
    cases h
    exact Next_GetRPos hn
  · cases h

/-- C13 (message size check): when `Unmarshal` starts at read position `pos` on
a four-byte length `L`, it returns success only with the read position at
`pos + 4 + L`; and when decoding the fields up to `pos + 4 + L` ends past that
position it returns the wrong-size error. -/
theorem C13_message_size (fuel : Nat) (fields : List (Nat × Value)) (buf buf1 : BytesBuffer)
    (L : Nat) (hread : buf.ReadUint32 = .ok (L, buf1)) :
    (∀ f1 b2, GenericMessage.Unmarshal fuel fields buf = .ok (f1, b2) →
        b2.GetRPos = buf.GetRPos + 4 + L)
    ∧ (∀ f1 b2, unmarshalLoop fuel buf1 (buf.GetRPos + 4 + L) fields = .ok (f1, b2) →
        buf.GetRPos + 4 + L < b2.GetRPos →
        GenericMessage.Unmarshal fuel fields buf = .error .ErrWrongSize) := by
  have hpos := ReadUint32_GetRPos hread
  constructor
  · intro f1 b2 h
    simp only [GenericMessage.Unmarshal, UnmarshalWith, hread] at h
    split at h
    · cases h
      omega
    · split at h
      · cases h
      · split at h
        · cases h
        · cases h
          rename_i hne
          omega
  · intro f1 b2 hloop hlt
    have hL : ¬ L ≤ 0 := by
      intro h0
      have hz : L = 0 := by omega
      subst hz
      cases fuel with
      | zero => simp [unmarshalLoop] at hloop
      | succ f =>
        rw [unmarshalLoop, if_neg (by omega)] at hloop
        cases hloop
        omega
    simp only [GenericMessage.Unmarshal, UnmarshalWith, hread, if_neg hL, hpos, hloop]
    rw [if_pos (by omega)]

theorem C13_message_size_witness :
    (CreateBytesBuffer [0, 0, 0, 1, 2, 1]).ReadUint32 = .ok (1, ⟨[0, 0, 0, 1, 2, 1], 4, 6⟩)
    ∧ unmarshalLoop 10 ⟨[0, 0, 0, 1, 2, 1], 4, 6⟩ ((CreateBytesBuffer [0, 0, 0, 1, 2, 1]).GetRPos + 4 + 1) []
        = .ok ([(1, .bool true)], ⟨[0, 0, 0, 1, 2, 1], 6, 6⟩)
    ∧ GenericMessage.Unmarshal 10 [] (CreateBytesBuffer [0, 0, 0, 1, 2, 1]) = .error .ErrWrongSize
    ∧ (CreateBytesBuffer [0, 0, 0, 2, 2, 1, 9]).ReadUint32 = .ok (2, ⟨[0, 0, 0, 2, 2, 1, 9], 4, 7⟩)
    ∧ GenericMessage.Unmarshal 10 [] (CreateBytesBuffer [0, 0, 0, 2, 2, 1, 9])
        = .ok ([(1, .bool true)], ⟨[0, 0, 0, 2, 2, 1, 9], 6, 7⟩)
    ∧ (⟨[0, 0, 0, 2, 2, 1, 9], 6, 7⟩ : BytesBuffer).GetRPos
        = (CreateBytesBuffer [0, 0, 0, 2, 2, 1, 9]).GetRPos + 4 + 2 :=
  ⟨rfl, rfl,
    (C13_message_size 10 [] (CreateBytesBuffer [0, 0, 0, 1, 2, 1]) _ 1 rfl).2 _ _ rfl (by decide),
    rfl, rfl,
    (C13_message_size 10 [] (CreateBytesBuffer [0, 0, 0, 2, 2, 1, 9]) _ 2 rfl).1 _ _ rfl⟩

/-- On a MESSAGE tag and without target, `DeSerializeBuf` returns an error or
nil: the message it fills is dropped (`result = v`, where `v` is nil). -/
theorem DeSerializeBuf_message_nil (f : Nat) (tl : List Nat) :
    (∃ e, DeSerializeBuf f (CreateBytesBuffer (TMessage :: tl)) .nil = .error e)
    ∨ ∃ b, DeSerializeBuf f (CreateBytesBuffer (TMessage :: tl)) .nil = .ok (.null, none, b) := by
  cases f with
  | zero => exact Or.inl ⟨_, rfl⟩
  | succ f =>
    have hr : (CreateBytesBuffer (TMessage :: tl)).ReadByte
        = .ok (TMessage, bufAt (TMessage :: tl) 1) := by
      simp [CreateBytesBuffer, BytesBuffer.ReadByte, bufAt]
    rw [DeSerializeBuf, hr]
    simp only [TMessage, TNull, TFalse, TTrue, TByte, TString, TByteArray, TInt16, TInt32, TInt64,
      TFloat32, TFloat64, TArray, TMap, dropIface, ifacePtr, Nat.reduceEqDiff, if_false, if_true]
    cases UnmarshalWith (unmarshalLoop f) []
        ((bufAt (26 :: tl) 1).SetRPos ((bufAt (26 :: tl) 1).GetRPos - 1)) with
    | error e => exact Or.inl ⟨_, rfl⟩
    | ok r => exact Or.inr ⟨r.2, by simp⟩

/-- C12 (message decode without a descriptor), refuted: decoding the encoding
of the message with fields 1:"x", 2:true, 5:int32(256) without target fails
with the not-enough-bytes error, and for no message does decoding its encoding
without target return a message: it returns an error or nil. -/
theorem C12_message_without_descriptor :
    Serialization.DeSerialize
        (Serialization.Serialize (.msg [(1, .str [120]), (2, .bool true), (5, .int32 256)])).1 .nil
      = .error (.ErrNotEnough, .null)
    ∧ ∀ fields : List (Nat × Value),
        (∃ e, Serialization.DeSerialize (Serialization.Serialize (.msg fields)).1 .nil = .error e)
        ∨ Serialization.DeSerialize (Serialization.Serialize (.msg fields)).1 .nil
            = .ok (.null, none) := by
  refine ⟨by rfl, fun fields => ?_⟩
  obtain ⟨tl, htl⟩ := Marshal_head fields
  have hs : (Serialization.Serialize (.msg fields)).1 = TMessage :: tl := by
    rw [← htl]
    simp [Serialize_eq, encoding, SerializeBuf, GenericMessage.Marshal]
  rw [hs]
  simp only [Serialization.DeSerialize, List.length_cons, Nat.add_one_ne_zero, if_false]
  rcases DeSerializeBuf_message_nil (fuelFor (tl.length + 1)) tl with ⟨e, he⟩ | ⟨b, hb⟩
  · exact Or.inl ⟨e, by rw [he]⟩
  · exact Or.inr (by rw [hb])

/-! ## Decoding errors -/

theorem ReadByte_Create (tag : Nat) (rest : List Nat) :
    (CreateBytesBuffer (tag :: rest)).ReadByte = .ok (tag, bufAt (tag :: rest) 1) := by
  simp [CreateBytesBuffer, BytesBuffer.ReadByte, bufAt]

/-- C15 (unsupported tag): in both dialects, decoding bytes whose first byte is a
reserved or unknown tag (11..19, 21, 23, 24, 25 or above 26) returns the
unsupported-type error of the dialect together with nil, whatever the target
and the bytes that follow. -/
theorem C15_unsupported_tag (tag : Nat) (rest : List Nat) (t : Target)
    (h : (11 ≤ tag ∧ tag ≤ 19) ∨ tag = 21 ∨ tag = 23 ∨ tag = 24 ∨ tag = 25 ∨ 26 < tag) :
    Serialization.DeSerialize (tag :: rest) t = .error (.ErrTypeUnsupported, .null)
    ∧ MotanSerialization.DeSerialize (tag :: rest) t
        = .error (.MotanSerializationErrNotSupport, .null) := by
  have h0 : tag ≠ 0 := by omega
  have h1 : tag ≠ 1 := by omega
  have h2 : tag ≠ 2 := by omega
  have h3 : tag ≠ 3 := by omega
  have h4 : tag ≠ 4 := by omega
  have h5 : tag ≠ 5 := by omega
  have h6 : tag ≠ 6 := by omega
  have h7 : tag ≠ 7 := by omega
  have h8 : tag ≠ 8 := by omega
  have h9 : tag ≠ 9 := by omega
  have h10 : tag ≠ 10 := by omega
  have h20 : tag ≠ 20 := by omega
  have h22 : tag ≠ 22 := by omega
  have h26 : tag ≠ 26 := by omega
  constructor
  · simp only [Serialization.DeSerialize, List.length_cons, Nat.add_one_ne_zero, if_false, fuelFor]
    rw [DeSerializeBuf, ReadByte_Create]
    simp only [TMessage, TNull, TFalse, TTrue, TByte, TString, TByteArray, TInt16, TInt32, TInt64,
      TFloat32, TFloat64, TArray, TMap, if_neg h0, if_neg h1, if_neg h2, if_neg h3, if_neg h4,
      if_neg h5, if_neg h6, if_neg h7, if_neg h8, if_neg h9, if_neg h10, if_neg h20, if_neg h22,
      if_neg h26]
  · simp only [MotanSerialization.DeSerialize, List.length_cons, Nat.add_one_ne_zero, if_false,
      fuelFor]
    rw [motanDeSerializeBuf, ReadByte_Create]
    simp only [mstMessage, mstNull, mstFalse, mstTrue, mstByte, mstString, mstByteArray, mstInt16,
      mstInt32, mstInt64, mstFloat32, mstFloat64, mstUnpackedArray, mstUnpackedMap, if_neg h0,
      if_neg h1, if_neg h2, if_neg h3, if_neg h4, if_neg h5, if_neg h6, if_neg h7, if_neg h8,
      if_neg h9, if_neg h10, if_neg h20, if_neg h22, if_neg h26]

theorem C15_unsupported_tag_witness :
    ((11 ≤ 24 ∧ 24 ≤ 19) ∨ 24 = 21 ∨ 24 = 23 ∨ 24 = 24 ∨ 24 = 25 ∨ 26 < 24)
    ∧ Serialization.DeSerialize (24 :: [1, 2]) (.ptr .int32) = .error (.ErrTypeUnsupported, .null)
    ∧ MotanSerialization.DeSerialize (24 :: [1, 2]) (.ptr .int32)
        = .error (.MotanSerializationErrNotSupport, .null) :=
  ⟨by decide, C15_unsupported_tag 24 [1, 2] (.ptr .int32) (by decide)⟩

/-- C16 as stated fails on the NULL tag: tag 2 is neither the tag of a string,
of a byte slice, of an array nor of a map, yet `DecodeString`, `DecodeBytes`,
`DecodeArray` and `DecodeMap` accept it and return the empty string, the empty
slice, nil and nil without error. -/
theorem C16_null_tag_counterexample :
    (CreateBytesBuffer [2]).ReadByte = .ok (2, ⟨[2], 1, 1⟩)
    ∧ 2 ≠ TString ∧ 2 ≠ TByteArray ∧ 2 ≠ TArray ∧ 2 ≠ TMap
    ∧ DecodeString (CreateBytesBuffer [2]) .nil = .ok (.str [], none, ⟨[2], 1, 1⟩)
    ∧ DecodeBytes (CreateBytesBuffer [2]) .nil = .ok (.bytes [], none, ⟨[2], 1, 1⟩)
    ∧ DecodeArray 1 (CreateBytesBuffer [2]) .nil = .ok (.null, none, ⟨[2], 1, 1⟩)
    ∧ DecodeMap 1 (CreateBytesBuffer [2]) .nil = .ok (.null, none, ⟨[2], 1, 1⟩) := by
  refine ⟨rfl, by decide, by decide, by decide, by decide, rfl, rfl, rfl, rfl⟩

/-- C16 (tag mismatch), amended: when the next byte of the buffer is `tag`, a
typed decoder of the message dialect returns the tag-expected error and the
zero value of its result type for every tag that is neither the tag of the
demanded type nor, for strings, byte slices, arrays and maps, the NULL tag:
`DecodeBool` off 0 and 1, `DecodeString` off 4 and 2, `DecodeBytes` off 5 and
2, `DecodeFloat32` off 9, `DecodeFloat64` off 10, `DecodeArray` off 20 and 2,
`DecodeMap` off 22 and 2, the integer decoders off 3, 6, 7 and 8.  On the NULL
tag the string, byte-slice, array and map decoders return the empty value
without error and without assigning through the target. -/
theorem C16_tag_mismatch (buf buf1 : BytesBuffer) (tag : Nat) (v : Target) (fuel : Nat)
    (hread : buf.ReadByte = .ok (tag, buf1)) :
    (tag ≠ 0 → tag ≠ 1 → DecodeBool buf v = .error (.tagExpected "byte" tag, .bool false))
    ∧ (tag ≠ 4 → tag ≠ 2 → DecodeString buf v = .error (.tagExpected "string" tag, .str []))
    ∧ (tag ≠ 5 → tag ≠ 2 → DecodeBytes buf v = .error (.tagExpected "byteArray" tag, .bytes []))
    ∧ (tag ≠ 9 → DecodeFloat32 buf v = .error (.tagExpected "float32" tag, .float32 0))
    ∧ (tag ≠ 10 → DecodeFloat64 buf v = .error (.tagExpected "float64" tag, .float64 0))
    ∧ (tag ≠ 20 → tag ≠ 2 → DecodeArray fuel buf v = .error (.tagExpected "array" tag, .null))
    ∧ (tag ≠ 22 → tag ≠ 2 → DecodeMap fuel buf v = .error (.tagExpected "map" tag, .null))
    ∧ (tag ≠ 3 → tag ≠ 6 → tag ≠ 7 → tag ≠ 8 →
        DecodeByte buf v = .error (.tagExpected "byte|int16|int32|int64" tag, .byte 0)
        ∧ DecodeInt16 buf v = .error (.tagExpected "byte|int16|int32|int64" tag, .int16 0)
        ∧ DecodeInt32 buf v = .error (.tagExpected "byte|int16|int32|int64" tag, .int32 0)
        ∧ DecodeInt64 buf v = .error (.tagExpected "byte|int16|int32|int64" tag, .int64 0))
    ∧ (tag = 2 →
        DecodeString buf v = .ok (.str [], none, buf1)
        ∧ DecodeBytes buf v = .ok (.bytes [], none, buf1)
        ∧ DecodeArray fuel buf v = .ok (.null, none, buf1)
        ∧ DecodeMap fuel buf v = .ok (.null, none, buf1)) := by
  refine ⟨?_, ?_, ?_, ?_, ?_, ?_, ?_, ?_, ?_⟩
  · intro h0 h1
    simp [DecodeBool, hread, TTrue, TFalse, h0, h1]
  · intro h4 h2
    simp [DecodeString, hread, TNull, TString, h4, h2]
  · intro h5 h2
    simp [DecodeBytes, hread, TNull, TByteArray, h5, h2]
  · intro h9
    simp [DecodeFloat32, hread, TFloat32, h9]
  · intro h10
    simp [DecodeFloat64, hread, TFloat64, h10]
  · intro h20 h2
    simp [DecodeArray, DecodeArrayWith, hread, TNull, TArray, h20, h2]
  · intro h22 h2
    simp [DecodeMap, DecodeMapWith, hread, TNull, TMap, h22, h2]
  · intro h3 h6 h7 h8
    have hd : decodeInteger buf v = .error (.tagExpected "byte|int16|int32|int64" tag) := by
      simp [decodeInteger, hread, TByte, TInt16, TInt32, TInt64, h3, h6, h7, h8]
    simp [DecodeByte, DecodeInt16, DecodeInt32, DecodeInt64, hd]
  · intro h2
    subst h2
    simp [DecodeString, DecodeBytes, DecodeArray, DecodeArrayWith, DecodeMap, DecodeMapWith, hread,
      TNull]

theorem C16_tag_mismatch_witness :
    (CreateBytesBuffer [9, 0, 0, 0, 0]).ReadByte = .ok (9, ⟨[9, 0, 0, 0, 0], 1, 5⟩)
    ∧ DecodeBool (CreateBytesBuffer [9, 0, 0, 0, 0]) (.ptr .bool)
        = .error (.tagExpected "byte" 9, .bool false)
    ∧ DecodeString (CreateBytesBuffer [9, 0, 0, 0, 0]) (.ptr .string)
        = .error (.tagExpected "string" 9, .str [])
    ∧ DecodeFloat64 (CreateBytesBuffer [9, 0, 0, 0, 0]) (.ptr .float64)
        = .error (.tagExpected "float64" 9, .float64 0)
    ∧ DecodeMap 5 (CreateBytesBuffer [9, 0, 0, 0, 0]) .nil = .error (.tagExpected "map" 9, .null)
    ∧ DecodeInt64 (CreateBytesBuffer [9, 0, 0, 0, 0]) (.ptr .int64)
        = .error (.tagExpected "byte|int16|int32|int64" 9, .int64 0) :=
  ⟨rfl,
    (C16_tag_mismatch (CreateBytesBuffer [9, 0, 0, 0, 0]) _ 9 (.ptr .bool) 5 rfl).1
      (by decide) (by decide),
    (C16_tag_mismatch (CreateBytesBuffer [9, 0, 0, 0, 0]) _ 9 (.ptr .string) 5 rfl).2.1
      (by decide) (by decide),
    (C16_tag_mismatch (CreateBytesBuffer [9, 0, 0, 0, 0]) _ 9 (.ptr .float64) 5 rfl).2.2.2.2.1
      (by decide),
    (C16_tag_mismatch (CreateBytesBuffer [9, 0, 0, 0, 0]) _ 9 .nil 5 rfl).2.2.2.2.2.2.1
      (by decide) (by decide),
    ((C16_tag_mismatch (CreateBytesBuffer [9, 0, 0, 0, 0]) _ 9 (.ptr .int64) 5 rfl).2.2.2.2.2.2.2.1
      (by decide) (by decide) (by decide) (by decide)).2.2.2⟩

/-! ## Integer widening -/

theorem toUnsigned_cast (w : Nat) (i : Int) : ((toUnsigned w i : Nat) : Int) = i % (2 ^ w : Int) := by
  unfold toUnsigned
  exact Int.toNat_of_nonneg (Int.emod_nonneg _ (by positivity))

theorem toSigned_small (w : Nat) (u : Nat) (h : u < 2 ^ (w - 1)) (hw : 0 < w) :
    toSigned w u = (u : Int) := by
  have hp : 2 ^ (w - 1) ≤ 2 ^ w := Nat.pow_le_pow_right (by decide) (by omega)
  unfold toSigned
  rw [Nat.mod_eq_of_lt (by omega), if_pos h]

/-- What `decodeInteger` does on the INT16 encoding of `n`: the two bytes are read
as a `uint16` and converted by `uint64(u16)`, without sign. -/
theorem decodeInteger_int16 (n : Int) (v : Target) (st : Option Value)
    (hst : storeInteger v (toUnsigned 16 n) = .ok st) :
    decodeInteger (CreateBytesBuffer (Serialization.Serialize (.int16 n)).1) v
      = .ok (toUnsigned 16 n, st, bufAt (Serialization.Serialize (.int16 n)).1 3) := by
  rw [Serialize_eq, CreateBytesBuffer_eq]
  simp only [(encoding_int16 false n).1]
  have h0 : (TInt16 :: bigEndian 2 (toUnsigned 16 n)).drop 0
      = TInt16 :: (bigEndian 2 (toUnsigned 16 n) ++ []) := by simp
  have h1 : (TInt16 :: bigEndian 2 (toUnsigned 16 n)).drop (0 + 1)
      = bigEndian 2 (toUnsigned 16 n) ++ [] := drop_succ_of_drop h0
  have hr := ReadUint16_bufAt h1 (toUnsigned_lt 16 n)
  rw [decodeInteger, ReadByte_bufAt h0]
  simp only [if_neg (show ¬ TInt16 = TByte by decide), if_true, hr, hst]

/-- C18 (integer widening), refuted: decoding the INT16 encoding of `n` into a
32-bit or 64-bit target returns and stores `n` modulo `2 ^ 16`, a number
between 0 and 65535: the two bytes are zero-extended.  For `n = -1` both
decoders give 65535 instead of -1. -/
theorem C18_int16_zero_extended (n : Int) :
    DecodeInt32 (CreateBytesBuffer (Serialization.Serialize (.int16 n)).1) (.ptr .int32)
      = .ok (.int32 (n % 65536), some (.int32 (n % 65536)),
          bufAt (Serialization.Serialize (.int16 n)).1 3)
    ∧ DecodeInt64 (CreateBytesBuffer (Serialization.Serialize (.int16 n)).1) (.ptr .int64)
      = .ok (.int64 (n % 65536), some (.int64 (n % 65536)),
          bufAt (Serialization.Serialize (.int16 n)).1 3)
    ∧ DecodeInt32 (CreateBytesBuffer (Serialization.Serialize (.int16 (-1))).1) (.ptr .int32)
      = .ok (.int32 65535, some (.int32 65535), ⟨[6, 255, 255], 3, 3⟩)
    ∧ DecodeInt64 (CreateBytesBuffer (Serialization.Serialize (.int16 (-1))).1) (.ptr .int64)
      = .ok (.int64 65535, some (.int64 65535), ⟨[6, 255, 255], 3, 3⟩) := by
  have hu := toUnsigned_lt 16 n
  have hc : ((toUnsigned 16 n : Nat) : Int) = n % 65536 := toUnsigned_cast 16 n
  have h32 : toSigned 32 (toUnsigned 16 n) = n % 65536 := by
    rw [toSigned_small 32 _ (by norm_num at hu ⊢; omega) (by decide), hc]
  have h64 : toSigned 64 (toUnsigned 16 n) = n % 65536 := by
    rw [toSigned_small 64 _ (by norm_num at hu ⊢; omega) (by decide), hc]
  refine ⟨?_, ?_, by rfl, by rfl⟩
  · rw [DecodeInt32, decodeInteger_int16 n (.ptr .int32) _ rfl]
    simp only [h32]
  · rw [DecodeInt64, decodeInteger_int16 n (.ptr .int64) _ rfl]
    simp only [h64]

/-! ## The legacy dialect: typed map targets -/

theorem assignsNothing_ite (c : Prop) [Decidable c] (a b : Decoded)
    (ha : assignsNothing a = true) (hb : assignsNothing b = true) :
    assignsNothing (if c then a else b) = true := by
  split <;> assumption

/-- No decoder of the legacy dialect assigns through a `*map[string]string`. -/
theorem motanDeSerializeBuf_string_map_target (f : Nat) (buf : BytesBuffer) :
    assignsNothing (motanDeSerializeBuf f buf (.ptr (.map .string .string))) = true := by
  cases f with
  | zero => rfl
  | succ f =>
    rw [motanDeSerializeBuf]
    split
    · rfl
    · repeat' apply assignsNothing_ite
      all_goals try simp only [motanDecodeBool, motanDecodeString, motanDecodeBytes,
        motanDecodeByte, motanDecodeInt16, motanDecodeInt32, motanDecodeInt64, motanDecodeFloat32,
        motanDecodeFloat64, motanDecodeMessage, motanDecodeMapWith, motanDecodeArrayWith, storeAt,
        motanStoreInt64, reduceCtorEq, if_false, GoType.map.injEq, and_self]
      all_goals repeat' split
      all_goals rfl

set_option maxHeartbeats 2000000 in
theorem motanDeSerialize_k1_k2 :
    MotanSerialization.DeSerialize
        [22, 4, 4, 107, 49, 4, 4, 118, 49, 4, 4, 107, 50, 4, 4, 118, 50, 23]
        (.ptr (.map .string .string))
      = .ok (stringMap [([107, 49], [118, 49]), ([107, 50], [118, 50])], none) := by
  rfl

/-- C20 (legacy dialect typed mapping), refuted: the legacy encoding of the map
with entries "k1":"v1" and "k2":"v2" starts with tag 22, and decoding it into
a pointer to a string-to-string map returns the dynamic map without error but
assigns nothing through the pointer, so the target keeps the entries it had;
and whatever the bytes, decoding into such a pointer fails or assigns
nothing. -/
theorem C20_typed_map_not_filled (sNull : Nat) :
    (MotanSerialization.Serialize sNull
        (stringMap [([107, 49], [118, 49]), ([107, 50], [118, 50])])).1
      = [22, 4, 4, 107, 49, 4, 4, 118, 49, 4, 4, 107, 50, 4, 4, 118, 50, 23]
    ∧ MotanSerialization.DeSerialize
        [22, 4, 4, 107, 49, 4, 4, 118, 49, 4, 4, 107, 50, 4, 4, 118, 50, 23]
        (.ptr (.map .string .string))
      = .ok (stringMap [([107, 49], [118, 49]), ([107, 50], [118, 50])], none)
    ∧ ∀ b : List Nat,
        (∃ e, MotanSerialization.DeSerialize b (.ptr (.map .string .string)) = .error e)
        ∨ ∃ r, MotanSerialization.DeSerialize b (.ptr (.map .string .string)) = .ok (r, none) := by
  refine ⟨?_, motanDeSerialize_k1_k2, fun b => ?_⟩
  · simp only [MotanSerialization.Serialize, stringMap, List.map, motanSerializeBuf,
      motanEncodeEntries]
    rfl
  · unfold MotanSerialization.DeSerialize
    split
    · exact Or.inr ⟨_, rfl⟩
    · have h := motanDeSerializeBuf_string_map_target (fuelFor b.length) (CreateBytesBuffer b)
      cases hd : motanDeSerializeBuf (fuelFor b.length) (CreateBytesBuffer b)
          (.ptr (.map .string .string)) with
      | error e => exact Or.inl ⟨e, rfl⟩
      | ok r =>
        obtain ⟨r1, st, b1⟩ := r
        rw [hd] at h
        cases st with
        | none => exact Or.inr ⟨r1, rfl⟩
        | some x => simp [assignsNothing] at h

/-! ## The legacy dialect: round trip of scalars, strings and byte slices -/

/-- The legacy dialect writes a scalar, a platform int, a string and a byte
slice exactly as the message dialect does. -/
theorem motanSerialize_eq (sNull : Nat) (v : Value)
    (hv : isScalar v = true ∨ (∃ n, v = .int n) ∨ (∃ s, v = .str s) ∨ ∃ b, v = .bytes b) :
    MotanSerialization.Serialize sNull v = (encoding true v, none) := by
  rcases hv with hv | ⟨n, rfl⟩ | ⟨s, rfl⟩ | ⟨b, rfl⟩
  · cases v with
    | bool b =>
      cases b <;>
        simp [MotanSerialization.Serialize, motanSerializeBuf, motanEncodeBool, encoding,
          SerializeBuf, EncodeBool, NewBytesBuffer_eq, TTrue, TFalse]
    | byte n =>
      simp [MotanSerialization.Serialize, motanSerializeBuf, motanEncodeByte, encoding,
        SerializeBuf, EncodeByte, NewBytesBuffer_eq, TByte, mstByte]
    | int16 i =>
      simp [MotanSerialization.Serialize, motanSerializeBuf, motanEncodeInt16, encoding,
        SerializeBuf, EncodeInt16, NewBytesBuffer_eq, TInt16, mstInt16]
    | int32 i =>
      simp [MotanSerialization.Serialize, motanSerializeBuf, motanEncodeInt32, encoding,
        SerializeBuf, EncodeInt32, NewBytesBuffer_eq, TInt32, mstInt32]
    | int64 i =>
      simp [MotanSerialization.Serialize, motanSerializeBuf, motanEncodeInt64, encoding,
        SerializeBuf, EncodeInt64, NewBytesBuffer_eq, TInt64, mstInt64]
    | float32 b =>
      simp [MotanSerialization.Serialize, motanSerializeBuf, motanEncodeFloat32, encoding,
        SerializeBuf, EncodeFloat32, NewBytesBuffer_eq, TFloat32, mstFloat32]
    | float64 b =>
      simp [MotanSerialization.Serialize, motanSerializeBuf, motanEncodeFloat64, encoding,
        SerializeBuf, EncodeFloat64, NewBytesBuffer_eq, TFloat64, mstFloat64]
    | _ => simp [isScalar] at hv
  · simp [MotanSerialization.Serialize, motanSerializeBuf, motanEncodeInt64, encoding,
      SerializeBuf, EncodeInt64, NewBytesBuffer_eq, TInt64, mstInt64]
  · simp [MotanSerialization.Serialize, motanSerializeBuf, motanEncodeString,
      motanEncodeStringNoTag, encoding, SerializeBuf, EncodeString, EncodeStringNoTag,
      NewBytesBuffer_eq, TString,
      mstString]
  · simp [MotanSerialization.Serialize, motanSerializeBuf, motanEncodeBytes, encoding,
      SerializeBuf, EncodeBytes, NewBytesBuffer_eq, TByteArray, mstByteArray]

theorem motanDeSerializeBuf_bool (f : Nat) (b : Bool) (v : Target) (st : Option Value)
    {data rest : List Nat} {pos : Nat}
    (hst : storeAt v .bool (.bool b) = .ok st)
    (h : data.drop pos = encoding true (.bool b) ++ rest) :
    motanDeSerializeBuf (f + 1) (bufAt data pos) v
      = .ok (.bool b, st, bufAt data (pos + (encoding true (.bool b)).length)) := by
  rw [(encoding_bool true b).1] at h ⊢
  rw [motanDeSerializeBuf]
  cases b <;>
    simp [ReadByte_bufAt h, motanDecodeBool, hst, TTrue, TFalse, mstTrue, mstFalse]

theorem motanDeSerializeBuf_byte (f : Nat) (n : Nat) (v : Target) (st : Option Value)
    {data rest : List Nat} {pos : Nat} (hn : n < 2 ^ 8)
    (hst : storeAt v .uint8 (.byte n) = .ok st)
    (h : data.drop pos = encoding true (.byte n) ++ rest) :
    motanDeSerializeBuf (f + 1) (bufAt data pos) v
      = .ok (.byte n, st, bufAt data (pos + (encoding true (.byte n)).length)) := by
  have hn' : n % 256 = n := Nat.mod_eq_of_lt hn
  rw [(encoding_byte true n).1, hn'] at h ⊢
  have h1 : data.drop (pos + 1) = n :: rest := drop_succ_of_drop h
  rw [motanDeSerializeBuf]
  simp [ReadByte_bufAt h, ReadByte_bufAt h1, motanDecodeByte, hst, hn', TByte, mstByte, mstTrue,
    mstFalse, mstNull, Nat.add_assoc]

theorem motanDeSerializeBuf_int16 (f : Nat) (i : Int) (v : Target) (st : Option Value)
    {data rest : List Nat} {pos : Nat} (hlo : -(2 ^ 15) ≤ i) (hhi : i < 2 ^ 15)
    (hst : storeAt v .int16 (.int16 i) = .ok st)
    (h : data.drop pos = encoding true (.int16 i) ++ rest) :
    motanDeSerializeBuf (f + 1) (bufAt data pos) v
      = .ok (.int16 i, st, bufAt data (pos + (encoding true (.int16 i)).length)) := by
  rw [(encoding_int16 true i).1] at h ⊢
  have h1 : data.drop (pos + 1) = bigEndian 2 (toUnsigned 16 i) ++ rest := drop_succ_of_drop h
  have hr := ReadUint16_bufAt h1 (toUnsigned_lt 16 i)
  have hs := toSigned_toUnsigned 16 i (by decide) hlo hhi
  rw [motanDeSerializeBuf]
  simp [ReadByte_bufAt h, hr, motanDecodeInt16, hst, hs, TInt16, mstInt16, mstByte, mstTrue,
    mstFalse, mstNull, mstString, mstByteArray, Nat.add_assoc, bigEndian_length]

theorem motanDeSerializeBuf_int32 (f : Nat) (i : Int) (v : Target) (st : Option Value)
    {data rest : List Nat} {pos : Nat} (hlo : -(2 ^ 31) ≤ i) (hhi : i < 2 ^ 31)
    (hst : storeAt v .int32 (.int32 i) = .ok st)
    (h : data.drop pos = encoding true (.int32 i) ++ rest) :
    motanDeSerializeBuf (f + 1) (bufAt data pos) v
      = .ok (.int32 i, st, bufAt data (pos + (encoding true (.int32 i)).length)) := by
  rw [(encoding_int32 true i).1] at h ⊢
  have h1 : data.drop (pos + 1) = varintBytes (zigzag 32 (toUnsigned 32 i) % 2 ^ 64) ++ rest :=
    drop_succ_of_drop h
  obtain ⟨q, hq, hr⟩ : ∃ q, q = pos + 1 + (varintBytes (zigzag 32 (toUnsigned 32 i) % 2 ^ 64)).length ∧
      (bufAt data (pos + 1)).ReadZigzag32 = .ok (toUnsigned 32 i, bufAt data q) :=
    ⟨_, rfl, ReadZigzag32_bufAt h1 (toUnsigned_lt 32 i)⟩
  have hs := toSigned_toUnsigned 32 i (by decide) hlo hhi
  have hp : bufAt data q
      = bufAt data (pos + (TInt32 :: varintBytes (zigzag 32 (toUnsigned 32 i) % 2 ^ 64)).length) :=
    bufAt_congr data (by rw [hq, List.length_cons]; omega)
  rw [← hp, motanDeSerializeBuf]
  simp [ReadByte_bufAt h, hr, motanDecodeInt32, hst, hs, TInt32, mstInt32, mstInt16, mstByte,
    mstTrue, mstFalse, mstNull, mstString, mstByteArray]

theorem motanDeSerializeBuf_int64 (f : Nat) (i : Int) (v : Target) (st : Option Value)
    {data rest : List Nat} {pos : Nat} (hlo : -(2 ^ 63) ≤ i) (hhi : i < 2 ^ 63)
    (hst : motanStoreInt64 v (toUnsigned 64 i) = .ok st)
    (h : data.drop pos = encoding true (.int64 i) ++ rest) :
    motanDeSerializeBuf (f + 1) (bufAt data pos) v
      = .ok (.int64 i, st, bufAt data (pos + (encoding true (.int64 i)).length)) := by
  rw [(encoding_int64 true i).1] at h ⊢
  have h1 : data.drop (pos + 1) = varintBytes (zigzag 64 (toUnsigned 64 i) % 2 ^ 64) ++ rest :=
    drop_succ_of_drop h
  obtain ⟨q, hq, hr⟩ : ∃ q, q = pos + 1 + (varintBytes (zigzag 64 (toUnsigned 64 i) % 2 ^ 64)).length ∧
      (bufAt data (pos + 1)).ReadZigzag64 = .ok (toUnsigned 64 i, bufAt data q) :=
    ⟨_, rfl, ReadZigzag64_bufAt h1 (toUnsigned_lt 64 i)⟩
  have hs := toSigned_toUnsigned 64 i (by decide) hlo hhi
  have hp : bufAt data q
      = bufAt data (pos + (TInt64 :: varintBytes (zigzag 64 (toUnsigned 64 i) % 2 ^ 64)).length) :=
    bufAt_congr data (by rw [hq, List.length_cons]; omega)
  rw [← hp, motanDeSerializeBuf]
  simp [ReadByte_bufAt h, hr, motanDecodeInt64, hst, hs, TInt64, mstInt64, mstInt32, mstInt16,
    mstByte, mstTrue, mstFalse, mstNull, mstString, mstByteArray]

theorem motanDeSerializeBuf_float32 (f : Nat) (b : Nat) (v : Target) (st : Option Value)
    {data rest : List Nat} {pos : Nat} (hb : b < 2 ^ 32)
    (hst : storeAt v .float32 (.float32 (convFloat32 b)) = .ok st)
    (h : data.drop pos = encoding true (.float32 b) ++ rest) :
    motanDeSerializeBuf (f + 1) (bufAt data pos) v
      = .ok (.float32 (convFloat32 b), st,
          bufAt data (pos + (encoding true (.float32 b)).length)) := by
  rw [(encoding_float32 true b).1] at h ⊢
  have h1 : data.drop (pos + 1) = bigEndian 4 (convFloat32 b) ++ rest := drop_succ_of_drop h
  have hr := ReadUint32_bufAt h1 (convFloat32_lt b hb)
  rw [motanDeSerializeBuf]
  simp [ReadByte_bufAt h, hr, motanDecodeFloat32, hst, TFloat32, mstFloat32, mstInt64, mstInt32,
    mstInt16, mstByte, mstTrue, mstFalse, mstNull, mstString, mstByteArray, Nat.add_assoc,
    bigEndian_length]

theorem motanDeSerializeBuf_float64 (f : Nat) (b : Nat) (v : Target) (st : Option Value)
    {data rest : List Nat} {pos : Nat} (hb : b < 2 ^ 64)
    (hst : storeAt v .float64 (.float64 b) = .ok st)
    (h : data.drop pos = encoding true (.float64 b) ++ rest) :
    motanDeSerializeBuf (f + 1) (bufAt data pos) v
      = .ok (.float64 b, st, bufAt data (pos + (encoding true (.float64 b)).length)) := by
  rw [(encoding_float64 true b).1] at h ⊢
  have h1 : data.drop (pos + 1) = bigEndian 8 b ++ rest := drop_succ_of_drop h
  have hr := ReadUint64_bufAt h1 hb
  rw [motanDeSerializeBuf]
  simp [ReadByte_bufAt h, hr, motanDecodeFloat64, hst, TFloat64, mstFloat64, mstFloat32, mstInt64,
    mstInt32, mstInt16, mstByte, mstTrue, mstFalse, mstNull, mstString, mstByteArray,
    Nat.add_assoc, bigEndian_length]

theorem motanDeSerializeBuf_str (f : Nat) (s : List Nat) (v : Target) (st : Option Value)
    {data rest : List Nat} {pos : Nat} (hs : s.length < 2 ^ 32)
    (hst : storeAt v .string (.str s) = .ok st)
    (h : data.drop pos = encoding true (.str s) ++ rest) :
    motanDeSerializeBuf (f + 1) (bufAt data pos) v
      = .ok (.str s, st, bufAt data (pos + (encoding true (.str s)).length)) := by
  have hm : s.length % 2 ^ 32 = s.length := Nat.mod_eq_of_lt hs
  rw [(encoding_str true s).1, hm] at h ⊢
  have h1 : data.drop (pos + 1) = varintBytes (zigzag 32 s.length % 2 ^ 64) ++ (s ++ rest) := by
    rw [← List.append_assoc]
    exact drop_succ_of_drop h
  obtain ⟨q, hq, hr⟩ : ∃ q, q = pos + 1 + (varintBytes (zigzag 32 s.length % 2 ^ 64)).length ∧
      (bufAt data (pos + 1)).ReadZigzag32 = .ok (s.length, bufAt data q) :=
    ⟨_, rfl, ReadZigzag32_bufAt h1 hs⟩
  obtain ⟨q2, hq2, h2⟩ : ∃ q2, q2 = q + s.length ∧
      (bufAt data q).Next s.length = .ok (s, bufAt data q2) :=
    ⟨_, rfl, by rw [hq]; exact Next_bufAt (drop_add_of_drop h1)⟩
  have hp : bufAt data q2
      = bufAt data (pos + (TString :: (varintBytes (zigzag 32 s.length % 2 ^ 64) ++ s)).length) :=
    bufAt_congr data (by rw [hq2, hq, List.length_cons, List.length_append]; omega)
  rw [← hp, motanDeSerializeBuf]
  simp [ReadByte_bufAt h, hr, h2, motanDecodeString, hst, TString, mstTrue, mstFalse, mstNull,
    mstString, mstByte]

theorem motanDeSerializeBuf_bytes (f : Nat) (s : List Nat) (v : Target) (st : Option Value)
    {data rest : List Nat} {pos : Nat} (hs : s.length < 2 ^ 32)
    (hst : storeAt v (.slice .uint8) (.bytes s) = .ok st)
    (h : data.drop pos = encoding true (.bytes s) ++ rest) :
    motanDeSerializeBuf (f + 1) (bufAt data pos) v
      = .ok (.bytes s, st, bufAt data (pos + (encoding true (.bytes s)).length)) := by
  have hm : s.length % 2 ^ 32 = s.length := Nat.mod_eq_of_lt hs
  rw [(encoding_bytes true s).1, hm] at h ⊢
  have h1 : data.drop (pos + 1) = varintBytes (zigzag 32 s.length % 2 ^ 64) ++ (s ++ rest) := by
    rw [← List.append_assoc]
    exact drop_succ_of_drop h
  obtain ⟨q, hq, hr⟩ : ∃ q, q = pos + 1 + (varintBytes (zigzag 32 s.length % 2 ^ 64)).length ∧
      (bufAt data (pos + 1)).ReadZigzag32 = .ok (s.length, bufAt data q) :=
    ⟨_, rfl, ReadZigzag32_bufAt h1 hs⟩
  obtain ⟨q2, hq2, h2⟩ : ∃ q2, q2 = q + s.length ∧
      (bufAt data q).Next s.length = .ok (s, bufAt data q2) :=
    ⟨_, rfl, by rw [hq]; exact Next_bufAt (drop_add_of_drop h1)⟩
  have hp : bufAt data q2
      = bufAt data (pos + (TByteArray :: (varintBytes (zigzag 32 s.length % 2 ^ 64) ++ s)).length) :=
    bufAt_congr data (by rw [hq2, hq, List.length_cons, List.length_append]; omega)
  rw [← hp, motanDeSerializeBuf]
  simp [ReadByte_bufAt h, hr, h2, motanDecodeBytes, hst, TByteArray, mstTrue, mstFalse, mstNull,
    mstString, mstByte, mstByteArray]

/-- A scalar decodes in the legacy dialect with a `reflect.Type` target: the
decoders assign only through pointers. -/
theorem motan_scalar_into_type (v : Value) (hv : isScalar v = true) (ty : GoType) (f : Nat)
    {data rest : List Nat} {pos : Nat} (h : data.drop pos = encoding true v ++ rest) :
    motanDeSerializeBuf (f + 1) (bufAt data pos) (.type ty)
      = .ok (readBack v, none, bufAt data (pos + (encoding true v).length)) := by
  cases v with
  | bool b =>
    simp only [readBack]
    exact motanDeSerializeBuf_bool f b (.type ty) none rfl h
  | byte n =>
    simp only [readBack]
    exact motanDeSerializeBuf_byte f n (.type ty) none (by simpa [isScalar] using hv) rfl h
  | int16 i =>
    simp only [isScalar, decide_eq_true_eq] at hv
    simp only [readBack]
    exact motanDeSerializeBuf_int16 f i (.type ty) none hv.1 hv.2 rfl h
  | int32 i =>
    simp only [isScalar, decide_eq_true_eq] at hv
    simp only [readBack]
    exact motanDeSerializeBuf_int32 f i (.type ty) none hv.1 hv.2 rfl h
  | int64 i =>
    simp only [isScalar, decide_eq_true_eq] at hv
    simp only [readBack]
    exact motanDeSerializeBuf_int64 f i (.type ty) none hv.1 hv.2 rfl h
  | float32 b =>
    simp only [readBack]
    exact motanDeSerializeBuf_float32 f b (.type ty) none (by simpa [isScalar] using hv) rfl h
  | float64 b =>
    simp only [readBack]
    exact motanDeSerializeBuf_float64 f b (.type ty) none (by simpa [isScalar] using hv) rfl h
  | _ => simp [isScalar] at hv

theorem motanDeSerialize_of_motanDeSerializeBuf (b : List Nat) (t : Target) (r st : _)
    (buf : BytesBuffer) (hb : b ≠ [])
    (h : motanDeSerializeBuf (fuelFor b.length) (bufAt b 0) t = .ok (r, st, buf)) :
    MotanSerialization.DeSerialize b t = .ok (r, st) := by
  have : b.length ≠ 0 := fun h0 => hb (List.eq_nil_of_length_eq_zero h0)
  simp [MotanSerialization.DeSerialize, this, CreateBytesBuffer_eq, h]

/-- C19 as stated fails on a float32 bit pattern: the legacy encoder writes the
signalling NaN `0x7FA00000` as `0x7FE00000`, the pattern of
`float32(rv.Float())`, and that is the pattern the legacy `DeSerialize`
returns.  (The constant `sNull`, taken as 2 here, is not written for a
float.) -/
theorem C19_signalling_nan_counterexample :
    isScalar (.float32 2141192192) = true
    ∧ MotanSerialization.Serialize 2 (.float32 2141192192) = ([9, 127, 224, 0, 0], none)
    ∧ MotanSerialization.DeSerialize (MotanSerialization.Serialize 2 (.float32 2141192192)).1
        (.type (typeOf (.float32 2141192192))) = .ok (.float32 2145386496, none)
    ∧ MotanSerialization.DeSerialize (MotanSerialization.Serialize 2 (.float32 2141192192)).1
        (.type (typeOf (.float32 2141192192))) ≠ .ok (.float32 2141192192, none) := by
  have hs : MotanSerialization.Serialize 2 (.float32 2141192192)
      = ([9, 127, 224, 0, 0], none) := rfl
  have hd : MotanSerialization.DeSerialize [9, 127, 224, 0, 0]
      (.type (typeOf (.float32 2141192192))) = .ok (.float32 2145386496, none) := rfl
  refine ⟨rfl, hs, ?_, ?_⟩
  · rw [hs]
    exact hd
  · rw [hs]
    simp only [hd]
    simp

/-- C19 (legacy dialect round trip), amended: for every bool, byte, int16,
int32, int64 `v` within the range of its type and every float bit pattern, the
legacy `Serialize` succeeds and the legacy `DeSerialize` of its bytes with the
type descriptor of `v` returns no error and `v` after the conversion of the
encoder: `v` itself unless `v` is a float32 signalling NaN, which comes back
with its quiet bit set; a platform int comes back as the int64 of the same
value; a string and a byte slice shorter than `2 ^ 32` bytes decoded into a
pointer to a string or to a byte slice are returned and assigned through the
pointer. -/
theorem C19_legacy_roundtrip (sNull : Nat) (v : Value) (hv : isScalar v = true)
    (n : Int) (hn : -(2 ^ 63) ≤ n ∧ n < 2 ^ 63)
    (s : List Nat) (hs : s.length < 2 ^ 32) (b : List Nat) (hb : b.length < 2 ^ 32) :
    ((MotanSerialization.Serialize sNull v).2 = none
      ∧ MotanSerialization.DeSerialize (MotanSerialization.Serialize sNull v).1 (.type (typeOf v))
          = .ok (readBack v, none)
      ∧ (isQuiet v = true →
          MotanSerialization.DeSerialize (MotanSerialization.Serialize sNull v).1
            (.type (typeOf v)) = .ok (v, none))
      ∧ (∀ p, v = .float32 p → isSignalling32 p = true → readBack v = .float32 (p + 2 ^ 22)))
    ∧ ((MotanSerialization.Serialize sNull (.int n)).2 = none
      ∧ MotanSerialization.DeSerialize (MotanSerialization.Serialize sNull (.int n)).1
          (.type (typeOf (.int n))) = .ok (.int64 n, none))
    ∧ ((MotanSerialization.Serialize sNull (.str s)).2 = none
      ∧ MotanSerialization.DeSerialize (MotanSerialization.Serialize sNull (.str s)).1
          (.ptr .string) = .ok (.str s, some (.str s)))
    ∧ ((MotanSerialization.Serialize sNull (.bytes b)).2 = none
      ∧ MotanSerialization.DeSerialize (MotanSerialization.Serialize sNull (.bytes b)).1
          (.ptr (.slice .uint8)) = .ok (.bytes b, some (.bytes b))) := by
  have key : ∀ (w : Value), isScalar w = true → ∀ ty,
      MotanSerialization.DeSerialize (encoding true w) (.type ty) = .ok (readBack w, none) := by
    intro w hw ty
    have hne : encoding true w ≠ [] := by
      intro h0
      have := encoding_length_pos w (isScalar_isDynamic w hw)
      rw [h0] at this
      simp at this
    have hdec := @motan_scalar_into_type w hw ty (2 * (encoding true w).length + 1)
      (encoding true w) [] 0 (by simp)
    rw [← fuelFor_succ] at hdec
    exact motanDeSerialize_of_motanDeSerializeBuf _ _ _ _ _ hne hdec
  have hint : encoding true (.int n) = encoding true (.int64 n) := by
    simp [encoding, SerializeBuf]
  refine ⟨?_, ?_, ?_, ?_⟩
  · rw [motanSerialize_eq sNull v (Or.inl hv)]
    refine ⟨rfl, key v hv _, fun hq => ?_, fun p hp hsig => ?_⟩
    · have := key v hv (typeOf v)
      rw [readBack_of_isQuiet v (isScalar_isDynamic v hv) hq] at this
      exact this
    · subst hp
      simp only [readBack, convFloat32]
      simp only [isSignalling32] at hsig
      rw [hsig]
      rfl
  · rw [motanSerialize_eq sNull (.int n) (Or.inr (Or.inl ⟨n, rfl⟩))]
    refine ⟨rfl, ?_⟩
    simp only [hint]
    have := key (.int64 n) (by simpa [isScalar] using hn) (typeOf (.int n))
    simpa only [readBack] using this
  · rw [motanSerialize_eq sNull (.str s) (Or.inr (Or.inr (Or.inl ⟨s, rfl⟩)))]
    refine ⟨rfl, ?_⟩
    have hne : encoding true (.str s) ≠ [] := by rw [(encoding_str true s).1]; simp
    have hdec := @motanDeSerializeBuf_str (2 * (encoding true (.str s)).length + 1) s
      (.ptr .string) (some (.str s)) (encoding true (.str s)) [] 0 hs
      (by simp [storeAt]) (by simp)
    rw [← fuelFor_succ] at hdec
    exact motanDeSerialize_of_motanDeSerializeBuf _ _ _ _ _ hne hdec
  · rw [motanSerialize_eq sNull (.bytes b) (Or.inr (Or.inr (Or.inr ⟨b, rfl⟩)))]
    refine ⟨rfl, ?_⟩
    have hne : encoding true (.bytes b) ≠ [] := by rw [(encoding_bytes true b).1]; simp
    have hdec := @motanDeSerializeBuf_bytes (2 * (encoding true (.bytes b)).length + 1) b
      (.ptr (.slice .uint8)) (some (.bytes b)) (encoding true (.bytes b)) [] 0 hb
      (by simp [storeAt]) (by simp)
    rw [← fuelFor_succ] at hdec
    exact motanDeSerialize_of_motanDeSerializeBuf _ _ _ _ _ hne hdec

theorem C19_legacy_roundtrip_witness :
    isScalar (.float32 2141192192) = true ∧ (-(2 ^ 63) ≤ (-16 : Int) ∧ (-16 : Int) < 2 ^ 63)
    ∧ [116].length < 2 ^ 32 ∧ [1, 255].length < 2 ^ 32
    ∧ ((MotanSerialization.Serialize 2 (.float32 2141192192)).2 = none
      ∧ MotanSerialization.DeSerialize (MotanSerialization.Serialize 2 (.float32 2141192192)).1
          (.type (typeOf (.float32 2141192192))) = .ok (readBack (.float32 2141192192), none)
      ∧ (isQuiet (.float32 2141192192) = true →
          MotanSerialization.DeSerialize (MotanSerialization.Serialize 2 (.float32 2141192192)).1
            (.type (typeOf (.float32 2141192192))) = .ok (.float32 2141192192, none))
      ∧ (∀ p, Value.float32 2141192192 = .float32 p → isSignalling32 p = true →
          readBack (.float32 2141192192) = .float32 (p + 2 ^ 22)))
    ∧ ((MotanSerialization.Serialize 2 (.int (-16))).2 = none
      ∧ MotanSerialization.DeSerialize (MotanSerialization.Serialize 2 (.int (-16))).1
          (.type (typeOf (.int (-16)))) = .ok (.int64 (-16), none))
    ∧ ((MotanSerialization.Serialize 2 (.str [116])).2 = none
      ∧ MotanSerialization.DeSerialize (MotanSerialization.Serialize 2 (.str [116])).1
          (.ptr .string) = .ok (.str [116], some (.str [116])))
    ∧ ((MotanSerialization.Serialize 2 (.bytes [1, 255])).2 = none
      ∧ MotanSerialization.DeSerialize (MotanSerialization.Serialize 2 (.bytes [1, 255])).1
          (.ptr (.slice .uint8)) = .ok (.bytes [1, 255], some (.bytes [1, 255]))) :=
  ⟨by decide, by decide, by decide, by decide,
    C19_legacy_roundtrip 2 (.float32 2141192192) (by decide) (-16) (by decide) [116] (by decide)
      [1, 255] (by decide)⟩

/-! ## Underflow: reading past the end -/

theorem ReadByte_end {data : List Nat} {pos : Nat} (h : data.drop pos = []) :
    (bufAt data pos).ReadByte = .error .EOF := by
  have hl : data.length ≤ pos := by simpa using h
  simp [BytesBuffer.ReadByte, bufAt, Nat.not_lt.mpr hl]

theorem Next_short {data : List Nat} {pos n : Nat} (h : (data.drop pos).length < n) :
    (bufAt data pos).Next n = .error .ErrNotEnough := by
  rw [List.length_drop] at h
  simp [BytesBuffer.Next, BytesBuffer.Remain, bufAt, Nat.not_le.mpr h]

theorem ReadUint16_short {data : List Nat} {pos : Nat} (h : (data.drop pos).length < 2) :
    (bufAt data pos).ReadUint16 = .error .ErrNotEnough := by
  simp [BytesBuffer.ReadUint16, Next_short h]

theorem ReadUint32_short {data : List Nat} {pos : Nat} (h : (data.drop pos).length < 4) :
    (bufAt data pos).ReadUint32 = .error .ErrNotEnough := by
  simp [BytesBuffer.ReadUint32, Next_short h]

theorem ReadUint64_short {data : List Nat} {pos : Nat} (h : (data.drop pos).length < 8) :
    (bufAt data pos).ReadUint64 = .error .ErrNotEnough := by
  simp [BytesBuffer.ReadUint64, Next_short h]

/-- A list that lacks a non-empty rest of `c :: tl` is empty or starts with `c`. -/
theorem cons_split {d q tl : List Nat} {c : Nat} (h : d ++ q = c :: tl) :
    d = [] ∨ ∃ d1, d = c :: d1 ∧ d1 ++ q = tl := by
  cases d with
  | nil => exact Or.inl rfl
  | cons x d1 =>
    simp only [List.cons_append, List.cons.injEq] at h
    exact Or.inr ⟨d1, by rw [h.1], h.2⟩

/-- A list that lacks a non-empty rest of `a ++ b` lacks a non-empty rest of
`a`, or holds `a` and lacks a non-empty rest of `b`. -/
theorem append_split {d q a b : List Nat} (h : d ++ q = a ++ b) :
    (∃ q1, q1 ≠ [] ∧ d ++ q1 = a) ∨ ∃ c, d = a ++ c ∧ c ++ q = b := by
  rcases List.append_eq_append_iff.mp h with ⟨a1, ha, hb⟩ | ⟨c1, hd, hb⟩
  · by_cases h1 : a1 = []
    · subst h1
      refine Or.inr ⟨[], by simpa using ha.symm, ?_⟩
      simpa using hb
    · exact Or.inl ⟨a1, h1, ha.symm⟩
  · exact Or.inr ⟨c1, hd, hb.symm⟩

theorem length_lt_of_append {d q a : List Nat} (h : d ++ q = a) (hq : q ≠ []) :
    d.length < a.length := by
  have := congrArg List.length h
  rw [List.length_append] at this
  have : 0 < q.length := List.length_pos.mpr hq
  omega

theorem readVarintList_short (f u : Nat) (d q : List Nat) (h : d ++ q = varintAux f u)
    (hq : q ≠ []) : readVarintList d = none := by
  induction f generalizing u d with
  | zero =>
    have hl := length_lt_of_append h hq
    simp only [varintAux, List.length_singleton, Nat.lt_one_iff, List.length_eq_zero] at hl
    subst hl
    rfl
  | succ f ih =>
    unfold varintAux at h
    by_cases hu : u < 128
    · rw [if_pos hu] at h
      have hl := length_lt_of_append h hq
      simp only [List.length_singleton, Nat.lt_one_iff, List.length_eq_zero] at hl
      subst hl
      rfl
    · rw [if_neg hu] at h
      rcases cons_split h with rfl | ⟨d1, rfl, h1⟩
      · rfl
      · have h2 : ¬ (u % 128 + 128 < 128) := by omega
        simp [readVarintList, h2, ih (u / 128) d1 h1]

theorem ReadVarint_short {data q : List Nat} {pos u : Nat}
    (h : data.drop pos ++ q = varintBytes u) (hq : q ≠ []) :
    (bufAt data pos).ReadVarint = .error .EOF := by
  simp [BytesBuffer.ReadVarint, unread_bufAt, readVarintList_short 9 u _ q h hq]

theorem ReadZigzag32_short {data q : List Nat} {pos u : Nat}
    (h : data.drop pos ++ q = varintBytes u) (hq : q ≠ []) :
    (bufAt data pos).ReadZigzag32 = .error .EOF := by
  simp [BytesBuffer.ReadZigzag32, ReadVarint_short h hq]

theorem ReadZigzag64_short {data q : List Nat} {pos u : Nat}
    (h : data.drop pos ++ q = varintBytes u) (hq : q ≠ []) :
    (bufAt data pos).ReadZigzag64 = .error .EOF := by
  simp [BytesBuffer.ReadZigzag64, ReadVarint_short h hq]

/-! ## Underflow: scalars, strings and byte slices cut short -/

theorem underflow_tag_missing (f : Nat) (t : Target) {data : List Nat} {pos : Nat}
    (h : data.drop pos = []) :
    underflows (DeSerializeBuf (f + 1) (bufAt data pos) t) = true := by
  rw [DeSerializeBuf, ReadByte_end h]
  rfl

theorem underflow_bool (b : Bool) (f : Nat) (t : Target)
    {data q : List Nat} {pos : Nat} (hq : q ≠ [])
    (h : data.drop pos ++ q = encoding true (.bool b)) :
    underflows (DeSerializeBuf (f + 1) (bufAt data pos) t) = true := by
  have hl := length_lt_of_append h hq
  rw [(encoding_bool true b).1] at hl
  simp only [List.length_singleton, Nat.lt_one_iff, List.length_eq_zero] at hl
  exact underflow_tag_missing f t hl

theorem underflow_byte (n : Nat) (f : Nat) (t : Target)
    {data q : List Nat} {pos : Nat} (hq : q ≠ [])
    (h : data.drop pos ++ q = encoding true (.byte n)) :
    underflows (DeSerializeBuf (f + 1) (bufAt data pos) t) = true := by
  rw [(encoding_byte true n).1] at h
  rcases cons_split h with h0 | ⟨d1, h0, h1⟩
  · exact underflow_tag_missing f t h0
  · have hl := length_lt_of_append h1 hq
    simp only [List.length_singleton, Nat.lt_one_iff, List.length_eq_zero] at hl
    subst hl
    have h2 : data.drop (pos + 1) = [] := drop_succ_of_drop h0
    rw [DeSerializeBuf]
    simp [ReadByte_bufAt h0, unread_tag, DecodeByte, decodeInteger, ReadByte_end h2, TByte,
      TNull, TTrue, TFalse, underflows, isUnderflow, isZero]

theorem underflow_int16 (i : Int) (f : Nat) (t : Target)
    {data q : List Nat} {pos : Nat} (hq : q ≠ [])
    (h : data.drop pos ++ q = encoding true (.int16 i)) :
    underflows (DeSerializeBuf (f + 1) (bufAt data pos) t) = true := by
  rw [(encoding_int16 true i).1] at h
  rcases cons_split h with h0 | ⟨d1, h0, h1⟩
  · exact underflow_tag_missing f t h0
  · have hl := length_lt_of_append h1 hq
    rw [bigEndian_length, ← drop_succ_of_drop h0] at hl
    rw [DeSerializeBuf]
    simp [ReadByte_bufAt h0, unread_tag, DecodeInt16, decodeInteger, ReadUint16_short hl, TByte,
      TInt16, TNull, TTrue, TFalse, TString, TByteArray, underflows, isUnderflow, isZero]

theorem underflow_int32 (i : Int) (f : Nat) (t : Target)
    {data q : List Nat} {pos : Nat} (hq : q ≠ [])
    (h : data.drop pos ++ q = encoding true (.int32 i)) :
    underflows (DeSerializeBuf (f + 1) (bufAt data pos) t) = true := by
  rw [(encoding_int32 true i).1] at h
  rcases cons_split h with h0 | ⟨d1, h0, h1⟩
  · exact underflow_tag_missing f t h0
  · rw [← drop_succ_of_drop h0] at h1
    rw [DeSerializeBuf]
    simp [ReadByte_bufAt h0, unread_tag, DecodeInt32, decodeInteger, ReadZigzag32_short h1 hq,
      TByte, TInt16, TInt32, TNull, TTrue, TFalse, TString, TByteArray, underflows, isUnderflow, isZero]

theorem underflow_int64 (i : Int) (f : Nat) (t : Target)
    {data q : List Nat} {pos : Nat} (hq : q ≠ [])
    (h : data.drop pos ++ q = encoding true (.int64 i)) :
    underflows (DeSerializeBuf (f + 1) (bufAt data pos) t) = true := by
  rw [(encoding_int64 true i).1] at h
  rcases cons_split h with h0 | ⟨d1, h0, h1⟩
  · exact underflow_tag_missing f t h0
  · rw [← drop_succ_of_drop h0] at h1
    rw [DeSerializeBuf]
    simp [ReadByte_bufAt h0, unread_tag, DecodeInt64, decodeInteger, ReadZigzag64_short h1 hq,
      TByte, TInt16, TInt32, TInt64, TNull, TTrue, TFalse, TString, TByteArray, underflows,
      isUnderflow, isZero]

theorem underflow_float32 (b : Nat) (f : Nat) (t : Target)
    {data q : List Nat} {pos : Nat} (hq : q ≠ [])
    (h : data.drop pos ++ q = encoding true (.float32 b)) :
    underflows (DeSerializeBuf (f + 1) (bufAt data pos) t) = true := by
  rw [(encoding_float32 true b).1] at h
  rcases cons_split h with h0 | ⟨d1, h0, h1⟩
  · exact underflow_tag_missing f t h0
  · have hl := length_lt_of_append h1 hq
    rw [bigEndian_length, ← drop_succ_of_drop h0] at hl
    rw [DeSerializeBuf]
    simp [ReadByte_bufAt h0, unread_tag, DecodeFloat32, ReadUint32_short hl, TByte,
      TInt16, TInt32, TInt64, TFloat32, TNull, TTrue, TFalse, TString, TByteArray, underflows,
      isUnderflow, isZero]

theorem underflow_float64 (b : Nat) (f : Nat) (t : Target)
    {data q : List Nat} {pos : Nat} (hq : q ≠ [])
    (h : data.drop pos ++ q = encoding true (.float64 b)) :
    underflows (DeSerializeBuf (f + 1) (bufAt data pos) t) = true := by
  rw [(encoding_float64 true b).1] at h
  rcases cons_split h with h0 | ⟨d1, h0, h1⟩
  · exact underflow_tag_missing f t h0
  · have hl := length_lt_of_append h1 hq
    rw [bigEndian_length, ← drop_succ_of_drop h0] at hl
    rw [DeSerializeBuf]
    simp [ReadByte_bufAt h0, unread_tag, DecodeFloat64, ReadUint64_short hl, TByte,
      TInt16, TInt32, TInt64, TFloat32, TFloat64, TNull, TTrue, TFalse, TString, TByteArray,
      underflows, isUnderflow, isZero]

theorem underflow_str (s : List Nat) (hs : s.length < 2 ^ 32) (f : Nat) (t : Target)
    {data q : List Nat} {pos : Nat} (hq : q ≠ [])
    (h : data.drop pos ++ q = encoding true (.str s)) :
    underflows (DeSerializeBuf (f + 1) (bufAt data pos) t) = true := by
  have hm : s.length % 2 ^ 32 = s.length := Nat.mod_eq_of_lt hs
  rw [(encoding_str true s).1, hm] at h
  rcases cons_split h with h0 | ⟨d1, h0, h1⟩
  · exact underflow_tag_missing f t h0
  · rw [← drop_succ_of_drop h0] at h1
    rw [DeSerializeBuf]
    rcases append_split h1 with ⟨q1, hq1, h2⟩ | ⟨c, h2, h3⟩
    · simp [ReadByte_bufAt h0, unread_tag, DecodeString, ReadZigzag32_short h2 hq1, TNull, TTrue,
        TFalse, TString, TByte, underflows, isUnderflow, isZero]
    · obtain ⟨p2, hp2, hr⟩ : ∃ p2, p2 = pos + 1 + (varintBytes (zigzag 32 s.length % 2 ^ 64)).length ∧
          (bufAt data (pos + 1)).ReadZigzag32 = .ok (s.length, bufAt data p2) :=
        ⟨_, rfl, ReadZigzag32_bufAt h2 hs⟩
      have hl : (data.drop p2).length < s.length := by
        rw [hp2, drop_add_of_drop h2]
        exact length_lt_of_append h3 hq
      simp [ReadByte_bufAt h0, unread_tag, DecodeString, hr, Next_short hl, TNull, TTrue,
        TFalse, TString, TByte, underflows, isUnderflow, isZero]

theorem underflow_bytes (s : List Nat) (hs : s.length < 2 ^ 32) (f : Nat) (t : Target)
    {data q : List Nat} {pos : Nat} (hq : q ≠ [])
    (h : data.drop pos ++ q = encoding true (.bytes s)) :
    underflows (DeSerializeBuf (f + 1) (bufAt data pos) t) = true := by
  have hm : s.length % 2 ^ 32 = s.length := Nat.mod_eq_of_lt hs
  rw [(encoding_bytes true s).1, hm] at h
  rcases cons_split h with h0 | ⟨d1, h0, h1⟩
  · exact underflow_tag_missing f t h0
  · rw [← drop_succ_of_drop h0] at h1
    rw [DeSerializeBuf]
    rcases append_split h1 with ⟨q1, hq1, h2⟩ | ⟨c, h2, h3⟩
    · simp [ReadByte_bufAt h0, unread_tag, DecodeBytes, ReadZigzag32_short h2 hq1, TNull, TTrue,
        TFalse, TString, TByte, TByteArray, underflows, isUnderflow, isZero]
    · obtain ⟨p2, hp2, hr⟩ : ∃ p2, p2 = pos + 1 + (varintBytes (zigzag 32 s.length % 2 ^ 64)).length ∧
          (bufAt data (pos + 1)).ReadZigzag32 = .ok (s.length, bufAt data p2) :=
        ⟨_, rfl, ReadZigzag32_bufAt h2 hs⟩
      have hl : (data.drop p2).length < s.length := by
        rw [hp2, drop_add_of_drop h2]
        exact length_lt_of_append h3 hq
      simp [ReadByte_bufAt h0, unread_tag, DecodeBytes, hr, Next_short hl, TNull, TTrue,
        TFalse, TString, TByte, TByteArray, underflows, isUnderflow, isZero]

/-! ## Underflow: every dynamic value cut short -/

mutual

/-- Decoding a dynamic value whose encoding is cut short fails because the
bytes run out, given fuel for the bytes at hand. -/
theorem underflow_value : (v : Value) → isDynamic v = true → ∀ (f : Nat) (t : Target),
    dropIface t = .nil → ∀ (data q : List Nat) (pos : Nat), q ≠ [] →
    data.drop pos ++ q = encoding true v → 2 * (data.drop pos).length + 1 ≤ f →
    underflows (DeSerializeBuf f (bufAt data pos) t) = true
  | .seq xs, hv, f, t, ht, data, q, pos, hq, h, hf => by
    have hx : allDynamic xs = true := by simpa [isDynamic] using hv
    rw [(encoding_seq true xs (elems_ok xs hx)).1] at h
    obtain ⟨g, rfl⟩ : ∃ g, f = g + 1 := ⟨f - 1, by omega⟩
    rw [List.append_assoc, List.singleton_append] at h
    rcases cons_split h with h0 | ⟨d1, h0, h1⟩
    · exact underflow_tag_missing g t h0
    · rw [← drop_succ_of_drop h0] at h1
      have hlen : (data.drop pos).length = (data.drop (pos + 1)).length + 1 := by
        rw [h0, drop_succ_of_drop h0]; simp
      have hl := underflow_elems xs hx g data q (pos + 1) [] hq h1 (by omega)
      rw [DeSerializeBuf]
      simp only [ReadByte_bufAt h0, unread_tag, ht, DecodeArrayWith, targetType, interfaceSliceType]
      revert hl
      cases decodeArrayLoop g (bufAt data (pos + 1)) GoType.iface [] with
      | error e =>
        intro hl
        simpa [TArray, TNull, TFalse, TTrue, TByte, TString, TByteArray, TInt16, TInt32, TInt64,
          TFloat32, TFloat64, underflows, loopUnderflows, isZero] using hl
      | ok r => intro hl; simp [loopUnderflows] at hl
  | .map kvs, hv, f, t, ht, data, q, pos, hq, h, hf => by
    have hx : entriesDynamic kvs = true := by simpa [isDynamic] using hv
    rw [(encoding_map true kvs (entries_ok kvs hx)).1] at h
    obtain ⟨g, rfl⟩ : ∃ g, f = g + 1 := ⟨f - 1, by omega⟩
    rw [List.append_assoc, List.singleton_append] at h
    rcases cons_split h with h0 | ⟨d1, h0, h1⟩
    · exact underflow_tag_missing g t h0
    · rw [← drop_succ_of_drop h0] at h1
      have hlen : (data.drop pos).length = (data.drop (pos + 1)).length + 1 := by
        rw [h0, drop_succ_of_drop h0]; simp
      have hl := underflow_entries kvs hx g data q (pos + 1) [] hq h1 (by omega)
        (fun a ha => by cases ha)
      rw [DeSerializeBuf]
      simp only [ReadByte_bufAt h0, unread_tag, ht, DecodeMapWith, targetType, interfaceMapType]
      revert hl
      cases decodeMapLoop g (bufAt data (pos + 1)) GoType.iface GoType.iface [] with
      | error e =>
        intro hl
        simpa [TArray, TMap, TNull, TFalse, TTrue, TByte, TString, TByteArray, TInt16, TInt32,
          TInt64, TFloat32, TFloat64, underflows, loopUnderflows, isZero] using hl
      | ok r => intro hl; simp [loopUnderflows] at hl
  | .str s, hv, f, t, _, data, q, pos, hq, h, hf => by
    obtain ⟨g, rfl⟩ : ∃ g, f = g + 1 := ⟨f - 1, by omega⟩
    exact underflow_str s (by simpa [isDynamic] using hv) g t hq h
  | .bytes s, hv, f, t, _, data, q, pos, hq, h, hf => by
    obtain ⟨g, rfl⟩ : ∃ g, f = g + 1 := ⟨f - 1, by omega⟩
    exact underflow_bytes s (by simpa [isDynamic] using hv) g t hq h
  | .bool s, _, f, t, _, data, q, pos, hq, h, hf => by
    obtain ⟨g, rfl⟩ : ∃ g, f = g + 1 := ⟨f - 1, by omega⟩
    exact underflow_bool s g t hq h
  | .byte s, _, f, t, _, data, q, pos, hq, h, hf => by
    obtain ⟨g, rfl⟩ : ∃ g, f = g + 1 := ⟨f - 1, by omega⟩
    exact underflow_byte s g t hq h
  | .int16 s, _, f, t, _, data, q, pos, hq, h, hf => by
    obtain ⟨g, rfl⟩ : ∃ g, f = g + 1 := ⟨f - 1, by omega⟩
    exact underflow_int16 s g t hq h
  | .int32 s, _, f, t, _, data, q, pos, hq, h, hf => by
    obtain ⟨g, rfl⟩ : ∃ g, f = g + 1 := ⟨f - 1, by omega⟩
    exact underflow_int32 s g t hq h
  | .int64 s, _, f, t, _, data, q, pos, hq, h, hf => by
    obtain ⟨g, rfl⟩ : ∃ g, f = g + 1 := ⟨f - 1, by omega⟩
    exact underflow_int64 s g t hq h
  | .float32 s, _, f, t, _, data, q, pos, hq, h, hf => by
    obtain ⟨g, rfl⟩ : ∃ g, f = g + 1 := ⟨f - 1, by omega⟩
    exact underflow_float32 s g t hq h
  | .float64 s, _, f, t, _, data, q, pos, hq, h, hf => by
    obtain ⟨g, rfl⟩ : ∃ g, f = g + 1 := ⟨f - 1, by omega⟩
    exact underflow_float64 s g t hq h
  | .null, hv, _, _, _, _, _, _, _, _, _ => by simp [isDynamic] at hv
  | .int _, hv, _, _, _, _, _, _, _, _, _ => by simp [isDynamic] at hv
  | .msg _, hv, _, _, _, _, _, _, _, _, _ => by simp [isDynamic] at hv
  | .other, hv, _, _, _, _, _, _, _, _, _ => by simp [isDynamic] at hv

/-- The loop of `DecodeArray` fails because the bytes run out when the elements
or the end tag are cut short. -/
theorem underflow_elems : (xs : List Value) → allDynamic xs = true →
    ∀ (f : Nat) (data q : List Nat) (pos : Nat) (acc : List Value), q ≠ [] →
    data.drop pos ++ q = encodingElems xs ++ [TArrayEnd] → 2 * (data.drop pos).length + 2 ≤ f →
    loopUnderflows (decodeArrayLoop f (bufAt data pos) .iface acc) = true
  | [], _, f, data, q, pos, acc, hq, h, hf => by
    obtain ⟨g, rfl⟩ : ∃ g, f = g + 1 := ⟨f - 1, by omega⟩
    have he : encodingElems [] = [] := by simp [encodingElems, encodeElems, NewBytesBuffer_eq]
    rw [he, List.nil_append] at h
    have hl := length_lt_of_append h hq
    simp only [List.length_singleton, Nat.lt_one_iff, List.length_eq_zero] at hl
    rw [decodeArrayLoop, ReadByte_end hl]
    rfl
  | x :: xs, hv, f, data, q, pos, acc, hq, h, hf => by
    simp only [allDynamic, Bool.and_eq_true] at hv
    rw [(encodeElems_cons x xs (failure_of_isDynamic true x hv.1)).1, List.append_assoc] at h
    obtain ⟨tl, htl⟩ := encoding_isDynamic x hv.1
    have hpos := encoding_length_pos x hv.1
    obtain ⟨g, rfl⟩ : ∃ g, f = g + 1 := ⟨f - 1, by omega⟩
    rcases append_split h with ⟨q1, hq1, h2⟩ | ⟨c, h2, h3⟩
    · -- the element itself is cut short
      have hd := underflow_value x hv.1 g (.ptr .iface) rfl data q1 pos hq1 h2 (by omega)
      rw [htl] at h2
      rw [decodeArrayLoop]
      rcases cons_split h2 with h0 | ⟨d1, h0, _⟩
      · rw [ReadByte_end h0]
        rfl
      · simp only [ReadByte_bufAt h0, unread_tag, (tagOf_isDynamic x hv.1).2.1, if_false]
        revert hd
        cases DeSerializeBuf g (bufAt data pos) (.ptr .iface) with
        | error e =>
          obtain ⟨e1, z⟩ := e
          intro hd
          simp only [underflows, Bool.and_eq_true] at hd
          simpa [loopUnderflows] using hd.1
        | ok r => intro hd; simp [underflows] at hd
    · -- the element is whole: the loop goes on
      have hlen : (data.drop pos).length = (encoding true x).length + c.length := by
        rw [h2]; simp
      have hd := roundtrip x hv.1 g (.ptr .iface) rfl data c pos (by omega) h2
      have hc : data.drop (pos + (encoding true x).length) = c := drop_add_of_drop h2
      have hr := underflow_elems xs hv.2 g data q (pos + (encoding true x).length)
        (acc ++ [readBack x]) hq (by rw [hc]; exact h3) (by rw [hc]; omega)
      have h0 : data.drop pos = tagOf x :: (tl ++ c) := by rw [h2, htl]; simp
      rw [decodeArrayLoop]
      simp only [ReadByte_bufAt h0, unread_tag, hd, (tagOf_isDynamic x hv.1).2.1, if_false]
      simpa [ifacePtr, zeroValue] using hr

/-- The loop of `DecodeMap` fails because the bytes run out when the entries or
the end tag are cut short. -/
theorem underflow_entries : (kvs : List (Value × Value)) → entriesDynamic kvs = true →
    ∀ (f : Nat) (data q : List Nat) (pos : Nat) (acc : List (Value × Value)), q ≠ [] →
    data.drop pos ++ q = encodingEntries kvs ++ [TMapEnd] → 2 * (data.drop pos).length + 2 ≤ f →
    (∀ a ∈ acc, freshKeyIn a.1 kvs = true) →
    loopUnderflows (decodeMapLoop f (bufAt data pos) .iface .iface acc) = true
  | [], _, f, data, q, pos, acc, hq, h, hf, _ => by
    obtain ⟨g, rfl⟩ : ∃ g, f = g + 1 := ⟨f - 1, by omega⟩
    have he : encodingEntries [] = [] := by simp [encodingEntries, encodeEntries, NewBytesBuffer_eq]
    rw [he, List.nil_append] at h
    have hl := length_lt_of_append h hq
    simp only [List.length_singleton, Nat.lt_one_iff, List.length_eq_zero] at hl
    rw [decodeMapLoop, ReadByte_end hl]
    rfl
  | (k, v) :: kvs, hv, f, data, q, pos, acc, hq, h, hf, hacc => by
    simp only [entriesDynamic, Bool.and_eq_true] at hv
    obtain ⟨⟨⟨hk, hvv⟩, hfresh⟩, hrest⟩ := hv
    have hkd := isDynamic_of_isKey k hk
    rw [(encodeEntries_cons k v kvs (failure_of_isKey k hk) (keyEq_self_of_isKey k hk)
      (failure_of_isDynamic true v hvv)).1, List.append_assoc, List.append_assoc] at h
    obtain ⟨tl, htl⟩ := encoding_isDynamic k hkd
    have hposk := encoding_length_pos k hkd
    have hposv := encoding_length_pos v hvv
    obtain ⟨g, rfl⟩ : ∃ g, f = g + 1 := ⟨f - 1, by omega⟩
    rcases append_split h with ⟨q1, hq1, h2⟩ | ⟨c, h2, h3⟩
    · -- the key is cut short
      have hd := underflow_value k hkd g (.ptr .iface) rfl data q1 pos hq1 h2 (by omega)
      rw [htl] at h2
      rw [decodeMapLoop]
      rcases cons_split h2 with h0 | ⟨d1, h0, _⟩
      · rw [ReadByte_end h0]
        rfl
      · simp only [ReadByte_bufAt h0, unread_tag, (tagOf_isDynamic k hkd).2.2, if_false]
        revert hd
        cases DeSerializeBuf g (bufAt data pos) (.ptr .iface) with
        | error e =>
          obtain ⟨e1, z⟩ := e
          intro hd
          simp only [underflows, Bool.and_eq_true] at hd
          simpa [loopUnderflows] using hd.1
        | ok r => intro hd; simp [underflows] at hd
    · have hlen : (data.drop pos).length = (encoding true k).length + c.length := by
        rw [h2]; simp
      have hdk := roundtrip k hkd g (.ptr .iface) rfl data c pos (by omega) h2
      rw [readBack_of_isKey k hk] at hdk
      have hc : data.drop (pos + (encoding true k).length) = c := drop_add_of_drop h2
      have h0 : data.drop pos = tagOf k :: (tl ++ c) := by rw [h2, htl]; simp
      rcases append_split h3 with ⟨q2, hq2, h4⟩ | ⟨c2, h4, h5⟩
      · -- the value is cut short
        have hd := underflow_value v hvv g (.ptr .iface) rfl data q2
          (pos + (encoding true k).length) hq2 (by rw [hc]; exact h4) (by rw [hc]; omega)
        rw [decodeMapLoop]
        simp only [ReadByte_bufAt h0, unread_tag, hdk, (tagOf_isDynamic k hkd).2.2, if_false]
        revert hd
        cases DeSerializeBuf g (bufAt data (pos + (encoding true k).length)) (.ptr .iface) with
        | error e =>
          obtain ⟨e1, z⟩ := e
          intro hd
          simp only [underflows, Bool.and_eq_true] at hd
          simpa [loopUnderflows] using hd.1
        | ok r => intro hd; simp [underflows] at hd
      · have hx : data.drop (pos + (encoding true k).length) = encoding true v ++ c2 := by
          rw [hc, h4]
        have hlen2 : c.length = (encoding true v).length + c2.length := by rw [h4]; simp
        have hdv := roundtrip v hvv g (.ptr .iface) rfl data c2 (pos + (encoding true k).length)
          (by omega) hx
        have hc2 : data.drop (pos + (encoding true k).length + (encoding true v).length) = c2 :=
          drop_add_of_drop hx
        have hset : setMapIndex acc k (readBack v) = acc ++ [(k, readBack v)] := by
          apply setMapIndex_fresh
          intro a ha
          have := hacc a ha
          simp only [freshKeyIn, Bool.and_eq_true, Bool.not_eq_true'] at this
          exact this.1
        have hacc' : ∀ a ∈ acc ++ [(k, readBack v)], freshKeyIn a.1 kvs = true := by
          intro a ha
          rcases List.mem_append.mp ha with ha | ha
          · have := hacc a ha
            simp only [freshKeyIn, Bool.and_eq_true] at this
            exact this.2
          · simp only [List.mem_singleton] at ha
            subst ha
            exact hfresh
        have hr := underflow_entries kvs hrest g data q
          (pos + (encoding true k).length + (encoding true v).length) (acc ++ [(k, readBack v)]) hq
          (by rw [hc2]; exact h5) (by rw [hc2]; omega) hacc'
        rw [decodeMapLoop]
        simp only [ReadByte_bufAt h0, unread_tag, hdk, hdv, (tagOf_isDynamic k hkd).2.2, if_false]
        simpa [ifacePtr, zeroValue, hashable_of_isKey k hk, hset] using hr

end

/-- C17 (underflow): for every dynamic value `v` (a bool, a number, a string, a
byte slice, or a sequence or mapping of such values, no key of a mapping being
a NaN, on which `Serialize` fails), for every platform int `v`, and for every
non-empty strict prefix `p` of its encoding, `Serialize v` succeeds and
`DeSerialize` of `p` without target returns an error, which is the
end-of-input error of a byte read or the not-enough-bytes error of a longer
read, and no value: what comes along with the error is nil or the zero value
of the failing decoder. -/
theorem C17_underflow (v : Value) (hv : isDynamic v = true ∨ isPlatformInt v = true)
    (p : List Nat)
    (hpre : p <+: (Serialization.Serialize v).1) (hne : p ≠ (Serialization.Serialize v).1)
    (hp : p ≠ []) :
    (Serialization.Serialize v).2 = none
    ∧ ∃ e z, Serialization.DeSerialize p .nil = .error (e, z) ∧ (e = .EOF ∨ e = .ErrNotEnough)
        ∧ isZero z = true := by
  have dyn : ∀ w : Value, isDynamic w = true → p <+: (Serialization.Serialize w).1 →
      p ≠ (Serialization.Serialize w).1 →
      (Serialization.Serialize w).2 = none
      ∧ ∃ e z, Serialization.DeSerialize p .nil = .error (e, z) ∧ (e = .EOF ∨ e = .ErrNotEnough)
          ∧ isZero z = true := by
    intro w hw hpre hne
    refine ⟨failure_of_isDynamic false w hw, ?_⟩
    obtain ⟨q, hq⟩ := hpre
    have hq0 : q ≠ [] := by
      intro h0
      rw [h0, List.append_nil] at hq
      exact hne hq
    rw [Serialize_eq] at hq
    simp only [encoding_false_isDynamic w hw] at hq
    have hu := underflow_value w hw (fuelFor p.length) .nil rfl p q 0 hq0 (by simpa using hq)
      (by simp [fuelFor])
    have hl : p.length ≠ 0 := fun h0 => hp (List.eq_nil_of_length_eq_zero h0)
    simp only [Serialization.DeSerialize, hl, if_false, CreateBytesBuffer_eq]
    revert hu
    cases DeSerializeBuf (fuelFor p.length) (bufAt p 0) .nil with
    | ok r => intro hu; simp [underflows] at hu
    | error ez =>
      obtain ⟨e, z⟩ := ez
      intro hu
      simp only [underflows, Bool.and_eq_true] at hu
      refine ⟨e, z, rfl, ?_, hu.2⟩
      have h1 := hu.1
      cases e <;> simp [isUnderflow] at h1 ⊢
  rcases hv with hv | hv
  · exact dyn v hv hpre hne
  · cases v with
    | int n =>
      have hr : isDynamic (.int64 n) = true := by simpa [isPlatformInt, isDynamic] using hv
      have hint : Serialization.Serialize (.int n) = Serialization.Serialize (.int64 n) := by
        simp [Serialize_eq, encoding, failure, SerializeBuf]
      rw [hint] at hpre hne ⊢
      exact dyn (.int64 n) hr hpre hne
    | _ => simp [isPlatformInt] at hv

theorem C17_underflow_witness :
    (isDynamic (.seq [.str [104], .bool true]) = true
      ∨ isPlatformInt (.seq [.str [104], .bool true]) = true)
    ∧ [20, 4, 2, 104, 1] <+: (Serialization.Serialize (.seq [.str [104], .bool true])).1
    ∧ [20, 4, 2, 104, 1] ≠ (Serialization.Serialize (.seq [.str [104], .bool true])).1
    ∧ ([20, 4, 2, 104, 1] : List Nat) ≠ []
    ∧ (Serialization.Serialize (.seq [.str [104], .bool true])).2 = none
    ∧ ∃ e z, Serialization.DeSerialize [20, 4, 2, 104, 1] .nil = .error (e, z)
        ∧ (e = .EOF ∨ e = .ErrNotEnough) ∧ isZero z = true :=
  ⟨Or.inl (by decide), ⟨[21], by decide⟩, by decide, by decide,
    C17_underflow (.seq [.str [104], .bool true]) (Or.inl (by decide)) [20, 4, 2, 104, 1]
      ⟨[21], by decide⟩ (by decide) (by decide)⟩

/-! ## The access-log formatter: the parser, rune by rune -/

theorem layoutLoop_cons (p : Bool) (v : List Char) (fs : List layoutValueFinder) (c : Char)
    (rest : List Char) :
    layoutLoop p v fs (c :: rest) =
      if c = '$' then
        if p then layoutLoop true (v ++ [c]) fs rest
        else
          match rest with
          | d :: rest1 =>
            if d = '\x7b' then layoutLoop true [] (flushVal v fs) rest1
            else layoutLoop false (v ++ [c]) fs (d :: rest1)
          | [] => layoutLoop false (v ++ [c]) fs []
      else if c = '\x7d' then
        if !p then layoutLoop false (v ++ [c]) fs rest
        else layoutLoop false [] (if v ≠ [] then fs ++ [getVariableFinder v] else fs) rest
      else layoutLoop p (v ++ [c]) fs rest := by
  rw [layoutLoop.eq_def]

theorem layoutLoop_open (v : List Char) (fs : List layoutValueFinder) (rest : List Char) :
    layoutLoop false v fs ('$' :: '\x7b' :: rest) = layoutLoop true [] (flushVal v fs) rest := by
  simp [layoutLoop_cons]

theorem layoutLoop_close (v : List Char) (fs : List layoutValueFinder) (rest : List Char) :
    layoutLoop true v fs ('\x7d' :: rest)
      = layoutLoop false [] (if v ≠ [] then fs ++ [getVariableFinder v] else fs) rest := by
  simp [layoutLoop_cons]

theorem layoutLoop_name (s : List Char) (hs : s.contains '\x7d' = false) (v : List Char)
    (fs : List layoutValueFinder) (rest : List Char) :
    layoutLoop true v fs (s ++ rest) = layoutLoop true (v ++ s) fs rest := by
  induction s generalizing v with
  | nil => simp
  | cons c s ih =>
    simp only [List.contains_cons, Bool.or_eq_false_iff, beq_eq_false_iff_ne, ne_eq] at hs
    have hc : c ≠ '\x7d' := fun h => hs.1 h.symm
    rw [List.cons_append, layoutLoop_cons]
    by_cases h1 : c = '$'
    · simp [h1, ih hs.2]
    · simp [h1, hc, ih hs.2]

/-- Text that opens no placeholder, followed by a rune that does not complete an
opening either, is copied to `val`. -/
theorem layoutLoop_text (s : List Char) (v : List Char) (fs : List layoutValueFinder)
    (rest : List Char) (hs : ¬ "$\x7b".toList <:+: s ++ rest.take 1) :
    layoutLoop false v fs (s ++ rest) = layoutLoop false (v ++ s) fs rest := by
  induction s generalizing v with
  | nil => simp
  | cons c s ih =>
    have hs2 : ¬ "$\x7b".toList <:+: s ++ rest.take 1 := by
      intro h
      exact hs (h.trans (List.suffix_cons c _).isInfix)
    have ih2 := fun v => ih v hs2
    rw [List.cons_append, layoutLoop_cons]
    by_cases h1 : c = '$'
    · subst h1
      simp only [if_true, Bool.false_eq_true, if_false]
      cases hsr : s ++ rest with
      | nil =>
        have h0 := ih2 (v ++ ['$'])
        rw [hsr] at h0
        simpa using h0
      | cons d t =>
        have hd : d ≠ '\x7b' := by
          intro hd
          subst hd
          apply hs
          have : ∃ t2, s ++ rest.take 1 = '\x7b' :: t2 := by
            cases s with
            | nil =>
              cases rest with
              | nil => simp at hsr
              | cons r rs =>
                simp only [List.nil_append, List.cons.injEq] at hsr
                exact ⟨[], by simp [hsr.1]⟩
            | cons x xs =>
              simp only [List.cons_append, List.cons.injEq] at hsr
              exact ⟨xs ++ rest.take 1, by simp [hsr.1]⟩
          obtain ⟨t2, ht2⟩ := this
          rw [List.cons_append, ht2]
          exact (List.prefix_iff_eq_append.mpr (by simp)).isInfix
        have h0 := ih2 (v ++ ['$'])
        rw [hsr] at h0
        simpa [hd] using h0
    · by_cases h2 : c = '\x7d'
      · simp [h1, h2, ih2]
      · simp [h1, h2, ih2]

/-! ## The access-log formatter: templates -/

theorem findAll_append (jsonMarshal : Exception → List Char) (req : MotanRequest)
    (res : MotanResponse) (fs gs : List layoutValueFinder) :
    findAll jsonMarshal req res (fs ++ gs)
      = findAll jsonMarshal req res fs ++ findAll jsonMarshal req res gs := by
  simp [findAll]

theorem findAll_flushVal (jsonMarshal : Exception → List Char) (req : MotanRequest)
    (res : MotanResponse) (v : List Char) (fs : List layoutValueFinder) :
    findAll jsonMarshal req res (flushVal v fs) = findAll jsonMarshal req res fs ++ v := by
  unfold flushVal
  by_cases h : v = []
  · simp [h]
  · simp [h, findAll, layoutValueFinder.find]

/-- The finder of a name yields the value of the variable of that name, and the
placeholder itself when the name is no variable. -/
theorem find_getVariableFinder (jsonMarshal : Exception → List Char) (req : MotanRequest)
    (res : MotanResponse) (name : List Char) :
    (getVariableFinder name).find jsonMarshal req res
      = (variableValue jsonMarshal name req res).getD (Segment.var name).text := by
  unfold getVariableFinder variableValue requestAttachmentPrefix responseAttachmentPrefix
  by_cases h0 : name = "request_id".toList
  · rw [if_pos h0, if_pos h0]
    rfl
  rw [if_neg h0, if_neg h0]
  by_cases h1 : name = "request_time".toList
  · rw [if_pos h1, if_pos h1]
    rfl
  rw [if_neg h1, if_neg h1]
  by_cases h2 : name = "service".toList
  · rw [if_pos h2, if_pos h2]
    rfl
  rw [if_neg h2, if_neg h2]
  by_cases h3 : name = "method".toList
  · rw [if_pos h3, if_pos h3]
    rfl
  rw [if_neg h3, if_neg h3]
  by_cases h4 : name = "desc".toList
  · rw [if_pos h4, if_pos h4]
    rfl
  rw [if_neg h4, if_neg h4]
  by_cases h5 : name = "remote_addr".toList
  · rw [if_pos h5, if_pos h5]
    rfl
  rw [if_neg h5, if_neg h5]
  by_cases h6 : name = "request_size".toList
  · rw [if_pos h6, if_pos h6]
    rfl
  rw [if_neg h6, if_neg h6]
  by_cases h7 : name = "response_size".toList
  · rw [if_pos h7, if_pos h7]
    rfl
  rw [if_neg h7, if_neg h7]
  by_cases h8 : name = "business_time".toList
  · rw [if_pos h8, if_pos h8]
    rfl
  rw [if_neg h8, if_neg h8]
  by_cases h9 : name = "status".toList
  · rw [if_pos h9, if_pos h9]
    rfl
  rw [if_neg h9, if_neg h9]
  by_cases h10 : name = "exception".toList
  · rw [if_pos h10, if_pos h10]
    rfl
  rw [if_neg h10, if_neg h10]
  by_cases p0 : "req_header.".toList.isPrefixOf name = true
  · rw [if_pos p0, if_pos p0]
    rfl
  rw [if_neg p0, if_neg p0]
  by_cases p1 : "res_header.".toList.isPrefixOf name = true
  · rw [if_pos p1, if_pos p1]
    rfl
  rw [if_neg p1, if_neg p1]
  rfl

theorem no_open_of_no_dollar (s t : List Char) (hs : s.contains '$' = false) (ht : t.length ≤ 1) :
    ¬ "$\x7b".toList <:+: s ++ t := by
  induction s with
  | nil =>
    intro h
    have := h.length_le
    simp at this
    omega
  | cons c s ih =>
    simp only [List.contains_cons, Bool.or_eq_false_iff, beq_eq_false_iff_ne, ne_eq] at hs
    intro h
    rw [List.cons_append, List.infix_cons_iff] at h
    rcases h with h | h
    · obtain ⟨u, hu⟩ := h
      simp at hu
      exact hs.1 hu.1
    · exact ih hs.2 h

/-- The output of the finders built for a template made of well-formed pieces,
whatever was parsed before. -/
theorem findAll_layoutLoop (jsonMarshal : Exception → List Char) (req : MotanRequest)
    (res : MotanResponse) (segs : List Segment) (hwf : ∀ s ∈ segs, s.wellFormed = true)
    (v : List Char) (fs : List layoutValueFinder) :
    findAll jsonMarshal req res (layoutLoop false v fs (templateOf segs))
      = findAll jsonMarshal req res fs ++ v ++ valuesOf jsonMarshal req res segs := by
  induction segs generalizing v fs with
  | nil => simp [templateOf, valuesOf, layoutLoop, findAll_flushVal]
  | cons s segs ih =>
    have ih2 := ih (fun s hs => hwf s (List.mem_cons_of_mem _ hs))
    have hs := hwf s (List.mem_cons_self _ _)
    have ht : templateOf (s :: segs) = s.text ++ templateOf segs := by simp [templateOf]
    have hv : valuesOf jsonMarshal req res (s :: segs)
        = s.value jsonMarshal req res ++ valuesOf jsonMarshal req res segs := by simp [valuesOf]
    rw [ht, hv]
    cases s with
    | lit t =>
      simp only [Segment.wellFormed, Bool.not_eq_true'] at hs
      simp only [Segment.text, Segment.value]
      rw [layoutLoop_text t v fs _ (no_open_of_no_dollar t _ hs (by simp)), ih2]
      simp
    | var name =>
      simp only [Segment.wellFormed, Bool.not_eq_true'] at hs
      have htext : (Segment.var name).text ++ templateOf segs
          = '$' :: '\x7b' :: (name ++ ('\x7d' :: templateOf segs)) := by
        simp [Segment.text]
      rw [htext, layoutLoop_open, layoutLoop_name name hs, layoutLoop_close, ih2]
      simp only [List.nil_append, List.append_nil]
      by_cases hn : name = []
      · simp [hn, Segment.value, findAll_flushVal]
      · have hf : findAll jsonMarshal req res [getVariableFinder name]
            = (variableValue jsonMarshal name req res).getD (Segment.var name).text := by
          simp [findAll, find_getVariableFinder]
        rw [if_pos hn, findAll_append, findAll_flushVal, hf]
        simp [Segment.value, hn]

theorem Format_templateOf (jsonMarshal : Exception → List Char) (req : MotanRequest)
    (res : MotanResponse) (segs : List Segment) (hwf : ∀ s ∈ segs, s.wellFormed = true) :
    (NewDefaultAccessLogFormatter (templateOf segs)).Format jsonMarshal req res
      = valuesOf jsonMarshal req res segs := by
  have h := findAll_layoutLoop jsonMarshal req res segs hwf [] []
  simpa [DefaultAccessLogFormatter.Format, NewDefaultAccessLogFormatter, getValueFindersFromLayout,
    findAll] using h

theorem variableValue_of_not_isVariable (jsonMarshal : Exception → List Char) (req : MotanRequest)
    (res : MotanResponse) (name : List Char) (h : isVariable name = false) :
    getVariableFinder name = .stringFinder (Segment.var name).text
    ∧ variableValue jsonMarshal name req res = none := by
  simp only [isVariable, knownVariables, Bool.or_eq_false_iff, List.contains_eq_any_beq,
    List.any_eq_false, beq_iff_eq] at h
  obtain ⟨⟨hk, hq⟩, hs⟩ := h
  unfold getVariableFinder variableValue requestAttachmentPrefix responseAttachmentPrefix
  have h0 : ¬ name = "request_id".toList := hk _ (by decide)
  rw [if_neg h0, if_neg h0]
  have h1 : ¬ name = "request_time".toList := hk _ (by decide)
  rw [if_neg h1, if_neg h1]
  have h2 : ¬ name = "service".toList := hk _ (by decide)
  rw [if_neg h2, if_neg h2]
  have h3 : ¬ name = "method".toList := hk _ (by decide)
  rw [if_neg h3, if_neg h3]
  have h4 : ¬ name = "desc".toList := hk _ (by decide)
  rw [if_neg h4, if_neg h4]
  have h5 : ¬ name = "remote_addr".toList := hk _ (by decide)
  rw [if_neg h5, if_neg h5]
  have h6 : ¬ name = "request_size".toList := hk _ (by decide)
  rw [if_neg h6, if_neg h6]
  have h7 : ¬ name = "response_size".toList := hk _ (by decide)
  rw [if_neg h7, if_neg h7]
  have h8 : ¬ name = "business_time".toList := hk _ (by decide)
  rw [if_neg h8, if_neg h8]
  have h9 : ¬ name = "status".toList := hk _ (by decide)
  rw [if_neg h9, if_neg h9]
  have h10 : ¬ name = "exception".toList := hk _ (by decide)
  rw [if_neg h10, if_neg h10]
  rw [if_neg (by rw [hq]; decide), if_neg (by rw [hs]; decide), if_neg (by rw [hq]; decide),
    if_neg (by rw [hs]; decide)]
  exact ⟨rfl, rfl⟩

theorem variableValue_of_isVariable (jsonMarshal : Exception → List Char) (req : MotanRequest)
    (res : MotanResponse) (name : List Char) (h : isVariable name = true) :
    (∃ x, variableValue jsonMarshal name req res = some x) ∧ name ≠ [] := by
  refine ⟨?_, fun e => by subst e; simp [isVariable, knownVariables] at h⟩
  cases hv : variableValue jsonMarshal name req res with
  | some x => exact ⟨x, rfl⟩
  | none =>
    exfalso
    unfold variableValue at hv
    by_cases h0 : name = "request_id".toList
    · rw [if_pos h0] at hv
      cases hv
    rw [if_neg h0] at hv
    by_cases h1 : name = "request_time".toList
    · rw [if_pos h1] at hv
      cases hv
    rw [if_neg h1] at hv
    by_cases h2 : name = "service".toList
    · rw [if_pos h2] at hv
      cases hv
    rw [if_neg h2] at hv
    by_cases h3 : name = "method".toList
    · rw [if_pos h3] at hv
      cases hv
    rw [if_neg h3] at hv
    by_cases h4 : name = "desc".toList
    · rw [if_pos h4] at hv
      cases hv
    rw [if_neg h4] at hv
    by_cases h5 : name = "remote_addr".toList
    · rw [if_pos h5] at hv
      cases hv
    rw [if_neg h5] at hv
    by_cases h6 : name = "request_size".toList
    · rw [if_pos h6] at hv
      cases hv
    rw [if_neg h6] at hv
    by_cases h7 : name = "response_size".toList
    · rw [if_pos h7] at hv
      cases hv
    rw [if_neg h7] at hv
    by_cases h8 : name = "business_time".toList
    · rw [if_pos h8] at hv
      cases hv
    rw [if_neg h8] at hv
    by_cases h9 : name = "status".toList
    · rw [if_pos h9] at hv
      cases hv
    rw [if_neg h9] at hv
    by_cases h10 : name = "exception".toList
    · rw [if_pos h10] at hv
      cases hv
    rw [if_neg h10] at hv
    by_cases hq : "req_header.".toList.isPrefixOf name = true
    · rw [if_pos hq] at hv
      cases hv
    rw [if_neg hq] at hv
    by_cases hs : "res_header.".toList.isPrefixOf name = true
    · rw [if_pos hs] at hv
      cases hv
    simp only [isVariable, knownVariables, Bool.or_eq_true, List.contains_eq_any_beq,
      List.any_eq_true, beq_iff_eq] at h
    rcases h with ⟨⟨x, hx, hxe⟩ | h⟩ | h
    · subst hxe
      simp at hx
      rcases hx with e | e | e | e | e | e | e | e | e | e | e
      all_goals first
        | exact h0 (by rw [e]; rfl)
        | exact h1 (by rw [e]; rfl)
        | exact h2 (by rw [e]; rfl)
        | exact h3 (by rw [e]; rfl)
        | exact h4 (by rw [e]; rfl)
        | exact h5 (by rw [e]; rfl)
        | exact h6 (by rw [e]; rfl)
        | exact h7 (by rw [e]; rfl)
        | exact h8 (by rw [e]; rfl)
        | exact h9 (by rw [e]; rfl)
        | exact h10 (by rw [e]; rfl)
    · exact hq h
    · exact hs h

theorem commonFormatLayout_eq : commonFormatLayout = templateOf commonFormatSegments := by
  rfl

/-- C21 (formatter substitution): for every template made of literal text
(without `$`) and placeholders that name variables (without closing brace in
the name), `Format` returns the concatenation, in template order, of the
literals and of the value of each variable; and the common layout gives the
twelve fields joined by `|`, with status `true` and an empty exception field
when the response has no exception. -/
theorem C21_formatter_substitution (jsonMarshal : Exception → List Char) (req : MotanRequest)
    (res : MotanResponse) (segs : List Segment)
    (hsegs : ∀ s ∈ segs, s.wellFormed = true ∧ s.namesVariable = true) :
    (NewDefaultAccessLogFormatter (templateOf segs)).Format jsonMarshal req res
        = valuesOf jsonMarshal req res segs
    ∧ (∀ name, Segment.var name ∈ segs →
        ∃ x, variableValue jsonMarshal name req res = some x
          ∧ Segment.value jsonMarshal req res (.var name) = x)
    ∧ (res.Exception = none →
        (NewDefaultAccessLogFormatter commonFormatLayout).Format jsonMarshal req res
          = formatUint res.RequestID ++ "|".toList ++ req.ServiceName ++ "|".toList ++ req.Method
            ++ "|".toList ++ req.MethodDesc ++ "|".toList ++ req.Context.RemoteAddress
            ++ "|".toList ++ formatInt req.Context.BodySize ++ "|".toList
            ++ formatInt res.Context.BodySize ++ "|".toList ++ formatInt res.ProcessTime
            ++ "|".toList ++ formatInt req.Context.RequestTime ++ "|".toList
            ++ res.GetAttachment "HTTP_Status".toList ++ "|".toList ++ "true".toList
            ++ "|".toList) := by
  refine ⟨Format_templateOf jsonMarshal req res segs (fun s hs => (hsegs s hs).1), ?_, ?_⟩
  · intro name hname
    have hv : isVariable name = true := (hsegs _ hname).2
    obtain ⟨⟨x, hx⟩, hne⟩ := variableValue_of_isVariable jsonMarshal req res name hv
    exact ⟨x, hx, by simp [Segment.value, hne, hx]⟩
  · intro hex
    rw [commonFormatLayout_eq, Format_templateOf jsonMarshal req res _ (by decide)]
    simp [valuesOf, commonFormatSegments, Segment.value, variableValue, hex, formatBool,
      MotanResponse.GetAttachment]

theorem C21_formatter_substitution_witness :
    (∀ s ∈ [Segment.var "service".toList, .lit "|".toList, .var "method".toList, .lit "|".toList,
        .var "res_header.HTTP_Status".toList], s.wellFormed = true ∧ s.namesVariable = true)
    ∧ templateOf [Segment.var "service".toList, .lit "|".toList, .var "method".toList,
        .lit "|".toList, .var "res_header.HTTP_Status".toList]
        = "$\x7bservice\x7d|$\x7bmethod\x7d|$\x7bres_header.HTTP_Status\x7d".toList
    ∧ valuesOf (fun _ => [])
        { RequestID := 7, ServiceName := "s".toList, Method := "m".toList, MethodDesc := [],
          Attachment := [], Arguments := [],
          Context := { RemoteAddress := [], BodySize := 0, RequestTime := 0 } }
        { RequestID := 7, Value := none, Exception := none, ProcessTime := 0,
          Attachment := [("HTTP_Status".toList, "200".toList)],
          Context := { RemoteAddress := [], BodySize := 0, RequestTime := 0 } }
        [Segment.var "service".toList, .lit "|".toList, .var "method".toList, .lit "|".toList,
          .var "res_header.HTTP_Status".toList]
        = "s|m|200".toList
    ∧ (NewDefaultAccessLogFormatter (templateOf [Segment.var "service".toList, .lit "|".toList,
          .var "method".toList, .lit "|".toList, .var "res_header.HTTP_Status".toList])).Format
        (fun _ => [])
        { RequestID := 7, ServiceName := "s".toList, Method := "m".toList, MethodDesc := [],
          Attachment := [], Arguments := [],
          Context := { RemoteAddress := [], BodySize := 0, RequestTime := 0 } }
        { RequestID := 7, Value := none, Exception := none, ProcessTime := 0,
          Attachment := [("HTTP_Status".toList, "200".toList)],
          Context := { RemoteAddress := [], BodySize := 0, RequestTime := 0 } }
        = valuesOf (fun _ => [])
        { RequestID := 7, ServiceName := "s".toList, Method := "m".toList, MethodDesc := [],
          Attachment := [], Arguments := [],
          Context := { RemoteAddress := [], BodySize := 0, RequestTime := 0 } }
        { RequestID := 7, Value := none, Exception := none, ProcessTime := 0,
          Attachment := [("HTTP_Status".toList, "200".toList)],
          Context := { RemoteAddress := [], BodySize := 0, RequestTime := 0 } }
        [Segment.var "service".toList, .lit "|".toList, .var "method".toList, .lit "|".toList,
          .var "res_header.HTTP_Status".toList] :=
  ⟨by decide, by decide, by decide,
    (C21_formatter_substitution (fun _ => []) _ _ _ (by decide)).1⟩

theorem valuesOf_append (jsonMarshal : Exception → List Char) (req : MotanRequest)
    (res : MotanResponse) (a b : List Segment) :
    valuesOf jsonMarshal req res (a ++ b)
      = valuesOf jsonMarshal req res a ++ valuesOf jsonMarshal req res b := by
  simp [valuesOf]

/-- C22 (formatter, unknown names): for every non-empty name that is not a known
variable, starts neither with `req_header.` nor with `res_header.` and holds
no closing brace, the finder of the name is the string finder of the
placeholder itself, and in every template of well-formed pieces the
placeholder contributes exactly its own text, between the outputs of the
pieces before and after it, for every request and response. -/
theorem C22_formatter_unknown_name (jsonMarshal : Exception → List Char) (req : MotanRequest)
    (res : MotanResponse) (name : List Char) (pre post : List Segment)
    (hne : name ≠ []) (hun : isVariable name = false) (hbr : name.contains '\x7d' = false)
    (hpre : ∀ s ∈ pre, s.wellFormed = true) (hpost : ∀ s ∈ post, s.wellFormed = true) :
    getVariableFinder name = .stringFinder ("$\x7b".toList ++ name ++ "\x7d".toList)
    ∧ (NewDefaultAccessLogFormatter (templateOf (pre ++ Segment.var name :: post))).Format
          jsonMarshal req res
        = valuesOf jsonMarshal req res pre ++ ("$\x7b".toList ++ name ++ "\x7d".toList)
            ++ valuesOf jsonMarshal req res post := by
  obtain ⟨hf, hv⟩ := variableValue_of_not_isVariable jsonMarshal req res name hun
  refine ⟨hf, ?_⟩
  have hwf : ∀ s ∈ pre ++ Segment.var name :: post, s.wellFormed = true := by
    intro s hs
    rcases List.mem_append.mp hs with h | h
    · exact hpre s h
    · rcases List.mem_cons.mp h with h | h
      · subst h
        simp only [Segment.wellFormed, hbr]
        rfl
      · exact hpost s h
  rw [Format_templateOf jsonMarshal req res _ hwf, valuesOf_append]
  have hone : valuesOf jsonMarshal req res (Segment.var name :: post)
      = ("$\x7b".toList ++ name ++ "\x7d".toList) ++ valuesOf jsonMarshal req res post := by
    simp [valuesOf, Segment.value, hne, hv, Segment.text]
  rw [hone]
  simp

theorem C22_formatter_unknown_name_witness :
    "user".toList ≠ [] ∧ isVariable "user".toList = false
    ∧ "user".toList.contains '\x7d' = false
    ∧ (∀ s ∈ [Segment.var "service".toList, .lit "|".toList], s.wellFormed = true)
    ∧ (∀ s ∈ [Segment.lit "|".toList, .var "method".toList], s.wellFormed = true)
    ∧ getVariableFinder "user".toList = .stringFinder "$\x7buser\x7d".toList
    ∧ (NewDefaultAccessLogFormatter (templateOf ([Segment.var "service".toList, .lit "|".toList]
          ++ Segment.var "user".toList :: [Segment.lit "|".toList, .var "method".toList]))).Format
          (fun _ => [])
          { RequestID := 7, ServiceName := "s".toList, Method := "m".toList, MethodDesc := [],
            Attachment := [], Arguments := [],
            Context := { RemoteAddress := [], BodySize := 0, RequestTime := 0 } }
          { RequestID := 7, Value := none, Exception := none, ProcessTime := 0, Attachment := [],
            Context := { RemoteAddress := [], BodySize := 0, RequestTime := 0 } }
        = "s|$\x7buser\x7d|m".toList :=
  ⟨by decide, by decide, by decide, by decide, by decide,
    C22_formatter_unknown_name (fun _ => []) _ _ "user".toList
      [Segment.var "service".toList, .lit "|".toList] [Segment.lit "|".toList, .var "method".toList]
      (by decide) (by decide) (by decide) (by decide) (by decide)⟩

theorem no_open_snoc_dollar (p : List Char) (hp : ¬ "$\x7b".toList <:+: p) :
    ¬ "$\x7b".toList <:+: p ++ ['$'] := by
  induction p with
  | nil =>
    intro h
    have := h.length_le
    simp at this
  | cons c p ih =>
    have hp2 : ¬ "$\x7b".toList <:+: p := fun h => hp (h.trans (List.suffix_cons c _).isInfix)
    intro h
    rw [List.cons_append, List.infix_cons_iff] at h
    rcases h with h | h
    · obtain ⟨u, hu⟩ := h
      simp only [String.toList, List.cons_append, List.nil_append, List.cons.injEq] at hu
      obtain ⟨hc, hu⟩ := hu
      cases p with
      | nil => simp at hu
      | cons d p1 =>
        simp only [List.cons_append, List.cons.injEq] at hu
        apply hp
        rw [← hc, ← hu.1]
        exact (List.prefix_iff_eq_append.mpr (by simp)).isInfix
    · exact ih hp2 h

/-- C23 (formatter, unclosed placeholder): for every template made of a text `p`
that holds no opening `$` and brace, followed by an opening and by a text `t`
without closing brace, the output is the template itself, for every request
and response, whatever `t` is. -/
theorem C23_formatter_unclosed (jsonMarshal : Exception → List Char) (req : MotanRequest)
    (res : MotanResponse) (p t : List Char) (hp : ¬ "$\x7b".toList <:+: p)
    (ht : t.contains '\x7d' = false) :
    (NewDefaultAccessLogFormatter (p ++ "$\x7b".toList ++ t)).Format jsonMarshal req res
      = p ++ "$\x7b".toList ++ t := by
  have h1 : p ++ "$\x7b".toList ++ t = p ++ ('$' :: '\x7b' :: (t ++ [])) := by simp
  have h2 : layoutLoop false [] [] (p ++ ('$' :: '\x7b' :: (t ++ [])))
      = flushVal p [] ++ [.stringFinder ("$\x7b".toList ++ t)] := by
    rw [layoutLoop_text p [] [] _ (by simpa using no_open_snoc_dollar p hp), layoutLoop_open,
      layoutLoop_name t ht]
    simp [layoutLoop]
  have h3 := findAll_flushVal jsonMarshal req res p []
  have h4 : findAll jsonMarshal req res ([] : List layoutValueFinder) = [] := rfl
  rw [h4, List.nil_append] at h3
  have h5 : (NewDefaultAccessLogFormatter (p ++ "$\x7b".toList ++ t)).Format jsonMarshal req res
      = findAll jsonMarshal req res (layoutLoop false [] [] (p ++ ('$' :: '\x7b' :: (t ++ [])))) := by
    rw [h1]
    rfl
  rw [h5, h2, findAll_append, h3]
  simp [findAll, layoutValueFinder.find]

theorem C23_formatter_unclosed_witness :
    ¬ "$\x7b".toList <:+: "a$b\x7d|".toList ∧ "service".toList.contains '\x7d' = false
    ∧ (NewDefaultAccessLogFormatter ("a$b\x7d|".toList ++ "$\x7b".toList ++ "service".toList)).Format
          (fun _ => [])
          { RequestID := 7, ServiceName := "s".toList, Method := "m".toList, MethodDesc := [],
            Attachment := [], Arguments := [],
            Context := { RemoteAddress := [], BodySize := 0, RequestTime := 0 } }
          { RequestID := 7, Value := none, Exception := none, ProcessTime := 0, Attachment := [],
            Context := { RemoteAddress := [], BodySize := 0, RequestTime := 0 } }
        = "a$b\x7d|".toList ++ "$\x7b".toList ++ "service".toList :=
  ⟨by decide, by decide, C23_formatter_unclosed (fun _ => []) _ _ _ _ (by decide) (by decide)⟩

/-! ## The HTTP endpoint: initial availability and the health check -/

/-- C24 (endpoint initial availability): after `Initialize` the endpoint is
available exactly when the option `checkURI` is absent or empty: a non-empty
`checkURI` leaves it unavailable, with the check loop started. -/
theorem C24_initial_availability (url : URL) :
    (HTTPEndpoint.new url).Initialize.IsAvailable
        = .ok (decide (url.GetParam httpHealthCheckURI [] = []))
    ∧ (url.GetParam httpHealthCheckURI [] = []
        ↔ loadAttachment url.Parameters httpHealthCheckURI = none
          ∨ loadAttachment url.Parameters httpHealthCheckURI = some [])
    ∧ (HTTPEndpoint.new url).Initialize.checking
        = !decide (url.GetParam httpHealthCheckURI [] = []) := by
  refine ⟨?_, ?_, ?_⟩
  · by_cases h : url.GetParam httpHealthCheckURI [] = []
    · simp [HTTPEndpoint.Initialize, HTTPEndpoint.new, HTTPEndpoint.IsAvailable,
        HTTPEndpoint.setAvailable, h]
    · simp [HTTPEndpoint.Initialize, HTTPEndpoint.new, HTTPEndpoint.IsAvailable,
        HTTPEndpoint.setAvailable, h]
  · unfold URL.GetParam
    cases loadAttachment url.Parameters httpHealthCheckURI <;> simp
  · by_cases h : url.GetParam httpHealthCheckURI [] = []
    · simp [HTTPEndpoint.Initialize, HTTPEndpoint.new, HTTPEndpoint.setAvailable, h]
    · simp [HTTPEndpoint.Initialize, HTTPEndpoint.new, HTTPEndpoint.setAvailable, h]

/-- The attempts of a tick, from attempt `i` on with `n` iterations to go: their
number, what the attempts before the last one returned, and what the last one
returned according to the result. -/
theorem attemptLoop_spec (a : Int) (get : Nat → Attempt) (n i : Nat) :
    i ≤ (attemptLoop a get n i).2 ∧ (attemptLoop a get n i).2 ≤ i + n
    ∧ (∀ j, i ≤ j → j + 1 < (attemptLoop a get n i).2 → get j = .err)
    ∧ ((attemptLoop a get n i).1 = true →
        i < (attemptLoop a get n i).2 ∧ get ((attemptLoop a get n i).2 - 1) = .resp a)
    ∧ ((attemptLoop a get n i).1 = false →
        ((attemptLoop a get n i).2 = i + n
          ∧ ∀ j, i ≤ j → j < (attemptLoop a get n i).2 → get j = .err)
        ∨ (i < (attemptLoop a get n i).2
          ∧ ∃ c, c ≠ a ∧ get ((attemptLoop a get n i).2 - 1) = .resp c)) := by
  induction n generalizing i with
  | zero =>
    have e : attemptLoop a get 0 i = (false, i) := rfl
    rw [e]
    dsimp only
    refine ⟨le_refl _, by omega, fun j h1 h2 => by omega, ?_, ?_⟩
    · intro h
      exact absurd h Bool.false_ne_true
    · intro _
      exact Or.inl ⟨rfl, fun j h1 h2 => by omega⟩
  | succ n ih =>
    cases hg : get i with
    | err =>
      have e : attemptLoop a get (n + 1) i = attemptLoop a get n (i + 1) := by
        rw [attemptLoop, hg]
      rw [e]
      obtain ⟨h1, h2, h3, h4, h5⟩ := ih (i + 1)
      refine ⟨by omega, by omega, ?_, ?_, ?_⟩
      · intro j hj1 hj2
        by_cases hji : j = i
        · rw [hji, hg]
        · exact h3 j (by omega) hj2
      · intro ht
        exact ⟨by omega, (h4 ht).2⟩
      · intro hf
        rcases h5 hf with ⟨h6, h7⟩ | ⟨h6, h7⟩
        · refine Or.inl ⟨by omega, fun j hj1 hj2 => ?_⟩
          by_cases hji : j = i
          · rw [hji, hg]
          · exact h7 j (by omega) hj2
        · exact Or.inr ⟨by omega, h7⟩
    | resp c =>
      have e : attemptLoop a get (n + 1) i = (decide (c = a), i + 1) := by
        rw [attemptLoop, hg]
      rw [e]
      refine ⟨by simp, by simp, fun j h1 h2 => by simp at h2; omega, ?_, ?_⟩
      · intro ht
        simp only [decide_eq_true_eq] at ht
        simp [hg, ht]
      · intro hf
        simp only [decide_eq_false_iff_not] at hf
        exact Or.inr ⟨by simp, c, hf, by simp [hg]⟩

/-- C25 as stated fails: with `checkRetry` 3 and alive status 200, a first
attempt answered with status 503 ends the tick after one attempt, with result
not alive, although two retries remain and the second attempt would have been
answered with 200. -/
theorem C25_other_status_ends_tick :
    attemptLoop 200 (fun i => if i = 0 then .resp 503 else .resp 200) 3 0 = (false, 1)
    ∧ (1 : Nat) < 3
    ∧ (fun i => if i = 0 then Attempt.resp 503 else Attempt.resp 200) 1 = .resp 200
    ∧ (⟨⟨[], 0, [], false⟩, some true, none, [], [], false, [], 0, 0, 200, 3, true⟩
          : HTTPEndpoint).tick (fun i => if i = 0 then .resp 503 else .resp 200)
        = .ok ⟨⟨⟨[], 0, [], false⟩, some false, none, [], [], false, [], 0, 0, 200, 3, true⟩, 1,
            some .disable⟩ := by
  refine ⟨rfl, by decide, rfl, rfl⟩

/-- C25 (health-check tick), amended: a tick makes at least zero and at most
`checkRetry` attempts; every attempt before the last one made failed with a
transport error (a transport error does not end the tick while retries
remain); an attempt that gets a response ends the tick, whatever the status;
the tick's result is alive if and only if the last attempt made returned the
configured alive status; and a tick that is not alive either used up its
retries on transport errors or ended on a response with another status. -/
theorem C25_health_check_tick (h : HTTPEndpoint) (av : Bool) (get : Nat → Attempt)
    (hav : h.available = some av) :
    ∃ r, h.tick get = .ok r
      ∧ r.attempts ≤ h.healthCheckRetry.toNat
      ∧ (∀ j, j + 1 < r.attempts → get j = .err)
      ∧ (r.endpoint.available = some true
          ↔ 0 < r.attempts ∧ get (r.attempts - 1) = .resp h.healthCheckAliveStatus)
      ∧ (r.endpoint.available = some false
          ↔ (r.attempts = h.healthCheckRetry.toNat ∧ ∀ j, j < r.attempts → get j = .err)
            ∨ (0 < r.attempts
              ∧ ∃ c, c ≠ h.healthCheckAliveStatus ∧ get (r.attempts - 1) = .resp c)) := by
  obtain ⟨h1, h2, h3, h4, h5⟩ :=
    attemptLoop_spec h.healthCheckAliveStatus get h.healthCheckRetry.toNat 0
  have htick : h.tick get = .ok
      { endpoint := h.setAvailable
          (attemptLoop h.healthCheckAliveStatus get h.healthCheckRetry.toNat 0).1,
        attempts := (attemptLoop h.healthCheckAliveStatus get h.healthCheckRetry.toNat 0).2,
        logged :=
          if av then
            (if !(attemptLoop h.healthCheckAliveStatus get h.healthCheckRetry.toNat 0).1
              then some .disable else none)
          else
            (if (attemptLoop h.healthCheckAliveStatus get h.healthCheckRetry.toNat 0).1
              then some .enable else none) } := by
    simp [HTTPEndpoint.tick, HTTPEndpoint.IsAvailable, hav]
  refine ⟨_, htick, ?_⟩
  simp only [HTTPEndpoint.setAvailable, Option.some.injEq]
  generalize attemptLoop h.healthCheckAliveStatus get h.healthCheckRetry.toNat 0 = r
    at h1 h2 h3 h4 h5
  obtain ⟨alive, N⟩ := r
  dsimp only at h1 h2 h3 h4 h5 ⊢
  refine ⟨by omega, fun j hj => h3 j (Nat.zero_le j) hj, ⟨h4, ?_⟩, ⟨?_, ?_⟩⟩
  · intro ⟨hpos, hlast⟩
    cases alive with
    | true => rfl
    | false =>
      exfalso
      rcases h5 rfl with ⟨_, h7⟩ | ⟨_, c, hc, h7⟩
      · have := h7 (N - 1) (Nat.zero_le _) (by omega)
        rw [hlast] at this
        cases this
      · rw [hlast] at h7
        cases h7
        exact hc rfl
  · intro hb
    rcases h5 hb with ⟨h6, h7⟩ | h6
    · exact Or.inl ⟨by omega, fun j hj => h7 j (Nat.zero_le j) hj⟩
    · exact Or.inr h6
  · intro hcase
    cases alive with
    | false => rfl
    | true =>
      exfalso
      obtain ⟨hpos, hlast⟩ := h4 rfl
      rcases hcase with ⟨_, h7⟩ | ⟨_, c, hc, h7⟩
      · have := h7 (N - 1) (by omega)
        rw [hlast] at this
        cases this
      · rw [hlast] at h7
        cases h7
        exact hc rfl

theorem C25_health_check_tick_witness :
    (⟨⟨[], 0, [], false⟩, some true, none, [], [], false, [], 0, 0, 200, 3, true⟩ : HTTPEndpoint).available
      = some true
    ∧ ∃ r, (⟨⟨[], 0, [], false⟩, some true, none, [], [], false, [], 0, 0, 200, 3, true⟩
          : HTTPEndpoint).tick (fun i => if i = 0 then .err else .resp 503) = .ok r
      ∧ r.attempts = 2 ∧ r.endpoint.available = some false
      ∧ (fun i => if i = 0 then Attempt.err else Attempt.resp 503) (r.attempts - 1) = .resp 503 := by
  refine ⟨rfl, ?_⟩
  obtain ⟨r, hr, _⟩ := C25_health_check_tick
    (⟨⟨[], 0, [], false⟩, some true, none, [], [], false, [], 0, 0, 200, 3, true⟩ : HTTPEndpoint)
    true (fun i => if i = 0 then .err else .resp 503) rfl
  refine ⟨r, hr, ?_⟩
  have h2 : (⟨⟨[], 0, [], false⟩, some true, none, [], [], false, [], 0, 0, 200, 3, true⟩
      : HTTPEndpoint).tick (fun i => if i = 0 then .err else .resp 503)
      = .ok ⟨⟨⟨[], 0, [], false⟩, some false, none, [], [], false, [], 0, 0, 200, 3, true⟩, 2,
          some .disable⟩ := by rfl
  rw [h2] at hr
  cases hr
  exact ⟨rfl, rfl, rfl⟩

/-- C26 (health flip): whatever the state of the endpoint before a tick, after a
tick in which the first attempt that gets an answer, within the `checkRetry`
attempts, gets the alive status (in particular when the upstream answers
every attempt with the alive status) the endpoint is available; and after a
tick in which every attempt fails or is answered with another status the
endpoint is unavailable. -/
theorem C26_health_flip (h : HTTPEndpoint) (av : Bool) (get : Nat → Attempt)
    (hav : h.available = some av) :
    ((∃ i, i < h.healthCheckRetry.toNat ∧ get i = .resp h.healthCheckAliveStatus
        ∧ ∀ j, j < i → get j = .err) →
      ∃ r, h.tick get = .ok r ∧ r.endpoint.IsAvailable = .ok true)
    ∧ ((∀ i, i < h.healthCheckRetry.toNat →
          get i = .err ∨ ∃ c, c ≠ h.healthCheckAliveStatus ∧ get i = .resp c) →
      ∃ r, h.tick get = .ok r ∧ r.endpoint.IsAvailable = .ok false) := by
  obtain ⟨h1, h2, h3, h4, h5⟩ :=
    attemptLoop_spec h.healthCheckAliveStatus get h.healthCheckRetry.toNat 0
  have htick : h.tick get = .ok
      { endpoint := h.setAvailable
          (attemptLoop h.healthCheckAliveStatus get h.healthCheckRetry.toNat 0).1,
        attempts := (attemptLoop h.healthCheckAliveStatus get h.healthCheckRetry.toNat 0).2,
        logged :=
          if av then
            (if !(attemptLoop h.healthCheckAliveStatus get h.healthCheckRetry.toNat 0).1
              then some .disable else none)
          else
            (if (attemptLoop h.healthCheckAliveStatus get h.healthCheckRetry.toNat 0).1
              then some .enable else none) } := by
    simp [HTTPEndpoint.tick, HTTPEndpoint.IsAvailable, hav]
  have hres : ∀ b, (∃ r, h.tick get = .ok r ∧ r.endpoint.IsAvailable = .ok b)
      ↔ (attemptLoop h.healthCheckAliveStatus get h.healthCheckRetry.toNat 0).1 = b := by
    intro b
    rw [htick]
    simp [HTTPEndpoint.IsAvailable, HTTPEndpoint.setAvailable]
  rw [hres, hres]
  generalize attemptLoop h.healthCheckAliveStatus get h.healthCheckRetry.toNat 0 = r
    at h1 h2 h3 h4 h5
  obtain ⟨alive, N⟩ := r
  dsimp only at h1 h2 h3 h4 h5 ⊢
  constructor
  · intro ⟨i, hi, hgi, hbefore⟩
    cases alive with
    | true => rfl
    | false =>
      exfalso
      rcases h5 rfl with ⟨h6, h7⟩ | ⟨h6, c, hc, h7⟩
      · have := h7 i (Nat.zero_le i) (by omega)
        rw [hgi] at this
        cases this
      · have hlt : ¬ N - 1 < i := by
          intro hl
          have := hbefore _ hl
          rw [h7] at this
          cases this
        have hgt : ¬ i < N - 1 := by
          intro hl
          have := h3 i (Nat.zero_le i) (by omega)
          rw [hgi] at this
          cases this
        have heq : N - 1 = i := by omega
        rw [heq, hgi] at h7
        cases h7
        exact hc rfl
  · intro hall
    cases alive with
    | false => rfl
    | true =>
      exfalso
      obtain ⟨hpos, hlast⟩ := h4 rfl
      rcases hall (N - 1) (by omega) with he | ⟨c, hc, he⟩
      · rw [hlast] at he
        cases he
      · rw [hlast] at he
        cases he
        exact hc rfl

theorem C26_health_flip_witness :
    (⟨⟨[], 0, [], false⟩, some false, none, [], [], false, [], 0, 0, 200, 3, true⟩ : HTTPEndpoint).available
      = some false
    ∧ (∃ r, (⟨⟨[], 0, [], false⟩, some false, none, [], [], false, [], 0, 0, 200, 3, true⟩
          : HTTPEndpoint).tick (fun _ => .resp 200) = .ok r ∧ r.endpoint.IsAvailable = .ok true)
    ∧ (∃ r, (⟨⟨[], 0, [], false⟩, some false, none, [], [], false, [], 0, 0, 200, 3, true⟩
          : HTTPEndpoint).tick (fun i => if i < 2 then .err else .resp 503) = .ok r
        ∧ r.endpoint.IsAvailable = .ok false) :=
  ⟨rfl,
    (C26_health_flip _ false (fun _ => .resp 200) rfl).1 ⟨0, by decide, rfl, fun j hj => by omega⟩,
    (C26_health_flip _ false (fun i => if i < 2 then .err else .resp 503) rfl).2
      (fun i _ => by
        by_cases h2 : i < 2
        · exact Or.inl (by simp [h2])
        · exact Or.inr ⟨503, by decide, by simp [h2]⟩)⟩

/-! ## The HTTP endpoint: `Call` -/

theorem loadAttachment_storeAttachment (m : List (List Char × List Char)) (key value : List Char) :
    loadAttachment (storeAttachment m key value) key = some value := by
  induction m with
  | nil => simp [storeAttachment, loadAttachment]
  | cons kv rest ih =>
    obtain ⟨k, v⟩ := kv
    by_cases h : k = key
    · simp [storeAttachment, loadAttachment, h]
    · simp only [storeAttachment, if_neg h]
      simp only [loadAttachment, List.find?_cons, decide_eq_true_eq, h, decide_False] at ih ⊢
      exact ih

theorem loadAttachment_storeAttachment_ne (m : List (List Char × List Char))
    (key value other : List Char) (h : other ≠ key) :
    loadAttachment (storeAttachment m key value) other = loadAttachment m other := by
  induction m with
  | nil => simp [storeAttachment, loadAttachment, h.symm]
  | cons kv rest ih =>
    obtain ⟨k, v⟩ := kv
    by_cases hk : k = key
    · subst hk
      simp [storeAttachment, loadAttachment, h.symm]
    · simp only [storeAttachment, if_neg hk]
      by_cases ho : k = other
      · simp [loadAttachment, ho]
      · simp only [loadAttachment, List.find?_cons, decide_eq_true_eq, ho, decide_False] at ih ⊢
        exact ih

theorem rangeXForwardedFor_first (pre post : List (List Char × List Char)) (k x : List Char)
    (hk : EqualFold k XForawrdedFor = true)
    (hpre : ∀ kv ∈ pre, EqualFold kv.1 XForawrdedFor = false) :
    rangeXForwardedFor (pre ++ (k, x) :: post) = x := by
  induction pre with
  | nil => simp [rangeXForwardedFor, hk]
  | cons kv rest ih =>
    obtain ⟨k1, v1⟩ := kv
    have h1 : EqualFold k1 XForawrdedFor = false := hpre (k1, v1) (List.mem_cons_self _ _)
    simp only [List.cons_append, rangeXForwardedFor, h1, Bool.false_eq_true, if_false]
    exact ih (fun kv hkv => hpre kv (List.mem_cons_of_mem _ hkv))

theorem rangeXForwardedFor_none (m : List (List Char × List Char))
    (hm : ∀ kv ∈ m, EqualFold kv.1 XForawrdedFor = false) :
    rangeXForwardedFor m = [] := by
  induction m with
  | nil => rfl
  | cons kv rest ih =>
    obtain ⟨k1, v1⟩ := kv
    have h1 : EqualFold k1 XForawrdedFor = false := hm (k1, v1) (List.mem_cons_self _ _)
    simp only [rangeXForwardedFor, h1, Bool.false_eq_true, if_false]
    exact ih (fun kv hkv => hm kv (List.mem_cons_of_mem _ hkv))

/-- The request that `Call` hands to the HTTP client of a reverse proxy carries
the header `X-Forwarded-For` computed from the request as deserialized. -/
theorem Call_sent_header (env : CallEnv) (h : HTTPEndpoint) (request : MotanRequest)
    (arguments : List Value) (hrp : h.reverseProxy = true)
    (hd : env.ProcessDeserializable request = .ok arguments) (r : CallResult) (q : HTTPRequest)
    (hc : h.Call env request = .ok r) (hq : r.sent = some q) :
    q.HeaderPeek XForawrdedFor = some (h.xForwardedForIP env request) := by
  have hx : h.xForwardedForIP env { request with Arguments := arguments }
      = h.xForwardedForIP env request := rfl
  unfold HTTPEndpoint.Call at hc
  simp only [hd, hrp, if_true] at hc
  split at hc
  · split at hc
    · cases hc
    · split at hc
      · cases hc
      · split at hc
        · cases hc
          cases hq
          simp only [HTTPRequest.HeaderPeek, HTTPRequest.HeaderSet]
          split <;> exact loadAttachment_storeAttachment _ _ _
        · cases hc
          cases hq
          simp only [HTTPRequest.HeaderPeek, HTTPRequest.HeaderSet]
          split <;> exact loadAttachment_storeAttachment _ _ _
  · split at hc
    · cases hc
      cases hq
      simp only [HTTPRequest.HeaderPeek, HTTPRequest.HeaderSet]
      split <;> exact loadAttachment_storeAttachment _ _ _
    · cases hc
      cases hq
      simp only [HTTPRequest.HeaderPeek, HTTPRequest.HeaderSet]
      split <;> exact loadAttachment_storeAttachment _ _ _

/-- C27 (X-Forwarded-For chaining): for an endpoint acting as reverse proxy and a
request whose arguments deserialize, when the first attachment (the only one,
in general) whose key equals `X-Forwarded-For` ignoring case has the non-empty
value `x`, the value computed is `x`, a comma and the caller IP; when no
attachment has such a key it is the caller IP; and the request handed to the
HTTP client carries that value in its header `X-Forwarded-For`, in transparent
and in translated mode. -/
theorem C27_x_forwarded_for (env : CallEnv) (h : HTTPEndpoint) (request : MotanRequest)
    (arguments : List Value) (hrp : h.reverseProxy = true)
    (hd : env.ProcessDeserializable request = .ok arguments) :
    (∀ pre k x post, request.Attachment = pre ++ (k, x) :: post →
        EqualFold k XForawrdedFor = true →
        (∀ kv ∈ pre, EqualFold kv.1 XForawrdedFor = false) → x ≠ [] →
        h.xForwardedForIP env request = x ++ ",".toList ++ callerIP env request)
    ∧ ((∀ kv ∈ request.Attachment, EqualFold kv.1 XForawrdedFor = false) →
        h.xForwardedForIP env request = callerIP env request)
    ∧ (∀ r q, h.Call env request = .ok r → r.sent = some q →
        q.HeaderPeek XForawrdedFor = some (h.xForwardedForIP env request))
    ∧ (ParseBool (request.GetAttachment Proxy) = false →
        ∃ r q, h.Call env request = .ok r ∧ r.sent = some q) := by
  refine ⟨?_, ?_, ?_, ?_⟩
  · intro pre k x post hatt hk hpre hx
    simp only [HTTPEndpoint.xForwardedForIP, hrp, if_true, hatt,
      rangeXForwardedFor_first pre post k x hk hpre, callerIP]
    simp [hx]
  · intro hnone
    simp only [HTTPEndpoint.xForwardedForIP, hrp, if_true, rangeXForwardedFor_none _ hnone,
      callerIP]
    simp
  · intro r q hc hq
    exact Call_sent_header env h request arguments hrp hd r q hc hq
  · intro hp
    have hp2 : ParseBool (MotanRequest.GetAttachment { request with Arguments := arguments } Proxy)
        = false := hp
    unfold HTTPEndpoint.Call
    simp only [hd, hp2, Bool.false_eq_true, if_false]
    split <;> exact ⟨_, _, rfl, rfl⟩

theorem C27_x_forwarded_for_witness :
    exampleEndpoint.reverseProxy = true
    ∧ exampleEnv.ProcessDeserializable (exampleRequest "/test".toList
        [("x-forwarded-for".toList, "A,B".toList), ("remoteIP".toList, "C".toList)]) = .ok []
    ∧ EqualFold "x-forwarded-for".toList XForawrdedFor = true
    ∧ callerIP exampleEnv (exampleRequest "/test".toList
        [("x-forwarded-for".toList, "A,B".toList), ("remoteIP".toList, "C".toList)]) = "C".toList
    ∧ exampleEndpoint.xForwardedForIP exampleEnv (exampleRequest "/test".toList
        [("x-forwarded-for".toList, "A,B".toList), ("remoteIP".toList, "C".toList)])
        = "A,B".toList ++ ",".toList ++ "C".toList
    ∧ ∃ r q, exampleEndpoint.Call exampleEnv (exampleRequest "/test".toList
          [("x-forwarded-for".toList, "A,B".toList), ("remoteIP".toList, "C".toList)]) = .ok r
        ∧ r.sent = some q := by
  have h := C27_x_forwarded_for exampleEnv exampleEndpoint (exampleRequest "/test".toList
    [("x-forwarded-for".toList, "A,B".toList), ("remoteIP".toList, "C".toList)]) [] rfl rfl
  refine ⟨rfl, rfl, by decide, by decide, ?_, h.2.2.2 (by decide)⟩
  exact h.1 [] "x-forwarded-for".toList "A,B".toList [("remoteIP".toList, "C".toList)] rfl
    (by decide) (fun kv hkv => by cases hkv) (by decide)

/-- C28 (endpoint error mapping), refuted: when the arguments of the request
cannot be deserialized, `Call` returns the response it built at its start,
which carries no exception, and sends nothing; and when executing the outbound
HTTP request fails, in transparent and in translated mode, `Call` panics on
ill-typed arguments or again returns that response without exception.  The
exception responses built by `core.BuildExceptionResponseWithCode` are
discarded. -/
theorem C28_call_returns_no_exception (env : CallEnv) (h : HTTPEndpoint) (request : MotanRequest)
    (err : List Char) :
    h.Call { env with ProcessDeserializable := fun _ => .error err } request
        = .ok { response := emptyResponse request, sent := none }
    ∧ ((∃ e, h.Call { env with Do := fun _ => .error err } request = .error e)
        ∨ ∃ q, h.Call { env with Do := fun _ => .error err } request
            = .ok { response := emptyResponse request, sent := q })
    ∧ (emptyResponse request).Exception = none
    ∧ (BuildExceptionResponseWithCode request 400 env.elapsed err).Exception
        = some { ErrCode := 400, ErrMsg := err } := by
  refine ⟨rfl, ?_, rfl, rfl⟩
  unfold HTTPEndpoint.Call
  dsimp only
  cases env.ProcessDeserializable request with
  | error e => exact Or.inr ⟨none, rfl⟩
  | ok arguments =>
    dsimp only
    split
    · split
      · exact Or.inl ⟨_, rfl⟩
      · split
        · exact Or.inl ⟨_, rfl⟩
        · exact Or.inr ⟨_, rfl⟩
    · exact Or.inr ⟨_, rfl⟩

/-! ## The reverse-proxy provider -/

theorem getAttachment_storeAttachment (m : List (List Char × List Char)) (key value : List Char) :
    getAttachment (storeAttachment m key value) key = value := by
  simp [getAttachment, loadAttachment_storeAttachment]

/-- C29 (reverse-proxy provider): with an HTTP upstream, when the location matcher
does not accept the method of the request the result is the exception
response with code 503 and message `service not found`, and the cluster is not
called; when it accepts it with rewrite path `r`, the cluster is called with
the request whose attachment `HTTP_PATH` is `r` and whose other attachments are
unchanged, and the result is the cluster's response to that request.  With
another upstream the cluster is called with the request as it is. -/
theorem C29_reverse_proxy_call (elapsed : Int) (h : ReverseProxyProvider) (request : MotanRequest) :
    (h.upstreamIsHTTP = true → (h.Pick request.Method).2 = false →
      h.Call elapsed request
          = { response := BuildExceptionResponseWithCode request 503 elapsed "service not found".toList,
              called := none }
        ∧ (h.Call elapsed request).response.Exception
          = some { ErrCode := 503, ErrMsg := "service not found".toList })
    ∧ (h.upstreamIsHTTP = true → (h.Pick request.Method).2 = true →
      h.Call elapsed request
          = { response := h.motanCluster (request.SetAttachment Path (h.Pick request.Method).1),
              called := some (request.SetAttachment Path (h.Pick request.Method).1) }
        ∧ (request.SetAttachment Path (h.Pick request.Method).1).GetAttachment Path
          = (h.Pick request.Method).1
        ∧ ∀ key, key ≠ Path →
          loadAttachment (request.SetAttachment Path (h.Pick request.Method).1).Attachment key
            = loadAttachment request.Attachment key)
    ∧ (h.upstreamIsHTTP = false →
      h.Call elapsed request = { response := h.motanCluster request, called := some request }) := by
  refine ⟨?_, ?_, ?_⟩
  · intro hu hp
    have e : h.Call elapsed request
        = { response := BuildExceptionResponseWithCode request 503 elapsed "service not found".toList,
            called := none } := by
      unfold ReverseProxyProvider.Call
      rw [if_pos hu]
      cases hpick : h.Pick request.Method with
      | mk r ok =>
        rw [hpick] at hp
        simp only at hp
        simp [hp]
    rw [e]
    exact ⟨rfl, rfl⟩
  · intro hu hp
    refine ⟨?_, ?_, ?_⟩
    · unfold ReverseProxyProvider.Call
      rw [if_pos hu]
      cases hpick : h.Pick request.Method with
      | mk r ok =>
        rw [hpick] at hp
        simp only at hp
        simp [hp]
    · exact getAttachment_storeAttachment _ _ _
    · intro key hkey
      exact loadAttachment_storeAttachment_ne _ _ _ _ hkey
  · intro hu
    unfold ReverseProxyProvider.Call
    simp [hu]

theorem C29_reverse_proxy_call_witness :
    ((⟨true, fun m => if m = "/a".toList then ("/b".toList, true) else ([], false),
        fun r => emptyResponse r⟩ : ReverseProxyProvider).Call 0
        (exampleRequest "/x".toList [])).response.Exception
      = some { ErrCode := 503, ErrMsg := "service not found".toList }
    ∧ ((⟨true, fun m => if m = "/a".toList then ("/b".toList, true) else ([], false),
        fun r => emptyResponse r⟩ : ReverseProxyProvider).Call 0
        (exampleRequest "/a".toList [])).called
      = some (exampleRequest "/a".toList [("HTTP_PATH".toList, "/b".toList)])
    ∧ (⟨false, fun m => if m = "/a".toList then ("/b".toList, true) else ([], false),
        fun r => emptyResponse r⟩ : ReverseProxyProvider).Call 0 (exampleRequest "/a".toList [])
      = { response := emptyResponse (exampleRequest "/a".toList []),
          called := some (exampleRequest "/a".toList []) } := by
  refine ⟨?_, ?_, ?_⟩
  · exact ((C29_reverse_proxy_call 0
      ⟨true, fun m => if m = "/a".toList then ("/b".toList, true) else ([], false),
        fun r => emptyResponse r⟩ (exampleRequest "/x".toList [])).1 rfl (by decide)).2
  · rw [((C29_reverse_proxy_call 0
      ⟨true, fun m => if m = "/a".toList then ("/b".toList, true) else ([], false),
        fun r => emptyResponse r⟩ (exampleRequest "/a".toList [])).2.1 rfl (by decide)).1]
    rfl
  · exact (C29_reverse_proxy_call 0
      ⟨false, fun m => if m = "/a".toList then ("/b".toList, true) else ([], false),
        fun r => emptyResponse r⟩ (exampleRequest "/a".toList [])).2.2 rfl

/-! ## The HTTP proxy server: loop prevention -/

theorem Open_deny (url : URL) (localIP : List Char) (clusterGetter : List Char → Option HTTPCluster) :
    ((NewHTTPProxyServer url).Open localIP clusterGetter).deny
      = ["127.0.0.1:".toList ++ url.GetPortStr, "localhost:".toList ++ url.GetPortStr,
          localIP ++ ":".toList ++ url.GetPortStr] := by
  simp [HTTPProxyServer.Open, NewHTTPProxyServer]

/-- What the handler does with a request that is no CONNECT: the RPC call when a
cluster serves it, and otherwise the answer 400 or the forwarding, according
to the deny list. -/
theorem httpHandler_eq (SplitHostPort : List Char → List Char) (s : HTTPProxyServer)
    (ctx : RequestCtx) (hc : ctx.IsConnect = false) :
    (∀ service, servedBy SplitHostPort s ctx = some service →
      ∃ host, s.httpHandler SplitHostPort ctx = .ok (.doHTTPRpcProxy service host))
    ∧ (servedBy SplitHostPort s ctx = none → ∀ c rest, ctx.RequestURI = c :: rest →
      (c = '/' ∧ hostAndPortOf ctx ∈ s.deny → s.httpHandler SplitHostPort ctx = .ok .StatusBadRequest)
      ∧ (¬ (c = '/' ∧ hostAndPortOf ctx ∈ s.deny) →
        ∃ host, s.httpHandler SplitHostPort ctx = .ok (.doHTTPProxy host))) := by
  unfold HTTPProxyServer.httpHandler servedBy hostAndPortOf
  simp only [hc, Bool.false_eq_true, if_false]
  cases hg : s.clusterGetter (SplitHostPort (if ':' ∉ ctx.Host then ctx.Host ++ ":80".toList else ctx.Host)) with
  | some cl =>
    simp only [Option.isNone_some, Bool.false_eq_true, false_and, if_false]
    constructor
    · intro service hs
      rw [hs]
      exact ⟨_, rfl⟩
    · intro hs c rest huri
      rw [hs, huri]
      simp only
      constructor
      · intro hd
        rw [if_pos hd]
      · intro hd
        rw [if_neg hd]
        exact ⟨_, rfl⟩
  | none =>
    by_cases hdd : s.defaultDomain = []
    · simp only [hdd, Option.isNone_none, ne_eq, not_true_eq_false, and_false, if_false, if_true]
      constructor
      · intro service hs
        cases hs
      · intro _ c rest huri
        rw [huri]
        simp only
        constructor
        · intro hd
          rw [if_pos hd]
        · intro hd
          rw [if_neg hd]
          exact ⟨_, rfl⟩
    · simp only [hdd, Option.isNone_none, ne_eq, not_false_eq_true, and_self, if_true, if_false]
      cases hg2 : s.clusterGetter s.defaultDomain with
      | some cl =>
        simp only
        constructor
        · intro service hs
          rw [hs]
          exact ⟨_, rfl⟩
        · intro hs c rest huri
          rw [hs, huri]
          simp only
          constructor
          · intro hd
            rw [if_pos hd]
          · intro hd
            rw [if_neg hd]
            exact ⟨_, rfl⟩
      | none =>
        simp only
        constructor
        · intro service hs
          cases hs
        · intro _ c rest huri
          rw [huri]
          simp only
          constructor
          · intro hd
            rw [if_pos hd]
          · intro hd
            rw [if_neg hd]
            exact ⟨_, rfl⟩

/-- C30, the claim as stated does not hold: the server on port 9983 whose cluster
getter knows a cluster that serves the path translates the request
`GET /x` with `Host: 127.0.0.1:9983` to an RPC call; it does not answer 400. -/
theorem C30_served_request_not_rejected :
    (exampleGet "127.0.0.1:9983".toList).IsConnect = false
    ∧ (exampleGet "127.0.0.1:9983".toList).RequestURI = '/' :: "x".toList
    ∧ hostAndPortOf (exampleGet "127.0.0.1:9983".toList)
        = "127.0.0.1:".toList ++ exampleProxyURL.GetPortStr
    ∧ ((NewHTTPProxyServer exampleProxyURL).Open "10.0.0.1".toList exampleClusterGetter).httpHandler
        hostBeforeColon (exampleGet "127.0.0.1:9983".toList)
      = .ok (.doHTTPRpcProxy "svc".toList "127.0.0.1:9983".toList)
    ∧ ((NewHTTPProxyServer exampleProxyURL).Open "10.0.0.1".toList exampleClusterGetter).httpHandler
        hostBeforeColon (exampleGet "127.0.0.1:9983".toList)
      ≠ .ok .StatusBadRequest := by
  refine ⟨rfl, rfl, rfl, rfl, ?_⟩
  intro h
  have e : ((NewHTTPProxyServer exampleProxyURL).Open "10.0.0.1".toList exampleClusterGetter).httpHandler
        hostBeforeColon (exampleGet "127.0.0.1:9983".toList)
      = .ok (.doHTTPRpcProxy "svc".toList "127.0.0.1:9983".toList) := rfl
  rw [e] at h
  cases h

/-- C30 (proxy loop prevention, amended): on the server that `Open` sets up, a
request that is no CONNECT, whose request URI starts with `/` and whose
`Host` header (with `:80` appended when it has no colon) is `127.0.0.1:port`,
`localhost:port` or `localIP:port`, is answered with status 400 when no
cluster serves it: neither the cluster of the host nor, when there is none and
a default domain is configured, the cluster of the default domain serves the
path.  When such a cluster serves the path, the request is translated to an
RPC call instead. -/
theorem C30_loop_prevention (SplitHostPort : List Char → List Char) (url : URL)
    (localIP : List Char) (clusterGetter : List Char → Option HTTPCluster) (ctx : RequestCtx)
    (rest : List Char) (hc : ctx.IsConnect = false) (huri : ctx.RequestURI = '/' :: rest)
    (hself : hostAndPortOf ctx = "127.0.0.1:".toList ++ url.GetPortStr
      ∨ hostAndPortOf ctx = "localhost:".toList ++ url.GetPortStr
      ∨ hostAndPortOf ctx = localIP ++ ":".toList ++ url.GetPortStr) :
    (servedBy SplitHostPort ((NewHTTPProxyServer url).Open localIP clusterGetter) ctx = none →
      ((NewHTTPProxyServer url).Open localIP clusterGetter).httpHandler SplitHostPort ctx
        = .ok .StatusBadRequest)
    ∧ (∀ service,
      servedBy SplitHostPort ((NewHTTPProxyServer url).Open localIP clusterGetter) ctx = some service →
      ∃ host, ((NewHTTPProxyServer url).Open localIP clusterGetter).httpHandler SplitHostPort ctx
        = .ok (.doHTTPRpcProxy service host)) := by
  have hd : hostAndPortOf ctx ∈ ((NewHTTPProxyServer url).Open localIP clusterGetter).deny := by
    rw [Open_deny]
    rcases hself with h | h | h
    · rw [h]; exact List.mem_cons_self _ _
    · rw [h]; exact List.mem_cons_of_mem _ (List.mem_cons_self _ _)
    · rw [h]; exact List.mem_cons_of_mem _ (List.mem_cons_of_mem _ (List.mem_cons_self _ _))
  have hh := httpHandler_eq SplitHostPort ((NewHTTPProxyServer url).Open localIP clusterGetter) ctx hc
  constructor
  · intro hs
    exact ((hh.2 hs '/' rest huri).1 ⟨rfl, hd⟩)
  · exact hh.1

theorem C30_loop_prevention_witness :
    ((NewHTTPProxyServer exampleProxyURL).Open "10.0.0.1".toList (fun _ => none)).httpHandler
        hostBeforeColon (exampleGet "localhost:9983".toList)
      = .ok .StatusBadRequest
    ∧ ∃ host, ((NewHTTPProxyServer exampleProxyURL).Open "10.0.0.1".toList
        exampleClusterGetter).httpHandler hostBeforeColon (exampleGet "10.0.0.1:9983".toList)
      = .ok (.doHTTPRpcProxy "svc".toList host) :=
  ⟨(C30_loop_prevention hostBeforeColon exampleProxyURL "10.0.0.1".toList (fun _ => none)
      (exampleGet "localhost:9983".toList) "x".toList rfl rfl (Or.inr (Or.inl rfl))).1 rfl,
   (C30_loop_prevention hostBeforeColon exampleProxyURL "10.0.0.1".toList exampleClusterGetter
      (exampleGet "10.0.0.1:9983".toList) "x".toList rfl rfl (Or.inr (Or.inr rfl))).2 _ rfl⟩

/-! ## Decoders move the read position forward -/

theorem ReadByte_ok_iff (b b1 : BytesBuffer) (c : Nat) :
    b.ReadByte = .ok (c, b1)
      ↔ b.rpos < b.wpos ∧ c = b.buf.getD b.rpos 0 ∧ b1 = { b with rpos := b.rpos + 1 } := by
  unfold BytesBuffer.ReadByte
  split_ifs with h
  · simp only [Except.ok.injEq, Prod.mk.injEq, h, true_and]
    constructor
    · rintro ⟨h1, h2⟩; exact ⟨h1.symm, h2.symm⟩
    · rintro ⟨h1, h2⟩; exact ⟨h1.symm, h2.symm⟩
  · simp [h]

theorem Next_ok_iff (b b1 : BytesBuffer) (n : Nat) (bs : List Nat) :
    b.Next n = .ok (bs, b1)
      ↔ n ≤ b.Remain ∧ bs = (b.buf.drop b.rpos).take n ∧ b1 = { b with rpos := b.rpos + n } := by
  unfold BytesBuffer.Next
  split_ifs with h
  · simp only [Except.ok.injEq, Prod.mk.injEq, h, true_and]
    constructor
    · rintro ⟨h1, h2⟩; exact ⟨h1.symm, h2.symm⟩
    · rintro ⟨h1, h2⟩; exact ⟨h1.symm, h2.symm⟩
  · simp [h]

theorem ReadUint16_ok_iff (b b1 : BytesBuffer) (u : Nat) :
    b.ReadUint16 = .ok (u, b1)
      ↔ 2 ≤ b.Remain ∧ u = fromBigEndian ((b.buf.drop b.rpos).take 2)
        ∧ b1 = { b with rpos := b.rpos + 2 } := by
  unfold BytesBuffer.ReadUint16 BytesBuffer.Next
  split_ifs with h
  · simp only [Except.ok.injEq, Prod.mk.injEq, h, true_and]
    constructor
    · rintro ⟨h1, h2⟩; exact ⟨h1.symm, h2.symm⟩
    · rintro ⟨h1, h2⟩; exact ⟨h1.symm, h2.symm⟩
  · simp [h]

theorem ReadUint32_ok_iff (b b1 : BytesBuffer) (u : Nat) :
    b.ReadUint32 = .ok (u, b1)
      ↔ 4 ≤ b.Remain ∧ u = fromBigEndian ((b.buf.drop b.rpos).take 4)
        ∧ b1 = { b with rpos := b.rpos + 4 } := by
  unfold BytesBuffer.ReadUint32 BytesBuffer.Next
  split_ifs with h
  · simp only [Except.ok.injEq, Prod.mk.injEq, h, true_and]
    constructor
    · rintro ⟨h1, h2⟩; exact ⟨h1.symm, h2.symm⟩
    · rintro ⟨h1, h2⟩; exact ⟨h1.symm, h2.symm⟩
  · simp [h]

theorem ReadUint64_ok_iff (b b1 : BytesBuffer) (u : Nat) :
    b.ReadUint64 = .ok (u, b1)
      ↔ 8 ≤ b.Remain ∧ u = fromBigEndian ((b.buf.drop b.rpos).take 8)
        ∧ b1 = { b with rpos := b.rpos + 8 } := by
  unfold BytesBuffer.ReadUint64 BytesBuffer.Next
  split_ifs with h
  · simp only [Except.ok.injEq, Prod.mk.injEq, h, true_and]
    constructor
    · rintro ⟨h1, h2⟩; exact ⟨h1.symm, h2.symm⟩
    · rintro ⟨h1, h2⟩; exact ⟨h1.symm, h2.symm⟩
  · simp [h]

theorem ReadVarint_ok_iff (b b1 : BytesBuffer) (u : Nat) :
    b.ReadVarint = .ok (u, b1)
      ↔ (readVarintList b.unread).isSome = true
        ∧ u = ((readVarintList b.unread).getD (0, 0)).1 % 2 ^ 64
        ∧ b1 = { b with rpos := b.rpos + ((readVarintList b.unread).getD (0, 0)).2 } := by
  unfold BytesBuffer.ReadVarint
  cases h : readVarintList b.unread with
  | none => simp
  | some p =>
    obtain ⟨x, n⟩ := p
    simp only [Except.ok.injEq, Prod.mk.injEq, Option.isSome_some, Option.getD_some, true_and]
    constructor
    · rintro ⟨h1, h2⟩; exact ⟨h1.symm, h2.symm⟩
    · rintro ⟨h1, h2⟩; exact ⟨h1.symm, h2.symm⟩

theorem ReadZigzag32_ok_iff (b b1 : BytesBuffer) (u : Nat) :
    b.ReadZigzag32 = .ok (u, b1)
      ↔ (readVarintList b.unread).isSome = true
        ∧ u = unzigzag 32 (((readVarintList b.unread).getD (0, 0)).1 % 2 ^ 64)
        ∧ b1 = { b with rpos := b.rpos + ((readVarintList b.unread).getD (0, 0)).2 } := by
  unfold BytesBuffer.ReadZigzag32 BytesBuffer.ReadVarint
  cases h : readVarintList b.unread with
  | none => simp
  | some p =>
    obtain ⟨x, n⟩ := p
    simp only [Except.ok.injEq, Prod.mk.injEq, Option.isSome_some, Option.getD_some, true_and]
    constructor
    · rintro ⟨h1, h2⟩; exact ⟨h1.symm, h2.symm⟩
    · rintro ⟨h1, h2⟩; exact ⟨h1.symm, h2.symm⟩

theorem ReadZigzag64_ok_iff (b b1 : BytesBuffer) (u : Nat) :
    b.ReadZigzag64 = .ok (u, b1)
      ↔ (readVarintList b.unread).isSome = true
        ∧ u = unzigzag 64 (((readVarintList b.unread).getD (0, 0)).1 % 2 ^ 64)
        ∧ b1 = { b with rpos := b.rpos + ((readVarintList b.unread).getD (0, 0)).2 } := by
  unfold BytesBuffer.ReadZigzag64 BytesBuffer.ReadVarint
  cases h : readVarintList b.unread with
  | none => simp
  | some p =>
    obtain ⟨x, n⟩ := p
    simp only [Except.ok.injEq, Prod.mk.injEq, Option.isSome_some, Option.getD_some, true_and]
    constructor
    · rintro ⟨h1, h2⟩; exact ⟨h1.symm, h2.symm⟩
    · rintro ⟨h1, h2⟩; exact ⟨h1.symm, h2.symm⟩

theorem DecodeBool_movesOn (buf : BytesBuffer) (v : Target) :
    movesOn 1 buf (DecodeBool buf v) = true := by
  unfold DecodeBool
  cases h1 : buf.ReadByte with
  | error e => rfl
  | ok p =>
    obtain ⟨b, buf1⟩ := p
    obtain ⟨_, _, hb⟩ := (ReadByte_ok_iff buf buf1 b).mp h1
    subst hb
    dsimp only
    by_cases c1 : b = TTrue
    · simp only [c1, if_true]
      split <;> simp [movesOn]
    · by_cases c2 : b = TFalse
      · simp only [c2, if_neg (show ¬ TFalse = TTrue by decide), if_true]
        split <;> simp [movesOn]
      · simp only [if_neg c1, if_neg c2]
        rfl

theorem decodeInteger_moves (buf buf1 : BytesBuffer) (v : Target) (u : Nat) (st : Option Value)
    (h : decodeInteger buf v = .ok (u, st, buf1)) :
    buf1.wpos = buf.wpos ∧ buf.rpos + 1 ≤ buf1.rpos := by
  unfold decodeInteger at h
  cases h1 : buf.ReadByte with
  | error e => simp [h1] at h
  | ok p =>
    obtain ⟨tag, b1⟩ := p
    obtain ⟨_, _, hb⟩ := (ReadByte_ok_iff buf b1 tag).mp h1
    subst hb
    simp only [h1] at h
    have key : ∀ (read : Except Err (Nat × BytesBuffer)),
        (∀ x b2, read = .ok (x, b2) → b2.wpos = buf.wpos ∧ buf.rpos + 1 ≤ b2.rpos) →
        (match read with
          | .error err => (.error err : Except Err (Nat × Option Value × BytesBuffer))
          | .ok (u64, buf2) =>
            match storeInteger v u64 with
            | .error err => .error err
            | .ok st => .ok (u64, st, buf2)) = .ok (u, st, buf1) →
        buf1.wpos = buf.wpos ∧ buf.rpos + 1 ≤ buf1.rpos := by
      intro read hread hm
      cases hr : read with
      | error e => simp [hr] at hm
      | ok q =>
        obtain ⟨x, b2⟩ := q
        simp only [hr] at hm
        cases hs : storeInteger v x with
        | error e => simp [hs] at hm
        | ok s2 =>
          simp only [hs, Except.ok.injEq, Prod.mk.injEq] at hm
          obtain ⟨_, _, e3⟩ := hm
          subst e3
          exact hread x b2 hr
    refine key _ ?_ h
    intro x b2 hx
    split_ifs at hx
    · obtain ⟨_, _, e⟩ := (ReadByte_ok_iff _ _ _).mp hx
      subst e
      exact ⟨rfl, by simp⟩
    · obtain ⟨_, _, e⟩ := (ReadUint16_ok_iff _ _ _).mp hx
      subst e
      exact ⟨rfl, by simp⟩
    · obtain ⟨_, _, e⟩ := (ReadZigzag32_ok_iff _ _ _).mp hx
      subst e
      exact ⟨rfl, by simp⟩
    · obtain ⟨_, _, e⟩ := (ReadZigzag64_ok_iff _ _ _).mp hx
      subst e
      exact ⟨rfl, by simp⟩

theorem DecodeByte_movesOn (buf : BytesBuffer) (v : Target) :
    movesOn 1 buf (DecodeByte buf v) = true := by
  unfold DecodeByte
  cases h : decodeInteger buf v with
  | error e => rfl
  | ok p =>
    obtain ⟨u, st, b1⟩ := p
    have := decodeInteger_moves buf b1 v u st h
    simp [movesOn, this]

theorem DecodeInt16_movesOn (buf : BytesBuffer) (v : Target) :
    movesOn 1 buf (DecodeInt16 buf v) = true := by
  unfold DecodeInt16
  cases h : decodeInteger buf v with
  | error e => rfl
  | ok p =>
    obtain ⟨u, st, b1⟩ := p
    have := decodeInteger_moves buf b1 v u st h
    simp [movesOn, this]

theorem DecodeInt32_movesOn (buf : BytesBuffer) (v : Target) :
    movesOn 1 buf (DecodeInt32 buf v) = true := by
  unfold DecodeInt32
  cases h : decodeInteger buf v with
  | error e => rfl
  | ok p =>
    obtain ⟨u, st, b1⟩ := p
    have := decodeInteger_moves buf b1 v u st h
    simp [movesOn, this]

theorem DecodeInt64_movesOn (buf : BytesBuffer) (v : Target) :
    movesOn 1 buf (DecodeInt64 buf v) = true := by
  unfold DecodeInt64
  cases h : decodeInteger buf v with
  | error e => rfl
  | ok p =>
    obtain ⟨u, st, b1⟩ := p
    have := decodeInteger_moves buf b1 v u st h
    simp [movesOn, this]

theorem DecodeString_movesOn (buf : BytesBuffer) (v : Target) :
    movesOn 1 buf (DecodeString buf v) = true := by
  unfold DecodeString
  repeat' (first | split_ifs | split)
  all_goals
    simp_all [movesOn, ReadByte_ok_iff, Next_ok_iff, ReadUint16_ok_iff, ReadUint32_ok_iff,
      ReadUint64_ok_iff, ReadZigzag32_ok_iff, ReadZigzag64_ok_iff]
  all_goals omega

theorem DecodeBytes_movesOn (buf : BytesBuffer) (v : Target) :
    movesOn 1 buf (DecodeBytes buf v) = true := by
  unfold DecodeBytes
  repeat' (first | split_ifs | split)
  all_goals
    simp_all [movesOn, ReadByte_ok_iff, Next_ok_iff, ReadUint16_ok_iff, ReadUint32_ok_iff,
      ReadUint64_ok_iff, ReadZigzag32_ok_iff, ReadZigzag64_ok_iff]
  all_goals omega

theorem DecodeFloat32_movesOn (buf : BytesBuffer) (v : Target) :
    movesOn 1 buf (DecodeFloat32 buf v) = true := by
  unfold DecodeFloat32
  repeat' (first | split_ifs | split)
  all_goals
    simp_all [movesOn, ReadByte_ok_iff, Next_ok_iff, ReadUint16_ok_iff, ReadUint32_ok_iff,
      ReadUint64_ok_iff, ReadZigzag32_ok_iff, ReadZigzag64_ok_iff]

theorem DecodeFloat64_movesOn (buf : BytesBuffer) (v : Target) :
    movesOn 1 buf (DecodeFloat64 buf v) = true := by
  unfold DecodeFloat64
  repeat' (first | split_ifs | split)
  all_goals
    simp_all [movesOn, ReadByte_ok_iff, Next_ok_iff, ReadUint16_ok_iff, ReadUint32_ok_iff,
      ReadUint64_ok_iff, ReadZigzag32_ok_iff, ReadZigzag64_ok_iff]

theorem motanDecodeString_movesOn (buf : BytesBuffer) (v : Target) :
    movesOn 0 buf (motanDecodeString buf v) = true := by
  unfold motanDecodeString
  repeat' (first | split_ifs | split)
  all_goals
    simp_all [movesOn, ReadByte_ok_iff, Next_ok_iff, ReadUint16_ok_iff, ReadUint32_ok_iff,
      ReadUint64_ok_iff, ReadZigzag32_ok_iff, ReadZigzag64_ok_iff]
  all_goals omega

theorem motanDecodeBytes_movesOn (buf : BytesBuffer) (v : Target) :
    movesOn 0 buf (motanDecodeBytes buf v) = true := by
  unfold motanDecodeBytes
  repeat' (first | split_ifs | split)
  all_goals
    simp_all [movesOn, ReadByte_ok_iff, Next_ok_iff, ReadUint16_ok_iff, ReadUint32_ok_iff,
      ReadUint64_ok_iff, ReadZigzag32_ok_iff, ReadZigzag64_ok_iff]
  all_goals omega

theorem motanDecodeByte_movesOn (buf : BytesBuffer) (v : Target) :
    movesOn 0 buf (motanDecodeByte buf v) = true := by
  unfold motanDecodeByte
  repeat' (first | split_ifs | split)
  all_goals
    simp_all [movesOn, ReadByte_ok_iff, Next_ok_iff, ReadUint16_ok_iff, ReadUint32_ok_iff,
      ReadUint64_ok_iff, ReadZigzag32_ok_iff, ReadZigzag64_ok_iff]

theorem motanDecodeInt16_movesOn (buf : BytesBuffer) (v : Target) :
    movesOn 0 buf (motanDecodeInt16 buf v) = true := by
  unfold motanDecodeInt16
  repeat' (first | split_ifs | split)
  all_goals
    simp_all [movesOn, ReadByte_ok_iff, Next_ok_iff, ReadUint16_ok_iff, ReadUint32_ok_iff,
      ReadUint64_ok_iff, ReadZigzag32_ok_iff, ReadZigzag64_ok_iff]

theorem motanDecodeInt32_movesOn (buf : BytesBuffer) (v : Target) :
    movesOn 0 buf (motanDecodeInt32 buf v) = true := by
  unfold motanDecodeInt32
  repeat' (first | split_ifs | split)
  all_goals
    simp_all [movesOn, ReadByte_ok_iff, Next_ok_iff, ReadUint16_ok_iff, ReadUint32_ok_iff,
      ReadUint64_ok_iff, ReadZigzag32_ok_iff, ReadZigzag64_ok_iff]

theorem motanDecodeInt64_movesOn (buf : BytesBuffer) (v : Target) :
    movesOn 0 buf (motanDecodeInt64 buf v) = true := by
  unfold motanDecodeInt64
  repeat' (first | split_ifs | split)
  all_goals
    simp_all [movesOn, ReadByte_ok_iff, Next_ok_iff, ReadUint16_ok_iff, ReadUint32_ok_iff,
      ReadUint64_ok_iff, ReadZigzag32_ok_iff, ReadZigzag64_ok_iff]

theorem motanDecodeFloat32_movesOn (buf : BytesBuffer) (v : Target) :
    movesOn 0 buf (motanDecodeFloat32 buf v) = true := by
  unfold motanDecodeFloat32
  repeat' (first | split_ifs | split)
  all_goals
    simp_all [movesOn, ReadByte_ok_iff, Next_ok_iff, ReadUint16_ok_iff, ReadUint32_ok_iff,
      ReadUint64_ok_iff, ReadZigzag32_ok_iff, ReadZigzag64_ok_iff]

theorem motanDecodeFloat64_movesOn (buf : BytesBuffer) (v : Target) :
    movesOn 0 buf (motanDecodeFloat64 buf v) = true := by
  unfold motanDecodeFloat64
  repeat' (first | split_ifs | split)
  all_goals
    simp_all [movesOn, ReadByte_ok_iff, Next_ok_iff, ReadUint16_ok_iff, ReadUint32_ok_iff,
      ReadUint64_ok_iff, ReadZigzag32_ok_iff, ReadZigzag64_ok_iff]

theorem motanDecodeBool_movesOn (b : Nat) (buf : BytesBuffer) (v : Target) :
    movesOn 0 buf (motanDecodeBool b v buf) = true := by
  unfold motanDecodeBool
  dsimp only
  split <;> simp [movesOn]

theorem motanDecodeMessage_movesOn (buf : BytesBuffer) (v : Target) :
    movesOn 0 buf (motanDecodeMessage buf v) = true := by
  simp [motanDecodeMessage, movesOn]

theorem movesOn_trans (j k : Nat) (b b1 : BytesBuffer) (d : Decoded)
    (hw : b1.wpos = b.wpos) (hr : b.rpos + j ≤ b1.rpos) (h : movesOn k b1 d = true) :
    movesOn (j + k) b d = true := by
  cases d with
  | error e => rfl
  | ok p =>
    obtain ⟨r, st, b2⟩ := p
    simp only [movesOn, Bool.and_eq_true, decide_eq_true_eq] at h ⊢
    omega

theorem readsOn_trans {α : Type} (j k : Nat) (b b1 : BytesBuffer)
    (d : Except Err (α × BytesBuffer))
    (hw : b1.wpos = b.wpos) (hr : b.rpos + j ≤ b1.rpos) (h : readsOn k b1 d = true) :
    readsOn (j + k) b d = true := by
  cases d with
  | error e => rfl
  | ok p =>
    obtain ⟨r, b2⟩ := p
    simp only [readsOn, Bool.and_eq_true, decide_eq_true_eq] at h ⊢
    omega

theorem movesOn_ite (k : Nat) (b : BytesBuffer) (c : Prop) [Decidable c] (x y : Decoded)
    (hx : movesOn k b x = true) (hy : movesOn k b y = true) :
    movesOn k b (if c then x else y) = true := by
  split_ifs <;> assumption

theorem readsOn_ok {α : Type} {k : Nat} {b b1 : BytesBuffer} {d : Except Err (α × BytesBuffer)}
    {a : α} (h : readsOn k b d = true) (hd : d = .ok (a, b1)) :
    b1.wpos = b.wpos ∧ b.rpos + k ≤ b1.rpos := by
  subst hd
  simpa [readsOn] using h

theorem movesOn_ok {k : Nat} {b b1 : BytesBuffer} {d : Decoded} {r : Value} {st : Option Value}
    (h : movesOn k b d = true) (hd : d = .ok (r, st, b1)) :
    b1.wpos = b.wpos ∧ b.rpos + k ≤ b1.rpos := by
  subst hd
  simpa [movesOn] using h

theorem DecodeArrayWith_movesOn
    (loop : BytesBuffer → GoType → List Value → Except Err (List Value × BytesBuffer))
    (hloop : ∀ b elem acc, readsOn 0 b (loop b elem acc) = true) (buf : BytesBuffer) (v : Target) :
    movesOn 1 buf (DecodeArrayWith loop buf v) = true := by
  unfold DecodeArrayWith
  cases h1 : buf.ReadByte with
  | error e => rfl
  | ok p =>
    obtain ⟨tag, buf1⟩ := p
    obtain ⟨_, _, hb⟩ := (ReadByte_ok_iff buf buf1 tag).mp h1
    dsimp only
    split_ifs
    · subst hb; simp [movesOn]
    · rfl
    · cases h2 : targetType v interfaceSliceType with
      | error e => rfl
      | ok q =>
        obtain ⟨typeOfV, pointerV⟩ := q
        dsimp only
        split
        · next elem =>
          cases h3 : loop buf1 elem [] with
          | error e => rfl
          | ok r =>
            obtain ⟨xs, buf2⟩ := r
            have := readsOn_ok (hloop buf1 elem []) h3
            subst hb
            simp only [movesOn, Bool.and_eq_true, decide_eq_true_eq] at this ⊢
            constructor
            · exact this.1
            · have := this.2
              simp only at this
              omega
        · rfl

theorem DecodeMapWith_movesOn
    (loop : BytesBuffer → GoType → GoType → List (Value × Value) →
      Except Err (List (Value × Value) × BytesBuffer))
    (hloop : ∀ b kt vt acc, readsOn 0 b (loop b kt vt acc) = true) (buf : BytesBuffer)
    (v : Target) :
    movesOn 1 buf (DecodeMapWith loop buf v) = true := by
  unfold DecodeMapWith
  cases h1 : buf.ReadByte with
  | error e => rfl
  | ok p =>
    obtain ⟨tag, buf1⟩ := p
    obtain ⟨_, _, hb⟩ := (ReadByte_ok_iff buf buf1 tag).mp h1
    dsimp only
    split_ifs
    · subst hb; simp [movesOn]
    · rfl
    · cases h2 : targetType v interfaceMapType with
      | error e => rfl
      | ok q =>
        obtain ⟨typeOfV, pointerV⟩ := q
        dsimp only
        split
        · next kt vt =>
          cases h3 : loop buf1 kt vt [] with
          | error e => rfl
          | ok r =>
            obtain ⟨xs, buf2⟩ := r
            have := readsOn_ok (hloop buf1 kt vt []) h3
            subst hb
            simp only [movesOn, Bool.and_eq_true, decide_eq_true_eq] at this ⊢
            constructor
            · exact this.1
            · have := this.2
              simp only at this
              omega
        · rfl

theorem UnmarshalWith_readsOn
    (loop : BytesBuffer → Nat → List (Nat × Value) → Except Err (List (Nat × Value) × BytesBuffer))
    (hloop : ∀ b e acc, readsOn 0 b (loop b e acc) = true) (fields : List (Nat × Value))
    (buf : BytesBuffer) :
    readsOn 4 buf (UnmarshalWith loop fields buf) = true := by
  unfold UnmarshalWith
  cases h1 : buf.ReadUint32 with
  | error e => rfl
  | ok p =>
    obtain ⟨total, buf1⟩ := p
    obtain ⟨_, _, hb⟩ := (ReadUint32_ok_iff buf buf1 total).mp h1
    dsimp only
    split_ifs
    · subst hb; simp [readsOn]
    · cases h3 : loop buf1 (buf1.GetRPos + total) fields with
      | error e => rfl
      | ok r =>
        obtain ⟨fs, buf2⟩ := r
        have := readsOn_ok (hloop buf1 _ fields) h3
        dsimp only
        split_ifs
        · rfl
        · subst hb
          simp only [readsOn, Bool.and_eq_true, decide_eq_true_eq] at this ⊢
          constructor
          · exact this.1
          · have := this.2
            simp only at this
            omega

theorem rewind_eq (buf buf1 : BytesBuffer) (hb : buf1 = { buf with rpos := buf.rpos + 1 }) :
    buf1.SetRPos (buf1.GetRPos - 1) = buf := by
  subst hb
  simp [BytesBuffer.SetRPos, BytesBuffer.GetRPos]

/-- Every decoder of the message dialect that succeeds has read at least one
byte, and its loops have not moved back. -/
theorem DeSerializeBuf_movesOn (fuel : Nat) :
    (∀ buf v, movesOn 1 buf (DeSerializeBuf fuel buf v) = true)
    ∧ (∀ buf elem acc, readsOn 0 buf (decodeArrayLoop fuel buf elem acc) = true)
    ∧ (∀ buf kt vt acc, readsOn 0 buf (decodeMapLoop fuel buf kt vt acc) = true)
    ∧ (∀ buf e acc, readsOn 0 buf (unmarshalLoop fuel buf e acc) = true) := by
  induction fuel with
  | zero =>
    refine ⟨?_, ?_, ?_, ?_⟩
    · intro buf v; rw [DeSerializeBuf]; rfl
    · intro buf elem acc; rw [decodeArrayLoop]; rfl
    · intro buf kt vt acc; rw [decodeMapLoop]; rfl
    · intro buf e acc; rw [unmarshalLoop]; rfl
  | succ f ih =>
    obtain ⟨ih1, ih2, ih3, ih4⟩ := ih
    refine ⟨?_, ?_, ?_, ?_⟩
    · intro buf v
      rw [DeSerializeBuf]
      cases h1 : buf.ReadByte with
      | error e => rfl
      | ok p =>
        obtain ⟨tag, buf1⟩ := p
        obtain ⟨_, _, hb⟩ := (ReadByte_ok_iff buf buf1 tag).mp h1
        have hb2 := rewind_eq buf buf1 hb
        dsimp only
        by_cases hn : tag = TNull
        · rw [if_pos hn]
          subst hb
          simp [movesOn]
        · rw [if_neg hn, hb2]
          split
          · rfl
          · next result st buf3 heq =>
            have key : buf3.wpos = buf.wpos ∧ buf.rpos + 1 ≤ buf3.rpos := by
              refine @movesOn_ok 1 buf buf3 _ result st ?_ heq
              repeat' apply movesOn_ite
              all_goals first
                | exact DecodeBool_movesOn _ _
                | exact DecodeByte_movesOn _ _
                | exact DecodeString_movesOn _ _
                | exact DecodeBytes_movesOn _ _
                | exact DecodeInt16_movesOn _ _
                | exact DecodeInt32_movesOn _ _
                | exact DecodeInt64_movesOn _ _
                | exact DecodeFloat32_movesOn _ _
                | exact DecodeFloat64_movesOn _ _
                | exact DecodeArrayWith_movesOn _ ih2 _ _
                | exact DecodeMapWith_movesOn _ ih3 _ _
                | rfl
                | skip
              split
              · next _ fields _ =>
                cases hu : UnmarshalWith (unmarshalLoop f) fields buf with
                | error e => rfl
                | ok q =>
                  obtain ⟨fs, b3⟩ := q
                  have := readsOn_ok (UnmarshalWith_readsOn _ ih4 fields buf) hu
                  simp only [movesOn, Bool.and_eq_true, decide_eq_true_eq]
                  omega
              · cases hu : UnmarshalWith (unmarshalLoop f) [] buf with
                | error e => rfl
                | ok q =>
                  obtain ⟨fs, b3⟩ := q
                  have := readsOn_ok (UnmarshalWith_readsOn _ ih4 [] buf) hu
                  simp only [movesOn, Bool.and_eq_true, decide_eq_true_eq]
                  omega
              · rfl
            simp only [movesOn, Bool.and_eq_true, decide_eq_true_eq]
            exact key
    · intro buf elem acc
      rw [decodeArrayLoop]
      cases h1 : buf.ReadByte with
      | error e => rfl
      | ok p =>
        obtain ⟨tag, buf1⟩ := p
        obtain ⟨_, _, hb⟩ := (ReadByte_ok_iff buf buf1 tag).mp h1
        have hb2 := rewind_eq buf buf1 hb
        dsimp only
        split_ifs
        · subst hb
          simp [readsOn]
        · rw [hb2]
          cases h2 : DeSerializeBuf f buf (.ptr elem) with
          | error e => rfl
          | ok q =>
            obtain ⟨r, st, buf2⟩ := q
            obtain ⟨hw, hr⟩ := movesOn_ok (ih1 buf (.ptr elem)) h2
            dsimp only
            exact readsOn_trans 0 0 buf buf2 _ hw (by omega) (ih2 buf2 elem _)
    · intro buf kt vt acc
      rw [decodeMapLoop]
      cases h1 : buf.ReadByte with
      | error e => rfl
      | ok p =>
        obtain ⟨tag, buf1⟩ := p
        obtain ⟨_, _, hb⟩ := (ReadByte_ok_iff buf buf1 tag).mp h1
        have hb2 := rewind_eq buf buf1 hb
        dsimp only
        split_ifs
        · subst hb
          simp [readsOn]
        · rw [hb2]
          cases h2 : DeSerializeBuf f buf (.ptr kt) with
          | error e => rfl
          | ok q =>
            obtain ⟨r, st, buf2⟩ := q
            obtain ⟨hw, hr⟩ := movesOn_ok (ih1 buf (.ptr kt)) h2
            dsimp only
            cases h3 : DeSerializeBuf f buf2 (.ptr vt) with
            | error e => rfl
            | ok q3 =>
              obtain ⟨r3, st3, buf3⟩ := q3
              obtain ⟨hw3, hr3⟩ := movesOn_ok (ih1 buf2 (.ptr vt)) h3
              dsimp only
              split_ifs
              · exact readsOn_trans 0 0 buf buf3 _ (by omega) (by omega) (ih3 buf3 kt vt _)
              · rfl
    · intro buf e acc
      rw [unmarshalLoop]
      split_ifs
      · cases h1 : buf.ReadZigzag32 with
        | error e => rfl
        | ok p =>
          obtain ⟨k, buf1⟩ := p
          obtain ⟨_, _, hb⟩ := (ReadZigzag32_ok_iff buf buf1 k).mp h1
          dsimp only
          cases h2 : DeSerializeBuf f buf1 .nil with
          | error e => rfl
          | ok q =>
            obtain ⟨r, st, buf2⟩ := q
            obtain ⟨hw, hr⟩ := movesOn_ok (ih1 buf1 .nil) h2
            dsimp only
            refine readsOn_trans 0 0 buf buf2 _ ?_ ?_ (ih4 buf2 e _)
            · rw [hw, hb]
            · rw [hb] at hr
              simp only at hr
              omega
      · simp [readsOn]

theorem motanDecodeArrayWith_movesOn
    (loop : BytesBuffer → List Value → Except Err (List Value × BytesBuffer))
    (hloop : ∀ b acc, readsOn 0 b (loop b acc) = true) (buf : BytesBuffer) (v : Target) :
    movesOn 0 buf (motanDecodeArrayWith loop buf v) = true := by
  unfold motanDecodeArrayWith
  cases h3 : loop buf [] with
  | error e => rfl
  | ok r =>
    obtain ⟨xs, buf2⟩ := r
    have := readsOn_ok (hloop buf []) h3
    dsimp only
    split
    · rfl
    · simpa [movesOn] using this

theorem motanDecodeMapWith_movesOn
    (loop : BytesBuffer → List (Value × Value) → Except Err (List (Value × Value) × BytesBuffer))
    (hloop : ∀ b acc, readsOn 0 b (loop b acc) = true) (buf : BytesBuffer) (v : Target) :
    movesOn 0 buf (motanDecodeMapWith loop buf v) = true := by
  unfold motanDecodeMapWith
  cases h3 : loop buf [] with
  | error e => rfl
  | ok r =>
    obtain ⟨xs, buf2⟩ := r
    have := readsOn_ok (hloop buf []) h3
    dsimp only
    split
    · rfl
    · simpa [movesOn] using this

/-- Every decoder of the legacy dialect that succeeds has read at least one
byte, and its loops have not moved back. -/
theorem motanDeSerializeBuf_movesOn (fuel : Nat) :
    (∀ buf v, movesOn 1 buf (motanDeSerializeBuf fuel buf v) = true)
    ∧ (∀ buf acc, readsOn 0 buf (motanDecodeArrayLoop fuel buf acc) = true)
    ∧ (∀ buf acc, readsOn 0 buf (motanDecodeMapLoop fuel buf acc) = true) := by
  induction fuel with
  | zero =>
    refine ⟨?_, ?_, ?_⟩
    · intro buf v; rw [motanDeSerializeBuf]; rfl
    · intro buf acc; rw [motanDecodeArrayLoop]; rfl
    · intro buf acc; rw [motanDecodeMapLoop]; rfl
  | succ f ih =>
    obtain ⟨ih1, ih2, ih3⟩ := ih
    refine ⟨?_, ?_, ?_⟩
    · intro buf v
      rw [motanDeSerializeBuf]
      cases h1 : buf.ReadByte with
      | error e => rfl
      | ok p =>
        obtain ⟨tp, buf1⟩ := p
        obtain ⟨_, _, hb⟩ := (ReadByte_ok_iff buf buf1 tp).mp h1
        have hw : buf1.wpos = buf.wpos := by rw [hb]
        have hr : buf.rpos + 1 ≤ buf1.rpos := by rw [hb]
        dsimp only
        refine movesOn_trans 1 0 buf buf1 _ hw hr ?_
        repeat' apply movesOn_ite
        all_goals first
          | exact motanDecodeBool_movesOn _ _ _
          | exact motanDecodeByte_movesOn _ _
          | exact motanDecodeString_movesOn _ _
          | exact motanDecodeBytes_movesOn _ _
          | exact motanDecodeInt16_movesOn _ _
          | exact motanDecodeInt32_movesOn _ _
          | exact motanDecodeInt64_movesOn _ _
          | exact motanDecodeFloat32_movesOn _ _
          | exact motanDecodeFloat64_movesOn _ _
          | exact motanDecodeArrayWith_movesOn _ ih2 _ _
          | exact motanDecodeMapWith_movesOn _ ih3 _ _
          | exact motanDecodeMessage_movesOn _ _
          | rfl
          | simp [movesOn]
    · intro buf acc
      rw [motanDecodeArrayLoop]
      cases h1 : buf.ReadByte with
      | error e => rfl
      | ok p =>
        obtain ⟨tag, buf1⟩ := p
        obtain ⟨_, _, hb⟩ := (ReadByte_ok_iff buf buf1 tag).mp h1
        have hb2 := rewind_eq buf buf1 hb
        dsimp only
        split_ifs
        · subst hb
          simp [readsOn]
        · rw [hb2]
          cases h2 : motanDeSerializeBuf f buf .nil with
          | error e => rfl
          | ok q =>
            obtain ⟨r, st, buf2⟩ := q
            obtain ⟨hw, hr⟩ := movesOn_ok (ih1 buf .nil) h2
            dsimp only
            exact readsOn_trans 0 0 buf buf2 _ hw (by omega) (ih2 buf2 _)
    · intro buf acc
      rw [motanDecodeMapLoop]
      cases h1 : buf.ReadByte with
      | error e => rfl
      | ok p =>
        obtain ⟨tag, buf1⟩ := p
        obtain ⟨_, _, hb⟩ := (ReadByte_ok_iff buf buf1 tag).mp h1
        have hb2 := rewind_eq buf buf1 hb
        dsimp only
        split_ifs
        · subst hb
          simp [readsOn]
        · rw [hb2]
          cases h2 : motanDeSerializeBuf f buf .nil with
          | error e => rfl
          | ok q =>
            obtain ⟨r, st, buf2⟩ := q
            obtain ⟨hw, hr⟩ := movesOn_ok (ih1 buf .nil) h2
            dsimp only
            cases h3 : motanDeSerializeBuf f buf2 .nil with
            | error e => rfl
            | ok q3 =>
              obtain ⟨r3, st3, buf3⟩ := q3
              obtain ⟨hw3, hr3⟩ := movesOn_ok (ih1 buf2 .nil) h3
              dsimp only
              split_ifs
              · exact readsOn_trans 0 0 buf buf3 _ (by omega) (by omega) (ih3 buf3 _)
              · rfl

/-! ## `DeSerializeMulti` without targets: the end of the stream -/

theorem decodeValues_moves (decode : BytesBuffer → Decoded)
    (hdec : ∀ buf, movesOn 1 buf (decode buf) = true) (k : Nat) :
    ∀ (buf buf1 : BytesBuffer) (vs : List Value), decodeValues decode k buf = some (vs, buf1) →
      buf1.wpos = buf.wpos ∧ buf.rpos + k ≤ buf1.rpos := by
  induction k with
  | zero =>
    intro buf buf1 vs h
    simp only [decodeValues, Option.some.injEq, Prod.mk.injEq] at h
    rw [← h.2]
    exact ⟨rfl, le_refl _⟩
  | succ k ih =>
    intro buf buf1 vs h
    rw [decodeValues] at h
    split_ifs at h
    cases hd : decode buf with
    | error e => simp [hd] at h
    | ok p =>
      obtain ⟨rv, st, buf2⟩ := p
      obtain ⟨hw, hr⟩ := movesOn_ok (hdec buf) hd
      simp only [hd] at h
      cases hv : decodeValues decode k buf2 with
      | none => simp [hv] at h
      | some q =>
        obtain ⟨ws, buf3⟩ := q
        simp only [hv, Option.some.injEq, Prod.mk.injEq] at h
        obtain ⟨hw3, hr3⟩ := ih buf2 buf3 ws hv
        rw [← h.2]
        constructor <;> omega

theorem deSerializeAll_values (fuel : Nat) (k : Nat) :
    ∀ (n : Nat) (buf buf1 : BytesBuffer) (ret vs : List Value),
      decodeValues (fun x => DeSerializeBuf fuel x .nil) k buf = some (vs, buf1) → k ≤ n →
      deSerializeAll n fuel buf ret = deSerializeAll (n - k) fuel buf1 (ret ++ vs) := by
  induction k with
  | zero =>
    intro n buf buf1 ret vs h _
    simp only [decodeValues, Option.some.injEq, Prod.mk.injEq] at h
    rw [← h.1, ← h.2]
    simp
  | succ k ih =>
    intro n buf buf1 ret vs h hn
    obtain ⟨m, rfl⟩ : ∃ m, n = m + 1 := ⟨n - 1, by omega⟩
    rw [decodeValues] at h
    split_ifs at h with hrem
    cases hd : DeSerializeBuf fuel buf .nil with
    | error e => simp [hd] at h
    | ok p =>
      obtain ⟨rv, st, buf2⟩ := p
      simp only [hd] at h
      cases hv : decodeValues (fun x => DeSerializeBuf fuel x .nil) k buf2 with
      | none => simp [hv] at h
      | some q =>
        obtain ⟨ws, buf3⟩ := q
        simp only [hv, Option.some.injEq, Prod.mk.injEq] at h
        rw [deSerializeAll, if_pos hrem, hd]
        simp only
        rw [ih m buf2 buf3 _ ws hv (by omega), ← h.1, ← h.2]
        simp

theorem motanDeSerializeAll_values (fuel : Nat) (k : Nat) :
    ∀ (n : Nat) (buf buf1 : BytesBuffer) (ret vs : List Value),
      decodeValues (fun x => motanDeSerializeBuf fuel x .nil) k buf = some (vs, buf1) → k ≤ n →
      motanDeSerializeAll n fuel buf ret = motanDeSerializeAll (n - k) fuel buf1 (ret ++ vs) := by
  induction k with
  | zero =>
    intro n buf buf1 ret vs h _
    simp only [decodeValues, Option.some.injEq, Prod.mk.injEq] at h
    rw [← h.1, ← h.2]
    simp
  | succ k ih =>
    intro n buf buf1 ret vs h hn
    obtain ⟨m, rfl⟩ : ∃ m, n = m + 1 := ⟨n - 1, by omega⟩
    rw [decodeValues] at h
    split_ifs at h with hrem
    cases hd : motanDeSerializeBuf fuel buf .nil with
    | error e => simp [hd] at h
    | ok p =>
      obtain ⟨rv, st, buf2⟩ := p
      simp only [hd] at h
      cases hv : decodeValues (fun x => motanDeSerializeBuf fuel x .nil) k buf2 with
      | none => simp [hv] at h
      | some q =>
        obtain ⟨ws, buf3⟩ := q
        simp only [hv, Option.some.injEq, Prod.mk.injEq] at h
        rw [motanDeSerializeAll, if_pos hrem, hd]
        simp only
        rw [ih m buf2 buf3 _ ws hv (by omega), ← h.1, ← h.2]
        simp

theorem decodeValues_count (decode : BytesBuffer → Decoded)
    (hdec : ∀ buf, movesOn 1 buf (decode buf) = true) (k : Nat) :
    ∀ (buf buf1 : BytesBuffer) (vs : List Value), decodeValues decode k buf = some (vs, buf1) →
      k = 0 ∨ buf.rpos + k ≤ buf.wpos := by
  induction k with
  | zero => intro _ _ _ _; exact Or.inl rfl
  | succ k ih =>
    intro buf buf1 vs h
    right
    rw [decodeValues] at h
    split_ifs at h with hrem
    simp only [BytesBuffer.Remain] at hrem
    cases hd : decode buf with
    | error e => simp [hd] at h
    | ok p =>
      obtain ⟨rv, st, buf2⟩ := p
      obtain ⟨hw, hr⟩ := movesOn_ok (hdec buf) hd
      simp only [hd] at h
      cases hv : decodeValues decode k buf2 with
      | none => simp [hv] at h
      | some q =>
        obtain ⟨ws, buf3⟩ := q
        rcases ih buf2 buf3 ws hv with h0 | h1
        · omega
        · omega

/-- What the loop of `DeSerializeMulti` without targets returns after the values
`vs`: `vs` when no byte remains, and when the next value fails, `vs` for
`io.EOF` and the error otherwise. -/
theorem deSerializeMulti_after (b : List Nat) (k : Nat) (vs : List Value) (buf : BytesBuffer)
    (hvals : decodeValues (fun x => DeSerializeBuf (fuelFor b.length) x .nil) k
      (CreateBytesBuffer b) = some (vs, buf)) :
    (buf.Remain = 0 →
      Serialization.DeSerializeMulti b none = .ok (vs.map fun v => (v, none)))
    ∧ (∀ e z, buf.Remain > 0 → DeSerializeBuf (fuelFor b.length) buf .nil = .error (e, z) →
      Serialization.DeSerializeMulti b none
        = if e = .EOF then .ok (vs.map fun v => (v, none)) else .error e) := by
  have hdec : ∀ x, movesOn 1 x (DeSerializeBuf (fuelFor b.length) x .nil) = true :=
    fun x => (DeSerializeBuf_movesOn (fuelFor b.length)).1 x .nil
  obtain ⟨hw, hr⟩ := decodeValues_moves _ hdec k _ _ _ hvals
  have hwb : buf.wpos = b.length := hw
  have hk : k ≤ b.length := by
    rcases decodeValues_count _ hdec k _ _ _ hvals with h | h
    · omega
    · have h1 : (CreateBytesBuffer b).rpos = 0 := rfl
      have h2 : (CreateBytesBuffer b).wpos = b.length := rfl
      omega
  have hp := deSerializeAll_values (fuelFor b.length) k b.length _ _ [] vs hvals hk
  constructor
  · intro hrem
    simp only [Serialization.DeSerializeMulti, hp, List.nil_append]
    have : deSerializeAll (b.length - k) (fuelFor b.length) buf vs = .ok vs := by
      cases b.length - k with
      | zero => rw [deSerializeAll, if_neg (by omega)]
      | succ m => rw [deSerializeAll, if_neg (by omega)]
    rw [this]
  · intro e z hrem hfail
    have hlt : k < b.length := by
      have h1 : (CreateBytesBuffer b).rpos = 0 := rfl
      simp only [BytesBuffer.Remain] at hrem
      omega
    simp only [Serialization.DeSerializeMulti, hp, List.nil_append]
    obtain ⟨m, hm⟩ : ∃ m, b.length - k = m + 1 := ⟨b.length - k - 1, by omega⟩
    rw [hm, deSerializeAll, if_pos hrem, hfail]
    simp only
    split_ifs <;> rfl

theorem motanDeSerializeMulti_after (b : List Nat) (k : Nat) (vs : List Value) (buf : BytesBuffer)
    (hvals : decodeValues (fun x => motanDeSerializeBuf (fuelFor b.length) x .nil) k
      (CreateBytesBuffer b) = some (vs, buf)) :
    (buf.Remain = 0 →
      MotanSerialization.DeSerializeMulti b none = .ok (vs.map fun v => (v, none)))
    ∧ (∀ e z, buf.Remain > 0 → motanDeSerializeBuf (fuelFor b.length) buf .nil = .error (e, z) →
      MotanSerialization.DeSerializeMulti b none
        = if e = .EOF then .ok (vs.map fun v => (v, none)) else .error e) := by
  have hdec : ∀ x, movesOn 1 x (motanDeSerializeBuf (fuelFor b.length) x .nil) = true :=
    fun x => (motanDeSerializeBuf_movesOn (fuelFor b.length)).1 x .nil
  obtain ⟨hw, hr⟩ := decodeValues_moves _ hdec k _ _ _ hvals
  have hwb : buf.wpos = b.length := hw
  have hk : k ≤ b.length := by
    rcases decodeValues_count _ hdec k _ _ _ hvals with h | h
    · omega
    · have h1 : (CreateBytesBuffer b).rpos = 0 := rfl
      have h2 : (CreateBytesBuffer b).wpos = b.length := rfl
      omega
  have hp := motanDeSerializeAll_values (fuelFor b.length) k b.length _ _ [] vs hvals hk
  constructor
  · intro hrem
    simp only [MotanSerialization.DeSerializeMulti, hp, List.nil_append]
    have : motanDeSerializeAll (b.length - k) (fuelFor b.length) buf vs = .ok vs := by
      cases b.length - k with
      | zero => rw [motanDeSerializeAll, if_neg (by omega)]
      | succ m => rw [motanDeSerializeAll, if_neg (by omega)]
    rw [this]
  · intro e z hrem hfail
    have hlt : k < b.length := by
      have h1 : (CreateBytesBuffer b).rpos = 0 := rfl
      simp only [BytesBuffer.Remain] at hrem
      omega
    simp only [MotanSerialization.DeSerializeMulti, hp, List.nil_append]
    obtain ⟨m, hm⟩ : ∃ m, b.length - k = m + 1 := ⟨b.length - k - 1, by omega⟩
    rw [hm, motanDeSerializeAll, if_pos hrem, hfail]
    simp only
    split_ifs <;> rfl

/-- C35 (`DeSerializeMulti` without targets, end of input): in both dialects, when
the loop has decoded the values `vs` from the bytes `b`, bytes remain, and the
decoding of the next value fails with the error `e`, then `DeSerializeMulti`
returns `vs` with no error if `e` is `io.EOF`, and no list with the error `e`
otherwise; when no byte remains after `vs` it returns `vs`.  So a stream cut
in the middle of its last value gives the values before it when the decoder
meets the end at a byte read, as for `[1, 3]`, a byte without its value. -/
theorem C35_eof_ends_stream (b : List Nat) (k : Nat) (vs : List Value) (buf : BytesBuffer) :
    (decodeValues (fun x => DeSerializeBuf (fuelFor b.length) x .nil) k (CreateBytesBuffer b)
        = some (vs, buf) →
      (buf.Remain = 0 →
        Serialization.DeSerializeMulti b none = .ok (vs.map fun v => (v, none)))
      ∧ (∀ e z, buf.Remain > 0 → DeSerializeBuf (fuelFor b.length) buf .nil = .error (e, z) →
        Serialization.DeSerializeMulti b none
          = if e = .EOF then .ok (vs.map fun v => (v, none)) else .error e))
    ∧ (decodeValues (fun x => motanDeSerializeBuf (fuelFor b.length) x .nil) k (CreateBytesBuffer b)
        = some (vs, buf) →
      (buf.Remain = 0 →
        MotanSerialization.DeSerializeMulti b none = .ok (vs.map fun v => (v, none)))
      ∧ (∀ e z, buf.Remain > 0 → motanDeSerializeBuf (fuelFor b.length) buf .nil = .error (e, z) →
        MotanSerialization.DeSerializeMulti b none
          = if e = .EOF then .ok (vs.map fun v => (v, none)) else .error e)) :=
  ⟨deSerializeMulti_after b k vs buf, motanDeSerializeMulti_after b k vs buf⟩

theorem C35_eof_ends_stream_witness :
    Serialization.DeSerializeMulti [1, 3] none = .ok [(.bool true, none)]
    ∧ Serialization.DeSerializeMulti [1, 4, 6, 1] none = .error .ErrNotEnough
    ∧ MotanSerialization.DeSerializeMulti [1, 20, 1] none = .ok [(.bool true, none)]
    ∧ MotanSerialization.DeSerializeMulti [1, 11] none = .error .MotanSerializationErrNotSupport :=
  ⟨((C35_eof_ends_stream [1, 3] 1 [.bool true] (bufAt [1, 3] 1)).1 rfl).2 .EOF (.byte 0)
      (by decide) rfl,
   ((C35_eof_ends_stream [1, 4, 6, 1] 1 [.bool true] (bufAt [1, 4, 6, 1] 1)).1 rfl).2
      .ErrNotEnough (.str []) (by decide) rfl,
   ((C35_eof_ends_stream [1, 20, 1] 1 [.bool true] (bufAt [1, 20, 1] 1)).2 rfl).2 .EOF (.seq [])
      (by decide) rfl,
   ((C35_eof_ends_stream [1, 11] 1 [.bool true] (bufAt [1, 11] 1)).2 rfl).2
      .MotanSerializationErrNotSupport .null (by decide) rfl⟩

/-! ## The two dialects: the encoders agree -/

mutual

/-- On the `reflect.Value` of an element, a key or a value, the two encoders
leave the same buffer and fail together. -/
theorem motanSerializeBuf_reflected (sNull : Nat) : (v : Value) → ∀ buf,
    motanSerializeBuf sNull true v buf
      = ((SerializeBuf true v buf).1, legacyError (SerializeBuf true v buf).2)
  | .null => fun buf => by simp [motanSerializeBuf, SerializeBuf, legacyError]
  | .msg fields => fun buf => by simp [motanSerializeBuf, SerializeBuf, legacyError]
  | .other => fun buf => by simp [motanSerializeBuf, SerializeBuf, legacyError]
  | .str s => fun buf => by
    simp [motanSerializeBuf, SerializeBuf, legacyError, motanEncodeString, motanEncodeStringNoTag,
      EncodeString, EncodeStringNoTag, mstString, TString]
  | .bool b => fun buf => by
    simp [motanSerializeBuf, SerializeBuf, legacyError, motanEncodeBool, EncodeBool, TTrue, TFalse]
  | .byte n => fun buf => by
    simp [motanSerializeBuf, SerializeBuf, legacyError, motanEncodeByte, EncodeByte, mstByte, TByte]
  | .int16 i => fun buf => by
    simp [motanSerializeBuf, SerializeBuf, legacyError, motanEncodeInt16, EncodeInt16, mstInt16,
      TInt16]
  | .int32 i => fun buf => by
    simp [motanSerializeBuf, SerializeBuf, legacyError, motanEncodeInt32, EncodeInt32, mstInt32,
      TInt32]
  | .int64 i => fun buf => by
    simp [motanSerializeBuf, SerializeBuf, legacyError, motanEncodeInt64, EncodeInt64, mstInt64,
      TInt64]
  | .int i => fun buf => by
    simp [motanSerializeBuf, SerializeBuf, legacyError, motanEncodeInt64, EncodeInt64, mstInt64,
      TInt64]
  | .float32 f => fun buf => by
    simp [motanSerializeBuf, SerializeBuf, legacyError, motanEncodeFloat32, EncodeFloat32,
      mstFloat32, TFloat32]
  | .float64 f => fun buf => by
    simp [motanSerializeBuf, SerializeBuf, legacyError, motanEncodeFloat64, EncodeFloat64,
      mstFloat64, TFloat64]
  | .bytes b => fun buf => by
    simp [motanSerializeBuf, SerializeBuf, legacyError, motanEncodeBytes, EncodeBytes,
      mstByteArray, TByteArray]
  | .seq xs => fun buf => by
    have h := motanEncodeElems_eq sNull xs (buf.WriteByte TArray)
    rw [motanSerializeBuf, SerializeBuf]
    have ht : mstUnpackedArray = TArray := rfl
    rw [ht, h]
    cases encodeElems xs (buf.WriteByte TArray) with
    | mk b1 e =>
      cases e <;> simp [legacyError, mstUnpackedArrayEnd, TArrayEnd]
  | .map kvs => fun buf => by
    have h := motanEncodeEntries_eq sNull kvs (buf.WriteByte TMap)
    rw [motanSerializeBuf, SerializeBuf]
    have ht : mstUnpackedMap = TMap := rfl
    rw [ht, h]
    cases encodeEntries kvs (buf.WriteByte TMap) with
    | mk b1 e =>
      cases e <;> simp [legacyError, mstUnpackedMapEnd, TMapEnd]

theorem motanEncodeElems_eq (sNull : Nat) : (xs : List Value) → ∀ buf,
    motanEncodeElems sNull xs buf = ((encodeElems xs buf).1, legacyError (encodeElems xs buf).2)
  | [] => fun buf => by simp [motanEncodeElems, encodeElems, legacyError]
  | x :: rest => fun buf => by
    have h1 := motanSerializeBuf_reflected sNull x buf
    rw [motanEncodeElems, encodeElems, h1]
    cases SerializeBuf true x buf with
    | mk b1 e =>
      cases e with
      | some err => simp [legacyError]
      | none =>
        simp only [legacyError, Option.map_none']
        exact motanEncodeElems_eq sNull rest b1

theorem motanEncodeEntries_eq (sNull : Nat) : (kvs : List (Value × Value)) → ∀ buf,
    motanEncodeEntries sNull kvs buf
      = ((encodeEntries kvs buf).1, legacyError (encodeEntries kvs buf).2)
  | [] => fun buf => by simp [motanEncodeEntries, encodeEntries, legacyError]
  | (k, v) :: rest => fun buf => by
    have h1 := motanSerializeBuf_reflected sNull k buf
    rw [motanEncodeEntries, encodeEntries, h1]
    cases SerializeBuf true k buf with
    | mk b1 e =>
      cases e with
      | some err => simp [legacyError]
      | none =>
        simp only [legacyError, Option.map_none']
        cases hkk : keyEq k k with
        | false => simp
        | true =>
          simp only [if_true]
          have h2 := motanSerializeBuf_reflected sNull v b1
          rw [h2]
          cases SerializeBuf true v b1 with
          | mk b2 e2 =>
            cases e2 with
            | some err => simp [legacyError]
            | none =>
              simp only [legacyError, Option.map_none']
              exact motanEncodeEntries_eq sNull rest b2

end

/-- On a value that is neither nil nor a message, `motanSerializeBuf` and
`SerializeBuf` leave the same buffer and fail together. -/
theorem motanSerializeBuf_eq (sNull : Nat) (v : Value) (hv : notNilOrMessage v = true)
    (buf : BytesBuffer) :
    motanSerializeBuf sNull false v buf
      = ((SerializeBuf false v buf).1, legacyError (SerializeBuf false v buf).2) := by
  have h := motanSerializeBuf_reflected sNull v buf
  cases v with
  | null => simp [notNilOrMessage] at hv
  | msg fs => simp [notNilOrMessage] at hv
  | _ => simpa [motanSerializeBuf, SerializeBuf] using h

theorem motanSerializeMultiLoop_eq (sNull : Nat) (vs : List Value)
    (hv : ∀ v ∈ vs, notNilOrMessage v = true) (buf : BytesBuffer) :
    motanSerializeMultiLoop sNull vs buf
      = ((serializeMultiLoop vs buf).1, legacyError (serializeMultiLoop vs buf).2) := by
  induction vs generalizing buf with
  | nil => simp [motanSerializeMultiLoop, serializeMultiLoop, legacyError]
  | cons v rest ih =>
    rw [motanSerializeMultiLoop, serializeMultiLoop,
      motanSerializeBuf_eq sNull v (hv v (List.mem_cons_self _ _))]
    cases SerializeBuf false v buf with
    | mk b1 e =>
      cases e with
      | some err => simp [legacyError]
      | none =>
        simp only [legacyError, Option.map_none']
        exact ih (fun w hw => hv w (List.mem_cons_of_mem _ hw)) b1

/-- C36 (dialect equivalence of the encoders): for every value that is neither
nil nor a message (a bool, a byte, an integer, a float, a string, a byte
slice, a sequence or a mapping, whatever they hold, or a value of an
unsupported kind), the legacy `Serialize` and the `Serialize` of the message
dialect return the same bytes, and the legacy one returns its error
`MotanSerializationErrNotSupport` exactly when the other returns an error; on
a dynamic value (a supported value, no key of a mapping being a NaN) both
succeed; on a mapping with a NaN key both fail, after the same bytes, when
`v.MapIndex` does not find the key.  Likewise for `SerializeMulti` on a list
of such values. -/
theorem C36_encoders_agree (sNull : Nat) :
    (∀ v, notNilOrMessage v = true →
      MotanSerialization.Serialize sNull v
          = ((Serialization.Serialize v).1, legacyError (Serialization.Serialize v).2)
      ∧ ((MotanSerialization.Serialize sNull v).2 = none ↔ (Serialization.Serialize v).2 = none)
      ∧ (isDynamic v = true → (Serialization.Serialize v).2 = none))
    ∧ (∀ vs, (∀ v ∈ vs, notNilOrMessage v = true) →
      MotanSerialization.SerializeMulti sNull vs
          = ((Serialization.SerializeMulti vs).1, legacyError (Serialization.SerializeMulti vs).2)
      ∧ ((MotanSerialization.SerializeMulti sNull vs).2 = none
          ↔ (Serialization.SerializeMulti vs).2 = none)) := by
  constructor
  · intro v hv
    have h : MotanSerialization.Serialize sNull v
        = ((Serialization.Serialize v).1, legacyError (Serialization.Serialize v).2) := by
      simp only [MotanSerialization.Serialize, Serialization.Serialize,
        motanSerializeBuf_eq sNull v hv]
    refine ⟨h, ?_, ?_⟩
    · rw [h]
      cases (Serialization.Serialize v).2 <;> simp [legacyError]
    · intro hd
      have := failure_of_isDynamic false v hd
      simpa [failure, Serialization.Serialize, NewBytesBuffer_eq] using this
  · intro vs hv
    have h : MotanSerialization.SerializeMulti sNull vs
        = ((Serialization.SerializeMulti vs).1, legacyError (Serialization.SerializeMulti vs).2) := by
      simp only [MotanSerialization.SerializeMulti, Serialization.SerializeMulti,
        motanSerializeMultiLoop_eq sNull vs hv]
      by_cases h0 : vs.length = 0
      · simp [h0, legacyError]
      · simp only [if_neg h0]
        cases serializeMultiLoop vs (NewBytesBuffer MotanSerializationDefaultBufferSize) with
        | mk b1 e => cases e <;> simp [legacyError]
    refine ⟨h, ?_⟩
    rw [h]
    cases (Serialization.SerializeMulti vs).2 <;> simp [legacyError]

theorem C36_encoders_agree_witness :
    MotanSerialization.Serialize 2
        (.map [(.str [107], .seq [.bool true, .int32 (-16)]), (.int64 5, .bytes [1, 2])])
      = ([22, 4, 2, 107, 20, 1, 7, 31, 21, 8, 10, 5, 4, 1, 2, 23], none)
    ∧ MotanSerialization.SerializeMulti 2 [.seq [.null], .bool true]
      = ([], some .MotanSerializationErrNotSupport)
    ∧ MotanSerialization.Serialize 2 (.map [(.float64 9221120237041090561, .bool true)])
      = ([22, 10, 127, 248, 0, 0, 0, 0, 0, 1], some .MotanSerializationErrNotSupport) := by
  refine ⟨?_, ?_, ?_⟩
  · rw [((C36_encoders_agree 2).1 _ (by decide)).1]
    decide
  · rw [((C36_encoders_agree 2).2 _ (by decide)).1]
    decide
  · rw [((C36_encoders_agree 2).1 _ (by decide)).1]
    decide

/-! ## The legacy dialect and the MESSAGE tag -/

/-- C37 (legacy dialect, tag 26): when the legacy decoder meets the MESSAGE tag it
returns nil with no error, assigns nothing, and has consumed the tag byte
only: the bytes that follow the tag (the length prefix and the body) are
unread.  The loop of `DeSerializeMulti` without targets, and so the method on
a stream that starts with the tag, then adds nil to its result and goes on
decoding at the first byte of the length prefix. -/
theorem C37_legacy_message_tag (fuel : Nat) (data rest : List Nat) (pos : Nat) (t : Target)
    (hd : data.drop pos = mstMessage :: rest) :
    motanDeSerializeBuf (fuel + 1) (bufAt data pos) t = .ok (.null, none, bufAt data (pos + 1))
    ∧ (bufAt data (pos + 1)).unread = rest
    ∧ (∀ n ret, motanDeSerializeAll (n + 1) (fuel + 1) (bufAt data pos) ret
        = motanDeSerializeAll n (fuel + 1) (bufAt data (pos + 1)) (ret ++ [.null]))
    ∧ MotanSerialization.DeSerializeMulti (mstMessage :: rest) none
        = match motanDeSerializeAll rest.length (fuelFor (rest.length + 1))
            (bufAt (mstMessage :: rest) 1) [.null] with
          | .error err => .error err
          | .ok ret => .ok (ret.map fun rv => (rv, none)) := by
  have h1 : ∀ (f : Nat) (d r : List Nat) (p : Nat) (t : Target), d.drop p = mstMessage :: r →
      motanDeSerializeBuf (f + 1) (bufAt d p) t = .ok (.null, none, bufAt d (p + 1)) := by
    intro f d r p t h
    rw [motanDeSerializeBuf, ReadByte_bufAt h]
    simp [mstMessage, mstFalse, mstTrue, mstNull, mstByte, mstString, mstByteArray, mstInt16,
      mstInt32, mstInt64, mstFloat32, mstFloat64, mstUnpackedArray, mstUnpackedMap,
      motanDecodeMessage]
  have h3 : ∀ (f : Nat) (d r : List Nat) (p : Nat), d.drop p = mstMessage :: r →
      ∀ n ret, motanDeSerializeAll (n + 1) (f + 1) (bufAt d p) ret
        = motanDeSerializeAll n (f + 1) (bufAt d (p + 1)) (ret ++ [.null]) := by
    intro f d r p h n ret
    have hr : (bufAt d p).Remain > 0 := by
      rcases length_of_drop h with hl | ⟨hl, _⟩
      · simp only [BytesBuffer.Remain, bufAt]
        simp only [List.length_cons] at hl
        omega
      · cases hl
    rw [motanDeSerializeAll, if_pos hr, h1 f d r p .nil h]
  refine ⟨h1 fuel data rest pos t hd, ?_, h3 fuel data rest pos hd, ?_⟩
  · rw [unread_bufAt, drop_succ_of_drop hd]
  · have e : (mstMessage :: rest).drop 0 = mstMessage :: rest := rfl
    have hf : fuelFor (mstMessage :: rest).length = (2 * (rest.length + 1) + 1) + 1 := rfl
    have hf2 : fuelFor (rest.length + 1) = (2 * (rest.length + 1) + 1) + 1 := rfl
    simp only [MotanSerialization.DeSerializeMulti, CreateBytesBuffer_eq, List.length_cons]
    rw [hf2, h3 _ _ rest 0 e]
    rfl

theorem C37_legacy_message_tag_witness :
    (Serialization.Serialize (.msg [(1, .bool true)])).1 = [26, 0, 0, 0, 2, 2, 1]
    ∧ motanDeSerializeBuf 10 (bufAt [26, 0, 0, 0, 2, 2, 1] 0) .nil
        = .ok (.null, none, bufAt [26, 0, 0, 0, 2, 2, 1] 1)
    ∧ MotanSerialization.DeSerializeMulti [26, 0, 0, 0, 2, 2, 1] none
        = .ok [(.null, none), (.bool false, none), (.bool false, none), (.bool false, none),
            (.null, none), (.null, none), (.bool true, none)] := by
  have h := C37_legacy_message_tag 9 [26, 0, 0, 0, 2, 2, 1] [0, 0, 0, 2, 2, 1] 0 .nil rfl
  exact ⟨by decide, h.1, h.2.2.2.trans (by rfl)⟩

/-! ## Integer decoders on every integer tag -/

/-- On the encoding of a value of integer kind, `decodeInteger` reads the bits of
the wire form as an unsigned number, whatever the kind, and reads all the
bytes. -/
theorem decodeInteger_wire (v : Value) (hv : isInteger v = true) :
    decodeInteger (CreateBytesBuffer (Serialization.Serialize v).1) .nil
      = .ok (wirePattern v, none,
          bufAt (Serialization.Serialize v).1 (Serialization.Serialize v).1.length) := by
  rw [Serialize_eq, CreateBytesBuffer_eq]
  cases v with
  | byte n =>
    simp only [(encoding_byte false n).1]
    have h0 : [TByte, n % 256].drop 0 = TByte :: [n % 256] := rfl
    have h1 : [TByte, n % 256].drop (0 + 1) = (n % 256) :: [] := rfl
    have hp : wirePattern (.byte n) = n % 256 := by
      simp only [wirePattern, wireWidth, integerOf, toUnsigned]
      norm_num
      omega
    rw [decodeInteger, ReadByte_bufAt h0]
    simp only [if_true, ReadByte_bufAt h1, storeInteger, hp]
    rfl
  | int16 i =>
    simp only [(encoding_int16 false i).1]
    have h0 : (TInt16 :: bigEndian 2 (toUnsigned 16 i)).drop 0
        = TInt16 :: (bigEndian 2 (toUnsigned 16 i) ++ []) := by simp
    have h1 : (TInt16 :: bigEndian 2 (toUnsigned 16 i)).drop (0 + 1)
        = bigEndian 2 (toUnsigned 16 i) ++ [] := drop_succ_of_drop h0
    have hr := ReadUint16_bufAt h1 (toUnsigned_lt 16 i)
    rw [decodeInteger, ReadByte_bufAt h0]
    simp only [if_neg (show ¬ TInt16 = TByte by decide), if_true, hr, storeInteger]
    simp [wirePattern, wireWidth, integerOf, bigEndian_length]
  | int32 i =>
    simp only [(encoding_int32 false i).1]
    have h0 : (TInt32 :: varintBytes (zigzag 32 (toUnsigned 32 i) % 2 ^ 64)).drop 0
        = TInt32 :: (varintBytes (zigzag 32 (toUnsigned 32 i) % 2 ^ 64) ++ []) := by simp
    have h1 : (TInt32 :: varintBytes (zigzag 32 (toUnsigned 32 i) % 2 ^ 64)).drop (0 + 1)
        = varintBytes (zigzag 32 (toUnsigned 32 i) % 2 ^ 64) ++ [] := drop_succ_of_drop h0
    have hr := ReadZigzag32_bufAt h1 (toUnsigned_lt 32 i)
    rw [decodeInteger, ReadByte_bufAt h0]
    simp only [if_neg (show ¬ TInt32 = TByte by decide), if_neg (show ¬ TInt32 = TInt16 by decide),
      if_true, hr, storeInteger]
    simp [wirePattern, wireWidth, integerOf, Nat.add_comm]
  | int64 i =>
    simp only [(encoding_int64 false i).1]
    have h0 : (TInt64 :: varintBytes (zigzag 64 (toUnsigned 64 i) % 2 ^ 64)).drop 0
        = TInt64 :: (varintBytes (zigzag 64 (toUnsigned 64 i) % 2 ^ 64) ++ []) := by simp
    have h1 : (TInt64 :: varintBytes (zigzag 64 (toUnsigned 64 i) % 2 ^ 64)).drop (0 + 1)
        = varintBytes (zigzag 64 (toUnsigned 64 i) % 2 ^ 64) ++ [] := drop_succ_of_drop h0
    have hr := ReadZigzag64_bufAt h1 (toUnsigned_lt 64 i)
    rw [decodeInteger, ReadByte_bufAt h0]
    simp only [if_neg (show ¬ TInt64 = TByte by decide), if_neg (show ¬ TInt64 = TInt16 by decide),
      if_neg (show ¬ TInt64 = TInt32 by decide), if_true, hr, storeInteger]
    simp [wirePattern, wireWidth, integerOf, Nat.add_comm]
  | _ => simp [isInteger] at hv

/-- C38 (integer decoders on integer tags), refuted as stated: on the encoding of
a byte, an int16, an int32 or an int64, each of `DecodeByte`, `DecodeInt16`,
`DecodeInt32` and `DecodeInt64` succeeds, with no range error, and reads all
the bytes; the value returned is the unsigned number read from the wire
converted to the decoder's type.  That is the wire value reduced modulo
`2 ^ w` whenever the wire form is at least as wide as the decoder's type or
the value is not negative; but a negative int16 or int32 decoded by a wider
decoder comes back as the value plus `2 ^ 16` or `2 ^ 32`: -1 sent as INT16
is 65535 for `DecodeInt32`, and -1 sent as INT32 is 4294967295 for
`DecodeInt64`. -/
theorem C38_integer_decoders (v : Value) (hv : isInteger v = true) (hr : isScalar v = true) :
    DecodeByte (CreateBytesBuffer (Serialization.Serialize v).1) .nil
      = .ok (.byte (wirePattern v % 2 ^ 8), none,
          bufAt (Serialization.Serialize v).1 (Serialization.Serialize v).1.length)
    ∧ DecodeInt16 (CreateBytesBuffer (Serialization.Serialize v).1) .nil
      = .ok (.int16 (toSigned 16 (wirePattern v)), none,
          bufAt (Serialization.Serialize v).1 (Serialization.Serialize v).1.length)
    ∧ DecodeInt32 (CreateBytesBuffer (Serialization.Serialize v).1) .nil
      = .ok (.int32 (toSigned 32 (wirePattern v)), none,
          bufAt (Serialization.Serialize v).1 (Serialization.Serialize v).1.length)
    ∧ DecodeInt64 (CreateBytesBuffer (Serialization.Serialize v).1) .nil
      = .ok (.int64 (toSigned 64 (wirePattern v)), none,
          bufAt (Serialization.Serialize v).1 (Serialization.Serialize v).1.length)
    ∧ wirePattern v % 2 ^ 8 = toUnsigned 8 (integerOf v)
    ∧ toSigned 16 (wirePattern v) = reduced 16 (integerOf v)
    ∧ (32 ≤ wireWidth v ∨ 0 ≤ integerOf v →
        toSigned 32 (wirePattern v) = reduced 32 (integerOf v))
    ∧ (64 ≤ wireWidth v ∨ 0 ≤ integerOf v →
        toSigned 64 (wirePattern v) = reduced 64 (integerOf v))
    ∧ (wireWidth v < 32 → integerOf v < 0 →
        toSigned 32 (wirePattern v) = integerOf v + 2 ^ wireWidth v
        ∧ reduced 32 (integerOf v) = integerOf v)
    ∧ (wireWidth v < 64 → integerOf v < 0 →
        toSigned 64 (wirePattern v) = integerOf v + 2 ^ wireWidth v
        ∧ reduced 64 (integerOf v) = integerOf v)
    ∧ DecodeInt32 (CreateBytesBuffer (Serialization.Serialize (.int16 (-1))).1) .nil
      = .ok (.int32 65535, none, ⟨[6, 255, 255], 3, 3⟩)
    ∧ DecodeInt64 (CreateBytesBuffer (Serialization.Serialize (.int32 (-1))).1) .nil
      = .ok (.int64 4294967295, none, ⟨[7, 1], 2, 2⟩)
    ∧ DecodeByte (CreateBytesBuffer (Serialization.Serialize (.int64 300)).1) .nil
      = .ok (.byte 44, none, ⟨[8, 216, 4], 3, 3⟩) := by
  have hd := decodeInteger_wire v hv
  refine ⟨by rw [DecodeByte, hd], by rw [DecodeInt16, hd], by rw [DecodeInt32, hd],
    by rw [DecodeInt64, hd], ?_, ?_, ?_, ?_, ?_, ?_, by rfl, by rfl, by rfl⟩
  all_goals
    cases v with
    | byte n =>
      simp only [isScalar, decide_eq_true_eq] at hr
      simp only [wirePattern, wireWidth, integerOf, reduced, toSigned, toUnsigned]
      try norm_num
      try omega
    | int16 i =>
      simp only [isScalar, decide_eq_true_eq] at hr
      simp only [wirePattern, wireWidth, integerOf, reduced, toSigned, toUnsigned]
      try norm_num at hr ⊢
      try omega
    | int32 i =>
      simp only [isScalar, decide_eq_true_eq] at hr
      simp only [wirePattern, wireWidth, integerOf, reduced, toSigned, toUnsigned]
      try norm_num at hr ⊢
      try omega
    | int64 i =>
      simp only [isScalar, decide_eq_true_eq] at hr
      simp only [wirePattern, wireWidth, integerOf, reduced, toSigned, toUnsigned]
      try norm_num at hr ⊢
      try omega
    | _ => simp [isInteger] at hv

theorem C38_integer_decoders_witness :
    DecodeInt16 (CreateBytesBuffer (Serialization.Serialize (.int64 (-70000))).1) .nil
      = .ok (.int16 (toSigned 16 (wirePattern (.int64 (-70000)))), none,
          bufAt (Serialization.Serialize (.int64 (-70000))).1
            (Serialization.Serialize (.int64 (-70000))).1.length)
    ∧ toSigned 16 (wirePattern (.int64 (-70000))) = reduced 16 (-70000)
    ∧ toSigned 64 (wirePattern (.int16 (-2))) = -2 + 2 ^ 16 :=
  ⟨(C38_integer_decoders (.int64 (-70000)) rfl (by decide)).2.1,
   (C38_integer_decoders (.int64 (-70000)) rfl (by decide)).2.2.2.2.2.1,
   ((C38_integer_decoders (.int16 (-2)) rfl (by decide)).2.2.2.2.2.2.2.2.2.1
      (by decide) (by decide)).1⟩

/-! ## Messages: `Marshal` then `Unmarshal` -/

theorem SetField_fresh (acc : List (Nat × Value)) (k : Nat) (v : Value)
    (h : ∀ kv ∈ acc, kv.1 ≠ k) : SetField acc k v = acc ++ [(k, v)] := by
  induction acc with
  | nil => rfl
  | cons kv rest ih =>
    obtain ⟨k1, v1⟩ := kv
    have hk : k1 ≠ k := h (k1, v1) (List.mem_cons_self _ _)
    rw [SetField, if_neg hk, ih (fun kv hkv => h kv (List.mem_cons_of_mem _ hkv))]
    rfl

theorem messageBody_cons (k : Nat) (v : Value) (rest : List (Nat × Value))
    (hv : isDynamic v = true) :
    messageBody ((k, v) :: rest)
      = varintBytes (zigzag 32 k % 2 ^ 64) ++ (encoding true v ++ messageBody rest) := by
  have hn : isNull v = false := by
    cases v <;> first | rfl | simp [isDynamic] at hv
  simp [messageBody, hn, fieldBytes_eq, encoding_false_isDynamic v hv]

/-- The loop of `Unmarshal` reads back the fields whose bytes lie between the read
position and `endPos`, when their values are dynamic and their numbers are
new. -/
theorem unmarshalLoop_roundtrip (fs : List (Nat × Value)) :
    ∀ (fuel : Nat) (data rest : List Nat) (pos : Nat) (acc : List (Nat × Value)),
    (∀ kv ∈ fs, isDynamic kv.2 = true ∧ kv.1 < 2 ^ 32) →
    (fs.map Prod.fst).Nodup → (∀ kv ∈ fs, ∀ a ∈ acc, a.1 ≠ kv.1) →
    (messageBody fs).length < fuel → data.drop pos = messageBody fs ++ rest →
    unmarshalLoop fuel (bufAt data pos) (pos + (messageBody fs).length) acc
      = .ok (acc ++ fs.map (fun kv => (kv.1, readBack kv.2)),
          bufAt data (pos + (messageBody fs).length)) := by
  induction fs with
  | nil =>
    intro fuel data rest pos acc _ _ _ hfuel _
    obtain ⟨f, rfl⟩ : ∃ f, fuel = f + 1 := ⟨fuel - 1, by omega⟩
    simp [unmarshalLoop, messageBody]
  | cons kv fs ih =>
    intro fuel data rest pos acc hdyn hnd hacc hfuel hd
    obtain ⟨k, v⟩ := kv
    obtain ⟨hv, hk⟩ := hdyn (k, v) (List.mem_cons_self _ _)
    have hbody := messageBody_cons k v fs hv
    rw [hbody] at hd hfuel ⊢
    obtain ⟨f, rfl⟩ : ∃ f, fuel = f + 1 := ⟨fuel - 1, by omega⟩
    have hvpos : 0 < (varintBytes (zigzag 32 k % 2 ^ 64)).length := varintBytes_length_pos _
    have hepos := encoding_length_pos v hv
    simp only [List.length_append] at hfuel ⊢
    have hd1 : data.drop pos = varintBytes (zigzag 32 k % 2 ^ 64)
        ++ (encoding true v ++ (messageBody fs ++ rest)) := by
      rw [hd]; simp
    have hz := ReadZigzag32_bufAt hd1 hk
    have hd2 : data.drop (pos + (varintBytes (zigzag 32 k % 2 ^ 64)).length)
        = encoding true v ++ (messageBody fs ++ rest) := drop_add_of_drop hd1
    have hdec := roundtrip v hv f .nil rfl data _ _ (by omega) hd2
    have hd3 : data.drop (pos + (varintBytes (zigzag 32 k % 2 ^ 64)).length
        + (encoding true v).length) = messageBody fs ++ rest := drop_add_of_drop hd2
    have hset : SetField acc (k % 2 ^ 32) (readBack v) = acc ++ [(k, readBack v)] := by
      rw [Nat.mod_eq_of_lt hk]
      exact SetField_fresh acc k (readBack v)
        (fun a ha => hacc (k, v) (List.mem_cons_self _ _) a ha)
    have hnd2 : (fs.map Prod.fst).Nodup := (List.nodup_cons.mp hnd).2
    have hknew : ∀ kv ∈ fs, kv.1 ≠ k := by
      intro kv hkv e
      have hm : kv.1 ∈ fs.map Prod.fst := List.mem_map_of_mem Prod.fst hkv
      rw [e] at hm
      exact (List.nodup_cons.mp hnd).1 hm
    have hacc2 : ∀ kv ∈ fs, ∀ a ∈ acc ++ [(k, readBack v)], a.1 ≠ kv.1 := by
      intro kv hkv a ha
      rcases List.mem_append.mp ha with h | h
      · exact hacc kv (List.mem_cons_of_mem _ hkv) a h
      · simp only [List.mem_singleton] at h
        subst h
        exact fun e => hknew kv hkv e.symm
    have hrec := ih f data rest (pos + (varintBytes (zigzag 32 k % 2 ^ 64)).length
        + (encoding true v).length) (acc ++ [(k, readBack v)])
      (fun kv hkv => hdyn kv (List.mem_cons_of_mem _ hkv)) hnd2 hacc2 (by omega) hd3
    rw [unmarshalLoop, if_pos (by simp only [bufAt_GetRPos]; omega), hz]
    simp only [hdec, hset]
    have e1 : pos + ((varintBytes (zigzag 32 k % 2 ^ 64)).length
          + ((encoding true v).length + (messageBody fs).length))
        = pos + (varintBytes (zigzag 32 k % 2 ^ 64)).length + (encoding true v).length
          + (messageBody fs).length := by omega
    rw [e1, hrec]
    simp

theorem messageBody_filter (fields : List (Nat × Value)) :
    messageBody (fields.filter fun kv => !isNull kv.2) = messageBody fields := by
  simp [messageBody, List.filter_filter]

/-- C39 as stated fails on a primitive field: a message whose field 1 is the
float32 signalling NaN `0x7FA00000` is marshalled with the pattern
`0x7FE00000`, and `Unmarshal` gives a message whose field 1 holds that other
pattern. -/
theorem C39_signalling_nan_counterexample :
    (GenericMessage.Marshal [(1, .float32 2141192192)] (NewBytesBuffer 0)).1.Bytes
        = [26, 0, 0, 0, 6, 2, 9, 127, 224, 0, 0]
    ∧ ∃ buf1 buf2,
      (GenericMessage.Marshal [(1, .float32 2141192192)] (NewBytesBuffer 0)).1.ReadByte
        = .ok (TMessage, buf1)
      ∧ GenericMessage.Unmarshal 20 [] buf1 = .ok ([(1, .float32 2145386496)], buf2) :=
  ⟨rfl, _, _, rfl, rfl⟩

/-- C39 (`Marshal` then `Unmarshal`), amended: for every GenericMessage whose
field numbers are pairwise different numbers below `2 ^ 32`, whose field
values are nil or dynamic values (primitives, strings, byte slices, and also
sequences and mappings of them, no key of a mapping being a NaN) and whose body
is shorter than `2 ^ 32` bytes, `Marshal` into an empty buffer succeeds;
reading the tag byte from that buffer gives 26; and `Unmarshal` on a new
GenericMessage then returns no error, leaves no byte unread, and leaves the
message with the non-nil fields of the first one, in order, every float32 in
them after the conversion of the encoder: exactly the non-nil fields when no
float32 in them is a signalling NaN. -/
theorem C39_marshal_unmarshal (fields : List (Nat × Value)) (fuel : Nat)
    (hkeys : (fields.map Prod.fst).Nodup) (hk : ∀ kv ∈ fields, kv.1 < 2 ^ 32)
    (hv : ∀ kv ∈ fields, isNull kv.2 = true ∨ isDynamic kv.2 = true)
    (hlen : (messageBody fields).length < 2 ^ 32) (hfuel : (messageBody fields).length < fuel) :
    (GenericMessage.Marshal fields (NewBytesBuffer 0)).2 = none
    ∧ ∃ buf1 buf2, (GenericMessage.Marshal fields (NewBytesBuffer 0)).1.ReadByte = .ok (TMessage, buf1)
      ∧ GenericMessage.Unmarshal fuel [] buf1
          = .ok ((fields.filter (fun kv => !isNull kv.2)).map (fun kv => (kv.1, readBack kv.2)), buf2)
      ∧ ((∀ kv ∈ fields, isQuiet kv.2 = true) →
          GenericMessage.Unmarshal fuel [] buf1 = .ok (fields.filter (fun kv => !isNull kv.2), buf2))
      ∧ buf2.Remain = 0 ∧ buf2.unread = [] := by
  have hser : ∀ kv ∈ fields, (Serialization.Serialize kv.2).2 = none := by
    intro kv hkv
    rcases hv kv hkv with h | h
    · obtain ⟨k, v⟩ := kv
      cases v <;> first | rfl | simp [isNull] at h
    · have := failure_of_isDynamic false kv.2 h
      simpa [Serialize_eq] using this
  have hdynf : ∀ kv ∈ fields.filter (fun kv => !isNull kv.2), isDynamic kv.2 = true := by
    intro kv hkv
    obtain ⟨hin, hnn⟩ := List.mem_filter.mp hkv
    rcases hv kv hin with h | h
    · rw [h] at hnn; simp at hnn
    · exact h
  rw [NewBytesBuffer_eq, Marshal_ok fields hser]
  refine ⟨rfl, ?_⟩
  simp only [List.nil_append]
  rw [Nat.mod_eq_of_lt hlen]
  set body := messageBody fields with hbody
  set data := [TMessage] ++ bigEndian 4 body.length ++ body with hdata
  have h0 : data.drop 0 = TMessage :: (bigEndian 4 body.length ++ body) := by simp [hdata]
  have h1 : data.drop (0 + 1) = bigEndian 4 body.length ++ body := drop_succ_of_drop h0
  have hread := ReadUint32_bufAt h1 hlen
  have h5 : data.drop (0 + 1 + 4) = messageBody (fields.filter fun kv => !isNull kv.2) ++ [] := by
    have := drop_add_of_drop h1
    rw [bigEndian_length] at this
    rw [this, messageBody_filter]
    simp
  have hdl : data.length = 5 + body.length := by
    simp [hdata, bigEndian_length]
    omega
  have hun : GenericMessage.Unmarshal fuel [] (bufAt data (0 + 1))
      = .ok ((fields.filter (fun kv => !isNull kv.2)).map (fun kv => (kv.1, readBack kv.2)),
          bufAt data (0 + 1 + 4 + body.length)) := by
    simp only [GenericMessage.Unmarshal, UnmarshalWith, hread]
    by_cases hz : body.length ≤ 0
    · have hb0 : body.length = 0 := by omega
      rw [if_pos hz]
      have hnil : fields.filter (fun kv => !isNull kv.2) = [] := by
        cases hf : fields.filter (fun kv => !isNull kv.2) with
        | nil => rfl
        | cons kv rest =>
          exfalso
          have hmem : kv ∈ fields.filter (fun kv => !isNull kv.2) := by
            rw [hf]; exact List.mem_cons_self _ _
          have hd : isDynamic kv.2 = true := hdynf kv hmem
          have hb := messageBody_filter fields
          rw [hf, ← hbody] at hb
          obtain ⟨k, v⟩ := kv
          rw [messageBody_cons k v rest hd] at hb
          have hl := congrArg List.length hb
          have hvp := varintBytes_length_pos (zigzag 32 k % 2 ^ 64)
          simp only [List.length_append] at hl
          omega
      rw [hnil, hb0]
      rfl
    · rw [if_neg hz]
      have hloop := unmarshalLoop_roundtrip (fields.filter fun kv => !isNull kv.2) fuel data []
        (0 + 1 + 4) []
        (fun kv hkv => ⟨hdynf kv hkv, hk kv (List.mem_filter.mp hkv).1⟩)
        ((List.filter_sublist _).map Prod.fst |>.nodup hkeys)
        (by intro kv _ a ha; cases ha)
        (by rw [messageBody_filter]; exact hfuel) h5
      rw [messageBody_filter] at hloop
      simp only [bufAt_GetRPos, hloop, List.nil_append]
      simp
  refine ⟨bufAt data (0 + 1), bufAt data (0 + 1 + 4 + body.length), ReadByte_bufAt h0, hun, ?_,
    ?_, ?_⟩
  · intro hq
    rw [hun]
    congr 2
    conv_rhs => rw [← List.map_id (fields.filter fun kv => !isNull kv.2)]
    apply List.map_congr_left
    intro kv hkv
    obtain ⟨k, v⟩ := kv
    simp only [id]
    rw [readBack_of_isQuiet v (hdynf (k, v) hkv) (hq (k, v) (List.mem_filter.mp hkv).1)]
  · simp [BytesBuffer.Remain, bufAt, hdl]
  · rw [unread_bufAt]
    apply List.drop_eq_nil_of_le
    omega

theorem C39_marshal_unmarshal_witness :
    (GenericMessage.Marshal
        [(1, .str [120]), (2, .null), (5, .int32 (-7)), (9, .float32 2141192192)]
        (NewBytesBuffer 0)).2 = none
    ∧ ∃ buf1 buf2,
      (GenericMessage.Marshal
        [(1, .str [120]), (2, .null), (5, .int32 (-7)), (9, .float32 2141192192)]
        (NewBytesBuffer 0)).1.ReadByte = .ok (TMessage, buf1)
      ∧ GenericMessage.Unmarshal 20 [] buf1
          = .ok (([(1, .str [120]), (2, .null), (5, .int32 (-7)),
              (9, .float32 2141192192)].filter (fun kv => !isNull kv.2)).map
                (fun kv => (kv.1, readBack kv.2)), buf2)
      ∧ ((∀ kv ∈ [(1, Value.str [120]), (2, .null), (5, .int32 (-7)), (9, .float32 2141192192)],
            isQuiet kv.2 = true) →
          GenericMessage.Unmarshal 20 [] buf1
            = .ok ([(1, .str [120]), (2, .null), (5, .int32 (-7)),
                (9, .float32 2141192192)].filter (fun kv => !isNull kv.2), buf2))
      ∧ buf2.Remain = 0 ∧ buf2.unread = [] :=
  C39_marshal_unmarshal [(1, .str [120]), (2, .null), (5, .int32 (-7)), (9, .float32 2141192192)] 20
    (by decide) (by decide) (by decide) (by decide) (by decide)

/-! ## The access-log formatter: empty placeholders and identity -/

/-- C33 (formatter, empty placeholder): for every pair of texts `a` and `b` that
hold no opening `$` and brace, the template made of `a`, the placeholder
without name and `b` formats to `a` followed by `b`, for every request and
response. -/
theorem C33_formatter_empty_placeholder (jsonMarshal : Exception → List Char)
    (req : MotanRequest) (res : MotanResponse) (a b : List Char)
    (ha : ¬ "$\x7b".toList <:+: a) (hb : ¬ "$\x7b".toList <:+: b) :
    (NewDefaultAccessLogFormatter (a ++ "$\x7b\x7d".toList ++ b)).Format jsonMarshal req res
      = a ++ b := by
  have h1 : a ++ "$\x7b\x7d".toList ++ b = a ++ ('$' :: '\x7b' :: '\x7d' :: (b ++ [])) := by simp
  have h2 : layoutLoop false [] [] (a ++ ('$' :: '\x7b' :: '\x7d' :: (b ++ [])))
      = flushVal b (flushVal a []) := by
    rw [layoutLoop_text a [] [] _ (by simpa using no_open_snoc_dollar a ha), layoutLoop_open,
      layoutLoop_close, if_neg (by simp),
      layoutLoop_text b [] _ [] (by simpa using hb)]
    simp [layoutLoop]
  have h5 : (NewDefaultAccessLogFormatter (a ++ "$\x7b\x7d".toList ++ b)).Format jsonMarshal req res
      = findAll jsonMarshal req res
          (layoutLoop false [] [] (a ++ ('$' :: '\x7b' :: '\x7d' :: (b ++ [])))) := by
    rw [h1]
    rfl
  rw [h5, h2, findAll_flushVal, findAll_flushVal]
  simp [findAll]

theorem C33_formatter_empty_placeholder_witness :
    ¬ "$\x7b".toList <:+: "a$".toList ∧ ¬ "$\x7b".toList <:+: "\x7db".toList
    ∧ (NewDefaultAccessLogFormatter ("a$".toList ++ "$\x7b\x7d".toList ++ "\x7db".toList)).Format
          (fun _ => []) (exampleRequest "m".toList []) (emptyResponse (exampleRequest "m".toList []))
        = "a$".toList ++ "\x7db".toList :=
  ⟨by decide, by decide,
    C33_formatter_empty_placeholder (fun _ => []) _ _ _ _ (by decide) (by decide)⟩

theorem namesLoop_cons (p : Bool) (v : List Char) (c : Char) (rest : List Char) :
    namesLoop p v (c :: rest) =
      if c = '$' then
        if p then namesLoop true (v ++ [c]) rest
        else
          match rest with
          | d :: rest1 =>
            if d = '\x7b' then namesLoop true [] rest1
            else namesLoop false (v ++ [c]) (d :: rest1)
          | [] => namesLoop false (v ++ [c]) []
      else if c = '\x7d' then
        if !p then namesLoop false (v ++ [c]) rest
        else v :: namesLoop false [] rest
      else namesLoop p (v ++ [c]) rest := by
  rw [namesLoop.eq_def]

/-- Text that opens no placeholder yields no name. -/
theorem namesLoop_text (s : List Char) (v : List Char) (hs : ¬ "$\x7b".toList <:+: s) :
    namesLoop false v s = [] := by
  induction s generalizing v with
  | nil => rfl
  | cons c s ih =>
    have hs2 : ¬ "$\x7b".toList <:+: s := fun h => hs (h.trans (List.suffix_cons c _).isInfix)
    rw [namesLoop_cons]
    by_cases h1 : c = '$'
    · subst h1
      simp only [if_true, Bool.false_eq_true, if_false]
      cases s with
      | nil => rfl
      | cons d t =>
        have hd : d ≠ '\x7b' := by
          intro hd
          subst hd
          exact hs (List.prefix_iff_eq_append.mpr (by simp)).isInfix
        simp only [if_neg hd]
        exact ih _ hs2
    · by_cases h2 : c = '\x7d'
      · simp [h1, h2, ih _ hs2]
      · simp [h1, h2, ih _ hs2]

/-- While every name the parser extracts is non-empty and names no variable, the
finders it builds give back what it has read: the output so far, the opening
of the placeholder it is in, the text it holds, and the rest of the layout. -/
theorem findAll_layoutLoop_identity (jsonMarshal : Exception → List Char) (req : MotanRequest)
    (res : MotanResponse) (n : Nat) :
    ∀ (rest : List Char), rest.length ≤ n → ∀ (p : Bool) (val : List Char)
      (fs : List layoutValueFinder),
      (∀ name ∈ namesLoop p val rest, name ≠ [] ∧ isVariable name = false) →
      findAll jsonMarshal req res (layoutLoop p val fs rest)
        = findAll jsonMarshal req res fs ++ (if p then "$\x7b".toList else []) ++ val ++ rest := by
  induction n with
  | zero =>
    intro rest hlen p val fs _
    have hr : rest = [] := List.length_eq_zero.mp (Nat.le_zero.mp hlen)
    subst hr
    cases p
    · simp [layoutLoop, findAll_flushVal]
    · simp [layoutLoop, findAll_append, findAll, layoutValueFinder.find]
  | succ n ih =>
    intro rest hlen p val fs hnames
    cases rest with
    | nil =>
      cases p
      · simp [layoutLoop, findAll_flushVal]
      · simp [layoutLoop, findAll_append, findAll, layoutValueFinder.find]
    | cons c rest =>
      have hlen1 : rest.length ≤ n := by simpa using hlen
      rw [namesLoop_cons] at hnames
      rw [layoutLoop_cons]
      by_cases h1 : c = '$'
      · subst h1
        simp only [if_true] at hnames ⊢
        cases p
        · simp only [Bool.false_eq_true, if_false] at hnames ⊢
          cases rest with
          | nil =>
            simp only at hnames ⊢
            rw [ih [] (by simp) false _ fs hnames]
            simp
          | cons d rest1 =>
            simp only at hnames ⊢
            have hlen2 : rest1.length ≤ n := by
              simp only [List.length_cons] at hlen1
              omega
            by_cases hd : d = '\x7b'
            · subst hd
              simp only [if_true] at hnames ⊢
              rw [ih rest1 hlen2 true [] _ hnames, findAll_flushVal]
              simp
            · simp only [if_neg hd] at hnames ⊢
              rw [ih (d :: rest1) hlen1 false _ fs hnames]
              simp
        · simp only [if_true] at hnames ⊢
          rw [ih rest hlen1 true _ fs hnames]
          simp
      · by_cases h2 : c = '\x7d'
        · subst h2
          simp only [if_neg h1, if_true] at hnames ⊢
          cases p
          · simp only [Bool.not_false, if_true] at hnames ⊢
            rw [ih rest hlen1 false _ fs hnames]
            simp
          · simp only [Bool.not_true, Bool.false_eq_true, if_false] at hnames ⊢
            obtain ⟨hne, hun⟩ := hnames val (List.mem_cons_self _ _)
            have hrest : ∀ name ∈ namesLoop false [] rest, name ≠ [] ∧ isVariable name = false :=
              fun name hn => hnames name (List.mem_cons_of_mem _ hn)
            rw [if_pos hne, ih rest hlen1 false [] _ hrest, findAll_append,
              (variableValue_of_not_isVariable jsonMarshal req res val hun).1]
            simp [findAll, layoutValueFinder.find, Segment.text]
        · simp only [if_neg h1, if_neg h2] at hnames ⊢
          rw [ih rest hlen1 p _ fs hnames]
          simp

/-- C34 (formatter identity): for every template in which every placeholder name
the parser extracts is non-empty and is neither a known variable nor starts
with `req_header.` or `res_header.`, `Format` returns the template itself,
for every request and response; and a template that holds no opening `$` and
brace yields no name, so that it formats to itself, whatever stray `$` and
braces it holds. -/
theorem C34_formatter_identity (jsonMarshal : Exception → List Char) (req : MotanRequest)
    (res : MotanResponse) (layout : List Char) :
    ((∀ name ∈ extractedNames layout, name ≠ [] ∧ isVariable name = false) →
      (NewDefaultAccessLogFormatter layout).Format jsonMarshal req res = layout)
    ∧ (¬ "$\x7b".toList <:+: layout →
      extractedNames layout = []
      ∧ (NewDefaultAccessLogFormatter layout).Format jsonMarshal req res = layout) := by
  have hid : (∀ name ∈ extractedNames layout, name ≠ [] ∧ isVariable name = false) →
      (NewDefaultAccessLogFormatter layout).Format jsonMarshal req res = layout := by
    intro hnames
    have h := findAll_layoutLoop_identity jsonMarshal req res layout.length layout (le_refl _)
      false [] [] hnames
    have hf : (NewDefaultAccessLogFormatter layout).Format jsonMarshal req res
        = findAll jsonMarshal req res (layoutLoop false [] [] layout) := rfl
    rw [hf, h]
    simp [findAll]
  refine ⟨hid, ?_⟩
  intro hno
  have hn : extractedNames layout = [] := namesLoop_text layout [] hno
  refine ⟨hn, hid ?_⟩
  rw [hn]
  intro name hname
  cases hname

theorem C34_formatter_identity_witness :
    (NewDefaultAccessLogFormatter "a$b\x7d|$\x7buser\x7d|$\x7ba$\x7bb\x7d|$\x7bservice".toList).Format
          (fun _ => []) (exampleRequest "m".toList []) (emptyResponse (exampleRequest "m".toList []))
        = "a$b\x7d|$\x7buser\x7d|$\x7ba$\x7bb\x7d|$\x7bservice".toList
    ∧ (NewDefaultAccessLogFormatter "$\x7d\x7b$".toList).Format
          (fun _ => []) (exampleRequest "m".toList []) (emptyResponse (exampleRequest "m".toList []))
        = "$\x7d\x7b$".toList :=
  ⟨(C34_formatter_identity (fun _ => []) _ _ _).1 (by decide),
   ((C34_formatter_identity (fun _ => []) _ _ _).2 (by decide)).2⟩

/-! ## The resolver -/

/-- C31 (resolver, literals): `LookupHost` of a non-empty host that `net.ParseIP`
accepts returns the list holding that host, unchanged, with no error; it
sends no query and leaves the resolver as it is; `LookupIP` then returns the
one address that `net.ParseIP` gives for the host.  `LookupHost` of the empty
host returns the error `no such host`, and sends no query either. -/
theorem C31_resolver_literals (env : ResolverEnv) (r : Resolver) (host : List Char) :
    (host ≠ [] → (env.ParseIP host).isSome = true →
      r.LookupHost env host = .ok { addrs := .ok [host], resolver := r, exchanged := none }
      ∧ r.LookupIP env host
          = .ok { ips := .ok [env.ParseIP host], resolver := r, exchanged := none })
    ∧ r.LookupHost env []
        = .ok { addrs := .error "no such host".toList, resolver := r, exchanged := none } := by
  refine ⟨?_, ?_⟩
  · intro hne hip
    have h1 : r.LookupHost env host
        = .ok { addrs := .ok [host], resolver := r, exchanged := none } := by
      unfold Resolver.LookupHost
      rw [if_neg hne, if_pos hip]
    refine ⟨h1, ?_⟩
    unfold Resolver.LookupIP
    rw [h1]
    rfl
  · unfold Resolver.LookupHost
    rw [if_pos rfl]

theorem C31_resolver_literals_witness :
    (exampleResolver ["8.8.8.8".toList]).LookupIP (exampleResolverEnv 0 100 ["8.8.8.8".toList])
        "127.0.0.1".toList
      = .ok { ips := .ok [some [0, 0, 0, 0, 0, 0, 0, 0, 0, 0, 255, 255, 127, 0, 0, 1]],
              resolver := exampleResolver ["8.8.8.8".toList], exchanged := none } :=
  ((C31_resolver_literals (exampleResolverEnv 0 100 ["8.8.8.8".toList])
    (exampleResolver ["8.8.8.8".toList]) "127.0.0.1".toList).1 (by decide) rfl).2

/-- What `lookupHost` hands to `r.client.Exchange`: the host followed by a dot, and
the server chosen, with `:53` appended when it has no colon or is enclosed in
brackets. -/
theorem lookupHost_exchanged (env : ResolverEnv) (r : Resolver) (host server : List Char)
    (hd : env.IsDomainName host = true)
    (hs : (r.config.tryUpdateConfig env).conf.dnsConfig.Servers.get?
        (env.Intn (r.config.tryUpdateConfig env).conf.dnsConfig.Servers.length) = some server) :
    ∃ res, r.lookupHost env host = .ok res
      ∧ res.exchanged = some (host ++ ".".toList,
          if ':' ∉ server ∨ (server.head? = some '[' ∧ server.getLast? = some ']') then
            server ++ ":53".toList
          else server) := by
  unfold Resolver.lookupHost
  simp only [hd, Bool.not_true, Bool.false_eq_true, if_false, hs]
  split
  · exact ⟨_, rfl, rfl⟩
  · exact ⟨_, rfl, rfl⟩

/-- C32, the claim as stated does not hold: with the name server `2001:db8::1`,
an IPv6 address without brackets and without port, the query goes to the
address `2001:db8::1` itself, which carries no port. -/
theorem C32_unbracketed_ipv6_without_port :
    (exampleResolverEnv 0 100 ["2001:db8::1".toList]).IsDomainName "weibo.com".toList = true
    ∧ (exampleResolver ["2001:db8::1".toList]).lookupHost
          (exampleResolverEnv 0 100 ["2001:db8::1".toList]) "weibo.com".toList
        = .ok { addrs := .ok ["10.0.0.1".toList],
                resolver := exampleResolver ["2001:db8::1".toList],
                exchanged := some ("weibo.com.".toList, "2001:db8::1".toList) }
    ∧ "2001:db8::1".toList ≠ "2001:db8::1".toList ++ ":53".toList := by
  refine ⟨rfl, ?_, by decide⟩
  rfl

/-- C32 (resolver port, amended): when `lookupHost` sends a query for a domain
name, the address it uses is the name server chosen followed by `:53` when
the entry holds no colon (an IPv4 address, a host name) and when the entry is
enclosed in brackets (a bracketed IPv6 address); every other entry is used
unchanged: an entry with a port (`host:port`, `[v6]:port`), and also an IPv6
address without brackets, which then carries no port. -/
theorem C32_nameserver_port (env : ResolverEnv) (r : Resolver) (host server : List Char)
    (hd : env.IsDomainName host = true)
    (hs : (r.config.tryUpdateConfig env).conf.dnsConfig.Servers.get?
        (env.Intn (r.config.tryUpdateConfig env).conf.dnsConfig.Servers.length) = some server) :
    ∃ res, r.lookupHost env host = .ok res
      ∧ (':' ∉ server → res.exchanged = some (host ++ ".".toList, server ++ ":53".toList))
      ∧ (∀ mid, server = '[' :: (mid ++ [']']) →
          res.exchanged = some (host ++ ".".toList, server ++ ":53".toList))
      ∧ (':' ∈ server → server.head? ≠ some '[' ∨ server.getLast? ≠ some ']' →
          res.exchanged = some (host ++ ".".toList, server)) := by
  obtain ⟨res, h1, h2⟩ := lookupHost_exchanged env r host server hd hs
  refine ⟨res, h1, ?_, ?_, ?_⟩
  · intro hc
    rw [h2, if_pos (Or.inl hc)]
  · intro mid hm
    have hl : server.getLast? = some ']' := by
      have e : '[' :: (mid ++ [']']) = ('[' :: mid) ++ [']'] := rfl
      rw [hm, e, List.getLast?_concat]
    rw [h2, if_pos (Or.inr ⟨by rw [hm]; rfl, hl⟩)]
  · intro hc hb
    rw [h2, if_neg]
    intro h
    rcases h with h | h
    · exact h hc
    · rcases hb with hb | hb
      · exact hb h.1
      · exact hb h.2

theorem C32_nameserver_port_witness :
    (∃ res, (exampleResolver ["8.8.8.8".toList]).lookupHost
          (exampleResolverEnv 0 100 ["8.8.8.8".toList]) "weibo.com".toList = .ok res
        ∧ res.exchanged = some ("weibo.com.".toList, "8.8.8.8:53".toList))
    ∧ (∃ res, (exampleResolver ["[::1]".toList]).lookupHost
          (exampleResolverEnv 0 100 ["[::1]".toList]) "weibo.com".toList = .ok res
        ∧ res.exchanged = some ("weibo.com.".toList, "[::1]:53".toList))
    ∧ (∃ res, (exampleResolver ["[::1]:5353".toList]).lookupHost
          (exampleResolverEnv 0 100 ["[::1]:5353".toList]) "weibo.com".toList = .ok res
        ∧ res.exchanged = some ("weibo.com.".toList, "[::1]:5353".toList)) := by
  refine ⟨?_, ?_, ?_⟩
  · obtain ⟨res, h1, h2, _, _⟩ := C32_nameserver_port (exampleResolverEnv 0 100 ["8.8.8.8".toList])
      (exampleResolver ["8.8.8.8".toList]) "weibo.com".toList "8.8.8.8".toList rfl rfl
    exact ⟨res, h1, h2 (by decide)⟩
  · obtain ⟨res, h1, _, h3, _⟩ := C32_nameserver_port (exampleResolverEnv 0 100 ["[::1]".toList])
      (exampleResolver ["[::1]".toList]) "weibo.com".toList "[::1]".toList rfl rfl
    exact ⟨res, h1, h3 "::1".toList rfl⟩
  · obtain ⟨res, h1, _, _, h4⟩ := C32_nameserver_port
      (exampleResolverEnv 0 100 ["[::1]:5353".toList])
      (exampleResolver ["[::1]:5353".toList]) "weibo.com".toList "[::1]:5353".toList rfl rfl
    exact ⟨res, h1, h4 (by decide) (Or.inr (by decide))⟩

theorem tryUpdateConfig_keeps (env : ResolverEnv) (conf : resolveConfig) :
    (conf.tryUpdateConfig env).conf.modifyTime = conf.modifyTime
    ∧ (conf.tryUpdateConfig env).conf.resolveConf = conf.resolveConf := by
  unfold resolveConfig.tryUpdateConfig resolveConfig.tryAcquireSema
  split
  · next c hc =>
    split at hc
    · cases hc
    · cases hc
      exact ⟨rfl, rfl⟩
  · next c hc =>
    split at hc
    · cases hc
      dsimp only
      split
      · exact ⟨rfl, rfl⟩
      · split
        · exact ⟨rfl, rfl⟩
        · split
          · exact ⟨rfl, rfl⟩
          · exact ⟨rfl, rfl⟩
    · cases hc

/-- What a refresh does when the semaphore is free, the last check is at least
five seconds old and the modification time of the file differs from the
recorded one: it parses the file, takes the new configuration, and records
the time of the check. -/
theorem tryUpdateConfig_parses (env : ResolverEnv) (conf : resolveConfig) (mtime : Int)
    (config : ClientConfig) (hch : conf.ch = 0) (hlast : conf.lastChecked + 5 * Second ≤ env.Now)
    (hstat : env.Stat conf.resolveConf = .ok mtime) (hm : mtime ≠ conf.modifyTime)
    (hparse : env.ClientConfigFromFile conf.resolveConf = .ok config) :
    conf.tryUpdateConfig env
      = { conf := { conf with lastChecked := env.Now, dnsConfig := config }, parsed := true } := by
  unfold resolveConfig.tryUpdateConfig resolveConfig.tryAcquireSema
  rw [if_pos (by omega)]
  dsimp only
  rw [if_neg (by omega)]
  simp only [hstat, hparse, if_neg hm, resolveConfig.releaseSema, hch]

/-- C40 (resolver refresh bookkeeping), refuted: `tryUpdateConfig` never assigns
`modifyTime`, so the recorded modification time stays the one taken when the
resolver was built.  After a refresh that parsed the file because its
modification time `mtime` differed from the recorded one, the recorded time
still differs from `mtime`; and a later refresh, five seconds or more after
it, that finds the file with the same modification time `mtime` parses the
file again and replaces the configuration. -/
theorem C40_modify_time_not_recorded (env1 env2 : ResolverEnv) (conf : resolveConfig)
    (mtime : Int) (config1 config2 : ClientConfig) :
    (conf.tryUpdateConfig env1).conf.modifyTime = conf.modifyTime
    ∧ (conf.ch = 0 → conf.lastChecked + 5 * Second ≤ env1.Now →
        env1.Stat conf.resolveConf = .ok mtime → mtime ≠ conf.modifyTime →
        env1.ClientConfigFromFile conf.resolveConf = .ok config1 →
        env1.Now + 5 * Second ≤ env2.Now →
        env2.Stat conf.resolveConf = .ok mtime →
        env2.ClientConfigFromFile conf.resolveConf = .ok config2 →
        (conf.tryUpdateConfig env1).parsed = true
        ∧ (conf.tryUpdateConfig env1).conf.dnsConfig = config1
        ∧ (conf.tryUpdateConfig env1).conf.modifyTime ≠ mtime
        ∧ ((conf.tryUpdateConfig env1).conf.tryUpdateConfig env2).parsed = true
        ∧ ((conf.tryUpdateConfig env1).conf.tryUpdateConfig env2).conf.dnsConfig = config2) := by
  refine ⟨(tryUpdateConfig_keeps env1 conf).1, ?_⟩
  intro hch hlast hstat hm hparse hlater hstat2 hparse2
  have h1 := tryUpdateConfig_parses env1 conf mtime config1 hch hlast hstat hm hparse
  have h2 := tryUpdateConfig_parses env2
    { conf with lastChecked := env1.Now, dnsConfig := config1 } mtime config2 hch hlater hstat2
    (fun h => hm h) hparse2
  rw [h1]
  dsimp only
  rw [h2]
  exact ⟨rfl, rfl, fun h => hm h.symm, rfl, rfl⟩

theorem C40_modify_time_not_recorded_witness :
    ((exampleResolver ["8.8.8.8".toList]).config.tryUpdateConfig
        (exampleResolverEnv (6 * Second) 200 ["1.1.1.1".toList])).parsed = true
    ∧ ((exampleResolver ["8.8.8.8".toList]).config.tryUpdateConfig
        (exampleResolverEnv (6 * Second) 200 ["1.1.1.1".toList])).conf.modifyTime ≠ 200
    ∧ (((exampleResolver ["8.8.8.8".toList]).config.tryUpdateConfig
        (exampleResolverEnv (6 * Second) 200 ["1.1.1.1".toList])).conf.tryUpdateConfig
        (exampleResolverEnv (12 * Second) 200 ["1.1.1.1".toList])).parsed = true := by
  have h := (C40_modify_time_not_recorded (exampleResolverEnv (6 * Second) 200 ["1.1.1.1".toList])
    (exampleResolverEnv (12 * Second) 200 ["1.1.1.1".toList])
    (exampleResolver ["8.8.8.8".toList]).config 200 ⟨["1.1.1.1".toList]⟩ ⟨["1.1.1.1".toList]⟩).2
    rfl (by decide) rfl (by decide) rfl (by decide) rfl rfl
  exact ⟨h.1, h.2.2.1, h.2.2.2.1⟩

end Motan
